import Mathlib

/-! Larn level generation: maze carving, rooms, placement and spawning.

A shallow embedding of `pkg/game/state/maps/generate.go`, together with the
parts of `character.go` (healing and damage), `items/armor.go` (armor class) and
`trade_post.go` (the offer of the trading post) that the properties below are
about.

* The shared mutable grid `[][]io.Runeable` is a `List (List Cell)` that is
  passed in and handed back by every operation that writes to it.
* The global `math/rand` source is an explicit `Rng`: an arbitrary infinite
  sequence of naturals together with the number of draws consumed so far.
* A Go panic (index out of range, `rand.Intn` with a non-positive bound,
  the `default` branch of `eat`) is the outcome `Res.crash`.
* Unbounded loops and recursion carry a fuel argument; running out of it is
  the outcome `Res.timeout`, which no terminating run of the program produces.
* The package constants `width`, `height` and `DEBUG` are declared outside the
  files at hand and are taken as parameters (`Consts`).
* Go `int` is modelled by `Int`; every index is checked against the grid before
  it is used, so the arithmetic of the embedded functions stays far from the
  64-bit limits on every run that does not crash. Where a value comes from
  outside (statistics, prices, gem values) the 64-bit wrap-around is explicit
  (`wrapInt`, `uintOfInt`).
* Where a property speaks of something the program does not compute (the
  directions an invocation of `eat` attempts, the nesting of its calls, the
  rooms that `treasureRoom` builds), a second copy of the function records it
  (`eatLoopTrace`, `treasureLoopRooms`); forgetting the record gives the
  original function back (`eatLoopTrace_erase`, `treasureLoopRooms_erase`).
-/

namespace Larn

/-! ## Outcomes -/

/-- Outcome of running a program fragment. -/
inductive Res (α : Type) where
  | ok (a : α)
  | crash
  | timeout
  deriving DecidableEq, Repr

namespace Res

/-- Sequencing of outcomes: the first failure wins. -/
def bind {α β : Type} (r : Res α) (f : α → Res β) : Res β :=
  match r with
  | ok a => f a
  | crash => crash
  | timeout => timeout

instance : Monad Res where
  pure := Res.ok
  bind := Res.bind

/-- An absent value is a run-time failure. -/
def ofOption {α : Type} : Option α → Res α
  | some a => ok a
  | none => crash

end Res

/-! ## The random source -/

/-- The random source: an infinite sequence of raw values and a cursor. -/
structure Rng where
  src : Nat → Nat
  pos : Nat

/-- Model of `rand.Intn(n)`: fails for `n ≤ 0`, otherwise yields a value of
`[0, n)` and advances the cursor by one. -/
def Rng.Intn (g : Rng) (n : Int) : Res (Int × Rng) :=
  if n ≤ 0 then Res.crash
  else Res.ok ((g.src g.pos : Int) % n, { src := g.src, pos := g.pos + 1 })

/-! ## Data model -/

/-- Package constants declared outside `generate.go`. -/
structure Consts where
  width : Int
  height : Int
  DEBUG : Bool

/-- Model of `types.Coordinate`. -/
structure Coordinate where
  X : Int
  Y : Int
  deriving DecidableEq, Repr

/-- The eight named portals of the home level. -/
inductive EntranceKind where
  | dungeon | home | college | bank | volcano | dnd | trade | lrs
  deriving DecidableEq, Repr

/-- The item types requested by `placeMapObjects`. -/
inductive ItemKind where
  | book | altar | statue | pit | fountain
  | arrowTrap | teleTrap | dartTrap | doorTrap
  | chest | diamond | ruby | emerald | sapphire
  | potion | scroll | goldPile
  | ringMail | studdedLeather | splintMail | plateMail | shield
  | battleAxe | longSword | flail | spear | swordOfSlashing | bessmansHammer
  | sunSword | twoHandedSword | belt
  | ringEnergy | ringRegen | ringProtection | ringStrength
  | orb | scarab | cube | device | amulet
  deriving DecidableEq, Repr

/-- The values a grid slot can hold (the dynamic types behind `io.Runeable`).
`Empty` is the floor type of package `maps` that the type switches test for;
`MonsterEmpty` is the distinct type `monster.Empty`. -/
inductive Cell where
  | Wall (visible : Bool)
  | Empty (visible : Bool)
  | MonsterEmpty (visible : Bool)
  | Door (Open : Bool) (Visibility : Bool)
  | Stairs (up : Bool) (Level : Int) (visible : Bool)
  | Entrance (kind : EntranceKind) (Level : Int)
  | Item (kind : ItemKind) (attr : Int) (Visibility : Bool)
  | Monster (Id : Int) (Visibility : Bool) (Displaced : Cell)
  deriving DecidableEq, Repr

/-- The type-switch test `case Empty:`. -/
def Cell.isEmpty : Cell → Bool
  | Cell.Empty _ => true
  | _ => false

/-- The type-switch test `case *Wall:`. -/
def Cell.isWallCell : Cell → Bool
  | Cell.Wall _ => true
  | _ => false

/-- The test for a closed door. -/
def Cell.isClosedDoor : Cell → Bool
  | Cell.Door false _ => true
  | _ => false

/-- Modelled from the spec: the `Visible` capability of the cell types declared
outside the files at hand (`Wall`, `Stairs`, `Door`, the items): the call
`o.(Visible).Visible(v)` stores `v` in the visibility flag of an object that has
one. Both `Monster.Visible` (pointer receiver, stores the flag) and
`Empty.Visible` (value receiver, changes a copy only) follow `monster.go`. -/
def Cell.setVisible (v : Bool) : Cell → Cell
  | Cell.Wall _ => Cell.Wall v
  | Cell.Empty b => Cell.Empty b
  | Cell.MonsterEmpty b => Cell.MonsterEmpty b
  | Cell.Door o _ => Cell.Door o v
  | Cell.Stairs u l _ => Cell.Stairs u l v
  | Cell.Entrance k l => Cell.Entrance k l
  | Cell.Item k a _ => Cell.Item k a v
  | Cell.Monster i _ d => Cell.Monster i v d

/-- The level grid: `lvl[y][x]`. -/
abbrev Grid := List (List Cell)

/-- The read `lvl[y][x]`, absent when an index is out of range. -/
def Grid.cell? (lvl : Grid) (x y : Int) : Option Cell :=
  if 0 ≤ x ∧ 0 ≤ y then
    match lvl[y.toNat]? with
    | some row => row[x.toNat]?
    | none => none
  else none

/-- The write `lvl[y][x] = o`, absent when an index is out of range. -/
def Grid.write? (lvl : Grid) (x y : Int) (o : Cell) : Option Grid :=
  if 0 ≤ x ∧ 0 ≤ y then
    match lvl[y.toNat]? with
    | some row =>
      if x.toNat < row.length then some (lvl.set y.toNat (row.set x.toNat o))
      else none
    | none => none
  else none

/-- The read `lvl[c.Y][c.X]` as a program step. -/
def Grid.get (lvl : Grid) (c : Coordinate) : Res Cell :=
  Res.ofOption (lvl.cell? c.X c.Y)

/-- The write `lvl[c.Y][c.X] = o` as a program step. -/
def Grid.put (lvl : Grid) (c : Coordinate) (o : Cell) : Res Grid :=
  Res.ofOption (lvl.write? c.X c.Y o)

/-- A grid of `h` rows of `w` copies of one cell. -/
def Grid.fill (w h : Nat) (o : Cell) : Grid :=
  List.replicate h (List.replicate w o)

/-- Every row has exactly `w` cells and there are exactly `h` rows. -/
def Grid.HasDims (lvl : Grid) (w h : Nat) : Prop :=
  lvl.length = h ∧ ∀ row ∈ lvl, row.length = w

/-- Number of wall cells of a grid. -/
def Grid.walls (lvl : Grid) : Nat :=
  (lvl.map (fun row => row.countP Cell.isWallCell)).sum

/-! ## Placement engine -/

/-- Model of `isWall`. -/
def isWall (c : Coordinate) (lvl : Grid) : Res Bool := do
  let o ← lvl.get c
  pure o.isWallCell

/-- Model of `randMapCoord`: the X draw is made first. -/
def randMapCoord (K : Consts) (g : Rng) : Res (Coordinate × Rng) := do
  let (x, g) ← g.Intn (K.width - 1)
  let (y, g) ← g.Intn (K.height - 1)
  pure (⟨x + 1, y + 1⟩, g)

/-- One move of the walk of `walkToEmpty`: the two adjustments are applied and
the coordinate is wrapped into the interior. -/
def walkStep (K : Consts) (c : Coordinate) (xadj yadj : Int) : Coordinate :=
  let x := if xadj > 0 then c.X + xadj else c.X - xadj
  let y := if yadj > 0 then c.Y + yadj else c.Y - yadj
  let x := if x > K.width - 2 then 1 else x
  let x := if x < 1 then K.width - 2 else x
  let y := if y > K.height - 2 then 1 else y
  let y := if y < 1 then K.height - 2 else y
  ⟨x, y⟩

/-- Model of `walkToEmpty`; the fuel bounds the number of loop iterations. The
grid is read only, so it is not handed back. -/
def walkToEmpty (K : Consts) : Nat → Coordinate → Grid → Rng → Res (Coordinate × Rng)
  | 0, _, _, _ => Res.timeout
  | fuel + 1, c, lvl, g =>
    match lvl.get c with
    | Res.ok o =>
      if o.isEmpty then Res.ok (c, g)
      else
        match g.Intn 3 with
        | Res.ok (r1, g1) =>
          match g1.Intn 3 with
          | Res.ok (r2, g2) => walkToEmpty K fuel (walkStep K c (r1 - 2) (r2 - 2)) lvl g2
          | Res.crash => Res.crash
          | Res.timeout => Res.timeout
        | Res.crash => Res.crash
        | Res.timeout => Res.timeout
    | Res.crash => Res.crash
    | Res.timeout => Res.timeout

/-- Model of `placeObject`: returns the landing coordinate, the displaced
content, the updated grid and the random source. -/
def placeObject (K : Consts) (fuel : Nat) (c : Coordinate) (o : Cell) (lvl : Grid)
    (g : Rng) : Res (Coordinate × Cell × Grid × Rng) := do
  let (c, g) ← walkToEmpty K fuel c lvl g
  let o := o.setVisible K.DEBUG
  let d ← lvl.get c
  let lvl ← lvl.put c o
  pure (c, d, lvl, g)

/-- The statement `placeObject(randMapCoord(), o, lvl)`, whose two results are
discarded by every caller. -/
def placeRandom (K : Consts) (fuel : Nat) (o : Cell) (lvl : Grid) (g : Rng) :
    Res (Grid × Rng) := do
  let (c, g) ← randMapCoord K g
  let (_, _, lvl, g) ← placeObject K fuel c o lvl g
  pure (lvl, g)

/-- Model of `placeRareObject`. -/
def placeRareObject (K : Consts) (fuel : Nat) (prob : Int) (o : Cell) (lvl : Grid)
    (g : Rng) : Res (Grid × Rng) := do
  let (r, g) ← g.Intn 151
  if r < prob then placeRandom K fuel o lvl g
  else pure (lvl, g)

/-! ## Counting loops -/

/-- The loop `for i := lo; ...; i++ { body }` run for `k` iterations starting at
`i = lo`, threading the state through the body. -/
def forLoop {σ : Type} : Nat → Int → (Int → σ → Res σ) → σ → Res σ
  | 0, _, _, s => Res.ok s
  | k + 1, i, body, s =>
    match body i s with
    | Res.ok s1 => forLoop k (i + 1) body s1
    | Res.crash => Res.crash
    | Res.timeout => Res.timeout

/-- The loop `for i := lo; i < hi; i++ { body }` whose body assigns neither `i`
nor the bound: it runs `hi - lo` times, not at all when `hi ≤ lo`. -/
def forRange {σ : Type} (lo hi : Int) (body : Int → σ → Res σ) (s : σ) : Res σ :=
  forLoop (hi - lo).toNat lo body s

/-- Model of `placeMultipleObjects`; the factory `f` may consume random draws. -/
def placeMultipleObjects (K : Consts) (fuel : Nat) (n : Int)
    (f : Rng → Res (Cell × Rng)) (lvl : Grid) (g : Rng) : Res (Grid × Rng) :=
  forRange 0 n (fun _ s => do
    let (o, g) ← f s.2
    placeRandom K fuel o s.1 g) (lvl, g)

/-! ## Maze carver -/

/-- The guard and the two target cells of one `case` of `eat`: the edge test,
the cell next to `c` and the cell two steps away; absent for a direction outside
`1..4` (the `default` branch). -/
def eatTarget (K : Consts) (c : Coordinate) (dir : Int) :
    Option (Bool × Coordinate × Coordinate) :=
  if dir = 1 then some (decide (c.X ≤ 2), ⟨c.X - 1, c.Y⟩, ⟨c.X - 2, c.Y⟩)
  else if dir = 2 then some (decide (c.X ≥ K.width - 3), ⟨c.X + 1, c.Y⟩, ⟨c.X + 2, c.Y⟩)
  else if dir = 3 then some (decide (c.Y ≤ 2), ⟨c.X, c.Y - 1⟩, ⟨c.X, c.Y - 2⟩)
  else if dir = 4 then some (decide (c.Y ≥ K.height - 3), ⟨c.X, c.Y + 1⟩, ⟨c.X, c.Y + 2⟩)
  else none

/-- The short-circuit condition `edge || !isWall(a) || !isWall(b)` that makes a
`case` of `eat` break out of the switch. -/
def eatBlocked (edge : Bool) (a b : Coordinate) (lvl : Grid) : Res Bool :=
  if edge then Res.ok true
  else
    match isWall a lvl with
    | Res.ok true =>
      match isWall b lvl with
      | Res.ok w => Res.ok (!w)
      | Res.crash => Res.crash
      | Res.timeout => Res.timeout
    | Res.ok false => Res.ok true
    | Res.crash => Res.crash
    | Res.timeout => Res.timeout

/-- The two writes `lvl[a] = Empty{}; lvl[b] = Empty{}`. -/
def carve2 (a b : Coordinate) (lvl : Grid) : Res Grid :=
  match lvl.put a (Cell.Empty false) with
  | Res.ok lvl1 => lvl1.put b (Cell.Empty false)
  | Res.crash => Res.crash
  | Res.timeout => Res.timeout

/-- The update `if dir++; dir > 4 { dir = 1; try-- }` at the end of the loop
body of `eat`. -/
def nextDir (dir tries : Int) : Int × Int :=
  if dir + 1 > 4 then (1, tries - 1) else (dir + 1, tries)

/-- The `for try > 0` loop of `eat` at position `c` with the current direction
and the remaining tries. A recursive call `eat(b, lvl)` appears unfolded: one
draw for its direction, then its loop with two tries. The fuel bounds the
nesting of loop iterations and calls. -/
def eatLoop (K : Consts) : Nat → Coordinate → Int → Int → Grid → Rng → Res (Grid × Rng)
  | 0, _, _, _, _, _ => Res.timeout
  | fuel + 1, c, dir, tries, lvl, g =>
    if tries > 0 then
      match eatTarget K c dir with
      | none => Res.crash
      | some (edge, a, b) =>
        match eatBlocked edge a b lvl with
        | Res.ok true => eatLoop K fuel c (nextDir dir tries).1 (nextDir dir tries).2 lvl g
        | Res.ok false =>
          match carve2 a b lvl with
          | Res.ok lvl1 =>
            match g.Intn 4 with
            | Res.ok (r, g1) =>
              match eatLoop K fuel b (r + 1) 2 lvl1 g1 with
              | Res.ok (lvl2, g2) =>
                eatLoop K fuel c (nextDir dir tries).1 (nextDir dir tries).2 lvl2 g2
              | Res.crash => Res.crash
              | Res.timeout => Res.timeout
            | Res.crash => Res.crash
            | Res.timeout => Res.timeout
          | Res.crash => Res.crash
          | Res.timeout => Res.timeout
        | Res.crash => Res.crash
        | Res.timeout => Res.timeout
    else Res.ok (lvl, g)

/-- Model of `eat`: draw the first direction, then run the loop with two tries. -/
def eat (K : Consts) (fuel : Nat) (c : Coordinate) (lvl : Grid) (g : Rng) :
    Res (Grid × Rng) :=
  match g.Intn 4 with
  | Res.ok (r, g1) => eatLoop K fuel c (r + 1) 2 lvl g1
  | Res.crash => Res.crash
  | Res.timeout => Res.timeout

/-- The constant `homeLevel`. -/
def homeLevel : Nat := 0

/-- Model of `newLevel`: a full grid of walls (of visible floor for the home
level), carved by `eat` from `(1,1)` on every other level. -/
def newLevel (K : Consts) (fuel : Nat) (lvl : Nat) (g : Rng) : Res (Grid × Rng) :=
  if K.width < 0 ∨ K.height < 0 then Res.crash
  else
    let base := if lvl = homeLevel then Cell.Empty true else Cell.Wall K.DEBUG
    let level := Grid.fill K.width.toNat K.height.toNat base
    if lvl ≠ homeLevel then eat K fuel ⟨1, 1⟩ level g else Res.ok (level, g)

/-! ## Room builder -/

/-- The nested loops `for i := x0; i < x1; i++ { for j := y0; j < y1; j++ {
m[j][i] = o } }`. -/
def fillRect (x0 x1 y0 y1 : Int) (o : Cell) (m : Grid) : Res Grid :=
  forRange x0 x1 (fun i m1 => forRange y0 y1 (fun j m2 => m2.put ⟨i, j⟩ o) m1) m

/-- State of the door search of `makeRoom`: the grid, `wallCount`, and whether
the `return` inside the loops has been executed. -/
structure DoorState where
  m : Grid
  wallCount : Int
  returned : Bool

/-- The test `i == x || i == x+w-1 || j == y || j == y+h-1`. -/
def onPerimeter (w h x y i j : Int) : Bool :=
  decide (i = x) || decide (i = x + w - 1) || decide (j = y) || decide (j = y + h - 1)

/-- Body of the inner door loop of `makeRoom`; once `return` has been executed
the remaining iterations do nothing. -/
def doorBody (K : Consts) (w h x y doorLoc i j : Int) (s : DoorState) : Res DoorState :=
  if s.returned then Res.ok s
  else if onPerimeter w h x y i j then
    if s.wallCount = doorLoc then
      match s.m.put ⟨i, j⟩ (Cell.Door false K.DEBUG) with
      | Res.ok m1 => Res.ok { m := m1, wallCount := s.wallCount, returned := true }
      | Res.crash => Res.crash
      | Res.timeout => Res.timeout
    else Res.ok { m := s.m, wallCount := s.wallCount + 1, returned := false }
  else Res.ok s

/-- Model of `makeRoom` (the `glyph` argument is unused by the source). -/
def makeRoom (K : Consts) (w h x y _glyph : Int) (m : Grid) (g : Rng) : Res (Grid × Rng) :=
  match fillRect x (x + w) y (y + h) (Cell.Wall K.DEBUG) m with
  | Res.ok m1 =>
    match fillRect (x + 1) (x + w - 1) (y + 1) (y + h - 1) (Cell.Empty false) m1 with
    | Res.ok m2 =>
      match g.Intn (w * 2 + (h - 2) * 2) with
      | Res.ok (doorLoc, g1) =>
        match forRange x (x + w) (fun i s =>
            forRange y (y + h) (fun j s1 => doorBody K w h x y doorLoc i j s1) s)
            { m := m2, wallCount := 0, returned := false } with
        | Res.ok s => Res.ok (s.m, g1)
        | Res.crash => Res.crash
        | Res.timeout => Res.timeout
      | Res.crash => Res.crash
      | Res.timeout => Res.timeout
    | Res.crash => Res.crash
    | Res.timeout => Res.timeout
  | Res.crash => Res.crash
  | Res.timeout => Res.timeout

/-! ## Monster spawner -/

/-- The conversion `int(lvl)` of a 64-bit `uint`. -/
def intOfUint (lvl : Nat) : Int :=
  if lvl % 2 ^ 64 < 2 ^ 63 then ((lvl % 2 ^ 64 : Nat) : Int)
  else ((lvl % 2 ^ 64 : Nat) : Int) - 2 ^ 64

/-- Model of `monster.New`: not yet visible, displacing a `monster.Empty`. -/
def Monster.New (monster : Int) : Cell :=
  Cell.Monster monster false (Cell.MonsterEmpty false)

/-- Model of `spawnMonsters`. The monster table and `monster.FromLevel` are
declared outside the files at hand; `FromLevel` is a parameter that may consume
random draws. Returns the list of monsters, the grid and the random source. The
list and the grid share each monster, so the list entry shows the visibility
that `placeObject` has set. -/
def spawnMonsters (K : Consts) (fuel : Nat) (FromLevel : Int → Rng → Res (Int × Rng))
    (m : Grid) (lvl : Nat) (fresh : Bool) (g : Rng) : Res (List Cell × Grid × Rng) :=
  let num : Int := (intOfUint lvl >>> (1 : Nat)) + 1
  match (if fresh then
      match g.Intn 12 with
      | Res.ok (r, g1) => Res.ok (num + (r + 2), g1)
      | Res.crash => Res.crash
      | Res.timeout => Res.timeout
    else Res.ok (num, g)) with
  | Res.ok (num1, g1) =>
    forRange 0 num1 (fun _ s => do
      let (id, g2) ← FromLevel (intOfUint lvl) s.2.2
      let mon := Monster.New id
      let (m1, g3) ← placeRandom K fuel mon s.2.1 g2
      pure (s.1 ++ [mon.setVisible K.DEBUG], m1, g3)) ([], m, g1)
  | Res.crash => Res.crash
  | Res.timeout => Res.timeout

/-! ## Level populator -/

/-- The constant `maxDungeon`. -/
def maxDungeon : Nat := 10

/-- The constant `MaxVolcano`. -/
def MaxVolcano : Nat := 13

/-- Wrap-around of 64-bit signed `int` arithmetic. -/
def wrapInt (z : Int) : Int := (z + 2 ^ 63) % 2 ^ 64 - 2 ^ 63

/-- Declarations that `placeMapObjects` uses from files outside the ones at
hand: the level numbers of the special levels and the constructors
`items.NewPotion` and `items.NewScroll`, which may consume random draws and
whose result is kept as the attribute of the item. -/
structure Externals where
  HomeLvl : Int
  CollegeLvl : Int
  BankLvl : Int
  DndLvl : Int
  TradeLvl : Int
  LrsLvl : Int
  NewPotion : Rng → Res (Int × Rng)
  NewScroll : Rng → Res (Int × Rng)

/-- A statement that updates the grid and consumes random draws. -/
abbrev Step := Grid × Rng → Res (Grid × Rng)

/-- Statements run one after the other; the first failure ends the run. -/
def runAll : List Step → Step
  | [], s => Res.ok s
  | st :: rest, s =>
    match st s with
    | Res.ok s1 => runAll rest s1
    | Res.crash => Res.crash
    | Res.timeout => Res.timeout

/-- The statement `placeObject(randMapCoord(), o, m)`. -/
def placeStep (K : Consts) (fuel : Nat) (o : Cell) : Step :=
  fun s => placeRandom K fuel o s.1 s.2

/-- An expression without random draw. -/
def fixedAttr (a : Int) : Rng → Res (Int × Rng) :=
  fun g => Res.ok (a, g)

/-- The expression `rand.Intn(n) + c`. -/
def drawPlus (n c : Int) : Rng → Res (Int × Rng) :=
  fun g =>
    match g.Intn n with
    | Res.ok (r, g1) => Res.ok (r + c, g1)
    | Res.crash => Res.crash
    | Res.timeout => Res.timeout

/-- The gem value `rand.Intn(mult*int(lvl)+1) + base`. -/
def gemValue (mult base : Int) (lvl : Nat) : Rng → Res (Int × Rng) :=
  fun g =>
    match g.Intn (wrapInt (mult * intOfUint lvl + 1)) with
    | Res.ok (r, g1) => Res.ok (wrapInt (r + base), g1)
    | Res.crash => Res.crash
    | Res.timeout => Res.timeout

/-- The gold amount `12*rand.Intn(int(lvl+1)) + (int(lvl) << 3) + 10`. -/
def goldAmount (lvl : Nat) : Rng → Res (Int × Rng) :=
  fun g =>
    match g.Intn (intOfUint (lvl + 1)) with
    | Res.ok (r, g1) => Res.ok (wrapInt (12 * r + intOfUint lvl * 8 + 10), g1)
    | Res.crash => Res.crash
    | Res.timeout => Res.timeout

/-- Modelled from the spec: construction of an item of the given type, not yet
visible, whose level, value, amount or attribute (set by `ResetAttr` where the
source calls it) is the value of the expression `attr`; the item types are
declared outside the files at hand. -/
def newItem (kind : ItemKind) (attr : Rng → Res (Int × Rng)) : Rng → Res (Cell × Rng) :=
  fun g =>
    match attr g with
    | Res.ok (a, g1) => Res.ok (Cell.Item kind a false, g1)
    | Res.crash => Res.crash
    | Res.timeout => Res.timeout

/-- The statement `placeMultipleObjects(count, f, m)`: the count expression is
evaluated first. -/
def manyStep (K : Consts) (fuel : Nat) (count : Rng → Res (Int × Rng))
    (f : Rng → Res (Cell × Rng)) : Step :=
  fun s =>
    match count s.2 with
    | Res.ok (n, g1) => placeMultipleObjects K fuel n f s.1 g1
    | Res.crash => Res.crash
    | Res.timeout => Res.timeout

/-- The statements that build an object `mk` and then call
`placeRareObject(prob, object, m)`. -/
def rareStep (K : Consts) (fuel : Nat) (prob : Int) (mk : Rng → Res (Cell × Rng)) : Step :=
  fun s =>
    match mk s.2 with
    | Res.ok (o, g1) => placeRareObject K fuel prob o s.1 g1
    | Res.crash => Res.crash
    | Res.timeout => Res.timeout

/-- A statement guarded by `if c { ... }`. -/
def whenStep (c : Prop) [Decidable c] (st : Step) : Step :=
  fun s => if c then st s else Res.ok s

/-- The home-level branch of `placeMapObjects`: the eight entrances. -/
def homeSteps (K : Consts) (E : Externals) (fuel : Nat) : List Step :=
  [ placeStep K fuel (Cell.Entrance EntranceKind.dungeon 1),
    placeStep K fuel (Cell.Entrance EntranceKind.home E.HomeLvl),
    placeStep K fuel (Cell.Entrance EntranceKind.college E.CollegeLvl),
    placeStep K fuel (Cell.Entrance EntranceKind.bank E.BankLvl),
    placeStep K fuel (Cell.Entrance EntranceKind.volcano ((maxDungeon : Int) + 1)),
    placeStep K fuel (Cell.Entrance EntranceKind.dnd E.DndLvl),
    placeStep K fuel (Cell.Entrance EntranceKind.trade E.TradeLvl),
    placeStep K fuel (Cell.Entrance EntranceKind.lrs E.LrsLvl) ]

/-- The second tier of equipment inside `if rand.Intn(4) == 3 && lvl > 3`. -/
def secondTierSteps (K : Consts) (fuel : Nat) : List Step :=
  [ rareStep K fuel 3 (newItem ItemKind.sunSword (fixedAttr 3)),
    rareStep K fuel 5 (newItem ItemKind.twoHandedSword (drawPlus 3 1)),
    rareStep K fuel 3 (newItem ItemKind.belt (fixedAttr 4)),
    rareStep K fuel 3 (newItem ItemKind.ringEnergy (fixedAttr 3)),
    rareStep K fuel 4 (newItem ItemKind.plateMail (fixedAttr 5)) ]

/-- The statement `if rand.Intn(4) == 3 && lvl > 3 { ... }`: the draw is made
on every level. -/
def secondTier (K : Consts) (fuel : Nat) (lvl : Nat) : Step :=
  fun s =>
    match s.2.Intn 4 with
    | Res.ok (r, g1) =>
      if r = 3 ∧ lvl > 3 then runAll (secondTierSteps K fuel) (s.1, g1)
      else Res.ok (s.1, g1)
    | Res.crash => Res.crash
    | Res.timeout => Res.timeout

/-- The branch of `placeMapObjects` for the other levels, up to the second tier
of equipment: stairs, terrain features, containers, consumables and the first
tier of armor and weapons. -/
def dungeonStepsA (K : Consts) (E : Externals) (fuel : Nat) (lvl : Nat) : List Step :=
  [ whenStep (lvl ≠ 1)
      (placeStep K fuel (Cell.Stairs true (intOfUint (lvl - 1)) K.DEBUG)),
    whenStep (lvl ≠ maxDungeon ∧ lvl ≠ MaxVolcano)
      (placeStep K fuel (Cell.Stairs false (intOfUint (lvl + 1)) K.DEBUG)),
    manyStep K fuel (drawPlus 3 0) (newItem ItemKind.book (fixedAttr lvl)),
    manyStep K fuel (drawPlus 3 0) (newItem ItemKind.altar (fixedAttr 0)),
    manyStep K fuel (drawPlus 3 0) (newItem ItemKind.statue (fixedAttr 0)),
    manyStep K fuel (drawPlus 3 0) (newItem ItemKind.pit (fixedAttr 0)),
    manyStep K fuel (drawPlus 3 0) (newItem ItemKind.fountain (fixedAttr 0)),
    manyStep K fuel (drawPlus 3 0) (newItem ItemKind.arrowTrap (fixedAttr 0)),
    manyStep K fuel (drawPlus 3 (-1)) (newItem ItemKind.teleTrap (fixedAttr 0)),
    manyStep K fuel (drawPlus 3 (-1)) (newItem ItemKind.dartTrap (fixedAttr 0)),
    fun s =>
      if lvl = 1 then placeStep K fuel (Cell.Item ItemKind.chest lvl false) s
      else manyStep K fuel (drawPlus 2 0) (newItem ItemKind.chest (fixedAttr lvl)) s,
    whenStep (lvl ≠ maxDungeon ∧ lvl ≠ MaxVolcano)
      (manyStep K fuel (drawPlus 2 0) (newItem ItemKind.doorTrap (fixedAttr 0))),
    whenStep (lvl ≤ 10)
      (runAll
        [ manyStep K fuel (drawPlus 2 0) (newItem ItemKind.diamond (gemValue 10 10 lvl)),
          manyStep K fuel (drawPlus 2 0) (newItem ItemKind.ruby (gemValue 6 6 lvl)),
          manyStep K fuel (drawPlus 2 0) (newItem ItemKind.emerald (gemValue 4 4 lvl)),
          manyStep K fuel (drawPlus 2 0) (newItem ItemKind.sapphire (gemValue 3 2 lvl)) ]),
    manyStep K fuel (drawPlus 4 4) (newItem ItemKind.potion E.NewPotion),
    manyStep K fuel (drawPlus 5 4) (newItem ItemKind.scroll E.NewScroll),
    manyStep K fuel (drawPlus 12 12) (newItem ItemKind.goldPile (goldAmount lvl)),
    rareStep K fuel 2 (newItem ItemKind.ringMail (fixedAttr 0)),
    rareStep K fuel 1 (newItem ItemKind.studdedLeather (fixedAttr 0)),
    rareStep K fuel 3 (newItem ItemKind.splintMail (fixedAttr 0)),
    rareStep K fuel 5 (newItem ItemKind.shield (drawPlus 3 0)),
    rareStep K fuel 2 (newItem ItemKind.battleAxe (drawPlus 3 0)),
    rareStep K fuel 5 (newItem ItemKind.longSword (drawPlus 3 0)),
    rareStep K fuel 5 (newItem ItemKind.flail (drawPlus 3 0)),
    rareStep K fuel 7 (newItem ItemKind.spear (drawPlus 5 0)),
    rareStep K fuel 2 (newItem ItemKind.swordOfSlashing (fixedAttr 0)),
    whenStep (lvl = 1) (rareStep K fuel 4 (newItem ItemKind.bessmansHammer (fixedAttr 0))) ]

/-- The statements of `placeMapObjects` after the second tier of equipment:
rings and special objects. -/
def dungeonStepsB (K : Consts) (fuel : Nat) : List Step :=
  [ rareStep K fuel 4 (newItem ItemKind.ringRegen (drawPlus 3 0)),
    rareStep K fuel 1 (newItem ItemKind.ringProtection (drawPlus 3 0)),
    rareStep K fuel 2 (newItem ItemKind.ringStrength (fixedAttr 4)),
    rareStep K fuel 3 (newItem ItemKind.orb (fixedAttr 0)),
    rareStep K fuel 4 (newItem ItemKind.scarab (fixedAttr 0)),
    rareStep K fuel 4 (newItem ItemKind.cube (fixedAttr 0)),
    rareStep K fuel 3 (newItem ItemKind.device (fixedAttr 0)),
    rareStep K fuel 3 (newItem ItemKind.amulet (fixedAttr 0)) ]

/-- Model of `placeMapObjects`: the statements of the branch taken are run in
the order of the source. -/
def placeMapObjects (K : Consts) (E : Externals) (fuel : Nat) (lvl : Nat) (m : Grid)
    (g : Rng) : Res (Grid × Rng) :=
  if lvl = homeLevel then runAll (homeSteps K E fuel) (m, g)
  else
    runAll (dungeonStepsA K E fuel lvl ++ secondTier K fuel lvl :: dungeonStepsB K fuel)
      (m, g)

/-- The loop `for x := ...; x < width-10; x += 10` of `treasureRoom`; the
counter bounds the number of iterations. -/
def treasureLoop (K : Consts) : Nat → Int → Grid → Rng → Res (Grid × Rng)
  | 0, _, _, _ => Res.timeout
  | n + 1, x, m, g =>
    if x < K.width - 10 then
      match g.Intn 13 with
      | Res.ok (r, g1) =>
        if r = 0 then
          match g1.Intn 6 with
          | Res.ok (tw, g2) =>
            match g2.Intn 6 with
            | Res.ok (th, g3) =>
              match g3.Intn (K.height - 10) with
              | Res.ok (y, g4) =>
                match g4.Intn 9 with
                | Res.ok (gl, g5) =>
                  match makeRoom K (tw + 4) (th + 4) x (y + 2) (gl + 1) m g5 with
                  | Res.ok (m1, g6) => treasureLoop K n (x + 10) m1 g6
                  | Res.crash => Res.crash
                  | Res.timeout => Res.timeout
                | Res.crash => Res.crash
                | Res.timeout => Res.timeout
              | Res.crash => Res.crash
              | Res.timeout => Res.timeout
            | Res.crash => Res.crash
            | Res.timeout => Res.timeout
          | Res.crash => Res.crash
          | Res.timeout => Res.timeout
        else treasureLoop K n (x + 10) m g1
      | Res.crash => Res.crash
      | Res.timeout => Res.timeout
    else Res.ok (m, g)

/-- Model of `treasureRoom`; the loop counter `width + 1` is never used up,
since the column advances by ten in every iteration. -/
def treasureRoom (K : Consts) (m : Grid) (g : Rng) : Res (Grid × Rng) :=
  match g.Intn 10 with
  | Res.ok (r, g1) => treasureLoop K (K.width.toNat + 1) (2 + r) m g1
  | Res.crash => Res.crash
  | Res.timeout => Res.timeout

/-- Model of `newMap`. The value `seed` is what `time.Now().UnixNano()`
returned, and `seedStream seed` is the sequence that the generator produces
after `rand.Seed(seed)` (the generator itself is outside the program). The
argument `g` is the state of the global random source before the call. -/
def newMap (K : Consts) (E : Externals) (fuel : Nat) (seedStream : Int → Nat → Nat)
    (seed : Int) (lvl : Nat) (g : Rng) : Res (Grid × Rng) :=
  match newLevel K fuel lvl g with
  | Res.ok (m, g1) =>
    match (if lvl > 1 then treasureRoom K m g1 else Res.ok (m, g1)) with
    | Res.ok (m1, _) => placeMapObjects K E fuel lvl m1 { src := seedStream seed, pos := 0 }
    | Res.crash => Res.crash
    | Res.timeout => Res.timeout
  | Res.crash => Res.crash
  | Res.timeout => Res.timeout

/-! ## Monsters -/

namespace monster

/-- The constant `InvisibleRune`. -/
def InvisibleRune : Char := ' '

/-- The fields of `MonsterType` that the files at hand read. -/
structure MonsterType where
  MonsterRune : Char
  Dmg : Int
  Lvl : Int
  deriving DecidableEq, Repr

/-- Model of the struct `Monster`. -/
structure Monster where
  Id : Int
  Info : MonsterType
  Visibility : Bool
  Displaced : Cell
  deriving DecidableEq, Repr

/-- Model of `New`; the table `monsterData` is declared outside the files at
hand and is a parameter. -/
def New (monsterData : Int → MonsterType) (monster : Int) : Monster :=
  { Id := monster, Info := monsterData monster, Visibility := false,
    Displaced := Cell.MonsterEmpty false }

/-- Model of `Monster.Rune`. -/
def Monster.Rune (m : Monster) : Char :=
  if m.Visibility then m.Info.MonsterRune else InvisibleRune

/-- Model of `Monster.ID`. -/
def Monster.ID (m : Monster) : Int := m.Id

/-- Model of `Monster.Visible`: the monster after the call. -/
def Monster.Visible (m : Monster) (v : Bool) : Monster :=
  { m with Visibility := v }

/-- The grid cell that holds the monster. -/
def Monster.toCell (m : Monster) : Cell :=
  Cell.Monster m.Id m.Visibility m.Displaced

end monster

/-! ## Counting cells -/

/-- Number of cells of the grid that satisfy `p`. -/
def Grid.count (p : Cell → Bool) (lvl : Grid) : Nat :=
  (lvl.map (fun row => row.countP p)).sum

/-- The row lengths of the grid, row by row. -/
def Grid.shape (lvl : Grid) : List Nat :=
  lvl.map List.length

/-- The test for an item of type `k`. -/
def Cell.isKind (k : ItemKind) : Cell → Bool
  | Cell.Item k' _ _ => decide (k' = k)
  | _ => false

/-- The test for a stairs cell of the given direction. -/
def Cell.isStairsDir (up : Bool) : Cell → Bool
  | Cell.Stairs u _ _ => decide (u = up)
  | _ => false

/-- The test for a stairs cell of the given direction and target level. -/
def Cell.isStairsTo (up : Bool) (level : Int) : Cell → Bool
  | Cell.Stairs u l _ => decide (u = up) && decide (l = level)
  | _ => false

/-- The test for an entrance. -/
def Cell.isEntrance : Cell → Bool
  | Cell.Entrance _ _ => true
  | _ => false

/-- The test for the entrance of the given name and target level. -/
def Cell.isEntranceTo (k : EntranceKind) (level : Int) : Cell → Bool
  | Cell.Entrance k' l => decide (k' = k) && decide (l = level)
  | _ => false

/-- A statement adds at least `lo` and at most `hi` cells that satisfy `p`. -/
def Step.Adds (p : Cell → Bool) (lo hi : Nat) (st : Step) : Prop :=
  ∀ s s', st s = Res.ok s' →
    Grid.count p s.1 + lo ≤ Grid.count p s'.1 ∧ Grid.count p s'.1 ≤ Grid.count p s.1 + hi

/-- A statement relates the grid before to the grid after by `R`. -/
def Step.Keeps (R : Grid → Grid → Prop) (st : Step) : Prop :=
  ∀ s s', st s = Res.ok s' → R s.1 s'.1

/-- A cell test `p` that is false on floor and that on items looks at the item
type only, through `q`. -/
def KindPred (p : Cell → Bool) (q : ItemKind → Bool) : Prop :=
  (∀ v, p (Cell.Empty v) = false) ∧ (∀ kind a v, p (Cell.Item kind a v) = q kind)

/-- Policy table of the level populator: the least number of items of a type
that a level other than the home level receives. -/
def kindLo (lvl : Nat) : ItemKind → Nat
  | ItemKind.potion => 4
  | ItemKind.scroll => 4
  | ItemKind.goldPile => 12
  | ItemKind.chest => if lvl = 1 then 1 else 0
  | _ => 0

/-- Policy table of the level populator: the greatest number of items of a type
that a level other than the home level receives. -/
def kindHi (lvl : Nat) : ItemKind → Nat
  | ItemKind.book => 2
  | ItemKind.altar => 2
  | ItemKind.statue => 2
  | ItemKind.pit => 2
  | ItemKind.fountain => 2
  | ItemKind.arrowTrap => 2
  | ItemKind.doorTrap => if lvl ≠ 10 ∧ lvl ≠ 13 then 1 else 0
  | ItemKind.diamond => if lvl ≤ 10 then 1 else 0
  | ItemKind.ruby => if lvl ≤ 10 then 1 else 0
  | ItemKind.emerald => if lvl ≤ 10 then 1 else 0
  | ItemKind.sapphire => if lvl ≤ 10 then 1 else 0
  | ItemKind.potion => 7
  | ItemKind.scroll => 8
  | ItemKind.goldPile => 23
  | ItemKind.bessmansHammer => if lvl = 1 then 1 else 0
  | ItemKind.sunSword => if lvl > 3 then 1 else 0
  | ItemKind.twoHandedSword => if lvl > 3 then 1 else 0
  | ItemKind.belt => if lvl > 3 then 1 else 0
  | ItemKind.ringEnergy => if lvl > 3 then 1 else 0
  | ItemKind.plateMail => if lvl > 3 then 1 else 0
  | _ => 1

/-- The item types of the second tier of equipment. -/
def ItemKind.isSecondTier : ItemKind → Bool
  | ItemKind.sunSword => true
  | ItemKind.twoHandedSword => true
  | ItemKind.belt => true
  | ItemKind.ringEnergy => true
  | ItemKind.plateMail => true
  | _ => false

/-- The test for an item of the second tier of equipment. -/
def Cell.isSecondTier : Cell → Bool
  | Cell.Item k _ _ => k.isSecondTier
  | _ => false

/-- The test for a cell that is neither floor nor an entrance. -/
def Cell.isOther (c : Cell) : Bool :=
  !(c.isEmpty || c.isEntrance)

/-- A relation between the grid before and the grid after that is reflexive,
transitive and established by every write onto a floor cell. -/
def WriteClosed (R : Grid → Grid → Prop) : Prop :=
  (∀ l, R l l) ∧ (∀ a b c, R a b → R b c → R a c) ∧
    (∀ (l l' : Grid) (x y : Int) (v : Bool) (o : Cell),
      l.cell? x y = some (Cell.Empty v) → l.write? x y o = some l' → R l l')

/-- Whether a run produced a result. -/
def Res.isOk {α : Type} : Res α → Bool
  | Res.ok _ => true
  | _ => false

/-- The result of a run seen through `f`. -/
def Res.map {α β : Type} (f : α → β) : Res α → Res β
  | Res.ok a => Res.ok (f a)
  | Res.crash => Res.crash
  | Res.timeout => Res.timeout

/-! ## Sample data -/

/-- A random source that replays a finite list of raw values and then zeros. -/
def Rng.replay (l : List Nat) : Rng := { src := fun i => l.getD i 0, pos := 0 }

/-- Constants of a small 7 by 7 level. -/
def smallConsts : Consts := { width := 7, height := 7, DEBUG := false }

/-- A 7 by 7 level of walls with one corridor of floor in row 3. -/
def corridorGrid : Grid :=
  let W := Cell.Wall false
  let E := Cell.Empty false
  [[W, W, W, W, W, W, W],
   [W, W, W, W, W, W, W],
   [W, W, W, W, W, W, W],
   [W, E, E, E, E, E, W],
   [W, W, W, W, W, W, W],
   [W, W, W, W, W, W, W],
   [W, W, W, W, W, W, W]]

/-- Constants of a level of 30 by 12 cells. -/
def openConsts : Consts := { width := 30, height := 12, DEBUG := false }

/-- Sample values for the declarations outside the files at hand. -/
def sampleExt : Externals :=
  { HomeLvl := 20, CollegeLvl := 21, BankLvl := 22, DndLvl := 23, TradeLvl := 24,
    LrsLvl := 25, NewPotion := drawPlus 20 0, NewScroll := drawPlus 20 0 }

/-- A random source with well mixed values. -/
def mixRng : Rng := { src := fun i => (i * i * 7 + i * 13 + 5) % 1013, pos := 0 }

/-- A sample generator: the sequence produced after seeding with `seed`. -/
def sampleStream : Int → Nat → Nat :=
  fun seed i => (i * i * 7 + i * 13 + 5 + seed.toNat) % 1013

/-- For a walk from `c` there is a way to choose the random values from any
cursor on, whatever was drawn before, such that the walk returns. -/
def CanReturn (K : Consts) (lvl : Grid) (c : Coordinate) : Prop :=
  ∀ (pos : Nat) (src0 : Nat → Nat), ∃ (src : Nat → Nat) (fuel : Nat) (c' : Coordinate) (g' : Rng),
    (∀ i, i < pos → src i = src0 i) ∧
      walkToEmpty K fuel c lvl { src := src, pos := pos } = Res.ok (c', g')

/-- The reading of `place_many`: `n` rounds, each one call of the factory
followed by one placement of the object that call returned. -/
def placeRounds (K : Consts) (fuel : Nat) (f : Rng → Res (Cell × Rng)) :
    Nat → Grid × Rng → Res (Grid × Rng)
  | 0, s => Res.ok s
  | n + 1, s =>
    match f s.2 with
    | Res.ok (o, g) =>
      match placeRandom K fuel o s.1 g with
      | Res.ok s1 => placeRounds K fuel f n s1
      | Res.crash => Res.crash
      | Res.timeout => Res.timeout
    | Res.crash => Res.crash
    | Res.timeout => Res.timeout

/-- Number of perimeter cells of the room at origin `(x, y)` that the door
search of `makeRoom` (columns left to right, each column top to bottom) visits
before it reaches row `j` of column `i`. -/
def perimBefore (w h x y i j : Int) : Int :=
  (if i = x then 0 else h + 2 * (i - x - 1)) +
    (if i = x ∨ i = x + w - 1 then j - y
      else if j = y then 0 else if j = y + h then 2 else 1)

/-! ## Character statistics -/

namespace stats

/-- The numeric fields of `stats.Stats` that the files at hand read or write.
The struct is declared outside them; the uses fix `Hp`, `MaxHP`, `Exp`, `Gold`,
`MaxSpells` and `Con` as `uint` (values below `2 ^ 64`) and `Ac` as `int`. The
title and the two maps of known spells and special items are left out: no
function embedded here reads or writes them. -/
structure Stats where
  Level : Int
  Exp : Nat
  Gold : Nat
  Hp : Nat
  MaxHP : Nat
  Ac : Int
  Spells : Int
  MaxSpells : Nat
  Str : Int
  Intelligence : Int
  Wisdom : Int
  Con : Nat
  Dex : Int
  Cha : Int
  deriving DecidableEq, Repr

end stats

/-- The conversion `uint(z)` of an `int` on a 64-bit platform. -/
def uintOfInt (z : Int) : Nat := (z % 2 ^ 64).toNat

namespace character

/-- Model of `character.Character`: the location and the statistics. The
inventory, the active conditions and the displaced object are not touched by
the methods embedded here. -/
structure Character where
  loc : Coordinate
  Stats : stats.Stats
  deriving DecidableEq, Repr

/-- Model of `Character.Heal`: `Hp += uint(hp)` in 64-bit unsigned arithmetic,
then the cap at `MaxHP`. -/
def Character.Heal (c : Character) (hp : Int) : Character :=
  let hp1 := (c.Stats.Hp + uintOfInt hp) % 2 ^ 64
  if hp1 > c.Stats.MaxHP then { c with Stats := { c.Stats with Hp := c.Stats.MaxHP } }
  else { c with Stats := { c.Stats with Hp := hp1 } }

end character

/-! ## Armor -/

namespace items

/-- Model of `items.ArmorType`, an `int`. -/
abbrev ArmorType := Int

/-- The constant `Leather`. -/
def Leather : ArmorType := 0
/-- The constant `StuddedLeather`. -/
def StuddedLeather : ArmorType := 1
/-- The constant `RingMail`. -/
def RingMail : ArmorType := 2
/-- The constant `ChainMail`. -/
def ChainMail : ArmorType := 3
/-- The constant `SplintMail`. -/
def SplintMail : ArmorType := 4
/-- The constant `PlateMail`. -/
def PlateMail : ArmorType := 5
/-- The constant `PlateArmor`. -/
def PlateArmor : ArmorType := 6
/-- The constant `StainlessPlateArmor`. -/
def StainlessPlateArmor : ArmorType := 7

/-- The map `armorBase`; a key that is not in the map reads as `0`. -/
def armorBase (t : ArmorType) : Int :=
  if t = Leather then 2
  else if t = StuddedLeather then 3
  else if t = RingMail then 5
  else if t = ChainMail then 6
  else if t = SplintMail then 7
  else if t = PlateMail then 9
  else if t = PlateArmor then 10
  else if t = StainlessPlateArmor then 12
  else 0

/-- Model of `items.ArmorClass`: the field `Type` (here `Typ`) and the
attribute; the embedded `DefaultItem` and `NoStats` carry nothing that `Wear` or
`TakeOff` use. -/
structure ArmorClass where
  Typ : ArmorType
  Attribute : Int
  deriving DecidableEq, Repr

/-- The map `armorName` of the displayable armor names; a key that is not in
the map reads as the empty string. -/
def armorName (t : ArmorType) : String :=
  if t = Leather then "leather"
  else if t = StuddedLeather then "studded leather"
  else if t = RingMail then "ring mail"
  else if t = ChainMail then "chain mail"
  else if t = SplintMail then "splint mail"
  else if t = PlateMail then "plate mail"
  else if t = PlateArmor then "plate armor"
  else if t = StainlessPlateArmor then "stainless plate armor"
  else ""

/-- Model of `ArmorClass.String`: the name of the type, followed by the
attribute in decimal (`strconv.Itoa`) unless it is `0`: `" -1"` for a negative
and `" +2"` for a positive attribute. -/
def ArmorClass.String (a : ArmorClass) : String :=
  if a.Attribute < 0 then armorName a.Typ ++ " " ++ toString a.Attribute
  else if a.Attribute > 0 then armorName a.Typ ++ " +" ++ toString a.Attribute
  else armorName a.Typ

/-- Model of `ArmorClass.Wear`: `c.Ac += (armorBase[a.Type] + a.Attribute)` in
64-bit signed arithmetic. -/
def ArmorClass.Wear (a : ArmorClass) (c : stats.Stats) : stats.Stats :=
  { c with Ac := wrapInt (c.Ac + wrapInt (armorBase a.Typ + a.Attribute)) }

/-- Model of `ArmorClass.TakeOff`: `c.Ac -= (armorBase[a.Type] + a.Attribute)`. -/
def ArmorClass.TakeOff (a : ArmorClass) (c : stats.Stats) : stats.Stats :=
  { c with Ac := wrapInt (c.Ac - wrapInt (armorBase a.Typ + a.Attribute)) }

end items

/-! ## Trading post -/

namespace game

/-- An entry of the table `store` of the DND store, declared outside the files
at hand: the display name `sale.String()` and the price. -/
structure Sale where
  name : String
  price : Int
  deriving DecidableEq, Repr

/-- The items as `handleSellingInv` and `validateItemSale` tell them apart by
their dynamic type: a gem with its value, a scroll and a potion with their id,
an armor, and any other item. The armor stands for the `items.Attributable`
case: it is the one type with an attribute that is declared in the files at
hand (`placeMapObjects` sets the attribute of an armor with `ResetAttr`), and its
display name contains the attribute. The display names of the other types are
declared outside the files at hand and are carried as a field. -/
inductive Item where
  | Gem (name : String) (Value : Int)
  | Scroll (name : String) (ID : Int)
  | Potion (name : String) (ID : Int)
  | Armor (a : items.ArmorClass)
  | Other (name : String)
  deriving DecidableEq, Repr

/-- The display name `t.String()`; that of an armor is `ArmorClass.String`. -/
def Item.String : Item → String
  | Item.Gem n _ => n
  | Item.Scroll n _ => n
  | Item.Potion n _ => n
  | Item.Armor a => a.String
  | Item.Other n => n

/-- The inner loop of `DNDStoreLookup`: the first sale of a row with the
display name `s`. -/
def findInRow : List Sale → String → Option Sale
  | [], _ => none
  | sale :: rest, s => if sale.name = s then some sale else findInRow rest s

/-- The two loops of `DNDStoreLookup`: the first sale of the table, row by row,
with the display name `s`. -/
def findSale : List (List Sale) → String → Option Sale
  | [], _ => none
  | row :: rest, s =>
    match findInRow row s with
    | some sale => some sale
    | none => findSale rest s

/-- Model of `Game.DNDStoreLookup`: a tenth of the price of the first sale with
the item's display name (Go division truncates), `0` when there is none. -/
def DNDStoreLookup (store : List (List Sale)) (t : Item) : Int :=
  match findSale store t.String with
  | some sale => Int.tdiv sale.price 10
  | none => 0

/-- Model of `Game.validateItemSale`: whether the sale is accepted. The item is
absent when the inventory slot is empty; `KnownPotion` and `KnownScroll` are
declared outside the files at hand. -/
def validateItemSale (KnownPotion KnownScroll : Int → Bool) : Option Item → Bool
  | none => false
  | some (Item.Potion _ id) => KnownPotion id
  | some (Item.Scroll _ id) => KnownScroll id
  | some _ => true

/-- The loop `for ; a > 0 && val < 500000; a-- { val = 14 * (67 + val) / 10 }`;
it runs at most `a` times. -/
def attrLoop : Nat → Int → Int → Int
  | 0, _, val => val
  | n + 1, a, val =>
    if a > 0 ∧ val < 500000 then
      attrLoop n (a - 1) (Int.tdiv (wrapInt (14 * wrapInt (67 + val))) 10)
    else val

/-- Model of `Game.handleSellingInv`: the value `val` offered for the item, or
nothing when the sale is refused. The method `Attr` of an armor is declared
outside the files at hand; it is modelled as reading the field `Attribute`, the
attribute that `String`, `Wear` and `TakeOff` use. -/
def handleSellingInv (store : List (List Sale)) (KnownPotion KnownScroll : Int → Bool)
    (i : Option Item) : Option Int :=
  if validateItemSale KnownPotion KnownScroll i then
    match i with
    | none => none
    | some t =>
      let dndPrice := DNDStoreLookup store t
      match t with
      | Item.Gem _ v => some (wrapInt (20 * v))
      | Item.Scroll _ _ => some (wrapInt (2 * dndPrice))
      | Item.Potion _ _ => some (wrapInt (2 * dndPrice))
      | Item.Armor a =>
        if a.Attribute ≥ 0 then
          some (attrLoop a.Attribute.toNat a.Attribute (wrapInt (dndPrice * 2)))
        else some dndPrice
      | Item.Other _ => some dndPrice
  else none

end game


/-! ## Sample data for the character, the armor and the trading post -/

/-- Sample statistics: a character at full health, `Hp = MaxHP = 5`. -/
def sampleStats : stats.Stats :=
  { Level := 1, Exp := 0, Gold := 0, Hp := 5, MaxHP := 5, Ac := 0, Spells := 1, MaxSpells := 1,
    Str := 12, Intelligence := 12, Wisdom := 12, Con := 12, Dex := 12, Cha := 12 }

/-- Sample store table; the table `store` is declared outside the files at
hand. It lists an armor under the name of its type, the display name of an
armor with attribute `0`. -/
def sampleStore : List (List game.Sale) :=
  [[⟨"leather", 20⟩, ⟨"studded leather", 100⟩], [⟨"potion of healing", 90⟩]]

/-! ## The carver with a record of attempts and nesting -/

/-- The loop of `eat` together with two results that the program itself does
not compute: the directions attempted by the invocation that runs this loop, in
order, and the deepest nesting of invocations reached while it runs, the
invocation itself being at depth `d`. The grid and the random source are those
of `eatLoop`. -/
def eatLoopTrace (K : Consts) :
    Nat → Nat → Coordinate → Int → Int → Grid → Rng → Res (Grid × Rng × List Int × Nat)
  | 0, _, _, _, _, _, _ => Res.timeout
  | fuel + 1, d, c, dir, tries, lvl, g =>
    if tries > 0 then
      match eatTarget K c dir with
      | none => Res.crash
      | some (edge, a, b) =>
        match eatBlocked edge a b lvl with
        | Res.ok true =>
          match eatLoopTrace K fuel d c (nextDir dir tries).1 (nextDir dir tries).2 lvl g with
          | Res.ok (lvl', g', ds, m) => Res.ok (lvl', g', dir :: ds, m)
          | Res.crash => Res.crash
          | Res.timeout => Res.timeout
        | Res.ok false =>
          match carve2 a b lvl with
          | Res.ok lvl1 =>
            match g.Intn 4 with
            | Res.ok (r, g1) =>
              match eatLoopTrace K fuel (d + 1) b (r + 1) 2 lvl1 g1 with
              | Res.ok (lvl2, g2, _, m1) =>
                match eatLoopTrace K fuel d c (nextDir dir tries).1 (nextDir dir tries).2
                    lvl2 g2 with
                | Res.ok (lvl', g', ds, m2) => Res.ok (lvl', g', dir :: ds, max m1 m2)
                | Res.crash => Res.crash
                | Res.timeout => Res.timeout
              | Res.crash => Res.crash
              | Res.timeout => Res.timeout
            | Res.crash => Res.crash
            | Res.timeout => Res.timeout
          | Res.crash => Res.crash
          | Res.timeout => Res.timeout
        | Res.crash => Res.crash
        | Res.timeout => Res.timeout
    else Res.ok (lvl, g, [], d)

/-- The invocation `eat(c, lvl)` with its record: the first invocation is at
depth 1. -/
def eatTrace (K : Consts) (fuel : Nat) (c : Coordinate) (lvl : Grid) (g : Rng) :
    Res (Grid × Rng × List Int × Nat) :=
  match g.Intn 4 with
  | Res.ok (r, g1) => eatLoopTrace K fuel 1 c (r + 1) 2 lvl g1
  | Res.crash => Res.crash
  | Res.timeout => Res.timeout

/-! ## Orders of the perimeter of a room -/

/-- The order `column by column from the left, top to bottom within a column`
on coordinates. -/
def colMajorLt (p q : Coordinate) : Prop := p.X < q.X ∨ (p.X = q.X ∧ p.Y < q.Y)

/-- The perimeter cells of the `w` by `h` room at origin `(x, y)` in the order of
the door search of `makeRoom`: column by column from the left, top to bottom
within a column, each cell once. -/
def perimColMajor (w h x y : Int) : List Coordinate :=
  ((List.range w.toNat).flatMap fun (a : Nat) =>
    (List.range h.toNat).map fun (b : Nat) => (⟨x + (a : Int), y + (b : Int)⟩ : Coordinate)).filter
      (fun p => onPerimeter w h x y p.X p.Y)

/-- The reading of the spec: the perimeter cells of the room in row-major
order, row by row from the top, left to right within a row, each cell once. -/
def perimRowMajor (w h x y : Int) : List Coordinate :=
  ((List.range h.toNat).flatMap fun (b : Nat) =>
    (List.range w.toNat).map fun (a : Nat) => (⟨x + (a : Int), y + (b : Int)⟩ : Coordinate)).filter
      (fun p => onPerimeter w h x y p.X p.Y)

/-! ## The treasure rooms with a record of the rooms built -/

/-- The arguments of one call of `makeRoom`: width, height and origin. -/
structure Room where
  w : Int
  h : Int
  x : Int
  y : Int
  deriving DecidableEq, Repr

/-- The cell `(a, b)` belongs to the rectangle of the room: to its walls, its
door or its interior. -/
def Room.covers (r : Room) (a b : Int) : Prop :=
  (r.x ≤ a ∧ a < r.x + r.w) ∧ (r.y ≤ b ∧ b < r.y + r.h)

/-- The loop of `treasureRoom` together with a result that the program itself
does not compute: the rooms built, in order. The grid and the random source are
those of `treasureLoop`. -/
def treasureLoopRooms (K : Consts) : Nat → Int → Grid → Rng → Res (Grid × Rng × List Room)
  | 0, _, _, _ => Res.timeout
  | n + 1, x, m, g =>
    if x < K.width - 10 then
      match g.Intn 13 with
      | Res.ok (r, g1) =>
        if r = 0 then
          match g1.Intn 6 with
          | Res.ok (tw, g2) =>
            match g2.Intn 6 with
            | Res.ok (th, g3) =>
              match g3.Intn (K.height - 10) with
              | Res.ok (y, g4) =>
                match g4.Intn 9 with
                | Res.ok (gl, g5) =>
                  match makeRoom K (tw + 4) (th + 4) x (y + 2) (gl + 1) m g5 with
                  | Res.ok (m1, g6) =>
                    match treasureLoopRooms K n (x + 10) m1 g6 with
                    | Res.ok (m', g', rooms) =>
                      Res.ok (m', g', { w := tw + 4, h := th + 4, x := x, y := y + 2 } :: rooms)
                    | Res.crash => Res.crash
                    | Res.timeout => Res.timeout
                  | Res.crash => Res.crash
                  | Res.timeout => Res.timeout
                | Res.crash => Res.crash
                | Res.timeout => Res.timeout
              | Res.crash => Res.crash
              | Res.timeout => Res.timeout
            | Res.crash => Res.crash
            | Res.timeout => Res.timeout
          | Res.crash => Res.crash
          | Res.timeout => Res.timeout
        else treasureLoopRooms K n (x + 10) m g1
      | Res.crash => Res.crash
      | Res.timeout => Res.timeout
    else Res.ok (m, g, [])

/-- The call `treasureRoom(m)` with its record of rooms. -/
def treasureRoomRooms (K : Consts) (m : Grid) (g : Rng) : Res (Grid × Rng × List Room) :=
  match g.Intn 10 with
  | Res.ok (r, g1) => treasureLoopRooms K (K.width.toNat + 1) (2 + r) m g1
  | Res.crash => Res.crash
  | Res.timeout => Res.timeout

/-- Constants of the smallest level that `treasureRoom` accepts: 13 by 11. -/
def treasureConsts : Consts := { width := 13, height := 11, DEBUG := false }

/-! ## Connectivity of the floor -/

/-- The cell at `p` is an `Empty` cell. -/
def Grid.IsEmptyAt (lvl : Grid) (p : Coordinate) : Prop :=
  ∃ v, lvl.cell? p.X p.Y = some (Cell.Empty v)

/-- The cell at `p` is a `Wall`. -/
def Grid.IsWallAt (lvl : Grid) (p : Coordinate) : Prop :=
  ∃ v, lvl.cell? p.X p.Y = some (Cell.Wall v)

/-- Orthogonal adjacency of two coordinates. -/
def Coordinate.Adjacent (p q : Coordinate) : Prop :=
  (p.X = q.X ∧ (p.Y = q.Y + 1 ∨ q.Y = p.Y + 1)) ∨ (p.Y = q.Y ∧ (p.X = q.X + 1 ∨ q.X = p.X + 1))

/-- One step of a path of floor: two orthogonally adjacent `Empty` cells. -/
def Grid.EmptyStep (lvl : Grid) (p q : Coordinate) : Prop :=
  lvl.IsEmptyAt p ∧ lvl.IsEmptyAt q ∧ p.Adjacent q

/-- The cells `p` and `q` are joined by a path of orthogonally adjacent `Empty`
cells. -/
def Grid.Joined (lvl : Grid) (p q : Coordinate) : Prop :=
  Relation.ReflTransGen lvl.EmptyStep p q

/-- The set of `Empty` cells is fully connected: any two `Empty` cells are
joined by a path of orthogonally adjacent `Empty` cells. -/
def Grid.Connected (lvl : Grid) : Prop :=
  ∀ p q, lvl.IsEmptyAt p → lvl.IsEmptyAt q → lvl.Joined p q

/-- The attempt of `eat` at `c` in direction `d` would break out of the switch:
the edge test holds or one of the two target cells is not a wall. -/
def eatBlockedAt (K : Consts) (lvl : Grid) (c : Coordinate) (d : Int) : Prop :=
  ∀ edge a b, eatTarget K c d = some (edge, a, b) →
    edge = true ∨ ¬ lvl.IsWallAt a ∨ ¬ lvl.IsWallAt b

/-- Every floor cell between two cells of odd coordinates has floor on both
sides along its corridor, the start cell `(1,1)` excepted. -/
def MazeStruct (lvl : Grid) : Prop :=
  ∀ p : Coordinate, lvl.IsEmptyAt p →
    (p.X % 2 = 0 → p.Y % 2 = 1 →
      (lvl.IsEmptyAt ⟨p.X - 1, p.Y⟩ ∨ (⟨p.X - 1, p.Y⟩ : Coordinate) = ⟨1, 1⟩) ∧
      (lvl.IsEmptyAt ⟨p.X + 1, p.Y⟩ ∨ (⟨p.X + 1, p.Y⟩ : Coordinate) = ⟨1, 1⟩)) ∧
    (p.X % 2 = 1 → p.Y % 2 = 0 →
      (lvl.IsEmptyAt ⟨p.X, p.Y - 1⟩ ∨ (⟨p.X, p.Y - 1⟩ : Coordinate) = ⟨1, 1⟩) ∧
      (lvl.IsEmptyAt ⟨p.X, p.Y + 1⟩ ∨ (⟨p.X, p.Y + 1⟩ : Coordinate) = ⟨1, 1⟩))

/-- Every cell of the `width` by `height` area is a `Wall` or an `Empty`
cell. -/
def WallOrEmpty (K : Consts) (lvl : Grid) : Prop :=
  ∀ p : Coordinate, (0 ≤ p.X ∧ p.X < K.width) → (0 ≤ p.Y ∧ p.Y < K.height) →
    lvl.IsWallAt p ∨ lvl.IsEmptyAt p

/-! ## Damage and sequences of placements -/

/-- Model of `Character.Damage`: the character after the call and the returned
flag. The subtraction `Hp -= uint(dmg)` is that of 64-bit unsigned
arithmetic. -/
def character.Character.Damage (c : character.Character) (dmg : Int) :
    character.Character × Bool :=
  if dmg ≤ 0 then (c, false)
  else if uintOfInt dmg > c.Stats.Hp then
    ({ c with Stats := { c.Stats with Hp := 0 } }, true)
  else
    ({ c with Stats := { c.Stats with Hp := (c.Stats.Hp + 2 ^ 64 - uintOfInt dmg) % 2 ^ 64 } },
      false)

/-- The test for a cell that is not an `Empty` cell: a wall, a door, stairs, an
entrance, an item or a monster. -/
def Cell.isOccupied (c : Cell) : Bool := !c.isEmpty

/-- A sequence of calls `placeObject(c, o, lvl)` on the shared grid, one for
each seed and object of the list, in order; the two results of every call are
discarded. -/
def placeObjects (K : Consts) (fuel : Nat) :
    List (Coordinate × Cell) → Grid → Rng → Res (Grid × Rng)
  | [], lvl, g => Res.ok (lvl, g)
  | (c, o) :: rest, lvl, g =>
    match placeObject K fuel c o lvl g with
    | Res.ok (_, _, lvl1, g1) => placeObjects K fuel rest lvl1 g1
    | Res.crash => Res.crash
    | Res.timeout => Res.timeout

/-! ## The maze on the odd lattice -/

/-- Every floor cell between two cells of odd coordinates, the cell `a0` apart,
has floor on both sides along its corridor. -/
def CorridorStruct (a0 : Coordinate) (lvl : Grid) : Prop :=
  ∀ p : Coordinate, lvl.IsEmptyAt p → p ≠ a0 →
    (p.X % 2 = 0 → p.Y % 2 = 1 →
      lvl.IsEmptyAt ⟨p.X - 1, p.Y⟩ ∧ lvl.IsEmptyAt ⟨p.X + 1, p.Y⟩) ∧
    (p.X % 2 = 1 → p.Y % 2 = 0 →
      lvl.IsEmptyAt ⟨p.X, p.Y - 1⟩ ∧ lvl.IsEmptyAt ⟨p.X, p.Y + 1⟩)

/-! # Verification -/

/-! ## Basic facts about outcomes and grids -/

@[simp] theorem Res.pure_eq {α : Type} (a : α) : (pure a : Res α) = Res.ok a := rfl

@[simp] theorem Res.ok_bind {α β : Type} (a : α) (f : α → Res β) :
    (Res.ok a >>= f) = f a := rfl

@[simp] theorem Res.crash_bind {α β : Type} (f : α → Res β) :
    ((Res.crash : Res α) >>= f) = Res.crash := rfl

@[simp] theorem Res.timeout_bind {α β : Type} (f : α → Res β) :
    ((Res.timeout : Res α) >>= f) = Res.timeout := rfl

theorem Res.bind_eq_ok {α β : Type} {r : Res α} {f : α → Res β} {b : β} :
    (r >>= f) = Res.ok b ↔ ∃ a, r = Res.ok a ∧ f a = Res.ok b := by
  cases r <;> simp

theorem Res.ofOption_eq_ok {α : Type} {o : Option α} {a : α} :
    Res.ofOption o = Res.ok a ↔ o = some a := by
  cases o <;> simp [Res.ofOption]

theorem Res.ofOption_ne_timeout {α : Type} (o : Option α) :
    Res.ofOption o ≠ Res.timeout := by
  cases o <;> simp [Res.ofOption]

theorem Grid.cell?_write? {lvl lvl' : Grid} {x y : Int} {o : Cell}
    (h : lvl.write? x y o = some lvl') (x' y' : Int) :
    lvl'.cell? x' y' = if x' = x ∧ y' = y then some o else lvl.cell? x' y' := by
  unfold Grid.write? at h
  split at h
  · rename_i hxy
    split at h
    · rename_i row hrow
      split at h
      · rename_i hlt
        simp only [Option.some.injEq] at h
        subst h
        have hylt : y.toNat < lvl.length := by
          rcases List.getElem?_eq_some.1 hrow with ⟨hl, _⟩
          exact hl
        unfold Grid.cell?
        by_cases hn : 0 ≤ x' ∧ 0 ≤ y'
        · simp only [hn, and_self, if_true]
          by_cases hy : y' = y
          · subst hy
            rw [List.getElem?_set_self hylt]
            by_cases hx : x' = x
            · subst hx
              simp [List.getElem?_set_self hlt]
            · have : x.toNat ≠ x'.toNat := by omega
              simp [hx, List.getElem?_set_ne this, hrow]
          · have : y.toNat ≠ y'.toNat := by omega
            simp [hy, List.getElem?_set_ne this]
        · have : ¬ (x' = x ∧ y' = y) := by
            rintro ⟨rfl, rfl⟩
            exact hn hxy
          simp [hn, this]
      · simp at h
    · simp at h
  · simp at h

theorem Grid.write?_isSome {lvl : Grid} {x y : Int} {v : Cell} (o : Cell)
    (h : lvl.cell? x y = some v) : ∃ lvl', lvl.write? x y o = some lvl' := by
  unfold Grid.cell? at h
  unfold Grid.write?
  split at h
  · rename_i hxy
    split at h
    · rename_i row hrow
      rcases List.getElem?_eq_some.1 h with ⟨hl, _⟩
      simp [hxy, hrow, hl]
    · simp at h
  · simp at h

theorem Grid.cell?_of_write? {lvl lvl' : Grid} {x y : Int} {o : Cell}
    (h : lvl.write? x y o = some lvl') : ∃ v, lvl.cell? x y = some v := by
  unfold Grid.write? at h
  unfold Grid.cell?
  split at h
  · rename_i hxy
    split at h
    · rename_i row hrow
      split at h
      · rename_i hlt
        exact ⟨row[x.toNat], by simp [hxy, hrow, List.getElem?_eq_getElem hlt]⟩
      · simp at h
    · simp at h
  · simp at h

theorem Grid.get_eq_ok {lvl : Grid} {c : Coordinate} {v : Cell} :
    lvl.get c = Res.ok v ↔ lvl.cell? c.X c.Y = some v := by
  simp [Grid.get, Res.ofOption_eq_ok]

theorem Grid.put_eq_ok {lvl lvl' : Grid} {c : Coordinate} {o : Cell} :
    lvl.put c o = Res.ok lvl' ↔ lvl.write? c.X c.Y o = some lvl' := by
  simp [Grid.put, Res.ofOption_eq_ok]

theorem walkToEmpty_lands_on_empty (K : Consts) (lvl : Grid) :
    ∀ (fuel : Nat) (c : Coordinate) (g : Rng) (c' : Coordinate) (g' : Rng),
      walkToEmpty K fuel c lvl g = Res.ok (c', g') →
      ∃ v, lvl.cell? c'.X c'.Y = some (Cell.Empty v) := by
  intro fuel
  induction fuel with
  | zero => intro c g c' g' h; simp [walkToEmpty] at h
  | succ n ih =>
    intro c g c' g' h
    unfold walkToEmpty at h
    split at h
    · rename_i o ho
      split at h
      · rename_i he
        simp only [Res.ok.injEq, Prod.mk.injEq] at h
        obtain ⟨rfl, rfl⟩ := h
        rw [Grid.get_eq_ok] at ho
        cases o <;> simp [Cell.isEmpty] at he
        exact ⟨_, ho⟩
      · split at h
        · split at h
          · exact ih _ _ _ _ h
          · simp at h
          · simp at h
        · simp at h
        · simp at h
    · simp at h
    · simp at h

theorem walkToEmpty_of_empty (K : Consts) (lvl : Grid) (n : Nat) (c : Coordinate) (g : Rng)
    (v : Bool) (h : lvl.cell? c.X c.Y = some (Cell.Empty v)) :
    walkToEmpty K (n + 1) c lvl g = Res.ok (c, g) := by
  have : lvl.get c = Res.ok (Cell.Empty v) := Grid.get_eq_ok.2 h
  simp [walkToEmpty, this, Cell.isEmpty]

/-- C2: whenever `walkToEmpty` returns a coordinate, the cell of the grid at that
coordinate is an `Empty` cell (the walk only reads the grid, which is why the
model hands back no grid); and when the seed cell is already `Empty`, the seed
itself is returned together with the untouched random source, for every positive
amount of fuel. -/
theorem walkToEmpty_result (K : Consts) (fuel : Nat) (c : Coordinate) (lvl : Grid) (g : Rng)
    (c' : Coordinate) (g' : Rng) (h : walkToEmpty K fuel c lvl g = Res.ok (c', g')) :
    (∃ v, lvl.cell? c'.X c'.Y = some (Cell.Empty v)) ∧
    ((∃ v, lvl.cell? c.X c.Y = some (Cell.Empty v)) →
      c' = c ∧ g' = g ∧ ∀ n, walkToEmpty K (n + 1) c lvl g = Res.ok (c, g)) := by
  refine ⟨walkToEmpty_lands_on_empty K lvl fuel c g c' g' h, ?_⟩
  rintro ⟨v, hv⟩
  have h1 : ∀ n, walkToEmpty K (n + 1) c lvl g = Res.ok (c, g) :=
    fun n => walkToEmpty_of_empty K lvl n c g v hv
  cases fuel with
  | zero => simp [walkToEmpty] at h
  | succ n =>
    rw [h1 n] at h
    simp only [Res.ok.injEq, Prod.mk.injEq] at h
    exact ⟨h.1.symm, h.2.symm, h1⟩

/-- Witness of C2: a walk from the wall cell `(1,1)` of the corridor level that
returns the floor cell `(1,3)` after two moves. -/
theorem walkToEmpty_result_witness :
    walkToEmpty smallConsts 5 ⟨1, 1⟩ corridorGrid (Rng.replay [2, 1, 2, 1]) =
        Res.ok (⟨1, 3⟩, { src := (Rng.replay [2, 1, 2, 1]).src, pos := 4 }) ∧
      (∃ v, corridorGrid.cell? 1 3 = some (Cell.Empty v)) :=
  ⟨rfl, (walkToEmpty_result smallConsts 5 ⟨1, 1⟩ corridorGrid (Rng.replay [2, 1, 2, 1])
    ⟨1, 3⟩ { src := (Rng.replay [2, 1, 2, 1]).src, pos := 4 } rfl).1⟩

theorem placeObject_eq_ok {K : Consts} {fuel : Nat} {seed : Coordinate} {o : Cell}
    {lvl : Grid} {g : Rng} {c : Coordinate} {d : Cell} {lvl' : Grid} {g' : Rng}
    (h : placeObject K fuel seed o lvl g = Res.ok (c, d, lvl', g')) :
    walkToEmpty K fuel seed lvl g = Res.ok (c, g') ∧ lvl.cell? c.X c.Y = some d ∧
      lvl.write? c.X c.Y (o.setVisible K.DEBUG) = some lvl' := by
  unfold placeObject at h
  rcases Res.bind_eq_ok.1 h with ⟨⟨c1, g1⟩, hw, h2⟩
  rcases Res.bind_eq_ok.1 h2 with ⟨d1, hd, h3⟩
  rcases Res.bind_eq_ok.1 h3 with ⟨l1, hl, h4⟩
  simp only [Res.pure_eq, Res.ok.injEq, Prod.mk.injEq] at h4
  obtain ⟨rfl, rfl, rfl, rfl⟩ := h4
  exact ⟨hw, Grid.get_eq_ok.1 hd, Grid.put_eq_ok.1 hl⟩

/-- C1: whenever `placeObject` returns `(c, d)`, the cell at `c` after the call
is the placed object `o` (in the state its `Visible(DEBUG)` call leaves it in),
and `d` is the content the cell at `c` held before the call, which is an
`Empty` cell. -/
theorem placeObject_post (K : Consts) (fuel : Nat) (seed : Coordinate) (o : Cell)
    (lvl : Grid) (g : Rng) (c : Coordinate) (d : Cell) (lvl' : Grid) (g' : Rng)
    (h : placeObject K fuel seed o lvl g = Res.ok (c, d, lvl', g')) :
    lvl'.cell? c.X c.Y = some (o.setVisible K.DEBUG) ∧
      lvl.cell? c.X c.Y = some d ∧ d.isEmpty = true := by
  obtain ⟨hw, hd, hl⟩ := placeObject_eq_ok h
  refine ⟨?_, hd, ?_⟩
  · rw [Grid.cell?_write? hl]; simp
  · obtain ⟨v, hv⟩ := walkToEmpty_lands_on_empty K lvl fuel seed g c g' hw
    rw [hv] at hd
    simp only [Option.some.injEq] at hd
    subst hd
    rfl

/-- Witness of C1: placing a chest from the wall cell `(1,1)` of the corridor
level lands on the floor cell `(1,3)`. -/
theorem placeObject_post_witness :
    ∃ lvl' g', placeObject smallConsts 5 ⟨1, 1⟩ (Cell.Item ItemKind.chest 1 true)
        corridorGrid (Rng.replay [2, 1, 2, 1]) = Res.ok (⟨1, 3⟩, Cell.Empty false, lvl', g') ∧
      lvl'.cell? 1 3 = some (Cell.Item ItemKind.chest 1 false) ∧
      corridorGrid.cell? 1 3 = some (Cell.Empty false) :=
  ⟨_, _, rfl, (placeObject_post smallConsts 5 ⟨1, 1⟩ (Cell.Item ItemKind.chest 1 true)
    corridorGrid (Rng.replay [2, 1, 2, 1]) ⟨1, 3⟩ (Cell.Empty false) _ _ rfl).1,
    (placeObject_post smallConsts 5 ⟨1, 1⟩ (Cell.Item ItemKind.chest 1 true)
    corridorGrid (Rng.replay [2, 1, 2, 1]) ⟨1, 3⟩ (Cell.Empty false) _ _ rfl).2.1⟩

theorem Rng.Intn_of_pos {g : Rng} {n : Int} (h : 0 < n) :
    g.Intn n = Res.ok ((g.src g.pos : Int) % n, { src := g.src, pos := g.pos + 1 }) := by
  unfold Rng.Intn
  rw [if_neg (by omega)]

theorem Grid.cell?_of_dims {lvl : Grid} {W H : Nat} (hd : lvl.HasDims W H) {x y : Int}
    (hx : 0 ≤ x ∧ x < W) (hy : 0 ≤ y ∧ y < H) : ∃ v, lvl.cell? x y = some v := by
  obtain ⟨hlen, hrow⟩ := hd
  have hy' : y.toNat < lvl.length := by omega
  have hr : (lvl[y.toNat]).length = W := hrow _ (List.getElem_mem hy')
  have hx' : x.toNat < (lvl[y.toNat]).length := by omega
  refine ⟨(lvl[y.toNat])[x.toNat], ?_⟩
  unfold Grid.cell?
  simp [hx.1, hy.1, List.getElem?_eq_getElem hy', List.getElem?_eq_getElem hx']

theorem canReturn_of_empty {K : Consts} {lvl : Grid} {c : Coordinate} {v : Bool}
    (h : lvl.cell? c.X c.Y = some (Cell.Empty v)) : CanReturn K lvl c := by
  intro pos src0
  exact ⟨src0, 1, c, _, fun _ _ => rfl, walkToEmpty_of_empty K lvl 0 c _ v h⟩

theorem canReturn_step {K : Consts} {lvl : Grid} {c : Coordinate} (a b : Nat)
    (hc : ∃ v, lvl.cell? c.X c.Y = some v)
    (hn : CanReturn K lvl (walkStep K c ((a : Int) % 3 - 2) ((b : Int) % 3 - 2))) :
    CanReturn K lvl c := by
  obtain ⟨v, hv⟩ := hc
  by_cases he : v.isEmpty = true
  · cases v <;> simp [Cell.isEmpty] at he
    exact canReturn_of_empty hv
  · intro pos src0
    let src1 : Nat → Nat := fun i => if i = pos then a else if i = pos + 1 then b else src0 i
    obtain ⟨src, fuel, c', g', hagree, hw⟩ := hn (pos + 2) src1
    refine ⟨src, fuel + 1, c', g', ?_, ?_⟩
    · intro i hi
      rw [hagree i (by omega)]
      simp only [src1]
      rw [if_neg (by omega), if_neg (by omega)]
    · have h0 : src pos = a := by
        rw [hagree pos (by omega)]; simp [src1]
      have h1 : src (pos + 1) = b := by
        rw [hagree (pos + 1) (by omega)]; simp [src1]
      have hg : lvl.get c = Res.ok v := Grid.get_eq_ok.2 hv
      unfold walkToEmpty
      simp only [hg, he, Rng.Intn_of_pos (show (0 : Int) < 3 by norm_num), h0, h1]
      simpa using hw

theorem walkStep_draws (K : Consts) (c : Coordinate) (a b : Nat) (ha : a < 3) (hb : b < 3) :
    walkStep K c ((a : Int) % 3 - 2) ((b : Int) % 3 - 2) =
      ⟨(if c.X + (2 - (a : Int)) > K.width - 2 then 1
          else if c.X + (2 - (a : Int)) < 1 then K.width - 2 else c.X + (2 - (a : Int))),
        (if c.Y + (2 - (b : Int)) > K.height - 2 then 1
          else if c.Y + (2 - (b : Int)) < 1 then K.height - 2 else c.Y + (2 - (b : Int)))⟩ := by
  have ea : (a : Int) % 3 = a := by omega
  have eb : (b : Int) % 3 = b := by omega
  unfold walkStep
  rw [ea, eb]
  have h1 : ¬ ((a : Int) - 2 > 0) := by omega
  have h2 : ¬ ((b : Int) - 2 > 0) := by omega
  simp only [h1, h2, if_false]
  have e1 : c.X - ((a : Int) - 2) = c.X + (2 - (a : Int)) := by omega
  have e2 : c.Y - ((b : Int) - 2) = c.Y + (2 - (b : Int)) := by omega
  rw [e1, e2]
  congr 1
  · split_ifs <;> omega
  · split_ifs <;> omega

/-- Moving along a row: from an interior cell the walk can be steered to any
interior column of the same row. -/
theorem canReturn_row {K : Consts} {lvl : Grid} {W H : Nat} (hd : lvl.HasDims W H)
    (hW : K.width = W) (hH : K.height = H) (y tx : Int)
    (hy : 1 ≤ y ∧ y ≤ (H : Int) - 2) (htx : 1 ≤ tx ∧ tx ≤ (W : Int) - 2)
    (ht : CanReturn K lvl ⟨tx, y⟩) :
    ∀ x : Int, 1 ≤ x → x ≤ (W : Int) - 2 → CanReturn K lvl ⟨x, y⟩ := by
  have hstep : ∀ x : Int, 1 ≤ x → x ≤ (W : Int) - 2 →
      CanReturn K lvl ⟨(if x + 1 > (W : Int) - 2 then 1 else x + 1), y⟩ →
      CanReturn K lvl ⟨x, y⟩ := by
    intro x hx1 hx2 hn
    apply canReturn_step 1 2 (Grid.cell?_of_dims hd (x := x) (y := y) (by omega) (by omega))
    rw [walkStep_draws K _ 1 2 (by omega) (by omega)]
    simp only [hW, hH]
    have e : (⟨(if x + (2 - ((1 : Nat) : Int)) > (W : Int) - 2 then 1
          else if x + (2 - ((1 : Nat) : Int)) < 1 then (W : Int) - 2 else x + (2 - ((1 : Nat) : Int))),
        (if y + (2 - ((2 : Nat) : Int)) > (H : Int) - 2 then 1
          else if y + (2 - ((2 : Nat) : Int)) < 1 then (H : Int) - 2 else y + (2 - ((2 : Nat) : Int)))⟩ : Coordinate)
        = ⟨(if x + 1 > (W : Int) - 2 then 1 else x + 1), y⟩ := by
      congr 1
      · split_ifs <;> omega
      · split_ifs <;> omega
    rw [e]
    exact hn
  -- columns at or left of the target
  have hup : ∀ (n : Nat) (x : Int), 1 ≤ x → x + n = tx → CanReturn K lvl ⟨x, y⟩ := by
    intro n
    induction n with
    | zero =>
      intro x _ hx
      have : x = tx := by omega
      rw [this]; exact ht
    | succ n ih =>
      intro x hx1 hx
      apply hstep x hx1 (by omega)
      rw [if_neg (by omega)]
      exact ih (x + 1) (by omega) (by push_cast at hx; omega)
  -- columns right of the target wrap around through column 1
  have hone : CanReturn K lvl ⟨1, y⟩ := hup (tx - 1).toNat 1 (by omega) (by omega)
  have hwrap : ∀ (n : Nat) (x : Int), 1 ≤ x → x + n = (W : Int) - 2 → CanReturn K lvl ⟨x, y⟩ := by
    intro n
    induction n with
    | zero =>
      intro x hx1 hx
      apply hstep x hx1 (by omega)
      rw [if_pos (by omega)]
      exact hone
    | succ n ih =>
      intro x hx1 hx
      apply hstep x hx1 (by omega)
      rw [if_neg (by push_cast at hx; omega)]
      exact ih (x + 1) (by omega) (by push_cast at hx; omega)
  intro x hx1 hx2
  exact hwrap ((W : Int) - 2 - x).toNat x hx1 (by omega)

/-- Moving along a column: from an interior cell the walk can be steered to any
interior row of the same column. -/
theorem canReturn_col {K : Consts} {lvl : Grid} {W H : Nat} (hd : lvl.HasDims W H)
    (hW : K.width = W) (hH : K.height = H) (x ty : Int)
    (hx : 1 ≤ x ∧ x ≤ (W : Int) - 2) (hty : 1 ≤ ty ∧ ty ≤ (H : Int) - 2)
    (ht : CanReturn K lvl ⟨x, ty⟩) :
    ∀ y : Int, 1 ≤ y → y ≤ (H : Int) - 2 → CanReturn K lvl ⟨x, y⟩ := by
  have hstep : ∀ y : Int, 1 ≤ y → y ≤ (H : Int) - 2 →
      CanReturn K lvl ⟨x, (if y + 1 > (H : Int) - 2 then 1 else y + 1)⟩ →
      CanReturn K lvl ⟨x, y⟩ := by
    intro y hy1 hy2 hn
    apply canReturn_step 2 1 (Grid.cell?_of_dims hd (x := x) (y := y) (by omega) (by omega))
    rw [walkStep_draws K _ 2 1 (by omega) (by omega)]
    simp only [hW, hH]
    have e : (⟨(if x + (2 - ((2 : Nat) : Int)) > (W : Int) - 2 then 1
          else if x + (2 - ((2 : Nat) : Int)) < 1 then (W : Int) - 2 else x + (2 - ((2 : Nat) : Int))),
        (if y + (2 - ((1 : Nat) : Int)) > (H : Int) - 2 then 1
          else if y + (2 - ((1 : Nat) : Int)) < 1 then (H : Int) - 2 else y + (2 - ((1 : Nat) : Int)))⟩ : Coordinate)
        = ⟨x, (if y + 1 > (H : Int) - 2 then 1 else y + 1)⟩ := by
      congr 1
      · split_ifs <;> omega
      · split_ifs <;> omega
    rw [e]
    exact hn
  have hup : ∀ (n : Nat) (y : Int), 1 ≤ y → y + n = ty → CanReturn K lvl ⟨x, y⟩ := by
    intro n
    induction n with
    | zero =>
      intro y _ hy
      have : y = ty := by omega
      rw [this]; exact ht
    | succ n ih =>
      intro y hy1 hy
      apply hstep y hy1 (by omega)
      rw [if_neg (by omega)]
      exact ih (y + 1) (by omega) (by push_cast at hy; omega)
  have hone : CanReturn K lvl ⟨x, 1⟩ := hup (ty - 1).toNat 1 (by omega) (by omega)
  have hwrap : ∀ (n : Nat) (y : Int), 1 ≤ y → y + n = (H : Int) - 2 → CanReturn K lvl ⟨x, y⟩ := by
    intro n
    induction n with
    | zero =>
      intro y hy1 hy
      apply hstep y hy1 (by omega)
      rw [if_pos (by omega)]
      exact hone
    | succ n ih =>
      intro y hy1 hy
      apply hstep y hy1 (by omega)
      rw [if_neg (by push_cast at hy; omega)]
      exact ih (y + 1) (by omega) (by push_cast at hy; omega)
  intro y hy1 hy2
  exact hwrap ((H : Int) - 2 - y).toNat y hy1 (by omega)

/-- From every in-range seed the walk can be steered to any interior `Empty`
cell, or stops before at another one. -/
theorem canReturn_of_interior_empty {K : Consts} {lvl : Grid} {W H : Nat}
    (hd : lvl.HasDims W H) (hW : K.width = W) (hH : K.height = H)
    (t : Coordinate) (htx : 1 ≤ t.X ∧ t.X ≤ (W : Int) - 2) (hty : 1 ≤ t.Y ∧ t.Y ≤ (H : Int) - 2)
    (v : Bool) (hE : lvl.cell? t.X t.Y = some (Cell.Empty v))
    (seed : Coordinate) (hsx : 0 ≤ seed.X ∧ seed.X < W) (hsy : 0 ≤ seed.Y ∧ seed.Y < H) :
    CanReturn K lvl seed := by
  have ht : CanReturn K lvl ⟨t.X, t.Y⟩ := canReturn_of_empty hE
  have hinterior : ∀ x y : Int, 1 ≤ x → x ≤ (W : Int) - 2 → 1 ≤ y → y ≤ (H : Int) - 2 →
      CanReturn K lvl ⟨x, y⟩ := by
    intro x y hx1 hx2 hy1 hy2
    have hcol : CanReturn K lvl ⟨t.X, y⟩ :=
      canReturn_col hd hW hH t.X t.Y htx hty ht y hy1 hy2
    exact canReturn_row hd hW hH y t.X ⟨hy1, hy2⟩ htx hcol x hx1 hx2
  apply canReturn_step 2 2 (Grid.cell?_of_dims hd hsx hsy)
  rw [walkStep_draws K _ 2 2 (by omega) (by omega)]
  simp only [hW, hH]
  apply hinterior
  · split_ifs <;> omega
  · split_ifs <;> omega
  · split_ifs <;> omega
  · split_ifs <;> omega

theorem walkStep_interior (K : Consts) (c : Coordinate) (xadj yadj : Int)
    (hW : 3 ≤ K.width) (hH : 3 ≤ K.height) :
    (1 ≤ (walkStep K c xadj yadj).X ∧ (walkStep K c xadj yadj).X ≤ K.width - 2) ∧
      (1 ≤ (walkStep K c xadj yadj).Y ∧ (walkStep K c xadj yadj).Y ≤ K.height - 2) := by
  unfold walkStep
  simp only
  refine ⟨⟨?_, ?_⟩, ⟨?_, ?_⟩⟩ <;> split_ifs <;> omega

/-- On a grid without any `Empty` cell the walk from an in-range seed exhausts
every amount of fuel: it neither returns nor fails. -/
theorem walkToEmpty_no_empty {K : Consts} {lvl : Grid} {W H : Nat} (hd : lvl.HasDims W H)
    (hW : K.width = W) (hH : K.height = H) (hW3 : 3 ≤ W) (hH3 : 3 ≤ H)
    (hno : ∀ x y v, lvl.cell? x y ≠ some (Cell.Empty v)) :
    ∀ (fuel : Nat) (c : Coordinate) (g : Rng), 0 ≤ c.X ∧ c.X < W → 0 ≤ c.Y ∧ c.Y < H →
      walkToEmpty K fuel c lvl g = Res.timeout := by
  intro fuel
  induction fuel with
  | zero => intro c g _ _; rfl
  | succ n ih =>
    intro c g hx hy
    obtain ⟨v, hv⟩ := Grid.cell?_of_dims hd hx hy
    have hne : ¬ v.isEmpty = true := by
      intro he
      cases v <;> simp [Cell.isEmpty] at he
      exact hno _ _ _ hv
    have hg : lvl.get c = Res.ok v := Grid.get_eq_ok.2 hv
    unfold walkToEmpty
    simp only [hg, hne, Rng.Intn_of_pos (show (0 : Int) < 3 by norm_num), if_false]
    have hi := walkStep_interior K c ((g.src g.pos : Int) % 3 - 2)
      ((g.src (g.pos + 1) : Int) % 3 - 2) (by omega) (by omega)
    exact ih _ _ (by omega) (by omega)

theorem walkToEmpty_stalls (fuel : Nat) :
    ∀ pos : Nat, walkToEmpty smallConsts fuel ⟨1, 1⟩ corridorGrid
      { src := fun _ => 2, pos := pos } = Res.timeout := by
  induction fuel with
  | zero => intro pos; rfl
  | succ n ih =>
    intro pos
    have hg : corridorGrid.get ⟨1, 1⟩ = Res.ok (Cell.Wall false) := rfl
    have hs : walkStep smallConsts ⟨1, 1⟩ (((2 : Nat) : Int) % 3 - 2) (((2 : Nat) : Int) % 3 - 2)
        = ⟨1, 1⟩ := by decide
    unfold walkToEmpty
    rw [hg]
    simp only [Cell.isEmpty, Rng.Intn_of_pos (show (0 : Int) < 3 by norm_num), hs,
      Bool.false_eq_true, if_false]
    exact ih (pos + 1 + 1)

/-- C3 fails as stated: the corridor level has `Empty` cells and `(1,1)` is an
in-range seed, yet on the random sequence whose values are all 2 (both
adjustments zero at every step) the walk from `(1,1)` never returns: it
exhausts every amount of fuel. -/
theorem walkToEmpty_may_run_forever :
    (∃ v, corridorGrid.cell? 1 3 = some (Cell.Empty v)) ∧
      ¬ ∃ fuel : Nat, walkToEmpty smallConsts fuel ⟨1, 1⟩ corridorGrid
        { src := fun _ => 2, pos := 0 } ≠ Res.timeout := by
  refine ⟨⟨false, rfl⟩, ?_⟩
  rintro ⟨fuel, h⟩
  exact h (walkToEmpty_stalls fuel 0)

/-- C3 as amended: on a grid of `width` by `height` cells and for an in-range
seed, if some cell of the interior `[1, width-2] × [1, height-2]` is `Empty`
then there is a sequence of random values on which `walkToEmpty` returns after
finitely many steps; and if no cell at all is `Empty` then the walk runs
forever on every sequence. -/
theorem walkToEmpty_returns_for_some_draws (K : Consts) (lvl : Grid) (W H : Nat)
    (hd : lvl.HasDims W H) (hW : K.width = W) (hH : K.height = H) (hW3 : 3 ≤ W) (hH3 : 3 ≤ H)
    (seed : Coordinate) (hsx : 0 ≤ seed.X ∧ seed.X < W) (hsy : 0 ≤ seed.Y ∧ seed.Y < H) :
    ((∃ (t : Coordinate) (v : Bool), (1 ≤ t.X ∧ t.X ≤ (W : Int) - 2) ∧
          (1 ≤ t.Y ∧ t.Y ≤ (H : Int) - 2) ∧ lvl.cell? t.X t.Y = some (Cell.Empty v)) →
        ∃ (src : Nat → Nat) (fuel : Nat) (c : Coordinate) (g' : Rng),
          walkToEmpty K fuel seed lvl { src := src, pos := 0 } = Res.ok (c, g')) ∧
      ((∀ x y v, lvl.cell? x y ≠ some (Cell.Empty v)) →
        ∀ (fuel : Nat) (g : Rng), walkToEmpty K fuel seed lvl g = Res.timeout) := by
  constructor
  · rintro ⟨t, v, htx, hty, hE⟩
    obtain ⟨src, fuel, c, g', _, hw⟩ :=
      canReturn_of_interior_empty hd hW hH t htx hty v hE seed hsx hsy 0 (fun _ => 0)
    exact ⟨src, fuel, c, g', hw⟩
  · intro hno fuel g
    exact walkToEmpty_no_empty hd hW hH hW3 hH3 hno fuel seed g hsx hsy

theorem corridorGrid_dims : corridorGrid.HasDims 7 7 := by
  unfold Grid.HasDims corridorGrid
  simp

/-- Witness of the amended C3 on the corridor level: from the seed `(1,1)` the
walk returns on some sequence of random values. -/
theorem walkToEmpty_returns_for_some_draws_witness :
    corridorGrid.cell? 1 3 = some (Cell.Empty false) ∧
      ∃ (src : Nat → Nat) (fuel : Nat) (c : Coordinate) (g' : Rng),
        walkToEmpty smallConsts fuel ⟨1, 1⟩ corridorGrid { src := src, pos := 0 } =
          Res.ok (c, g') :=
  ⟨rfl, (walkToEmpty_returns_for_some_draws smallConsts corridorGrid 7 7 corridorGrid_dims
    rfl rfl (by decide) (by decide) ⟨1, 1⟩ (by decide) (by decide)).1
    ⟨⟨1, 3⟩, false, by decide, by decide, rfl⟩⟩

/-- C4: `placeRareObject(prob, o, lvl)` draws one integer `r` of `[0,151)` and
performs the placement `placeObject(randMapCoord(), o, lvl)` if and only if
`r < prob`, otherwise it leaves the grid as it is; so with `prob = 151` it
always places and with `prob = 0` it never places and the grid is unchanged. -/
theorem placeRareObject_draw (K : Consts) (fuel : Nat) (prob : Int) (o : Cell) (lvl : Grid)
    (g : Rng) :
    (0 ≤ (g.src g.pos : Int) % 151 ∧ (g.src g.pos : Int) % 151 < 151) ∧
      ((g.src g.pos : Int) % 151 < prob →
        placeRareObject K fuel prob o lvl g =
          placeRandom K fuel o lvl { src := g.src, pos := g.pos + 1 }) ∧
      (¬ (g.src g.pos : Int) % 151 < prob →
        placeRareObject K fuel prob o lvl g =
          Res.ok (lvl, { src := g.src, pos := g.pos + 1 })) ∧
      placeRareObject K fuel 151 o lvl g =
        placeRandom K fuel o lvl { src := g.src, pos := g.pos + 1 } ∧
      placeRareObject K fuel 0 o lvl g = Res.ok (lvl, { src := g.src, pos := g.pos + 1 }) := by
  have hr : 0 ≤ (g.src g.pos : Int) % 151 ∧ (g.src g.pos : Int) % 151 < 151 := by omega
  have hpos : ∀ p : Int, (g.src g.pos : Int) % 151 < p →
      placeRareObject K fuel p o lvl g =
        placeRandom K fuel o lvl { src := g.src, pos := g.pos + 1 } := by
    intro p hp
    unfold placeRareObject
    rw [Rng.Intn_of_pos (by norm_num)]
    simp [hp]
  have hneg : ∀ p : Int, ¬ (g.src g.pos : Int) % 151 < p →
      placeRareObject K fuel p o lvl g = Res.ok (lvl, { src := g.src, pos := g.pos + 1 }) := by
    intro p hp
    unfold placeRareObject
    rw [Rng.Intn_of_pos (by norm_num)]
    simp [hp]
  exact ⟨hr, hpos prob, hneg prob, hpos 151 hr.2, hneg 0 (by omega)⟩

theorem forLoop_const_body {σ : Type} (body : σ → Res σ) (spec : Nat → σ → Res σ)
    (h0 : ∀ s, spec 0 s = Res.ok s)
    (hs : ∀ n s, spec (n + 1) s =
      match body s with
      | Res.ok s1 => spec n s1
      | Res.crash => Res.crash
      | Res.timeout => Res.timeout) :
    ∀ (k : Nat) (i : Int) (s : σ), forLoop k i (fun _ s => body s) s = spec k s := by
  intro k
  induction k with
  | zero => intro i s; rw [h0]; rfl
  | succ n ih =>
    intro i s
    rw [hs]
    unfold forLoop
    beta_reduce
    cases body s <;> simp [ih]

/-- C5: `placeMultipleObjects(n, f, lvl)` is `n` rounds of one call of the
factory `f` followed by one placement of the object just produced when
`n >= 0`; for `n <= 0` the factory is not called and grid and random source are
returned unchanged. -/
theorem placeMultipleObjects_rounds (K : Consts) (fuel : Nat) (n : Int)
    (f : Rng → Res (Cell × Rng)) (lvl : Grid) (g : Rng) :
    placeMultipleObjects K fuel n f lvl g = placeRounds K fuel f n.toNat (lvl, g) ∧
      (n ≤ 0 → placeMultipleObjects K fuel n f lvl g = Res.ok (lvl, g)) := by
  have key : placeMultipleObjects K fuel n f lvl g = placeRounds K fuel f n.toNat (lvl, g) := by
    unfold placeMultipleObjects forRange
    rw [sub_zero]
    apply forLoop_const_body (fun s => do
      let (o, g) ← f s.2
      placeRandom K fuel o s.1 g) (placeRounds K fuel f)
    · intro s; rfl
    · intro k s
      conv => lhs; unfold placeRounds
      cases hf : f s.2 with
      | ok a =>
        obtain ⟨o, g1⟩ := a
        simp only [Res.ok_bind]
        cases placeRandom K fuel o s.1 g1 <;> rfl
      | crash => rfl
      | timeout => rfl
  refine ⟨key, ?_⟩
  intro hn
  rw [key, Int.toNat_eq_zero.2 hn]
  rfl

theorem forLoop_measure {σ : Type} (μ : σ → Nat) (body : Int → σ → Res σ)
    (hb : ∀ i s s', body i s = Res.ok s' → μ s' = μ s + 1) :
    ∀ (k : Nat) (i : Int) (s s' : σ), forLoop k i body s = Res.ok s' → μ s' = μ s + k := by
  intro k
  induction k with
  | zero =>
    intro i s s' h
    simp only [forLoop, Res.ok.injEq] at h
    subst h; rfl
  | succ n ih =>
    intro i s s' h
    unfold forLoop at h
    cases hbody : body i s with
    | ok s1 =>
      rw [hbody] at h
      have h1 := hb i s s1 hbody
      have h2 := ih (i + 1) s1 s' h
      omega
    | crash => rw [hbody] at h; simp at h
    | timeout => rw [hbody] at h; simp at h

theorem intOfUint_small {lvl : Nat} (h : lvl < 2 ^ 63) : intOfUint lvl = (lvl : Int) := by
  unfold intOfUint
  have e : lvl % 2 ^ 64 = lvl := Nat.mod_eq_of_lt (by omega)
  rw [e, if_pos h]

theorem spawn_base_count {lvl : Nat} (h : lvl < 2 ^ 63) :
    ((intOfUint lvl >>> (1 : Nat)) + 1).toNat = lvl / 2 + 1 := by
  rw [intOfUint_small h, Int.shiftRight_eq_div_pow]
  norm_num
  omega

/-- C10: for every level number `lvl` (below `2^63`, where `int(lvl)` is exact),
a completed run of `spawnMonsters(m, lvl, fresh)` returns a list of exactly
`lvl/2 + 1` monsters when `fresh` is false (3 for level 4), and of exactly
`lvl/2 + 1 + k` monsters when `fresh` is true, where `k` is the random top-up
`rand.Intn(12) + 2`, so `2 ≤ k ≤ 13`. -/
theorem spawnMonsters_count (K : Consts) (fuel : Nat)
    (FromLevel : Int → Rng → Res (Int × Rng)) (m : Grid) (lvl : Nat) (fresh : Bool) (g : Rng)
    (ms : List Cell) (m' : Grid) (g' : Rng) (hl : lvl < 2 ^ 63)
    (h : spawnMonsters K fuel FromLevel m lvl fresh g = Res.ok (ms, m', g')) :
    (fresh = false → ms.length = lvl / 2 + 1) ∧
      (fresh = true → ms.length = lvl / 2 + 1 + (g.src g.pos % 12 + 2) ∧
        2 ≤ g.src g.pos % 12 + 2 ∧ g.src g.pos % 12 + 2 ≤ 13) ∧
      (lvl = 4 → fresh = false → ms.length = 3) := by
  have hbody : ∀ (i : Int) (s s' : List Cell × Grid × Rng),
      (do
        let (id, g2) ← FromLevel (intOfUint lvl) s.2.2
        let mon := Monster.New id
        let (m1, g3) ← placeRandom K fuel mon s.2.1 g2
        pure (s.1 ++ [mon.setVisible K.DEBUG], m1, g3) : Res (List Cell × Grid × Rng)) =
          Res.ok s' →
      s'.1.length = s.1.length + 1 := by
    intro _ s s' hb
    rcases Res.bind_eq_ok.1 hb with ⟨⟨id, g2⟩, _, h2⟩
    rcases Res.bind_eq_ok.1 h2 with ⟨⟨m1, g3⟩, _, h3⟩
    simp only [Res.pure_eq, Res.ok.injEq] at h3
    subst h3
    simp
  have hbase := spawn_base_count hl
  have hfalse : fresh = false → ms.length = lvl / 2 + 1 := by
    intro hf
    subst hf
    unfold spawnMonsters forRange at h
    simp only [Bool.false_eq_true, if_false, sub_zero] at h
    have := forLoop_measure (fun s : List Cell × Grid × Rng => s.1.length) _ hbody _ _ _ _ h
    simp only [List.length_nil, zero_add] at this
    rw [this, hbase]
  refine ⟨hfalse, ?_, ?_⟩
  · intro hf
    subst hf
    refine ⟨?_, by omega, by omega⟩
    unfold spawnMonsters forRange at h
    simp only [if_true, Rng.Intn_of_pos (show (0 : Int) < 12 by norm_num), sub_zero] at h
    have := forLoop_measure (fun s : List Cell × Grid × Rng => s.1.length) _ hbody _ _ _ _ h
    simp only [List.length_nil, zero_add] at this
    rw [this]
    have hnn : 0 ≤ (intOfUint lvl >>> (1 : Nat)) + 1 := by
      rw [intOfUint_small hl, Int.shiftRight_eq_div_pow]
      norm_num
      omega
    have e : ((intOfUint lvl >>> (1 : Nat)) + 1 + ((g.src g.pos : Int) % 12 + 2)).toNat
        = ((intOfUint lvl >>> (1 : Nat)) + 1).toNat + (g.src g.pos % 12 + 2) := by
      omega
    rw [e, hbase]
  · intro h4 hf
    rw [hfalse hf, h4]

/-- Witness of C10: from level 4, with three seeds that land on the corridor of
the sample level, a top-up spawn returns three monsters. -/
theorem spawnMonsters_count_witness :
    ∃ ms m' g', spawnMonsters smallConsts 1 (fun _ g => Res.ok (0, g)) corridorGrid 4 false
        (Rng.replay [0, 2, 1, 2, 2, 2]) = Res.ok (ms, m', g') ∧ ms.length = 4 / 2 + 1 :=
  ⟨_, _, _, rfl, (spawnMonsters_count smallConsts 1 (fun _ g => Res.ok (0, g)) corridorGrid 4
    false (Rng.replay [0, 2, 1, 2, 2, 2]) _ _ _ (by norm_num) rfl).1 rfl⟩

/-! ## Facts about the maze carver -/

theorem eatLoop_ok_inv {K : Consts} {fuel : Nat} {c : Coordinate} {dir tries : Int}
    {lvl : Grid} {g : Rng} {lvl' : Grid} {g' : Rng}
    (h : eatLoop K (fuel + 1) c dir tries lvl g = Res.ok (lvl', g')) :
    (tries ≤ 0 ∧ lvl' = lvl ∧ g' = g) ∨
    (0 < tries ∧ ∃ edge a b, eatTarget K c dir = some (edge, a, b) ∧
      ((eatBlocked edge a b lvl = Res.ok true ∧
          eatLoop K fuel c (nextDir dir tries).1 (nextDir dir tries).2 lvl g = Res.ok (lvl', g')) ∨
        (eatBlocked edge a b lvl = Res.ok false ∧ ∃ lvl1 lvl2 g2,
          carve2 a b lvl = Res.ok lvl1 ∧
          eatLoop K fuel b ((g.src g.pos : Int) % 4 + 1) 2 lvl1
            { src := g.src, pos := g.pos + 1 } = Res.ok (lvl2, g2) ∧
          eatLoop K fuel c (nextDir dir tries).1 (nextDir dir tries).2 lvl2 g2 =
            Res.ok (lvl', g')))) := by
  unfold eatLoop at h
  by_cases ht : tries > 0
  · rw [if_pos ht] at h
    right
    refine ⟨ht, ?_⟩
    cases hT : eatTarget K c dir with
    | none => rw [hT] at h; simp at h
    | some t =>
      obtain ⟨edge, a, b⟩ := t
      rw [hT] at h
      refine ⟨edge, a, b, rfl, ?_⟩
      simp only at h
      cases hB : eatBlocked edge a b lvl with
      | ok bl =>
        rw [hB] at h
        cases bl with
        | true => left; exact ⟨rfl, h⟩
        | false =>
          right
          refine ⟨rfl, ?_⟩
          simp only at h
          cases hC : carve2 a b lvl with
          | ok lvl1 =>
            rw [hC] at h
            simp only [Rng.Intn_of_pos (show (0 : Int) < 4 by norm_num)] at h
            cases hR : eatLoop K fuel b ((g.src g.pos : Int) % 4 + 1) 2 lvl1
                { src := g.src, pos := g.pos + 1 } with
            | ok r =>
              obtain ⟨lvl2, g2⟩ := r
              rw [hR] at h
              exact ⟨lvl1, lvl2, g2, rfl, hR, h⟩
            | crash => rw [hR] at h; simp at h
            | timeout => rw [hR] at h; simp at h
          | crash => rw [hC] at h; simp at h
          | timeout => rw [hC] at h; simp at h
      | crash => rw [hB] at h; simp at h
      | timeout => rw [hB] at h; simp at h
  · rw [if_neg ht] at h
    simp only [Res.ok.injEq, Prod.mk.injEq] at h
    left
    exact ⟨by omega, h.1.symm, h.2.symm⟩

/-- A relation between the grid before and after that is reflexive, transitive
and established by every carving step holds across a whole run of the loop of
`eat`; the positions visited keep the invariant `P`. -/
theorem eatLoop_rel (K : Consts) (P : Coordinate → Prop) (R : Grid → Grid → Prop)
    (hrefl : ∀ l, R l l) (htrans : ∀ l1 l2 l3, R l1 l2 → R l2 l3 → R l1 l3)
    (hstep : ∀ c dir edge a b lvl lvl1, P c → eatTarget K c dir = some (edge, a, b) →
      eatBlocked edge a b lvl = Res.ok false → carve2 a b lvl = Res.ok lvl1 →
      P b ∧ R lvl lvl1) :
    ∀ (fuel : Nat) (c : Coordinate) (dir tries : Int) (lvl : Grid) (g : Rng)
      (lvl' : Grid) (g' : Rng), P c →
      eatLoop K fuel c dir tries lvl g = Res.ok (lvl', g') → R lvl lvl' := by
  intro fuel
  induction fuel with
  | zero => intro c dir tries lvl g lvl' g' _ h; simp [eatLoop] at h
  | succ n ih =>
    intro c dir tries lvl g lvl' g' hP h
    rcases eatLoop_ok_inv h with ⟨_, rfl, _⟩ | ⟨_, edge, a, b, hT, hcase⟩
    · exact hrefl _
    · rcases hcase with ⟨_, hnext⟩ | ⟨hB, lvl1, lvl2, g2, hC, hrec, hnext⟩
      · exact ih _ _ _ _ _ _ _ hP hnext
      · obtain ⟨hPb, hR1⟩ := hstep c dir edge a b lvl lvl1 hP hT hB hC
        have hR2 := ih _ _ _ _ _ _ _ hPb hrec
        have hR3 := ih _ _ _ _ _ _ _ hP hnext
        exact htrans _ _ _ hR1 (htrans _ _ _ hR2 hR3)

theorem eat_rel (K : Consts) (P : Coordinate → Prop) (R : Grid → Grid → Prop)
    (hrefl : ∀ l, R l l) (htrans : ∀ l1 l2 l3, R l1 l2 → R l2 l3 → R l1 l3)
    (hstep : ∀ c dir edge a b lvl lvl1, P c → eatTarget K c dir = some (edge, a, b) →
      eatBlocked edge a b lvl = Res.ok false → carve2 a b lvl = Res.ok lvl1 →
      P b ∧ R lvl lvl1)
    {fuel : Nat} {c : Coordinate} {lvl : Grid} {g : Rng} {lvl' : Grid} {g' : Rng}
    (hP : P c) (h : eat K fuel c lvl g = Res.ok (lvl', g')) : R lvl lvl' := by
  unfold eat at h
  simp only [Rng.Intn_of_pos (show (0 : Int) < 4 by norm_num)] at h
  exact eatLoop_rel K P R hrefl htrans hstep _ _ _ _ _ _ _ _ hP h

theorem eatTarget_cases {K : Consts} {c : Coordinate} {dir : Int} {edge : Bool}
    {a b : Coordinate} (h : eatTarget K c dir = some (edge, a, b)) :
    (dir = 1 ∧ edge = decide (c.X ≤ 2) ∧ a = ⟨c.X - 1, c.Y⟩ ∧ b = ⟨c.X - 2, c.Y⟩) ∨
    (dir = 2 ∧ edge = decide (c.X ≥ K.width - 3) ∧ a = ⟨c.X + 1, c.Y⟩ ∧ b = ⟨c.X + 2, c.Y⟩) ∨
    (dir = 3 ∧ edge = decide (c.Y ≤ 2) ∧ a = ⟨c.X, c.Y - 1⟩ ∧ b = ⟨c.X, c.Y - 2⟩) ∨
    (dir = 4 ∧ edge = decide (c.Y ≥ K.height - 3) ∧ a = ⟨c.X, c.Y + 1⟩ ∧ b = ⟨c.X, c.Y + 2⟩) := by
  unfold eatTarget at h
  split_ifs at h with h1 h2 h3 h4
  · simp only [Option.some.injEq, Prod.mk.injEq] at h
    obtain ⟨rfl, rfl, rfl⟩ := h
    exact Or.inl ⟨h1, rfl, rfl, rfl⟩
  · simp only [Option.some.injEq, Prod.mk.injEq] at h
    obtain ⟨rfl, rfl, rfl⟩ := h
    exact Or.inr (Or.inl ⟨h2, rfl, rfl, rfl⟩)
  · simp only [Option.some.injEq, Prod.mk.injEq] at h
    obtain ⟨rfl, rfl, rfl⟩ := h
    exact Or.inr (Or.inr (Or.inl ⟨h3, rfl, rfl, rfl⟩))
  · simp only [Option.some.injEq, Prod.mk.injEq] at h
    obtain ⟨rfl, rfl, rfl⟩ := h
    exact Or.inr (Or.inr (Or.inr ⟨h4, rfl, rfl, rfl⟩))

theorem eatBlocked_false {edge : Bool} {a b : Coordinate} {lvl : Grid}
    (h : eatBlocked edge a b lvl = Res.ok false) :
    edge = false ∧ (∃ v, lvl.cell? a.X a.Y = some (Cell.Wall v)) ∧
      (∃ v, lvl.cell? b.X b.Y = some (Cell.Wall v)) := by
  have hw : ∀ (p : Coordinate), isWall p lvl = Res.ok true →
      ∃ v, lvl.cell? p.X p.Y = some (Cell.Wall v) := by
    intro p hp
    unfold isWall at hp
    rcases Res.bind_eq_ok.1 hp with ⟨o, ho, h2⟩
    rw [Grid.get_eq_ok] at ho
    simp only [Res.pure_eq, Res.ok.injEq] at h2
    cases o <;> simp [Cell.isWallCell] at h2
    exact ⟨_, ho⟩
  unfold eatBlocked at h
  cases edge with
  | true => simp at h
  | false =>
    simp only [Bool.false_eq_true, if_false] at h
    cases ha : isWall a lvl with
    | ok wa =>
      rw [ha] at h
      cases wa with
      | true =>
        simp only at h
        cases hb : isWall b lvl with
        | ok wb =>
          rw [hb] at h
          cases wb with
          | true => exact ⟨rfl, hw a ha, hw b hb⟩
          | false => simp at h
        | crash => rw [hb] at h; simp at h
        | timeout => rw [hb] at h; simp at h
      | false => simp at h
    | crash => rw [ha] at h; simp at h
    | timeout => rw [ha] at h; simp at h

theorem carve2_eq_ok {a b : Coordinate} {lvl lvl1 : Grid} (h : carve2 a b lvl = Res.ok lvl1) :
    ∃ l, lvl.write? a.X a.Y (Cell.Empty false) = some l ∧
      l.write? b.X b.Y (Cell.Empty false) = some lvl1 := by
  unfold carve2 at h
  cases hp : lvl.put a (Cell.Empty false) with
  | ok l =>
    rw [hp] at h
    exact ⟨l, Grid.put_eq_ok.1 hp, Grid.put_eq_ok.1 h⟩
  | crash => rw [hp] at h; simp at h
  | timeout => rw [hp] at h; simp at h

theorem carve2_cell? {a b : Coordinate} {lvl lvl1 : Grid} (h : carve2 a b lvl = Res.ok lvl1)
    (x y : Int) :
    lvl1.cell? x y =
      if (x = a.X ∧ y = a.Y) ∨ (x = b.X ∧ y = b.Y) then some (Cell.Empty false)
      else lvl.cell? x y := by
  obtain ⟨l, h1, h2⟩ := carve2_eq_ok h
  rw [Grid.cell?_write? h2, Grid.cell?_write? h1]
  by_cases hb : x = b.X ∧ y = b.Y
  · simp [hb]
  · by_cases ha : x = a.X ∧ y = a.Y
    · simp [ha, hb]
    · simp [ha, hb]

theorem Grid.cell?_fill (w h : Nat) (o : Cell) (x y : Int) :
    (Grid.fill w h o).cell? x y =
      if 0 ≤ x ∧ x < w ∧ 0 ≤ y ∧ y < h then some o else none := by
  unfold Grid.cell? Grid.fill
  by_cases hn : 0 ≤ x ∧ 0 ≤ y
  · rw [if_pos hn, List.getElem?_replicate]
    by_cases hy : y.toNat < h
    · rw [if_pos hy]
      simp only [List.getElem?_replicate]
      by_cases hx : x.toNat < w
      · rw [if_pos hx, if_pos (by omega)]
      · rw [if_neg hx, if_neg (by omega)]
    · rw [if_neg hy]
      simp only
      rw [if_neg (by omega)]
  · rw [if_neg hn, if_neg (by omega)]

/-- The carver started inside the one-cell margin writes only inside it. -/
theorem eat_frame_interior (K : Consts) {fuel : Nat} {c : Coordinate} {lvl : Grid} {g : Rng}
    {lvl' : Grid} {g' : Rng}
    (hc : (1 ≤ c.X ∧ c.X ≤ K.width - 2) ∧ (1 ≤ c.Y ∧ c.Y ≤ K.height - 2))
    (h : eat K fuel c lvl g = Res.ok (lvl', g')) :
    ∀ x y : Int, ¬ ((1 ≤ x ∧ x ≤ K.width - 2) ∧ (1 ≤ y ∧ y ≤ K.height - 2)) →
      lvl'.cell? x y = lvl.cell? x y := by
  refine eat_rel K (fun c => (1 ≤ c.X ∧ c.X ≤ K.width - 2) ∧ (1 ≤ c.Y ∧ c.Y ≤ K.height - 2))
    (fun l l' => ∀ x y : Int, ¬ ((1 ≤ x ∧ x ≤ K.width - 2) ∧ (1 ≤ y ∧ y ≤ K.height - 2)) →
      l'.cell? x y = l.cell? x y) ?_ ?_ ?_ hc h
  · intro l x y _; rfl
  · intro l1 l2 l3 h12 h23 x y hxy
    rw [h23 x y hxy, h12 x y hxy]
  · intro c dir edge a b lvl lvl1 hP hT hB hC
    obtain ⟨he, _, _⟩ := eatBlocked_false hB
    have hab : ((1 ≤ a.X ∧ a.X ≤ K.width - 2) ∧ (1 ≤ a.Y ∧ a.Y ≤ K.height - 2)) ∧
        ((1 ≤ b.X ∧ b.X ≤ K.width - 2) ∧ (1 ≤ b.Y ∧ b.Y ≤ K.height - 2)) := by
      rcases eatTarget_cases hT with ⟨_, hedge, rfl, rfl⟩ | ⟨_, hedge, rfl, rfl⟩ |
        ⟨_, hedge, rfl, rfl⟩ | ⟨_, hedge, rfl, rfl⟩ <;>
      · rw [he] at hedge
        have hg := of_decide_eq_false hedge.symm
        simp only
        omega
    refine ⟨hab.2, ?_⟩
    intro x y hxy
    rw [carve2_cell? hC]
    have hne : ¬ ((x = a.X ∧ y = a.Y) ∨ (x = b.X ∧ y = b.Y)) := by
      rintro (⟨rfl, rfl⟩ | ⟨rfl, rfl⟩)
      · exact hxy hab.1
      · exact hxy hab.2
    rw [if_neg hne]

theorem set_getElem_same {α : Type} (l : List α) (i : Nat) (h : i < l.length) :
    l.set i l[i] = l := by
  apply List.ext_getElem?
  intro j
  rw [List.getElem?_set]
  split_ifs with h1
  · subst h1
    exact (List.getElem?_eq_getElem h).symm
  · rfl

theorem Grid.walls_write? {lvl lvl' : Grid} {x y : Int} {v o : Cell}
    (hc : lvl.cell? x y = some v) (hw : lvl.write? x y o = some lvl') :
    lvl'.walls + (if v.isWallCell then 1 else 0) =
      lvl.walls + (if o.isWallCell then 1 else 0) := by
  unfold Grid.cell? at hc
  unfold Grid.write? at hw
  by_cases hn : 0 ≤ x ∧ 0 ≤ y
  · rw [if_pos hn] at hc hw
    cases hrow : lvl[y.toNat]? with
    | none => rw [hrow] at hc; simp at hc
    | some row =>
      rw [hrow] at hc hw
      simp only at hc hw
      obtain ⟨hxl, hxv⟩ := List.getElem?_eq_some.1 hc
      obtain ⟨hyl, hyv⟩ := List.getElem?_eq_some.1 hrow
      rw [if_pos hxl] at hw
      simp only [Option.some.injEq] at hw
      subst hw
      unfold Grid.walls
      rw [List.map_set, List.sum_set]
      have hlen : y.toNat < (lvl.map (fun row => row.countP Cell.isWallCell)).length := by
        simpa using hyl
      rw [if_pos hlen, List.countP_set _ _ _ _ hxl, hxv]
      have hsplit : (lvl.map (fun row => row.countP Cell.isWallCell)).sum =
          ((lvl.map (fun row => row.countP Cell.isWallCell)).take y.toNat).sum +
            row.countP Cell.isWallCell +
            ((lvl.map (fun row => row.countP Cell.isWallCell)).drop (y.toNat + 1)).sum := by
        have h1 := List.sum_set (lvl.map (fun row => row.countP Cell.isWallCell)) y.toNat
          (row.countP Cell.isWallCell)
        rw [if_pos hlen] at h1
        rw [← h1]
        congr 1
        rw [← List.map_set]
        congr 1
        rw [← hyv]
        exact (set_getElem_same lvl y.toNat hyl).symm
      rw [hsplit]
      have hpos : v.isWallCell = true → 0 < row.countP Cell.isWallCell := by
        intro hv
        rw [List.countP_pos_iff]
        exact ⟨v, by rw [← hxv]; exact List.getElem_mem hxl, hv⟩
      by_cases hv : v.isWallCell = true
      · have := hpos hv
        rw [hv]
        cases o.isWallCell <;> simp only [if_true, Bool.false_eq_true, if_false] <;> omega
      · have hv' : v.isWallCell = false := by simpa using hv
        rw [hv']
        cases o.isWallCell <;> simp only [if_true, Bool.false_eq_true, if_false] <;> omega
  · rw [if_neg hn] at hc
    simp at hc

theorem carve2_walls {edge : Bool} {a b : Coordinate} {lvl lvl1 : Grid} (hab : a ≠ b)
    (hB : eatBlocked edge a b lvl = Res.ok false) (hC : carve2 a b lvl = Res.ok lvl1) :
    lvl1.walls + 2 = lvl.walls := by
  obtain ⟨_, ⟨va, ha⟩, ⟨vb, hb⟩⟩ := eatBlocked_false hB
  obtain ⟨l, h1, h2⟩ := carve2_eq_ok hC
  have hb' : l.cell? b.X b.Y = some (Cell.Wall vb) := by
    rw [Grid.cell?_write? h1, if_neg, hb]
    rintro ⟨hx, hy⟩
    apply hab
    cases a; cases b; simp only at hx hy; simp [hx, hy]
  have e1 := Grid.walls_write? ha h1
  have e2 := Grid.walls_write? hb' h2
  simp only [Cell.isWallCell, if_true, Bool.false_eq_true, if_false] at e1 e2
  omega

theorem eatTarget_ne {K : Consts} {c : Coordinate} {dir : Int} {edge : Bool}
    {a b : Coordinate} (h : eatTarget K c dir = some (edge, a, b)) :
    a ≠ b ∧ 1 ≤ dir ∧ dir ≤ 4 := by
  rcases eatTarget_cases h with ⟨hd, _, rfl, rfl⟩ | ⟨hd, _, rfl, rfl⟩ |
    ⟨hd, _, rfl, rfl⟩ | ⟨hd, _, rfl, rfl⟩ <;>
  · refine ⟨?_, by omega, by omega⟩
    intro he
    simp only [Coordinate.mk.injEq] at he
    omega

/-- A run of the loop of `eat` never adds a wall. -/
theorem eatLoop_walls_le (K : Consts) {fuel : Nat} {c : Coordinate} {dir tries : Int}
    {lvl : Grid} {g : Rng} {lvl' : Grid} {g' : Rng}
    (h : eatLoop K fuel c dir tries lvl g = Res.ok (lvl', g')) : lvl'.walls ≤ lvl.walls := by
  refine eatLoop_rel K (fun _ => True) (fun l l' => l'.walls ≤ l.walls) ?_ ?_ ?_
    fuel c dir tries lvl g lvl' g' trivial h
  · intro l; exact le_refl _
  · intro l1 l2 l3 h12 h23; exact le_trans h23 h12
  · intro c dir edge a b lvl lvl1 _ hT hB hC
    have := carve2_walls (eatTarget_ne hT).1 hB hC
    exact ⟨trivial, by omega⟩

theorem isWall_ne_timeout (p : Coordinate) (lvl : Grid) : isWall p lvl ≠ Res.timeout := by
  unfold isWall Grid.get
  cases lvl.cell? p.X p.Y <;> simp [Res.ofOption]

theorem eatBlocked_ne_timeout (edge : Bool) (a b : Coordinate) (lvl : Grid) :
    eatBlocked edge a b lvl ≠ Res.timeout := by
  unfold eatBlocked
  cases edge with
  | true => simp
  | false =>
    simp only [Bool.false_eq_true, if_false]
    cases ha : isWall a lvl with
    | ok wa =>
      cases wa with
      | true =>
        simp only
        cases hb : isWall b lvl with
        | ok wb => simp
        | crash => simp
        | timeout => exact absurd hb (isWall_ne_timeout b lvl)
      | false => simp
    | crash => simp
    | timeout => exact absurd ha (isWall_ne_timeout a lvl)

theorem carve2_ne_timeout (a b : Coordinate) (lvl : Grid) : carve2 a b lvl ≠ Res.timeout := by
  unfold carve2
  cases hp : lvl.put a (Cell.Empty false) with
  | ok l => exact Res.ofOption_ne_timeout _
  | crash => simp
  | timeout => exact absurd hp (Res.ofOption_ne_timeout _)

theorem nextDir_measure {dir tries : Int} (hd : 1 ≤ dir ∧ dir ≤ 4) (ht : 0 < tries) :
    4 * (nextDir dir tries).2.toNat + (5 - (nextDir dir tries).1).toNat + 1 ≤
      4 * tries.toNat + (5 - dir).toNat ∧
    1 ≤ (nextDir dir tries).1 ∧ (nextDir dir tries).1 ≤ 4 := by
  unfold nextDir
  split_ifs <;> simp only <;> omega

/-- Fuel that always suffices for the loop of `eat`: every iteration either
uses up one of the at most eight direction attempts of its call or removes two
walls. -/
theorem eatLoop_ne_timeout (K : Consts) :
    ∀ (fuel : Nat) (c : Coordinate) (dir tries : Int) (lvl : Grid) (g : Rng),
      13 * lvl.walls + 4 * tries.toNat + (5 - dir).toNat + 1 ≤ fuel →
      eatLoop K fuel c dir tries lvl g ≠ Res.timeout := by
  intro fuel
  induction fuel with
  | zero => intro c dir tries lvl g hf; omega
  | succ n ih =>
    intro c dir tries lvl g hf
    unfold eatLoop
    by_cases ht : tries > 0
    · rw [if_pos ht]
      cases hT : eatTarget K c dir with
      | none => simp
      | some t =>
        obtain ⟨edge, a, b⟩ := t
        simp only
        obtain ⟨hab, hd1, hd4⟩ := eatTarget_ne hT
        have hm := nextDir_measure ⟨hd1, hd4⟩ ht
        cases hB : eatBlocked edge a b lvl with
        | ok bl =>
          cases bl with
          | true =>
            simp only
            exact ih _ _ _ _ _ (by omega)
          | false =>
            simp only
            cases hC : carve2 a b lvl with
            | ok lvl1 =>
              simp only [Rng.Intn_of_pos (show (0 : Int) < 4 by norm_num)]
              have hw := carve2_walls hab hB hC
              cases hR : eatLoop K n b ((g.src g.pos : Int) % 4 + 1) 2 lvl1
                  { src := g.src, pos := g.pos + 1 } with
              | ok r =>
                obtain ⟨lvl2, g2⟩ := r
                simp only
                have hw2 := eatLoop_walls_le K hR
                exact ih _ _ _ _ _ (by omega)
              | crash => simp
              | timeout =>
                exact absurd hR (ih _ _ _ _ _ (by
                  have : (0 : Int) ≤ (g.src g.pos : Int) % 4 := by omega
                  simp only [show ((2 : Int)).toNat = 2 from rfl]
                  omega))
            | crash => simp
            | timeout => exact absurd hC (carve2_ne_timeout a b lvl)
        | crash => simp
        | timeout => exact absurd hB (eatBlocked_ne_timeout edge a b lvl)
    · rw [if_neg ht]
      simp

theorem eatTarget_interior {K : Consts} {c : Coordinate} {dir : Int} {a b : Coordinate}
    (hc : (1 ≤ c.X ∧ c.X ≤ K.width - 2) ∧ (1 ≤ c.Y ∧ c.Y ≤ K.height - 2))
    (hT : eatTarget K c dir = some (false, a, b)) :
    ((1 ≤ a.X ∧ a.X ≤ K.width - 2) ∧ (1 ≤ a.Y ∧ a.Y ≤ K.height - 2)) ∧
      ((1 ≤ b.X ∧ b.X ≤ K.width - 2) ∧ (1 ≤ b.Y ∧ b.Y ≤ K.height - 2)) := by
  rcases eatTarget_cases hT with ⟨_, hedge, rfl, rfl⟩ | ⟨_, hedge, rfl, rfl⟩ |
    ⟨_, hedge, rfl, rfl⟩ | ⟨_, hedge, rfl, rfl⟩ <;>
  · have hg := of_decide_eq_false hedge.symm
    simp only
    omega

theorem eatTarget_isSome (K : Consts) (c : Coordinate) {dir : Int} (hd : 1 ≤ dir ∧ dir ≤ 4) :
    ∃ edge a b, eatTarget K c dir = some (edge, a, b) := by
  unfold eatTarget
  split_ifs with h1 h2 h3 h4
  · exact ⟨_, _, _, rfl⟩
  · exact ⟨_, _, _, rfl⟩
  · exact ⟨_, _, _, rfl⟩
  · exact ⟨_, _, _, rfl⟩
  · omega

theorem isWall_ok_of_cell {p : Coordinate} {lvl : Grid} (h : ∃ v, lvl.cell? p.X p.Y = some v) :
    ∃ w, isWall p lvl = Res.ok w := by
  obtain ⟨v, hv⟩ := h
  exact ⟨v.isWallCell, by simp [isWall, Grid.get, hv, Res.ofOption]⟩

theorem eatBlocked_ne_crash {edge : Bool} {a b : Coordinate} {lvl : Grid}
    (h : edge = false → (∃ v, lvl.cell? a.X a.Y = some v) ∧ (∃ v, lvl.cell? b.X b.Y = some v)) :
    eatBlocked edge a b lvl ≠ Res.crash := by
  unfold eatBlocked
  cases edge with
  | true => simp
  | false =>
    obtain ⟨ha, hb⟩ := h rfl
    obtain ⟨wa, hwa⟩ := isWall_ok_of_cell ha
    obtain ⟨wb, hwb⟩ := isWall_ok_of_cell hb
    simp only [Bool.false_eq_true, if_false, hwa, hwb]
    cases wa <;> simp

theorem carve2_ne_crash {edge : Bool} {a b : Coordinate} {lvl : Grid}
    (hB : eatBlocked edge a b lvl = Res.ok false) : carve2 a b lvl ≠ Res.crash := by
  obtain ⟨_, ⟨va, ha⟩, ⟨vb, hb⟩⟩ := eatBlocked_false hB
  obtain ⟨l, hl⟩ := Grid.write?_isSome (Cell.Empty false) ha
  have hb' : ∃ v, l.cell? b.X b.Y = some v := by
    rw [Grid.cell?_write? hl]
    split_ifs
    · exact ⟨_, rfl⟩
    · exact ⟨_, hb⟩
  obtain ⟨v, hv⟩ := hb'
  obtain ⟨l2, hl2⟩ := Grid.write?_isSome (Cell.Empty false) hv
  unfold carve2
  simp [Grid.put, hl, hl2, Res.ofOption]

/-- A run of the loop of `eat` keeps every cell of the grid in place: no row is
lost or shortened. -/
theorem eatLoop_covers (K : Consts) {fuel : Nat} {c : Coordinate} {dir tries : Int}
    {lvl : Grid} {g : Rng} {lvl' : Grid} {g' : Rng}
    (h : eatLoop K fuel c dir tries lvl g = Res.ok (lvl', g')) :
    ∀ x y, (∃ v, lvl.cell? x y = some v) → ∃ v, lvl'.cell? x y = some v := by
  refine eatLoop_rel K (fun _ => True)
    (fun l l' => ∀ x y, (∃ v, l.cell? x y = some v) → ∃ v, l'.cell? x y = some v) ?_ ?_ ?_
    fuel c dir tries lvl g lvl' g' trivial h
  · intro l x y hv; exact hv
  · intro l1 l2 l3 h12 h23 x y hv; exact h23 x y (h12 x y hv)
  · intro c dir edge a b lvl lvl1 _ _ _ hC
    refine ⟨trivial, ?_⟩
    intro x y hv
    rw [carve2_cell? hC]
    split_ifs
    · exact ⟨_, rfl⟩
    · exact hv

/-- On a grid that covers `width` by `height` cells the loop of `eat`, run from
a position inside the margin with a direction of `1..4`, never fails. -/
theorem eatLoop_ne_crash (K : Consts) :
    ∀ (fuel : Nat) (c : Coordinate) (dir tries : Int) (lvl : Grid) (g : Rng),
      ((1 ≤ c.X ∧ c.X ≤ K.width - 2) ∧ (1 ≤ c.Y ∧ c.Y ≤ K.height - 2)) →
      (1 ≤ dir ∧ dir ≤ 4) →
      (∀ x y : Int, 0 ≤ x → x < K.width → 0 ≤ y → y < K.height →
        ∃ v, lvl.cell? x y = some v) →
      eatLoop K fuel c dir tries lvl g ≠ Res.crash := by
  intro fuel
  induction fuel with
  | zero => intro c dir tries lvl g _ _ _; simp [eatLoop]
  | succ n ih =>
    intro c dir tries lvl g hc hd hcov
    unfold eatLoop
    by_cases ht : tries > 0
    · rw [if_pos ht]
      obtain ⟨edge, a, b, hT⟩ := eatTarget_isSome K c hd
      rw [hT]
      simp only
      have hm := nextDir_measure hd ht
      have hcells : edge = false →
          (∃ v, lvl.cell? a.X a.Y = some v) ∧ (∃ v, lvl.cell? b.X b.Y = some v) := by
        intro he
        subst he
        have hab := eatTarget_interior hc hT
        exact ⟨hcov _ _ (by omega) (by omega) (by omega) (by omega),
          hcov _ _ (by omega) (by omega) (by omega) (by omega)⟩
      cases hB : eatBlocked edge a b lvl with
      | ok bl =>
        cases bl with
        | true =>
          simp only
          exact ih _ _ _ _ _ hc hm.2 hcov
        | false =>
          simp only
          obtain ⟨he, _, _⟩ := eatBlocked_false hB
          subst he
          have hab := eatTarget_interior hc hT
          cases hC : carve2 a b lvl with
          | ok lvl1 =>
            simp only [Rng.Intn_of_pos (show (0 : Int) < 4 by norm_num)]
            have hcov1 : ∀ x y : Int, 0 ≤ x → x < K.width → 0 ≤ y → y < K.height →
                ∃ v, lvl1.cell? x y = some v := by
              intro x y hx0 hx1 hy0 hy1
              rw [carve2_cell? hC]
              split_ifs
              · exact ⟨_, rfl⟩
              · exact hcov x y hx0 hx1 hy0 hy1
            cases hR : eatLoop K n b ((g.src g.pos : Int) % 4 + 1) 2 lvl1
                { src := g.src, pos := g.pos + 1 } with
            | ok r =>
              obtain ⟨lvl2, g2⟩ := r
              simp only
              have hcov2 : ∀ x y : Int, 0 ≤ x → x < K.width → 0 ≤ y → y < K.height →
                  ∃ v, lvl2.cell? x y = some v :=
                fun x y hx0 hx1 hy0 hy1 => eatLoop_covers K hR x y (hcov1 x y hx0 hx1 hy0 hy1)
              exact ih _ _ _ _ _ hc hm.2 hcov2
            | crash => exact absurd hR (ih _ _ _ _ _ hab.2 (by omega) hcov1)
            | timeout => simp
          | crash => exact absurd hC (carve2_ne_crash hB)
          | timeout => simp
      | crash => exact absurd hB (eatBlocked_ne_crash hcells)
      | timeout => simp
    · rw [if_neg ht]
      simp

theorem eat_ne_timeout (K : Consts) (c : Coordinate) (lvl : Grid) (g : Rng) (fuel : Nat)
    (hf : 13 * lvl.walls + 13 ≤ fuel) : eat K fuel c lvl g ≠ Res.timeout := by
  have hdir : 1 ≤ (g.src g.pos : Int) % 4 + 1 ∧ (g.src g.pos : Int) % 4 + 1 ≤ 4 := by omega
  unfold eat
  simp only [Rng.Intn_of_pos (show (0 : Int) < 4 by norm_num)]
  apply eatLoop_ne_timeout
  simp only [show ((2 : Int)).toNat = 2 from rfl]
  omega

/-- With enough fuel, on a grid covering `width` by `height` cells and from a
start inside the one-cell margin, `eat` returns. -/
theorem eat_returns (K : Consts) (c : Coordinate) (lvl : Grid) (g : Rng) (fuel : Nat)
    (hf : 13 * lvl.walls + 13 ≤ fuel)
    (hc : (1 ≤ c.X ∧ c.X ≤ K.width - 2) ∧ (1 ≤ c.Y ∧ c.Y ≤ K.height - 2))
    (hcov : ∀ x y : Int, 0 ≤ x → x < K.width → 0 ≤ y → y < K.height →
      ∃ v, lvl.cell? x y = some v) :
    ∃ lvl' g', eat K fuel c lvl g = Res.ok (lvl', g') := by
  have hdir : 1 ≤ (g.src g.pos : Int) % 4 + 1 ∧ (g.src g.pos : Int) % 4 + 1 ≤ 4 := by omega
  have hnc : eat K fuel c lvl g ≠ Res.crash := by
    unfold eat
    simp only [Rng.Intn_of_pos (show (0 : Int) < 4 by norm_num)]
    exact eatLoop_ne_crash K _ _ _ _ _ _ hc hdir hcov
  cases hr : eat K fuel c lvl g with
  | ok r => exact ⟨r.1, r.2, rfl⟩
  | crash => exact absurd hr hnc
  | timeout => exact absurd hr (eat_ne_timeout K c lvl g fuel hf)

theorem Grid.walls_fill (w h : Nat) (v : Bool) :
    (Grid.fill w h (Cell.Wall v)).walls = w * h := by
  unfold Grid.walls Grid.fill
  simp [List.countP_replicate, Cell.isWallCell, Nat.mul_comm]

/-- With enough fuel `eat` from `(1,1)` returns on the all-wall grid. -/
theorem eat_returns_on_fill (K : Consts) (hW : 3 ≤ K.width) (hH : 3 ≤ K.height) (g : Rng)
    (fuel : Nat) (hf : 13 * (K.width.toNat * K.height.toNat) + 13 ≤ fuel) :
    ∃ lvl' g', eat K fuel ⟨1, 1⟩
      (Grid.fill K.width.toNat K.height.toNat (Cell.Wall K.DEBUG)) g = Res.ok (lvl', g') := by
  apply eat_returns K ⟨1, 1⟩ _ g fuel
  · rw [Grid.walls_fill]; exact hf
  · simp only; omega
  · intro x y hx0 hx1 hy0 hy1
    rw [Grid.cell?_fill, if_pos (by omega)]
    exact ⟨_, rfl⟩

/-- C7: maze carving always terminates. For every grid, every start coordinate
and every random sequence, `eat` stops within a number of steps bounded by the
number of `Wall` cells (fuel `13 * walls + 13` is never exhausted); every carving
step removes exactly two walls and a completed run never adds one. On a grid
covering `width` by `height` cells and from a start inside the one-cell margin
the run ends by returning, not by a failure. -/
theorem eat_terminates (K : Consts) (c : Coordinate) (lvl : Grid) (g : Rng) (fuel : Nat)
    (hf : 13 * lvl.walls + 13 ≤ fuel) :
    eat K fuel c lvl g ≠ Res.timeout ∧
      (∀ lvl' g', eat K fuel c lvl g = Res.ok (lvl', g') → lvl'.walls ≤ lvl.walls) ∧
      (∀ dir edge a b lvl1, eatTarget K c dir = some (edge, a, b) →
        eatBlocked edge a b lvl = Res.ok false → carve2 a b lvl = Res.ok lvl1 →
        lvl1.walls + 2 = lvl.walls) ∧
      (((1 ≤ c.X ∧ c.X ≤ K.width - 2) ∧ (1 ≤ c.Y ∧ c.Y ≤ K.height - 2)) →
        (∀ x y : Int, 0 ≤ x → x < K.width → 0 ≤ y → y < K.height →
          ∃ v, lvl.cell? x y = some v) →
        ∃ lvl' g', eat K fuel c lvl g = Res.ok (lvl', g')) := by
  refine ⟨eat_ne_timeout K c lvl g fuel hf, ?_, ?_, ?_⟩
  · intro lvl' g' h
    unfold eat at h
    simp only [Rng.Intn_of_pos (show (0 : Int) < 4 by norm_num)] at h
    exact eatLoop_walls_le K h
  · intro dir edge a b lvl1 hT hB hC
    exact carve2_walls (eatTarget_ne hT).1 hB hC
  · intro hc hcov
    exact eat_returns K c lvl g fuel hf hc hcov

/-- Witness of C7: the all-wall 7 by 7 level has 49 walls, so fuel 650 is
enough for a run of `eat` from `(1,1)`. -/
theorem eat_terminates_witness :
    13 * (Grid.fill 7 7 (Cell.Wall false)).walls + 13 ≤ 650 ∧
      eat smallConsts 650 ⟨1, 1⟩ (Grid.fill 7 7 (Cell.Wall false))
        (Rng.replay [1, 3, 0, 2, 1, 3]) ≠ Res.timeout :=
  ⟨by decide, (eat_terminates smallConsts ⟨1, 1⟩ (Grid.fill 7 7 (Cell.Wall false))
    (Rng.replay [1, 3, 0, 2, 1, 3]) 650 (by decide)).1⟩

/-- C6: starting from an all-`Wall` grid of `width` by `height` cells, `eat`
from `(1,1)` returns (with fuel `13 * width * height + 13`), and after it (that
is, after `newLevel` for a level other than the home level) every cell of row 0,
row `height-1`, column 0 and column `width-1` is still a `Wall`, whatever the
random directions. -/
theorem eat_keeps_border (K : Consts) (hW : 3 ≤ K.width) (hH : 3 ≤ K.height)
    (fuel : Nat) (g : Rng) :
    (13 * (K.width.toNat * K.height.toNat) + 13 ≤ fuel →
      ∃ lvl' g', eat K fuel ⟨1, 1⟩
        (Grid.fill K.width.toNat K.height.toNat (Cell.Wall K.DEBUG)) g = Res.ok (lvl', g')) ∧
    (∀ lvl' g', eat K fuel ⟨1, 1⟩
        (Grid.fill K.width.toNat K.height.toNat (Cell.Wall K.DEBUG)) g = Res.ok (lvl', g') →
      (∀ x y : Int, 0 ≤ x → x < K.width → 0 ≤ y → y < K.height →
        (x = 0 ∨ x = K.width - 1 ∨ y = 0 ∨ y = K.height - 1) →
        lvl'.cell? x y = some (Cell.Wall K.DEBUG)) ∧
      (∀ n : Nat, n ≠ homeLevel → newLevel K fuel n g = Res.ok (lvl', g'))) := by
  refine ⟨eat_returns_on_fill K hW hH g fuel, ?_⟩
  intro lvl' g' h
  constructor
  · intro x y hx0 hx1 hy0 hy1 hb
    have hf := eat_frame_interior K (c := ⟨1, 1⟩) (by simp only; omega) h x y (by omega)
    rw [hf, Grid.cell?_fill, if_pos (by omega)]
  · intro n hn
    unfold newLevel
    rw [if_neg (by omega)]
    simp only [hn, ne_eq, not_false_eq_true, if_true, if_false]
    exact h

/-- Witness of C6: on the small 7 by 7 level a run of `eat` from `(1,1)`
completes and the corner `(0,0)` and the border cell `(6,3)` are walls. -/
theorem eat_keeps_border_witness :
    ∃ lvl' g', eat smallConsts 40 ⟨1, 1⟩ (Grid.fill 7 7 (Cell.Wall false))
        (Rng.replay [1, 3, 0, 2, 1, 3]) = Res.ok (lvl', g') ∧
      lvl'.cell? 0 0 = some (Cell.Wall false) ∧ lvl'.cell? 6 3 = some (Cell.Wall false) :=
  ⟨_, _, rfl,
    ((eat_keeps_border smallConsts (by decide) (by decide) 40 (Rng.replay [1, 3, 0, 2, 1, 3])).2
      _ _ rfl).1 0 0 (by decide) (by decide) (by decide) (by decide) (Or.inl rfl),
    ((eat_keeps_border smallConsts (by decide) (by decide) 40 (Rng.replay [1, 3, 0, 2, 1, 3])).2
      _ _ rfl).1 6 3 (by decide) (by decide) (by decide) (by decide) (Or.inr (Or.inl rfl))⟩

/-- A run of the loop of `eat` never turns floor back into something else. -/
theorem eatLoop_empty_mono (K : Consts) {fuel : Nat} {c : Coordinate} {dir tries : Int}
    {lvl : Grid} {g : Rng} {lvl' : Grid} {g' : Rng}
    (h : eatLoop K fuel c dir tries lvl g = Res.ok (lvl', g')) :
    ∀ x y, (∃ v, lvl.cell? x y = some (Cell.Empty v)) →
      ∃ v, lvl'.cell? x y = some (Cell.Empty v) := by
  refine eatLoop_rel K (fun _ => True)
    (fun l l' => ∀ x y, (∃ v, l.cell? x y = some (Cell.Empty v)) →
      ∃ v, l'.cell? x y = some (Cell.Empty v)) ?_ ?_ ?_
    fuel c dir tries lvl g lvl' g' trivial h
  · intro l x y hv; exact hv
  · intro l1 l2 l3 h12 h23 x y hv; exact h23 x y (h12 x y hv)
  · intro c dir edge a b lvl lvl1 _ _ _ hC
    refine ⟨trivial, ?_⟩
    intro x y hv
    rw [carve2_cell? hC]
    split_ifs
    · exact ⟨_, rfl⟩
    · exact hv

theorem eatBlocked_of_walls {a b : Coordinate} {lvl : Grid}
    (ha : ∃ v, lvl.cell? a.X a.Y = some (Cell.Wall v))
    (hb : ∃ v, lvl.cell? b.X b.Y = some (Cell.Wall v)) :
    eatBlocked false a b lvl = Res.ok false := by
  obtain ⟨va, hva⟩ := ha
  obtain ⟨vb, hvb⟩ := hb
  simp [eatBlocked, isWall, Grid.get, hva, hvb, Res.ofOption, Cell.isWallCell]

/-- A successful attempt in direction `dir` at `c` leaves both target cells as
floor at the end of the run. -/
theorem eatLoop_carves {K : Consts} {fuel : Nat} {c : Coordinate} {dir tries : Int}
    {lvl : Grid} {g : Rng} {lvl' : Grid} {g' : Rng} {a b : Coordinate}
    (ht : 0 < tries) (hT : eatTarget K c dir = some (false, a, b))
    (ha : ∃ v, lvl.cell? a.X a.Y = some (Cell.Wall v))
    (hb : ∃ v, lvl.cell? b.X b.Y = some (Cell.Wall v))
    (h : eatLoop K fuel c dir tries lvl g = Res.ok (lvl', g')) :
    (∃ v, lvl'.cell? a.X a.Y = some (Cell.Empty v)) ∧
      (∃ v, lvl'.cell? b.X b.Y = some (Cell.Empty v)) := by
  cases fuel with
  | zero => simp [eatLoop] at h
  | succ n =>
    rcases eatLoop_ok_inv h with ⟨ht', _, _⟩ | ⟨_, edge, a', b', hT', hcase⟩
    · omega
    · rw [hT] at hT'
      simp only [Option.some.injEq, Prod.mk.injEq] at hT'
      obtain ⟨rfl, rfl, rfl⟩ := hT'
      have hB := eatBlocked_of_walls ha hb
      rcases hcase with ⟨hB', _⟩ | ⟨_, lvl1, lvl2, g2, hC, hrec, hnext⟩
      · rw [hB] at hB'; simp at hB'
      · have h1 : ∀ x y, (x = a.X ∧ y = a.Y) ∨ (x = b.X ∧ y = b.Y) →
            ∃ v, lvl'.cell? x y = some (Cell.Empty v) := by
          intro x y hxy
          apply eatLoop_empty_mono K hnext
          apply eatLoop_empty_mono K hrec
          rw [carve2_cell? hC, if_pos hxy]
          exact ⟨_, rfl⟩
        exact ⟨h1 _ _ (Or.inl ⟨rfl, rfl⟩), h1 _ _ (Or.inr ⟨rfl, rfl⟩)⟩

/-- An attempt stopped by the edge test moves on to the next direction. -/
theorem eatLoop_edge {K : Consts} {fuel : Nat} {c : Coordinate} {dir tries : Int}
    {lvl : Grid} {g : Rng} {lvl' : Grid} {g' : Rng} {a b : Coordinate}
    (ht : 0 < tries) (hT : eatTarget K c dir = some (true, a, b))
    (h : eatLoop K fuel c dir tries lvl g = Res.ok (lvl', g')) :
    ∃ n, eatLoop K n c (nextDir dir tries).1 (nextDir dir tries).2 lvl g = Res.ok (lvl', g') := by
  cases fuel with
  | zero => simp [eatLoop] at h
  | succ n =>
    rcases eatLoop_ok_inv h with ⟨ht', _, _⟩ | ⟨_, edge, a', b', hT', hcase⟩
    · omega
    · rw [hT] at hT'
      simp only [Option.some.injEq, Prod.mk.injEq] at hT'
      obtain ⟨rfl, rfl, rfl⟩ := hT'
      rcases hcase with ⟨_, hnext⟩ | ⟨hB', _⟩
      · exact ⟨n, hnext⟩
      · simp [eatBlocked] at hB'

/-- The carver started on odd coordinates never writes a cell whose two
coordinates are even. -/
theorem eat_frame_even (K : Consts) {fuel : Nat} {c : Coordinate} {lvl : Grid} {g : Rng}
    {lvl' : Grid} {g' : Rng} (hc : c.X % 2 = 1 ∧ c.Y % 2 = 1)
    (h : eat K fuel c lvl g = Res.ok (lvl', g')) :
    ∀ x y : Int, x % 2 = 0 → y % 2 = 0 → lvl'.cell? x y = lvl.cell? x y := by
  refine eat_rel K (fun c => c.X % 2 = 1 ∧ c.Y % 2 = 1)
    (fun l l' => ∀ x y : Int, x % 2 = 0 → y % 2 = 0 → l'.cell? x y = l.cell? x y)
    ?_ ?_ ?_ hc h
  · intro l x y _ _; rfl
  · intro l1 l2 l3 h12 h23 x y hx hy
    rw [h23 x y hx hy, h12 x y hx hy]
  · intro c dir edge a b lvl lvl1 hP hT _ hC
    have hab : (a.X % 2 = 1 ∨ a.Y % 2 = 1) ∧ (b.X % 2 = 1 ∧ b.Y % 2 = 1) := by
      rcases eatTarget_cases hT with ⟨_, _, rfl, rfl⟩ | ⟨_, _, rfl, rfl⟩ |
        ⟨_, _, rfl, rfl⟩ | ⟨_, _, rfl, rfl⟩ <;>
      · simp only
        omega
    refine ⟨hab.2, ?_⟩
    intro x y hx hy
    rw [carve2_cell? hC]
    have hne : ¬ ((x = a.X ∧ y = a.Y) ∨ (x = b.X ∧ y = b.Y)) := by
      rintro (⟨rfl, rfl⟩ | ⟨rfl, rfl⟩) <;> omega
    rw [if_neg hne]

theorem eat_first_corridor (K : Consts) (hW : 5 ≤ K.width) (hH : 5 ≤ K.height)
    (fuel : Nat) (g : Rng) (lvl' : Grid) (g' : Rng)
    (h : eat K fuel ⟨1, 1⟩ (Grid.fill K.width.toNat K.height.toNat (Cell.Wall K.DEBUG)) g =
      Res.ok (lvl', g')) :
    ((∃ v, lvl'.cell? 2 1 = some (Cell.Empty v)) ∧ (∃ v, lvl'.cell? 3 1 = some (Cell.Empty v))) ∨
      ((∃ v, lvl'.cell? 1 2 = some (Cell.Empty v)) ∧ (∃ v, lvl'.cell? 1 3 = some (Cell.Empty v))) := by
  have hwall : ∀ x y : Int, 0 ≤ x → x < K.width → 0 ≤ y → y < K.height →
      ∃ v, (Grid.fill K.width.toNat K.height.toNat (Cell.Wall K.DEBUG)).cell? x y =
        some (Cell.Wall v) := by
    intro x y hx0 hx1 hy0 hy1
    rw [Grid.cell?_fill, if_pos (by omega)]
    exact ⟨_, rfl⟩
  have hE : eatTarget K ⟨1, 1⟩ 2 = some (false, ⟨2, 1⟩, ⟨3, 1⟩) := by
    unfold eatTarget
    have : ¬ ((1 : Int) ≥ K.width - 3) := by omega
    simp [this]
  have hN : eatTarget K ⟨1, 1⟩ 4 = some (false, ⟨1, 2⟩, ⟨1, 3⟩) := by
    unfold eatTarget
    have : ¬ ((1 : Int) ≥ K.height - 3) := by omega
    simp [this]
  have hWe : eatTarget K ⟨1, 1⟩ 1 = some (true, ⟨0, 1⟩, ⟨-1, 1⟩) := by
    unfold eatTarget
    simp
  have hS : eatTarget K ⟨1, 1⟩ 3 = some (true, ⟨1, 0⟩, ⟨1, -1⟩) := by
    unfold eatTarget
    simp
  have east : ∀ n, eatLoop K n ⟨1, 1⟩ 2 2
      (Grid.fill K.width.toNat K.height.toNat (Cell.Wall K.DEBUG))
      { src := g.src, pos := g.pos + 1 } = Res.ok (lvl', g') →
      (∃ v, lvl'.cell? 2 1 = some (Cell.Empty v)) ∧
        (∃ v, lvl'.cell? 3 1 = some (Cell.Empty v)) := fun n hn =>
    eatLoop_carves (by norm_num) hE
      (hwall 2 1 (by omega) (by omega) (by omega) (by omega))
      (hwall 3 1 (by omega) (by omega) (by omega) (by omega)) hn
  have north : ∀ n, eatLoop K n ⟨1, 1⟩ 4 2
      (Grid.fill K.width.toNat K.height.toNat (Cell.Wall K.DEBUG))
      { src := g.src, pos := g.pos + 1 } = Res.ok (lvl', g') →
      (∃ v, lvl'.cell? 1 2 = some (Cell.Empty v)) ∧
        (∃ v, lvl'.cell? 1 3 = some (Cell.Empty v)) := fun n hn =>
    eatLoop_carves (by norm_num) hN
      (hwall 1 2 (by omega) (by omega) (by omega) (by omega))
      (hwall 1 3 (by omega) (by omega) (by omega) (by omega)) hn
  unfold eat at h
  simp only [Rng.Intn_of_pos (show (0 : Int) < 4 by norm_num)] at h
  have hr : (g.src g.pos : Int) % 4 = 0 ∨ (g.src g.pos : Int) % 4 = 1 ∨
      (g.src g.pos : Int) % 4 = 2 ∨ (g.src g.pos : Int) % 4 = 3 := by omega
  rcases hr with hr | hr | hr | hr <;> rw [hr] at h <;> norm_num at h
  · obtain ⟨n, hn⟩ := eatLoop_edge (by norm_num) hWe h
    have e : nextDir 1 2 = (2, 2) := by decide
    rw [e] at hn
    exact Or.inl (east n hn)
  · exact Or.inl (east _ h)
  · obtain ⟨n, hn⟩ := eatLoop_edge (by norm_num) hS h
    have e : nextDir 3 2 = (4, 2) := by decide
    rw [e] at hn
    exact Or.inr (north n hn)
  · exact Or.inr (north _ h)

/-! ## Facts about the room builder -/

/-- Invariant rule for counting loops: an invariant that holds at the start and
is carried by every iteration, which never fails, holds at the end. -/
theorem forLoop_inv {σ : Type} (Inv : Int → σ → Prop) (body : Int → σ → Res σ) :
    ∀ (k : Nat) (lo : Int) (s : σ), Inv lo s →
      (∀ i s, lo ≤ i → i < lo + k → Inv i s → ∃ s', body i s = Res.ok s' ∧ Inv (i + 1) s') →
      ∃ s', forLoop k lo body s = Res.ok s' ∧ Inv (lo + k) s' := by
  intro k
  induction k with
  | zero =>
    intro lo s h0 _
    exact ⟨s, rfl, by simpa using h0⟩
  | succ n ih =>
    intro lo s h0 hstep
    obtain ⟨s1, hb, h1⟩ := hstep lo s (le_refl _) (by push_cast; omega) h0
    obtain ⟨s', hl, h'⟩ := ih (lo + 1) s1 h1 (by
      intro i s hi1 hi2 hI
      exact hstep i s (by omega) (by push_cast; omega) hI)
    refine ⟨s', ?_, ?_⟩
    · unfold forLoop
      rw [hb]
      exact hl
    · have e : lo + ((n + 1 : Nat) : Int) = lo + 1 + (n : Int) := by push_cast; omega
      rw [e]
      exact h'

theorem forRange_inv {σ : Type} (Inv : Int → σ → Prop) (body : Int → σ → Res σ)
    (lo hi : Int) (hle : lo ≤ hi) (s : σ) (h0 : Inv lo s)
    (hstep : ∀ i s, lo ≤ i → i < hi → Inv i s → ∃ s', body i s = Res.ok s' ∧ Inv (i + 1) s') :
    ∃ s', forRange lo hi body s = Res.ok s' ∧ Inv hi s' := by
  have e : lo + (((hi - lo).toNat : Nat) : Int) = hi := by omega
  obtain ⟨s', h1, h2⟩ := forLoop_inv Inv body (hi - lo).toNat lo s h0 (by
    intro i s hi1 hi2 hI
    exact hstep i s hi1 (by omega) hI)
  rw [e] at h2
  exact ⟨s', h1, h2⟩

/-- The nested fill loops succeed on a rectangle of existing cells and change
exactly the cells of the rectangle. -/
theorem fillRect_spec (x0 x1 y0 y1 : Int) (o : Cell) (m : Grid) (hx : x0 ≤ x1) (hy : y0 ≤ y1)
    (hin : ∀ i j : Int, x0 ≤ i → i < x1 → y0 ≤ j → j < y1 → ∃ v, m.cell? i j = some v) :
    ∃ m', fillRect x0 x1 y0 y1 o m = Res.ok m' ∧
      ∀ a b : Int, m'.cell? a b =
        if (x0 ≤ a ∧ a < x1) ∧ (y0 ≤ b ∧ b < y1) then some o else m.cell? a b := by
  unfold fillRect
  apply forRange_inv
    (fun i m1 => ∀ a b : Int, m1.cell? a b =
      if (x0 ≤ a ∧ a < i) ∧ (y0 ≤ b ∧ b < y1) then some o else m.cell? a b)
    _ x0 x1 hx m
  · intro a b
    rw [if_neg (by omega)]
  · intro i m1 hi0 hi1 hI
    obtain ⟨m2, h1, h2⟩ := forRange_inv
      (fun j m2 => ∀ a b : Int, m2.cell? a b =
        if (a = i ∧ (y0 ≤ b ∧ b < j)) ∨ ((x0 ≤ a ∧ a < i) ∧ (y0 ≤ b ∧ b < y1)) then some o
        else m.cell? a b)
      (fun j m2 => m2.put ⟨i, j⟩ o) y0 y1 hy m1
      (by
        intro a b
        rw [hI a b]
        by_cases hc : (x0 ≤ a ∧ a < i) ∧ (y0 ≤ b ∧ b < y1)
        · rw [if_pos hc, if_pos (Or.inr hc)]
        · rw [if_neg hc, if_neg (by omega)])
      (by
        intro j m2 hj0 hj1 hJ
        have hex : ∃ v, m2.cell? i j = some v := by
          rw [hJ i j]
          split_ifs
          · exact ⟨_, rfl⟩
          · exact hin i j hi0 hi1 hj0 hj1
        obtain ⟨v, hv⟩ := hex
        obtain ⟨m3, hm3⟩ := Grid.write?_isSome o hv
        refine ⟨m3, Grid.put_eq_ok.2 hm3, ?_⟩
        intro a b
        rw [Grid.cell?_write? hm3, hJ a b]
        by_cases hab : a = i ∧ b = j
        · rw [if_pos hab, if_pos (by omega)]
        · rw [if_neg hab]
          by_cases hc : (a = i ∧ (y0 ≤ b ∧ b < j)) ∨ ((x0 ≤ a ∧ a < i) ∧ (y0 ≤ b ∧ b < y1))
          · rw [if_pos hc, if_pos (by omega)]
          · rw [if_neg hc, if_neg (by omega)])
    refine ⟨m2, h1, ?_⟩
    intro a b
    rw [h2 a b]
    by_cases hc : (x0 ≤ a ∧ a < i + 1) ∧ (y0 ≤ b ∧ b < y1)
    · rw [if_pos hc, if_pos (by omega)]
    · rw [if_neg hc, if_neg (by omega)]

theorem onPerimeter_iff (w h x y i j : Int) :
    onPerimeter w h x y i j = true ↔ (i = x ∨ i = x + w - 1 ∨ j = y ∨ j = y + h - 1) := by
  simp [onPerimeter, or_assoc]

/-- The door search of `makeRoom`: for a draw `d` below the number of perimeter
cells it returns with the door written on the perimeter cell that `d`
perimeter cells precede, and nothing else changed. -/
theorem doorLoop_spec (K : Consts) (w h x y d : Int) (hw : 2 ≤ w) (hh : 2 ≤ h)
    (hd : 0 ≤ d ∧ d < 2 * w + 2 * h - 4) (m2 : Grid)
    (hin : ∀ i j : Int, x ≤ i → i < x + w → y ≤ j → j < y + h → ∃ v, m2.cell? i j = some v) :
    ∃ (s : DoorState) (di dj : Int),
      forRange x (x + w) (fun i s =>
        forRange y (y + h) (fun j s1 => doorBody K w h x y d i j s1) s)
        { m := m2, wallCount := 0, returned := false } = Res.ok s ∧
      (x ≤ di ∧ di < x + w) ∧ (y ≤ dj ∧ dj < y + h) ∧
      onPerimeter w h x y di dj = true ∧ perimBefore w h x y di dj = d ∧
      m2.write? di dj (Cell.Door false K.DEBUG) = some s.m := by
  -- the invariant: either still counting, or returned with the door in place
  let InvD : Int → DoorState → Prop := fun c s =>
    (s.returned = false ∧ s.m = m2 ∧ s.wallCount = c ∧ c ≤ d) ∨
    (s.returned = true ∧ ∃ di dj : Int, (x ≤ di ∧ di < x + w) ∧ (y ≤ dj ∧ dj < y + h) ∧
      onPerimeter w h x y di dj = true ∧ perimBefore w h x y di dj = d ∧
      m2.write? di dj (Cell.Door false K.DEBUG) = some s.m)
  let outCnt : Int → Int := fun i =>
    if i = x + w then 2 * h + 2 * (w - 2) else perimBefore w h x y i y
  have hinner : ∀ (i : Int) (s : DoorState), x ≤ i → i < x + w → InvD (outCnt i) s →
      ∃ s', forRange y (y + h) (fun j s1 => doorBody K w h x y d i j s1) s = Res.ok s' ∧
        InvD (outCnt (i + 1)) s' := by
    intro i s hi0 hi1 hI
    obtain ⟨s', h1, h2⟩ := forRange_inv (fun j s1 => InvD (perimBefore w h x y i j) s1)
      (fun j s1 => doorBody K w h x y d i j s1) y (y + h) (by omega) s
      (by
        have e : outCnt i = perimBefore w h x y i y := by
          simp only [outCnt]
          rw [if_neg (by omega)]
        show InvD (perimBefore w h x y i y) s
        rw [← e]
        exact hI)
      (by
        intro j s1 hj0 hj1 hJ
        show ∃ s', doorBody K w h x y d i j s1 = Res.ok s' ∧
          InvD (perimBefore w h x y i (j + 1)) s'
        have hJ : InvD (perimBefore w h x y i j) s1 := hJ
        rcases hJ with ⟨hr, hm, hc, hle⟩ | ⟨hr, hdoor⟩
        · by_cases hp : onPerimeter w h x y i j = true
          · by_cases hcd : s1.wallCount = d
            · obtain ⟨v, hv⟩ := hin i j hi0 hi1 hj0 hj1
              obtain ⟨m3, hm3⟩ := Grid.write?_isSome (Cell.Door false K.DEBUG) hv
              refine ⟨{ m := m3, wallCount := s1.wallCount, returned := true }, ?_, ?_⟩
              · unfold doorBody
                simp only [hr, Bool.false_eq_true, if_false, hp, if_true, hcd, hm,
                  Grid.put, hm3, Res.ofOption]
              · right
                exact ⟨rfl, i, j, ⟨hi0, hi1⟩, ⟨hj0, hj1⟩, hp, by rw [← hcd, hc], hm3⟩
            · refine ⟨{ m := s1.m, wallCount := s1.wallCount + 1, returned := false }, ?_, ?_⟩
              · unfold doorBody
                simp only [hr, Bool.false_eq_true, if_false, hp, if_true, hcd]
              · left
                refine ⟨rfl, hm, ?_, ?_⟩
                · simp only
                  rw [hc]
                  rw [onPerimeter_iff] at hp
                  unfold perimBefore
                  split_ifs <;> omega
                · have : s1.wallCount < d := by omega
                  rw [onPerimeter_iff] at hp
                  unfold perimBefore at hc ⊢
                  split_ifs at hc ⊢ <;> omega
          · refine ⟨s1, ?_, ?_⟩
            · unfold doorBody
              simp only [hr, Bool.false_eq_true, if_false, hp]
            · left
              rw [onPerimeter_iff] at hp
              refine ⟨hr, hm, ?_, ?_⟩
              · rw [hc]
                unfold perimBefore
                split_ifs <;> omega
              · unfold perimBefore at hle ⊢
                split_ifs at hle ⊢ <;> omega
        · refine ⟨s1, ?_, Or.inr ⟨hr, hdoor⟩⟩
          unfold doorBody
          simp only [hr, if_true])
    refine ⟨s', h1, ?_⟩
    have h2 : InvD (perimBefore w h x y i (y + h)) s' := h2
    have e : perimBefore w h x y i (y + h) = outCnt (i + 1) := by
      simp only [outCnt]
      unfold perimBefore
      split_ifs <;> omega
    rw [← e]
    exact h2
  obtain ⟨s, h1, h2⟩ := forRange_inv (fun i s => InvD (outCnt i) s)
    (fun i s => forRange y (y + h) (fun j s1 => doorBody K w h x y d i j s1) s)
    x (x + w) (by omega) { m := m2, wallCount := 0, returned := false }
    (by
      have e0 : outCnt x = 0 := by
        simp only [outCnt]
        unfold perimBefore
        rw [if_neg (by omega)]
        simp
      show InvD (outCnt x) _
      left
      exact ⟨rfl, rfl, e0.symm, by rw [e0]; exact hd.1⟩)
    hinner
  have h2 : InvD (outCnt (x + w)) s := h2
  rcases h2 with ⟨_, _, hc, hle⟩ | ⟨_, di, dj, hdi, hdj, hp, hb, hwr⟩
  · exfalso
    simp only [outCnt, if_true] at hle
    omega
  · exact ⟨s, di, dj, h1, hdi, hdj, hp, hb, hwr⟩

/-- C9: for a room of width `w ≥ 2` and height `h ≥ 2` whose rectangle at
origin `(x, y)` lies inside the grid, and for every value of the door draw,
`makeRoom` returns, and afterwards exactly one perimeter cell `(di, dj)` of the
room is a closed `Door` (the one that `rand.Intn(2w + 2h - 4)` perimeter cells
precede in the search order), every other perimeter cell is a `Wall`, and all
interior cells are `Empty`. -/
theorem makeRoom_spec (K : Consts) (w h x y glyph : Int) (m : Grid) (g : Rng)
    (hw : 2 ≤ w) (hh : 2 ≤ h)
    (hin : ∀ i j : Int, x ≤ i → i < x + w → y ≤ j → j < y + h → ∃ v, m.cell? i j = some v) :
    ∃ (m' : Grid) (di dj : Int),
      makeRoom K w h x y glyph m g = Res.ok (m', { src := g.src, pos := g.pos + 1 }) ∧
      ((x ≤ di ∧ di < x + w) ∧ (y ≤ dj ∧ dj < y + h) ∧ onPerimeter w h x y di dj = true) ∧
      perimBefore w h x y di dj = (g.src g.pos : Int) % (2 * w + 2 * h - 4) ∧
      m'.cell? di dj = some (Cell.Door false K.DEBUG) ∧
      (∀ i j : Int, x ≤ i → i < x + w → y ≤ j → j < y + h → onPerimeter w h x y i j = true →
        ¬ (i = di ∧ j = dj) → m'.cell? i j = some (Cell.Wall K.DEBUG)) ∧
      (∀ i j : Int, x + 1 ≤ i → i < x + w - 1 → y + 1 ≤ j → j < y + h - 1 →
        m'.cell? i j = some (Cell.Empty false)) := by
  obtain ⟨m1, hf1, hc1⟩ := fillRect_spec x (x + w) y (y + h) (Cell.Wall K.DEBUG) m
    (by omega) (by omega) hin
  obtain ⟨m2, hf2, hc2⟩ := fillRect_spec (x + 1) (x + w - 1) (y + 1) (y + h - 1)
    (Cell.Empty false) m1 (by omega) (by omega) (by
      intro i j hi0 hi1 hj0 hj1
      rw [hc1 i j, if_pos (by omega)]
      exact ⟨_, rfl⟩)
  have hn : w * 2 + (h - 2) * 2 = 2 * w + 2 * h - 4 := by ring
  have hpos : (0 : Int) < 2 * w + 2 * h - 4 := by omega
  have hd : 0 ≤ (g.src g.pos : Int) % (2 * w + 2 * h - 4) ∧
      (g.src g.pos : Int) % (2 * w + 2 * h - 4) < 2 * w + 2 * h - 4 :=
    ⟨Int.emod_nonneg _ (by omega), Int.emod_lt_of_pos _ hpos⟩
  have hin2 : ∀ i j : Int, x ≤ i → i < x + w → y ≤ j → j < y + h →
      ∃ v, m2.cell? i j = some v := by
    intro i j hi0 hi1 hj0 hj1
    rw [hc2 i j]
    split_ifs
    · exact ⟨_, rfl⟩
    · rw [hc1 i j, if_pos (by omega)]
      exact ⟨_, rfl⟩
  obtain ⟨s, di, dj, hloop, hdi, hdj, hp, hb, hwr⟩ :=
    doorLoop_spec K w h x y ((g.src g.pos : Int) % (2 * w + 2 * h - 4)) hw hh hd m2 hin2
  refine ⟨s.m, di, dj, ?_, ⟨hdi, hdj, hp⟩, hb, ?_, ?_, ?_⟩
  · unfold makeRoom
    rw [hf1]
    simp only
    rw [hf2]
    simp only
    rw [hn, Rng.Intn_of_pos hpos]
    simp only
    rw [hloop]
  · rw [Grid.cell?_write? hwr, if_pos ⟨rfl, rfl⟩]
  · intro i j hi0 hi1 hj0 hj1 hper hne
    rw [Grid.cell?_write? hwr, if_neg hne, hc2 i j]
    rw [onPerimeter_iff] at hper
    rw [if_neg (by omega), hc1 i j, if_pos (by omega)]
  · intro i j hi0 hi1 hj0 hj1
    have hne : ¬ (i = di ∧ j = dj) := by
      rintro ⟨rfl, rfl⟩
      rw [onPerimeter_iff] at hp
      omega
    rw [Grid.cell?_write? hwr, if_neg hne, hc2 i j, if_pos (by omega)]

/-- Witness of C9: a 4 by 3 room at `(1, 1)` of the corridor level. -/
theorem makeRoom_spec_witness :
    ∃ (m' : Grid) (di dj : Int),
      makeRoom smallConsts 4 3 1 1 1 corridorGrid (Rng.replay [5]) =
        Res.ok (m', { src := (Rng.replay [5]).src, pos := (Rng.replay [5]).pos + 1 }) ∧
      (((1 : Int) ≤ di ∧ di < 1 + 4) ∧ ((1 : Int) ≤ dj ∧ dj < 1 + 3) ∧
        onPerimeter 4 3 1 1 di dj = true) ∧
      perimBefore 4 3 1 1 di dj = ((Rng.replay [5]).src (Rng.replay [5]).pos : Int) %
        (2 * 4 + 2 * 3 - 4) ∧
      m'.cell? di dj = some (Cell.Door false smallConsts.DEBUG) ∧
      (∀ i j : Int, 1 ≤ i → i < 1 + 4 → 1 ≤ j → j < 1 + 3 → onPerimeter 4 3 1 1 i j = true →
        ¬ (i = di ∧ j = dj) → m'.cell? i j = some (Cell.Wall smallConsts.DEBUG)) ∧
      (∀ i j : Int, 1 + 1 ≤ i → i < 1 + 4 - 1 → 1 + 1 ≤ j → j < 1 + 3 - 1 →
        m'.cell? i j = some (Cell.Empty false)) :=
  makeRoom_spec smallConsts 4 3 1 1 1 corridorGrid (Rng.replay [5]) (by decide) (by decide)
    (fun i j hi0 hi1 hj0 hj1 =>
      Grid.cell?_of_dims corridorGrid_dims (x := i) (y := j)
        ⟨by omega, by push_cast; omega⟩ ⟨by omega, by push_cast; omega⟩)

/-! ## Monster spawner and monsters -/

theorem Res.exists_of_isOk {α : Type} {r : Res α} (h : r.isOk = true) : ∃ a, r = Res.ok a := by
  cases r with
  | ok a => exact ⟨a, rfl⟩
  | crash => simp [Res.isOk] at h
  | timeout => simp [Res.isOk] at h

theorem Res.map_eq_ok {α β : Type} {f : α → β} {r : Res α} {b : β}
    (h : r.map f = Res.ok b) : ∃ a, r = Res.ok a ∧ f a = b := by
  cases r with
  | ok a => exact ⟨a, rfl, by simpa [Res.map] using h⟩
  | crash => simp [Res.map] at h
  | timeout => simp [Res.map] at h

/-- A completed fresh spawn returns the base count plus the top-up
`rand.Intn(12) + 2`. -/
theorem spawnMonsters_fresh_length (K : Consts) (fuel : Nat)
    (FromLevel : Int → Rng → Res (Int × Rng)) (m : Grid) (lvl : Nat) (g : Rng)
    (ms : List Cell) (m' : Grid) (g' : Rng) (hl : lvl < 2 ^ 63)
    (h : spawnMonsters K fuel FromLevel m lvl true g = Res.ok (ms, m', g')) :
    ms.length = lvl / 2 + 1 + (g.src g.pos % 12 + 2) := by
  have hbody : ∀ (i : Int) (s s' : List Cell × Grid × Rng),
      (do
        let (id, g2) ← FromLevel (intOfUint lvl) s.2.2
        let mon := Monster.New id
        let (m1, g3) ← placeRandom K fuel mon s.2.1 g2
        pure (s.1 ++ [mon.setVisible K.DEBUG], m1, g3) : Res (List Cell × Grid × Rng)) =
          Res.ok s' →
      s'.1.length = s.1.length + 1 := by
    intro _ s s' hb
    rcases Res.bind_eq_ok.1 hb with ⟨⟨id, g2⟩, _, h2⟩
    rcases Res.bind_eq_ok.1 h2 with ⟨⟨m1, g3⟩, _, h3⟩
    simp only [Res.pure_eq, Res.ok.injEq] at h3
    subst h3
    simp
  have hbase := spawn_base_count hl
  unfold spawnMonsters forRange at h
  simp only [if_true, Rng.Intn_of_pos (show (0 : Int) < 12 by norm_num), sub_zero] at h
  have := forLoop_measure (fun s : List Cell × Grid × Rng => s.1.length) _ hbody _ _ _ _ h
  simp only [List.length_nil, zero_add] at this
  rw [this]
  have hnn : 0 ≤ (intOfUint lvl >>> (1 : Nat)) + 1 := by
    rw [intOfUint_small hl, Int.shiftRight_eq_div_pow]
    norm_num
    omega
  have e : ((intOfUint lvl >>> (1 : Nat)) + 1 + ((g.src g.pos : Int) % 12 + 2)).toNat
      = ((intOfUint lvl >>> (1 : Nat)) + 1).toNat + (g.src g.pos % 12 + 2) := by
    omega
  rw [e, hbase]

/-- C11 fails as stated: on level 4 with `fresh = true` and the draw
`rand.Intn(12) = 11`, a completed run of `spawnMonsters` on an open 7 by 7 level
returns 16 monsters, which is outside `[4, 14]`. -/
theorem spawnMonsters_fresh_sixteen :
    (spawnMonsters smallConsts 1 (fun _ g => Res.ok (0, g)) (Grid.fill 7 7 (Cell.Empty true)) 4
        true (Rng.replay [11, 0, 0, 1, 0, 2, 0, 3, 0, 4, 0, 5, 0, 0, 1, 1, 1, 2, 1, 3, 1, 4, 1,
          5, 1, 0, 2, 1, 2, 2, 2, 3, 2])).map (fun r => r.1.length) = Res.ok 16 := by
  decide

/-- C11 as amended: for level 4 with `fresh = true`, a completed run of
`spawnMonsters` returns `3 + (rand.Intn(12) + 2)` monsters, a number in
`[5, 16]` inclusive, for every value of the random draw. -/
theorem spawnMonsters_fresh_level4 (K : Consts) (fuel : Nat)
    (FromLevel : Int → Rng → Res (Int × Rng)) (m : Grid) (g : Rng)
    (ms : List Cell) (m' : Grid) (g' : Rng)
    (h : spawnMonsters K fuel FromLevel m 4 true g = Res.ok (ms, m', g')) :
    ms.length = 3 + (g.src g.pos % 12 + 2) ∧ 5 ≤ ms.length ∧ ms.length ≤ 16 := by
  have hlen := spawnMonsters_fresh_length K fuel FromLevel m 4 g ms m' g' (by norm_num) h
  have e : (4 : Nat) / 2 + 1 = 3 := by norm_num
  rw [e] at hlen
  refine ⟨hlen, ?_, ?_⟩ <;> omega

/-- Witness of the amended C11: with the draw `rand.Intn(12) = 0` a fresh spawn
on level 4 returns five monsters. -/
theorem spawnMonsters_fresh_level4_witness :
    ∃ ms m' g', spawnMonsters smallConsts 1 (fun _ g => Res.ok (0, g))
        (Grid.fill 7 7 (Cell.Empty true)) 4 true
        (Rng.replay [0, 0, 0, 1, 0, 2, 0, 3, 0, 4, 0]) = Res.ok (ms, m', g') ∧
      5 ≤ ms.length ∧ ms.length ≤ 16 :=
  ⟨_, _, _, rfl, (spawnMonsters_fresh_level4 smallConsts 1 (fun _ g => Res.ok (0, g))
    (Grid.fill 7 7 (Cell.Empty true)) (Rng.replay [0, 0, 0, 1, 0, 2, 0, 3, 0, 4, 0])
    _ _ _ rfl).2⟩

/-- C20: for every monster id, `monster.New(id)` returns a monster whose `Id` is
`id`, whose `Displaced` content is an `Empty` value (of the monster package) and
whose `Visibility` is false; its `Rune()` is the blank `InvisibleRune`, also
after `Visible(false)`, and after `Visible(true)` it is the rune of the monster
type `monsterData[id]`. In a grid cell it is the monster that `spawnMonsters`
places. -/
theorem monster_New_spec (monsterData : Int → monster.MonsterType) (id : Int) :
    (monster.New monsterData id).Id = id ∧
      (monster.New monsterData id).ID = id ∧
      (monster.New monsterData id).Displaced = Cell.MonsterEmpty false ∧
      (monster.New monsterData id).Visibility = false ∧
      (monster.New monsterData id).Rune = monster.InvisibleRune ∧
      monster.InvisibleRune = ' ' ∧
      ((monster.New monsterData id).Visible false).Rune = monster.InvisibleRune ∧
      ((monster.New monsterData id).Visible true).Rune = (monsterData id).MonsterRune ∧
      (monster.New monsterData id).toCell = Monster.New id :=
  ⟨rfl, rfl, rfl, rfl, rfl, rfl, rfl, rfl, rfl⟩

/-! ## Facts about the level populator -/

theorem Grid.count_write? (p : Cell → Bool) {lvl lvl' : Grid} {x y : Int} {v o : Cell}
    (hc : lvl.cell? x y = some v) (hw : lvl.write? x y o = some lvl') :
    Grid.count p lvl' + (if p v then 1 else 0) = Grid.count p lvl + (if p o then 1 else 0) := by
  unfold Grid.cell? at hc
  unfold Grid.write? at hw
  by_cases hn : 0 ≤ x ∧ 0 ≤ y
  · rw [if_pos hn] at hc hw
    cases hrow : lvl[y.toNat]? with
    | none => rw [hrow] at hc; simp at hc
    | some row =>
      rw [hrow] at hc hw
      simp only at hc hw
      obtain ⟨hxl, hxv⟩ := List.getElem?_eq_some.1 hc
      obtain ⟨hyl, hyv⟩ := List.getElem?_eq_some.1 hrow
      rw [if_pos hxl] at hw
      simp only [Option.some.injEq] at hw
      subst hw
      unfold Grid.count
      rw [List.map_set, List.sum_set]
      have hlen : y.toNat < (lvl.map (fun row => row.countP p)).length := by
        simpa using hyl
      rw [if_pos hlen, List.countP_set _ _ _ _ hxl, hxv]
      have hsplit : (lvl.map (fun row => row.countP p)).sum =
          ((lvl.map (fun row => row.countP p)).take y.toNat).sum + row.countP p +
            ((lvl.map (fun row => row.countP p)).drop (y.toNat + 1)).sum := by
        have h1 := List.sum_set (lvl.map (fun row => row.countP p)) y.toNat (row.countP p)
        rw [if_pos hlen] at h1
        rw [← h1]
        congr 1
        rw [← List.map_set]
        congr 1
        rw [← hyv]
        exact (set_getElem_same lvl y.toNat hyl).symm
      rw [hsplit]
      have hpos : p v = true → 0 < row.countP p := by
        intro hv
        rw [List.countP_pos_iff]
        exact ⟨v, by rw [← hxv]; exact List.getElem_mem hxl, hv⟩
      by_cases hv : p v = true
      · have := hpos hv
        rw [hv]
        cases p o <;> simp only [if_true, Bool.false_eq_true, if_false] <;> omega
      · have hv' : p v = false := by simpa using hv
        rw [hv']
        cases p o <;> simp only [if_true, Bool.false_eq_true, if_false] <;> omega
  · rw [if_neg hn] at hc
    simp at hc

theorem Grid.shape_write? {lvl lvl' : Grid} {x y : Int} {o : Cell}
    (hw : lvl.write? x y o = some lvl') : lvl'.shape = lvl.shape := by
  unfold Grid.write? at hw
  by_cases hn : 0 ≤ x ∧ 0 ≤ y
  · rw [if_pos hn] at hw
    cases hrow : lvl[y.toNat]? with
    | none => rw [hrow] at hw; simp at hw
    | some row =>
      rw [hrow] at hw
      simp only at hw
      obtain ⟨hyl, hyv⟩ := List.getElem?_eq_some.1 hrow
      by_cases hxl : x.toNat < row.length
      · rw [if_pos hxl] at hw
        simp only [Option.some.injEq] at hw
        subst hw
        unfold Grid.shape
        rw [List.map_set, List.length_set]
        apply List.ext_getElem?
        intro j
        rw [List.getElem?_set]
        split_ifs with h1 h2
        · subst h1
          rw [List.getElem?_map, hrow]
          rfl
        · rw [List.length_map] at h2
          omega
        · rfl
      · rw [if_neg hxl] at hw
        simp at hw
  · rw [if_neg hn] at hw
    simp at hw

/-- A completed placement at a random seed is one write of the object, as its
`Visible(DEBUG)` call leaves it, onto a floor cell. -/
theorem placeRandom_writes {K : Consts} {fuel : Nat} {o : Cell} {lvl : Grid} {g : Rng}
    {lvl' : Grid} {g' : Rng} (h : placeRandom K fuel o lvl g = Res.ok (lvl', g')) :
    ∃ (x y : Int) (v : Bool), lvl.cell? x y = some (Cell.Empty v) ∧
      lvl.write? x y (o.setVisible K.DEBUG) = some lvl' := by
  unfold placeRandom at h
  rcases Res.bind_eq_ok.1 h with ⟨⟨c, g1⟩, _, h2⟩
  rcases Res.bind_eq_ok.1 h2 with ⟨⟨c1, d, l1, g2⟩, hp, h3⟩
  simp only [Res.pure_eq, Res.ok.injEq, Prod.mk.injEq] at h3
  obtain ⟨rfl, rfl⟩ := h3
  obtain ⟨hw, _, hl⟩ := placeObject_eq_ok hp
  obtain ⟨v, hv⟩ := walkToEmpty_lands_on_empty K lvl fuel c g1 c1 g2 hw
  exact ⟨c1.X, c1.Y, v, hv, hl⟩

theorem placeRandom_count {K : Consts} {fuel : Nat} {o : Cell} {lvl : Grid} {g : Rng}
    {lvl' : Grid} {g' : Rng} (p : Cell → Bool) (hE : ∀ v, p (Cell.Empty v) = false)
    (h : placeRandom K fuel o lvl g = Res.ok (lvl', g')) :
    Grid.count p lvl' = Grid.count p lvl + (if p (o.setVisible K.DEBUG) then 1 else 0) := by
  obtain ⟨x, y, v, hc, hw⟩ := placeRandom_writes h
  have := Grid.count_write? p hc hw
  rw [hE v] at this
  simpa using this

theorem forLoop_keeps {σ : Type} (R : σ → σ → Prop) (hrefl : ∀ s, R s s)
    (htrans : ∀ a b c, R a b → R b c → R a c) (body : Int → σ → Res σ)
    (hb : ∀ i s s', body i s = Res.ok s' → R s s') :
    ∀ (k : Nat) (i : Int) (s s' : σ), forLoop k i body s = Res.ok s' → R s s' := by
  intro k
  induction k with
  | zero =>
    intro i s s' h
    simp only [forLoop, Res.ok.injEq] at h
    subst h
    exact hrefl _
  | succ n ih =>
    intro i s s' h
    unfold forLoop at h
    cases hbody : body i s with
    | ok s1 =>
      rw [hbody] at h
      exact htrans _ _ _ (hb i s s1 hbody) (ih (i + 1) s1 s' h)
    | crash => rw [hbody] at h; simp at h
    | timeout => rw [hbody] at h; simp at h

/-- A relation that is reflexive, transitive and established by every write
onto a floor cell holds across `placeMultipleObjects`. -/
theorem placeMultipleObjects_keeps (K : Consts) (fuel : Nat) (R : Grid → Grid → Prop)
    (hrefl : ∀ l, R l l) (htrans : ∀ a b c, R a b → R b c → R a c)
    (hw : ∀ (l l' : Grid) (x y : Int) (v : Bool) (o : Cell),
      l.cell? x y = some (Cell.Empty v) → l.write? x y o = some l' → R l l')
    {n : Int} {f : Rng → Res (Cell × Rng)} {lvl : Grid} {g : Rng} {lvl' : Grid} {g' : Rng}
    (h : placeMultipleObjects K fuel n f lvl g = Res.ok (lvl', g')) : R lvl lvl' := by
  unfold placeMultipleObjects forRange at h
  refine forLoop_keeps (fun s s' : Grid × Rng => R s.1 s'.1) (fun s => hrefl _)
    (fun a b c => htrans _ _ _) _ ?_ _ _ _ _ h
  intro i s s' hb
  rcases Res.bind_eq_ok.1 hb with ⟨⟨o, g1⟩, _, h2⟩
  obtain ⟨x, y, v, hc, hwr⟩ := placeRandom_writes h2
  exact hw _ _ x y v _ hc hwr

/-- When every object of the factory satisfies `p`, a completed
`placeMultipleObjects(n, f, lvl)` adds exactly `n` cells that satisfy `p`; when
none does, it adds none. -/
theorem placeMultipleObjects_count (K : Consts) (fuel : Nat) (p : Cell → Bool)
    (hE : ∀ v, p (Cell.Empty v) = false) (b : Bool)
    {n : Int} {f : Rng → Res (Cell × Rng)}
    (hf : ∀ g o g1, f g = Res.ok (o, g1) → p (o.setVisible K.DEBUG) = b)
    {lvl : Grid} {g : Rng} {lvl' : Grid} {g' : Rng}
    (h : placeMultipleObjects K fuel n f lvl g = Res.ok (lvl', g')) :
    Grid.count p lvl' = Grid.count p lvl + (if b then n.toNat else 0) := by
  unfold placeMultipleObjects forRange at h
  rw [sub_zero] at h
  have hbody : ∀ (i : Int) (s s' : Grid × Rng),
      (do
        let (o, g) ← f s.2
        placeRandom K fuel o s.1 g : Res (Grid × Rng)) = Res.ok s' →
      Grid.count p s'.1 = Grid.count p s.1 + (if b then 1 else 0) := by
    intro i s s' hb
    rcases Res.bind_eq_ok.1 hb with ⟨⟨o, g1⟩, hfo, h2⟩
    rw [placeRandom_count p hE h2, hf _ _ _ hfo]
  cases b with
  | true =>
    have := forLoop_measure (fun s : Grid × Rng => Grid.count p s.1) _
      (by intro i s s' hb; simpa using hbody i s s' hb) _ _ _ _ h
    simpa using this
  | false =>
    have := forLoop_keeps (fun s s' : Grid × Rng => Grid.count p s'.1 = Grid.count p s.1)
      (fun _ => rfl) (fun a b c h1 h2 => h2.trans h1) _
      (by intro i s s' hb; simpa using hbody i s s' hb) _ _ _ _ h
    simpa using this

theorem Adds_nil (p : Cell → Bool) : Step.Adds p 0 0 (runAll []) := by
  intro s s' h
  simp only [runAll, Res.ok.injEq] at h
  subst h
  exact ⟨le_refl _, le_refl _⟩

theorem Adds_cons {p : Cell → Bool} {lo1 hi1 lo2 hi2 : Nat} {st : Step} {rest : List Step}
    (h1 : Step.Adds p lo1 hi1 st) (h2 : Step.Adds p lo2 hi2 (runAll rest)) :
    Step.Adds p (lo1 + lo2) (hi1 + hi2) (runAll (st :: rest)) := by
  intro s s' h
  unfold runAll at h
  cases hst : st s with
  | ok s1 =>
    rw [hst] at h
    have a := h1 s s1 hst
    have b := h2 s1 s' h
    omega
  | crash => rw [hst] at h; simp at h
  | timeout => rw [hst] at h; simp at h

theorem Adds_weaken {p : Cell → Bool} {lo hi lo' hi' : Nat} {st : Step}
    (h : Step.Adds p lo hi st) (hlo : lo' ≤ lo) (hhi : hi ≤ hi') : Step.Adds p lo' hi' st := by
  intro s s' hs
  have := h s s' hs
  omega

theorem Adds_place (K : Consts) (fuel : Nat) {p : Cell → Bool}
    (hE : ∀ v, p (Cell.Empty v) = false) (o : Cell) :
    Step.Adds p (if p (o.setVisible K.DEBUG) then 1 else 0)
      (if p (o.setVisible K.DEBUG) then 1 else 0) (placeStep K fuel o) := by
  intro s s' h
  obtain ⟨l', g'⟩ := s'
  have := placeRandom_count p hE h
  simp only at this ⊢
  omega

theorem drawPlus_range {n c : Int} {g : Rng} {r : Int} {g1 : Rng}
    (h : drawPlus n c g = Res.ok (r, g1)) : c ≤ r ∧ r ≤ c + n - 1 := by
  unfold drawPlus Rng.Intn at h
  by_cases hn : n ≤ 0
  · rw [if_pos hn] at h
    simp at h
  · rw [if_neg hn] at h
    simp only [Res.ok.injEq, Prod.mk.injEq] at h
    have h0 := Int.emod_nonneg (g.src g.pos : Int) (show n ≠ 0 by omega)
    have h1 := Int.emod_lt_of_pos (g.src g.pos : Int) (show 0 < n by omega)
    omega

theorem newItem_eq_ok {kind : ItemKind} {attr : Rng → Res (Int × Rng)} {g : Rng} {o : Cell}
    {g1 : Rng} (h : newItem kind attr g = Res.ok (o, g1)) : ∃ a, o = Cell.Item kind a false := by
  unfold newItem at h
  cases ha : attr g with
  | ok r =>
    rw [ha] at h
    simp only [Res.ok.injEq, Prod.mk.injEq] at h
    exact ⟨r.1, h.1.symm⟩
  | crash => rw [ha] at h; simp at h
  | timeout => rw [ha] at h; simp at h

theorem newItem_pred {p : Cell → Bool} {q : ItemKind → Bool} (hp : KindPred p q)
    (K : Consts) {kind : ItemKind} {attr : Rng → Res (Int × Rng)} (g : Rng) (o : Cell)
    (g1 : Rng) (h : newItem kind attr g = Res.ok (o, g1)) :
    p (o.setVisible K.DEBUG) = q kind := by
  obtain ⟨a, rfl⟩ := newItem_eq_ok h
  exact hp.2 kind a K.DEBUG

theorem Adds_many (K : Consts) (fuel : Nat) {p : Cell → Bool} {q : ItemKind → Bool}
    (hp : KindPred p q) (n c : Int) (kind : ItemKind) (attr : Rng → Res (Int × Rng)) :
    Step.Adds p (if q kind then c.toNat else 0) (if q kind then (c + n - 1).toNat else 0)
      (manyStep K fuel (drawPlus n c) (newItem kind attr)) := by
  intro s s' h
  obtain ⟨l', g'⟩ := s'
  unfold manyStep at h
  cases hc : drawPlus n c s.2 with
  | ok r =>
    obtain ⟨k, g1⟩ := r
    rw [hc] at h
    simp only at h
    have hr := drawPlus_range hc
    have := placeMultipleObjects_count K fuel p hp.1 (q kind) (newItem_pred hp K) h
    simp only at this ⊢
    rw [this]
    cases q kind <;> simp only [if_true, Bool.false_eq_true, if_false] <;> omega
  | crash => rw [hc] at h; simp at h
  | timeout => rw [hc] at h; simp at h

theorem placeRareObject_count (K : Consts) (fuel : Nat) (p : Cell → Bool)
    (hE : ∀ v, p (Cell.Empty v) = false) {prob : Int} {o : Cell} {lvl : Grid} {g : Rng}
    {lvl' : Grid} {g' : Rng} (h : placeRareObject K fuel prob o lvl g = Res.ok (lvl', g')) :
    Grid.count p lvl ≤ Grid.count p lvl' ∧
      Grid.count p lvl' ≤ Grid.count p lvl + (if p (o.setVisible K.DEBUG) then 1 else 0) := by
  unfold placeRareObject at h
  rcases Res.bind_eq_ok.1 h with ⟨⟨r, g1⟩, _, h2⟩
  by_cases hr : r < prob
  · simp only [hr, if_true] at h2
    rw [placeRandom_count p hE h2]
    omega
  · simp only [hr, if_false, Res.pure_eq, Res.ok.injEq, Prod.mk.injEq] at h2
    rw [← h2.1]
    omega

theorem Adds_rare (K : Consts) (fuel : Nat) {p : Cell → Bool} {q : ItemKind → Bool}
    (hp : KindPred p q) (prob : Int) (kind : ItemKind) (attr : Rng → Res (Int × Rng)) :
    Step.Adds p 0 (if q kind then 1 else 0)
      (rareStep K fuel prob (newItem kind attr)) := by
  intro s s' h
  obtain ⟨l', g'⟩ := s'
  unfold rareStep at h
  cases hm : newItem kind attr s.2 with
  | ok r =>
    obtain ⟨o, g1⟩ := r
    rw [hm] at h
    simp only at h
    have := placeRareObject_count K fuel p hp.1 h
    rw [newItem_pred hp K _ _ _ hm] at this
    simp only at this ⊢
    omega
  | crash => rw [hm] at h; simp at h
  | timeout => rw [hm] at h; simp at h

theorem Adds_when {p : Cell → Bool} {lo hi : Nat} {st : Step} (c : Prop) [Decidable c]
    (h : Step.Adds p lo hi st) :
    Step.Adds p (if c then lo else 0) (if c then hi else 0) (whenStep c st) := by
  intro s s' hs
  unfold whenStep at hs
  by_cases hc : c
  · simp only [hc, if_true] at hs ⊢
    exact h s s' hs
  · simp only [hc, if_false, Res.ok.injEq] at hs ⊢
    subst hs
    omega

theorem Adds_ite {p : Cell → Bool} {lo1 hi1 lo2 hi2 : Nat} {a b : Step} (c : Prop)
    [Decidable c] (h1 : Step.Adds p lo1 hi1 a) (h2 : Step.Adds p lo2 hi2 b) :
    Step.Adds p (if c then lo1 else lo2) (if c then hi1 else hi2)
      (fun s => if c then a s else b s) := by
  intro s s' hs
  by_cases hc : c
  · simp only [hc, if_true] at hs ⊢
    exact h1 s s' hs
  · simp only [hc, if_false] at hs ⊢
    exact h2 s s' hs

theorem Adds_secondTier (K : Consts) (fuel : Nat) (lvl : Nat) {p : Cell → Bool} {lo hi : Nat}
    (h : Step.Adds p lo hi (runAll (secondTierSteps K fuel))) :
    Step.Adds p 0 (if lvl > 3 then hi else 0) (secondTier K fuel lvl) := by
  intro s s' hs
  unfold secondTier at hs
  rw [Rng.Intn_of_pos (show (0 : Int) < 4 by norm_num)] at hs
  simp only at hs
  by_cases hc : (s.2.src s.2.pos : Int) % 4 = 3 ∧ lvl > 3
  · rw [if_pos hc] at hs
    have := h _ s' hs
    simp only [hc.2, if_true] at this ⊢
    omega
  · rw [if_neg hc] at hs
    simp only [Res.ok.injEq] at hs
    subst hs
    simp only
    omega

theorem runAll_append {A : List Step} {st : Step} {B : List Step} {s s' : Grid × Rng}
    (h : runAll (A ++ st :: B) s = Res.ok s') :
    ∃ s1 s2, runAll A s = Res.ok s1 ∧ st s1 = Res.ok s2 ∧ runAll B s2 = Res.ok s' := by
  induction A generalizing s with
  | nil =>
    simp only [List.nil_append] at h
    unfold runAll at h
    cases hst : st s with
    | ok s2 =>
      rw [hst] at h
      exact ⟨s, s2, rfl, hst, h⟩
    | crash => rw [hst] at h; simp at h
    | timeout => rw [hst] at h; simp at h
  | cons a A ih =>
    simp only [List.cons_append] at h
    unfold runAll at h
    cases ha : a s with
    | ok sa =>
      rw [ha] at h
      obtain ⟨s1, s2, h1, h2, h3⟩ := ih h
      refine ⟨s1, s2, ?_, h2, h3⟩
      unfold runAll
      rw [ha]
      exact h1
    | crash => rw [ha] at h; simp at h
    | timeout => rw [ha] at h; simp at h

theorem kindPred_isKind (k : ItemKind) :
    KindPred (Cell.isKind k) (fun kind => decide (kind = k)) :=
  ⟨fun _ => rfl, fun _ _ _ => rfl⟩

/-- Policy of the level populator, item by item: on a level other than the home
level a completed run of `placeMapObjects` adds between `kindLo` and `kindHi`
items of each type. -/
theorem placeMapObjects_adds_kind (K : Consts) (E : Externals) (fuel : Nat) (lvl : Nat)
    (hl : lvl ≠ homeLevel) (k : ItemKind) :
    Step.Adds (Cell.isKind k) (kindLo lvl k) (kindHi lvl k)
      (fun s => placeMapObjects K E fuel lvl s.1 s.2) := by
  have key : Step.Adds (Cell.isKind k) (kindLo lvl k) (kindHi lvl k)
      (runAll (dungeonStepsA K E fuel lvl ++ secondTier K fuel lvl :: dungeonStepsB K fuel)) := by
    apply Adds_weaken
    case h =>
      simp only [dungeonStepsA, dungeonStepsB, secondTierSteps, List.cons_append,
        List.nil_append]
      repeat' first
        | exact Adds_nil _
        | exact Adds_many K fuel (kindPred_isKind k) _ _ _ _
        | exact Adds_rare K fuel (kindPred_isKind k) _ _ _
        | exact Adds_place K fuel (fun _ => rfl) _
        | apply Adds_cons
        | apply Adds_when
        | apply Adds_ite
        | apply Adds_secondTier
    case hlo =>
      cases k <;> simp [kindLo, Cell.isKind, Cell.setVisible]
    case hhi =>
      cases k <;> simp [kindHi, Cell.isKind, Cell.setVisible, maxDungeon, MaxVolcano]
  intro s s' hs
  have hs' : runAll (dungeonStepsA K E fuel lvl ++ secondTier K fuel lvl ::
      dungeonStepsB K fuel) s = Res.ok s' := by
    simpa only [placeMapObjects, if_neg hl, Prod.mk.eta] using hs
  exact key s s' hs'

/-- On a level other than the home level a completed run of `placeMapObjects`
changes the number of cells of a kind that is neither floor nor an item only
through the two stairs. -/
theorem placeMapObjects_adds_nonitem (K : Consts) (E : Externals) (fuel : Nat) (lvl : Nat)
    (hl : lvl ≠ homeLevel) {p : Cell → Bool} (hp : KindPred p (fun _ => false)) :
    Step.Adds p
      ((if lvl ≠ 1 then (if p (Cell.Stairs true (intOfUint (lvl - 1)) K.DEBUG) then 1 else 0)
          else 0) +
        (if lvl ≠ maxDungeon ∧ lvl ≠ MaxVolcano then
          (if p (Cell.Stairs false (intOfUint (lvl + 1)) K.DEBUG) then 1 else 0) else 0))
      ((if lvl ≠ 1 then (if p (Cell.Stairs true (intOfUint (lvl - 1)) K.DEBUG) then 1 else 0)
          else 0) +
        (if lvl ≠ maxDungeon ∧ lvl ≠ MaxVolcano then
          (if p (Cell.Stairs false (intOfUint (lvl + 1)) K.DEBUG) then 1 else 0) else 0))
      (fun s => placeMapObjects K E fuel lvl s.1 s.2) := by
  have hI : ∀ kind a v, p (Cell.Item kind a v) = false := hp.2
  have key : Step.Adds p
      ((if lvl ≠ 1 then (if p (Cell.Stairs true (intOfUint (lvl - 1)) K.DEBUG) then 1 else 0)
          else 0) +
        (if lvl ≠ maxDungeon ∧ lvl ≠ MaxVolcano then
          (if p (Cell.Stairs false (intOfUint (lvl + 1)) K.DEBUG) then 1 else 0) else 0))
      ((if lvl ≠ 1 then (if p (Cell.Stairs true (intOfUint (lvl - 1)) K.DEBUG) then 1 else 0)
          else 0) +
        (if lvl ≠ maxDungeon ∧ lvl ≠ MaxVolcano then
          (if p (Cell.Stairs false (intOfUint (lvl + 1)) K.DEBUG) then 1 else 0) else 0))
      (runAll (dungeonStepsA K E fuel lvl ++ secondTier K fuel lvl :: dungeonStepsB K fuel)) := by
    apply Adds_weaken
    case h =>
      simp only [dungeonStepsA, dungeonStepsB, secondTierSteps, List.cons_append,
        List.nil_append]
      repeat' first
        | exact Adds_nil _
        | exact Adds_many K fuel hp _ _ _ _
        | exact Adds_rare K fuel hp _ _ _
        | exact Adds_place K fuel hp.1 _
        | apply Adds_cons
        | apply Adds_when
        | apply Adds_ite
        | apply Adds_secondTier
    case hlo => simp [Cell.setVisible, hI]
    case hhi => simp [Cell.setVisible, hI]
  intro s s' hs
  have hs' : runAll (dungeonStepsA K E fuel lvl ++ secondTier K fuel lvl ::
      dungeonStepsB K fuel) s = Res.ok s' := by
    simpa only [placeMapObjects, if_neg hl, Prod.mk.eta] using hs
  exact key s s' hs'

theorem kindPred_isSecondTier : KindPred Cell.isSecondTier ItemKind.isSecondTier :=
  ⟨fun _ => rfl, fun _ _ _ => rfl⟩

/-- The statements of `placeMapObjects` outside the gated block place no item of
the second tier. -/
theorem dungeonSteps_no_secondTier (K : Consts) (E : Externals) (fuel : Nat) (lvl : Nat) :
    Step.Adds Cell.isSecondTier 0 0 (runAll (dungeonStepsA K E fuel lvl)) ∧
      Step.Adds Cell.isSecondTier 0 0 (runAll (dungeonStepsB K fuel)) := by
  constructor
  · apply Adds_weaken
    case h =>
      simp only [dungeonStepsA]
      repeat' first
        | exact Adds_nil _
        | exact Adds_many K fuel kindPred_isSecondTier _ _ _ _
        | exact Adds_rare K fuel kindPred_isSecondTier _ _ _
        | exact Adds_place K fuel kindPred_isSecondTier.1 _
        | apply Adds_cons
        | apply Adds_when
        | apply Adds_ite
    case hlo => simp
    case hhi => simp [Cell.setVisible, Cell.isSecondTier, ItemKind.isSecondTier]
  · apply Adds_weaken
    case h =>
      simp only [dungeonStepsB]
      repeat' first
        | exact Adds_nil _
        | exact Adds_rare K fuel kindPred_isSecondTier _ _ _
        | apply Adds_cons
    case hlo => simp
    case hhi => simp [ItemKind.isSecondTier]

/-- On the home level a completed run of `placeMapObjects` adds exactly the
eight entrances. -/
theorem homeSteps_adds (K : Consts) (E : Externals) (fuel : Nat) {p : Cell → Bool}
    (hE : ∀ v, p (Cell.Empty v) = false) :
    Step.Adds p
      ((if p (Cell.Entrance EntranceKind.dungeon 1) then 1 else 0) +
        ((if p (Cell.Entrance EntranceKind.home E.HomeLvl) then 1 else 0) +
        ((if p (Cell.Entrance EntranceKind.college E.CollegeLvl) then 1 else 0) +
        ((if p (Cell.Entrance EntranceKind.bank E.BankLvl) then 1 else 0) +
        ((if p (Cell.Entrance EntranceKind.volcano ((maxDungeon : Int) + 1)) then 1 else 0) +
        ((if p (Cell.Entrance EntranceKind.dnd E.DndLvl) then 1 else 0) +
        ((if p (Cell.Entrance EntranceKind.trade E.TradeLvl) then 1 else 0) +
        ((if p (Cell.Entrance EntranceKind.lrs E.LrsLvl) then 1 else 0) + 0))))))))
      ((if p (Cell.Entrance EntranceKind.dungeon 1) then 1 else 0) +
        ((if p (Cell.Entrance EntranceKind.home E.HomeLvl) then 1 else 0) +
        ((if p (Cell.Entrance EntranceKind.college E.CollegeLvl) then 1 else 0) +
        ((if p (Cell.Entrance EntranceKind.bank E.BankLvl) then 1 else 0) +
        ((if p (Cell.Entrance EntranceKind.volcano ((maxDungeon : Int) + 1)) then 1 else 0) +
        ((if p (Cell.Entrance EntranceKind.dnd E.DndLvl) then 1 else 0) +
        ((if p (Cell.Entrance EntranceKind.trade E.TradeLvl) then 1 else 0) +
        ((if p (Cell.Entrance EntranceKind.lrs E.LrsLvl) then 1 else 0) + 0))))))))
      (fun s => placeMapObjects K E fuel homeLevel s.1 s.2) := by
  have key := Adds_cons (Adds_place K fuel hE (Cell.Entrance EntranceKind.dungeon 1))
    (Adds_cons (Adds_place K fuel hE (Cell.Entrance EntranceKind.home E.HomeLvl))
    (Adds_cons (Adds_place K fuel hE (Cell.Entrance EntranceKind.college E.CollegeLvl))
    (Adds_cons (Adds_place K fuel hE (Cell.Entrance EntranceKind.bank E.BankLvl))
    (Adds_cons (Adds_place K fuel hE (Cell.Entrance EntranceKind.volcano ((maxDungeon : Int) + 1)))
    (Adds_cons (Adds_place K fuel hE (Cell.Entrance EntranceKind.dnd E.DndLvl))
    (Adds_cons (Adds_place K fuel hE (Cell.Entrance EntranceKind.trade E.TradeLvl))
    (Adds_cons (Adds_place K fuel hE (Cell.Entrance EntranceKind.lrs E.LrsLvl))
      (Adds_nil p))))))))
  intro s s' hs
  have hs' : runAll (homeSteps K E fuel) s = Res.ok s' := by
    simpa only [placeMapObjects, if_true, Prod.mk.eta] using hs
  exact key s s' hs'

theorem Grid.count_fill (p : Cell → Bool) (w h : Nat) (o : Cell) :
    Grid.count p (Grid.fill w h o) = if p o then w * h else 0 := by
  unfold Grid.count Grid.fill
  cases hp : p o <;> simp [List.countP_replicate, hp, Nat.mul_comm]

theorem Grid.count_eq_zero_cell {p : Cell → Bool} {lvl : Grid} (h : Grid.count p lvl = 0)
    {x y : Int} {v : Cell} (hc : lvl.cell? x y = some v) : p v = false := by
  unfold Grid.cell? at hc
  by_cases hn : 0 ≤ x ∧ 0 ≤ y
  · rw [if_pos hn] at hc
    cases hrow : lvl[y.toNat]? with
    | none => rw [hrow] at hc; simp at hc
    | some row =>
      rw [hrow] at hc
      simp only at hc
      have hmem : row ∈ lvl := List.getElem?_mem hrow
      have hv : v ∈ row := List.getElem?_mem hc
      unfold Grid.count at h
      have hz : row.countP p = 0 := by
        have := List.sum_eq_zero_iff.1 h (row.countP p) (List.mem_map.2 ⟨row, hmem, rfl⟩)
        exact this
      by_contra hne
      have hpv : p v = true := by simpa using hne
      have : 0 < row.countP p := List.countP_pos_iff.2 ⟨v, hv, hpv⟩
      omega
  · rw [if_neg hn] at hc
    simp at hc

theorem Grid.count_mono {p q : Cell → Bool} (h : ∀ c, p c = true → q c = true) (lvl : Grid) :
    Grid.count p lvl ≤ Grid.count q lvl := by
  unfold Grid.count
  induction lvl with
  | nil => simp
  | cons row rest ih =>
    simp only [List.map_cons, List.sum_cons]
    have := List.countP_mono_left (l := row) (fun c _ => h c)
    omega

theorem sampleRun_level4 :
    (placeMapObjects openConsts sampleExt 30 4 (Grid.fill 30 12 (Cell.Empty false))
      mixRng).isOk = true := by
  decide

theorem sampleRun_level1 :
    (placeMapObjects openConsts sampleExt 30 1 (Grid.fill 30 12 (Cell.Empty false))
      mixRng).isOk = true := by
  decide

theorem sampleRun_home :
    (placeMapObjects openConsts sampleExt 30 0 (Grid.fill 30 12 (Cell.Empty true))
      mixRng).isOk = true := by
  decide

/-- C12: for every level `lvl` of `1..13` and every completed run of
`placeMapObjects(lvl, m)` on a grid without stairs, the grid holds exactly one
Up stairs cell if `lvl ≠ 1` and none if `lvl = 1`, its target level being
`lvl - 1`, and exactly one Down stairs cell if `lvl` is neither 10 nor 13 and
none otherwise, its target level being `lvl + 1`. -/
theorem placeMapObjects_stairs (K : Consts) (E : Externals) (fuel : Nat) (lvl : Nat)
    (m : Grid) (g : Rng) (m' : Grid) (g' : Rng) (h1 : 1 ≤ lvl) (h13 : lvl ≤ 13)
    (hup : Grid.count (Cell.isStairsDir true) m = 0)
    (hdown : Grid.count (Cell.isStairsDir false) m = 0)
    (h : placeMapObjects K E fuel lvl m g = Res.ok (m', g')) :
    Grid.count (Cell.isStairsDir true) m' = (if lvl ≠ 1 then 1 else 0) ∧
      Grid.count (Cell.isStairsTo true ((lvl : Int) - 1)) m' = (if lvl ≠ 1 then 1 else 0) ∧
      Grid.count (Cell.isStairsDir false) m' = (if lvl ≠ 10 ∧ lvl ≠ 13 then 1 else 0) ∧
      Grid.count (Cell.isStairsTo false ((lvl : Int) + 1)) m' =
        (if lvl ≠ 10 ∧ lvl ≠ 13 then 1 else 0) := by
  have hl : lvl ≠ homeLevel := by unfold homeLevel; omega
  have e1 : intOfUint (lvl - 1) = (lvl : Int) - 1 := by
    rw [intOfUint_small (by omega)]
    omega
  have e2 : intOfUint (lvl + 1) = (lvl : Int) + 1 := by
    rw [intOfUint_small (by omega)]
    omega
  have hupTo : Grid.count (Cell.isStairsTo true ((lvl : Int) - 1)) m = 0 := by
    have := Grid.count_mono (p := Cell.isStairsTo true ((lvl : Int) - 1))
      (q := Cell.isStairsDir true) (by
        intro c hc
        cases c <;> simp_all [Cell.isStairsTo, Cell.isStairsDir]) m
    omega
  have hdownTo : Grid.count (Cell.isStairsTo false ((lvl : Int) + 1)) m = 0 := by
    have := Grid.count_mono (p := Cell.isStairsTo false ((lvl : Int) + 1))
      (q := Cell.isStairsDir false) (by
        intro c hc
        cases c <;> simp_all [Cell.isStairsTo, Cell.isStairsDir]) m
    omega
  have a1 := placeMapObjects_adds_nonitem K E fuel lvl hl (p := Cell.isStairsDir true)
    ⟨fun _ => rfl, fun _ _ _ => rfl⟩ (m, g) (m', g') h
  have a2 := placeMapObjects_adds_nonitem K E fuel lvl hl
    (p := Cell.isStairsTo true ((lvl : Int) - 1)) ⟨fun _ => rfl, fun _ _ _ => rfl⟩
    (m, g) (m', g') h
  have a3 := placeMapObjects_adds_nonitem K E fuel lvl hl (p := Cell.isStairsDir false)
    ⟨fun _ => rfl, fun _ _ _ => rfl⟩ (m, g) (m', g') h
  have a4 := placeMapObjects_adds_nonitem K E fuel lvl hl
    (p := Cell.isStairsTo false ((lvl : Int) + 1)) ⟨fun _ => rfl, fun _ _ _ => rfl⟩
    (m, g) (m', g') h
  simp only [e1, e2, Cell.isStairsDir, Cell.isStairsTo, maxDungeon, MaxVolcano, decide_True,
    decide_False, Bool.and_self, Bool.false_and, if_true, Bool.false_eq_true, if_false,
    hup, hdown, hupTo, hdownTo, zero_add, add_zero, ite_self, Bool.true_eq_false,
    Bool.false_eq_true] at a1 a2 a3 a4
  refine ⟨?_, ?_, ?_, ?_⟩ <;> omega

/-- Witness of C12: a completed run on level 4 leaves one Up and one Down stairs
cell. -/
theorem placeMapObjects_stairs_witness :
    ∃ m' g', placeMapObjects openConsts sampleExt 30 4 (Grid.fill 30 12 (Cell.Empty false))
        mixRng = Res.ok (m', g') ∧
      Grid.count (Cell.isStairsDir true) m' = 1 ∧
      Grid.count (Cell.isStairsDir false) m' = 1 :=
  (Res.exists_of_isOk sampleRun_level4).elim fun s hs =>
    ⟨s.1, s.2, hs,
      (placeMapObjects_stairs openConsts sampleExt 30 4 _ mixRng s.1 s.2 (by decide) (by decide)
        (by decide) (by decide) hs).1,
      (placeMapObjects_stairs openConsts sampleExt 30 4 _ mixRng s.1 s.2 (by decide) (by decide)
        (by decide) (by decide) hs).2.2.1⟩

/-- C13: every completed run of `placeMapObjects(1, m)` on a grid containing no
chest leaves exactly one `Chest` cell in the grid, and no Up stairs cell if the
grid held none before; on every other level but the home level the grid ends
with 0 or 1 chests. -/
theorem placeMapObjects_chest (K : Consts) (E : Externals) (fuel : Nat) (lvl : Nat)
    (m : Grid) (g : Rng) (m' : Grid) (g' : Rng) (hl : lvl ≠ homeLevel)
    (hchest : Grid.count (Cell.isKind ItemKind.chest) m = 0)
    (h : placeMapObjects K E fuel lvl m g = Res.ok (m', g')) :
    (lvl = 1 → Grid.count (Cell.isKind ItemKind.chest) m' = 1 ∧
        (Grid.count (Cell.isStairsDir true) m = 0 →
          Grid.count (Cell.isStairsDir true) m' = 0)) ∧
      (lvl ≠ 1 → Grid.count (Cell.isKind ItemKind.chest) m' ≤ 1) := by
  have a := placeMapObjects_adds_kind K E fuel lvl hl ItemKind.chest (m, g) (m', g') h
  simp only [kindLo, kindHi, hchest, zero_add] at a
  constructor
  · intro h1
    subst h1
    simp only [if_true] at a
    refine ⟨by omega, ?_⟩
    intro hup
    have b := placeMapObjects_adds_nonitem K E fuel 1 hl (p := Cell.isStairsDir true)
      ⟨fun _ => rfl, fun _ _ _ => rfl⟩ (m, g) (m', g') h
    simp only [Cell.isStairsDir, ne_eq, not_true_eq_false, if_false, decide_False,
      Bool.false_eq_true, ite_self, add_zero, hup] at b
    omega
  · intro _
    omega

/-- Witness of C13: a completed run on level 1 leaves exactly one chest. -/
theorem placeMapObjects_chest_witness :
    ∃ m' g', placeMapObjects openConsts sampleExt 30 1 (Grid.fill 30 12 (Cell.Empty false))
        mixRng = Res.ok (m', g') ∧
      Grid.count (Cell.isKind ItemKind.chest) m' = 1 :=
  (Res.exists_of_isOk sampleRun_level1).elim fun s hs =>
    ⟨s.1, s.2, hs,
      ((placeMapObjects_chest openConsts sampleExt 30 1 _ mixRng s.1 s.2 (by decide)
        (by decide) hs).1 rfl).1⟩

/-- C15: for every level but the home level, a completed run of
`placeMapObjects` adds between 0 and 2 each of books, altars, statues, pits,
fountains and arrow traps, 0 or 1 each of teleport traps, dart traps and door
traps, and no door trap at all on levels 10 and 13; a count of `-1` (the draw
`rand.Intn(3) - 1`) places nothing. -/
theorem placeMapObjects_terrain (K : Consts) (E : Externals) (fuel : Nat) (lvl : Nat)
    (m : Grid) (g : Rng) (m' : Grid) (g' : Rng) (hl : lvl ≠ homeLevel)
    (h : placeMapObjects K E fuel lvl m g = Res.ok (m', g')) :
    (∀ k ∈ [ItemKind.book, ItemKind.altar, ItemKind.statue, ItemKind.pit, ItemKind.fountain,
        ItemKind.arrowTrap],
      Grid.count (Cell.isKind k) m ≤ Grid.count (Cell.isKind k) m' ∧
        Grid.count (Cell.isKind k) m' ≤ Grid.count (Cell.isKind k) m + 2) ∧
    (∀ k ∈ [ItemKind.teleTrap, ItemKind.dartTrap, ItemKind.doorTrap],
      Grid.count (Cell.isKind k) m ≤ Grid.count (Cell.isKind k) m' ∧
        Grid.count (Cell.isKind k) m' ≤ Grid.count (Cell.isKind k) m + 1) ∧
    (lvl = 10 ∨ lvl = 13 →
      Grid.count (Cell.isKind ItemKind.doorTrap) m' =
        Grid.count (Cell.isKind ItemKind.doorTrap) m) ∧
    (∀ (f : Rng → Res (Cell × Rng)) (l0 : Grid) (g0 : Rng),
      placeMultipleObjects K fuel (-1) f l0 g0 = Res.ok (l0, g0)) := by
  have a := fun k => placeMapObjects_adds_kind K E fuel lvl hl k (m, g) (m', g') h
  refine ⟨?_, ?_, ?_, ?_⟩
  · intro k hk
    simp only [List.mem_cons, List.mem_singleton, List.not_mem_nil, or_false] at hk
    have ak := a k
    rcases hk with rfl | rfl | rfl | rfl | rfl | rfl <;>
      · simp only [kindLo, kindHi] at ak
        omega
  · intro k hk
    simp only [List.mem_cons, List.mem_singleton, List.not_mem_nil, or_false] at hk
    have ak := a k
    rcases hk with rfl | rfl | rfl <;>
      · simp only [kindLo, kindHi] at ak
        first
          | omega
          | (split_ifs at ak <;> omega)
  · intro h10
    have ak := a ItemKind.doorTrap
    simp only [kindLo, kindHi] at ak
    rw [if_neg (by omega)] at ak
    omega
  · intro f l0 g0
    rfl

/-- Witness of C15: a completed run on level 4. -/
theorem placeMapObjects_terrain_witness :
    ∃ m' g', placeMapObjects openConsts sampleExt 30 4 (Grid.fill 30 12 (Cell.Empty false))
        mixRng = Res.ok (m', g') ∧
      Grid.count (Cell.isKind ItemKind.book) m' ≤
        Grid.count (Cell.isKind ItemKind.book) (Grid.fill 30 12 (Cell.Empty false)) + 2 :=
  (Res.exists_of_isOk sampleRun_level4).elim fun s hs =>
    ⟨s.1, s.2, hs,
      ((placeMapObjects_terrain openConsts sampleExt 30 4 _ mixRng s.1 s.2 (by decide) hs).1
        ItemKind.book (by simp)).2⟩

/-- C16: for every level but the home level, a completed run of
`placeMapObjects` adds 4 to 7 potions, 4 to 8 scrolls and 12 to 23 gold piles,
and 0 or 1 of each gem type (diamond, ruby, emerald, sapphire) when `lvl ≤ 10`
and no gem at all when `lvl > 10`. -/
theorem placeMapObjects_consumables (K : Consts) (E : Externals) (fuel : Nat) (lvl : Nat)
    (m : Grid) (g : Rng) (m' : Grid) (g' : Rng) (hl : lvl ≠ homeLevel)
    (h : placeMapObjects K E fuel lvl m g = Res.ok (m', g')) :
    (Grid.count (Cell.isKind ItemKind.potion) m + 4 ≤ Grid.count (Cell.isKind ItemKind.potion) m' ∧
      Grid.count (Cell.isKind ItemKind.potion) m' ≤
        Grid.count (Cell.isKind ItemKind.potion) m + 7) ∧
    (Grid.count (Cell.isKind ItemKind.scroll) m + 4 ≤ Grid.count (Cell.isKind ItemKind.scroll) m' ∧
      Grid.count (Cell.isKind ItemKind.scroll) m' ≤
        Grid.count (Cell.isKind ItemKind.scroll) m + 8) ∧
    (Grid.count (Cell.isKind ItemKind.goldPile) m + 12 ≤
        Grid.count (Cell.isKind ItemKind.goldPile) m' ∧
      Grid.count (Cell.isKind ItemKind.goldPile) m' ≤
        Grid.count (Cell.isKind ItemKind.goldPile) m + 23) ∧
    (∀ k ∈ [ItemKind.diamond, ItemKind.ruby, ItemKind.emerald, ItemKind.sapphire],
      Grid.count (Cell.isKind k) m ≤ Grid.count (Cell.isKind k) m' ∧
        Grid.count (Cell.isKind k) m' ≤ Grid.count (Cell.isKind k) m + 1 ∧
        (lvl > 10 → Grid.count (Cell.isKind k) m' = Grid.count (Cell.isKind k) m)) := by
  have a := fun k => placeMapObjects_adds_kind K E fuel lvl hl k (m, g) (m', g') h
  refine ⟨?_, ?_, ?_, ?_⟩
  · have ak := a ItemKind.potion
    simp only [kindLo, kindHi] at ak
    exact ak
  · have ak := a ItemKind.scroll
    simp only [kindLo, kindHi] at ak
    exact ak
  · have ak := a ItemKind.goldPile
    simp only [kindLo, kindHi] at ak
    exact ak
  · intro k hk
    simp only [List.mem_cons, List.mem_singleton, List.not_mem_nil, or_false] at hk
    have ak := a k
    rcases hk with rfl | rfl | rfl | rfl <;>
      · simp only [kindLo, kindHi] at ak
        split_ifs at ak <;> refine ⟨by omega, by omega, fun _ => by omega⟩

/-- Witness of C16: a completed run on level 4 adds at least four potions. -/
theorem placeMapObjects_consumables_witness :
    ∃ m' g', placeMapObjects openConsts sampleExt 30 4 (Grid.fill 30 12 (Cell.Empty false))
        mixRng = Res.ok (m', g') ∧
      Grid.count (Cell.isKind ItemKind.potion) (Grid.fill 30 12 (Cell.Empty false)) + 4 ≤
        Grid.count (Cell.isKind ItemKind.potion) m' :=
  (Res.exists_of_isOk sampleRun_level4).elim fun s hs =>
    ⟨s.1, s.2, hs,
      (placeMapObjects_consumables openConsts sampleExt 30 4 _ mixRng s.1 s.2 (by decide)
        hs).1.1⟩

/-- C17: for every level but the home level and every completed run of
`placeMapObjects`: Bessman's hammer is added only when `lvl = 1`; an item of
the second tier (sun sword, two-handed sword, belt, ring of energy, plate mail)
is added only when `lvl > 3` and the gate draw `rand.Intn(4)`, made in the state
`s1` that the statements before the gate leave, equals 3; on levels 1 to 3 none
of the second-tier items is added. -/
theorem placeMapObjects_gated (K : Consts) (E : Externals) (fuel : Nat) (lvl : Nat)
    (m : Grid) (g : Rng) (m' : Grid) (g' : Rng) (hl : lvl ≠ homeLevel)
    (h : placeMapObjects K E fuel lvl m g = Res.ok (m', g')) :
    (lvl ≠ 1 → Grid.count (Cell.isKind ItemKind.bessmansHammer) m' =
      Grid.count (Cell.isKind ItemKind.bessmansHammer) m) ∧
    (∃ s1 s2 : Grid × Rng,
      runAll (dungeonStepsA K E fuel lvl) (m, g) = Res.ok s1 ∧
      secondTier K fuel lvl s1 = Res.ok s2 ∧
      runAll (dungeonStepsB K fuel) s2 = Res.ok (m', g') ∧
      (¬ ((s1.2.src s1.2.pos : Int) % 4 = 3 ∧ lvl > 3) →
        Grid.count Cell.isSecondTier m' = Grid.count Cell.isSecondTier m)) ∧
    (lvl ≤ 3 → ∀ k ∈ [ItemKind.sunSword, ItemKind.twoHandedSword, ItemKind.belt,
        ItemKind.ringEnergy, ItemKind.plateMail],
      Grid.count (Cell.isKind k) m' = Grid.count (Cell.isKind k) m) := by
  have a := fun k => placeMapObjects_adds_kind K E fuel lvl hl k (m, g) (m', g') h
  refine ⟨?_, ?_, ?_⟩
  · intro h1
    have ak := a ItemKind.bessmansHammer
    simp only [kindLo, kindHi, if_neg h1] at ak
    omega
  · have hrun : runAll (dungeonStepsA K E fuel lvl ++ secondTier K fuel lvl ::
        dungeonStepsB K fuel) (m, g) = Res.ok (m', g') := by
      simpa only [placeMapObjects, if_neg hl] using h
    obtain ⟨s1, s2, hA, hG, hB⟩ := runAll_append hrun
    refine ⟨s1, s2, hA, hG, hB, ?_⟩
    intro hgate
    have cA := (dungeonSteps_no_secondTier K E fuel lvl).1 _ _ hA
    have cB := (dungeonSteps_no_secondTier K E fuel lvl).2 _ _ hB
    have hs2 : s2.1 = s1.1 := by
      unfold secondTier at hG
      rw [Rng.Intn_of_pos (show (0 : Int) < 4 by norm_num)] at hG
      simp only at hG
      rw [if_neg hgate] at hG
      simp only [Res.ok.injEq] at hG
      rw [← hG]
    rw [hs2] at cB
    simp only at cA cB
    omega
  · intro h3 k hk
    simp only [List.mem_cons, List.mem_singleton, List.not_mem_nil, or_false] at hk
    have ak := a k
    rcases hk with rfl | rfl | rfl | rfl | rfl <;>
      · simp only [kindLo, kindHi] at ak
        rw [if_neg (by omega)] at ak
        omega

/-- Witness of C17: a completed run on level 4 adds no Bessman's hammer. -/
theorem placeMapObjects_gated_witness :
    ∃ m' g', placeMapObjects openConsts sampleExt 30 4 (Grid.fill 30 12 (Cell.Empty false))
        mixRng = Res.ok (m', g') ∧
      Grid.count (Cell.isKind ItemKind.bessmansHammer) m' =
        Grid.count (Cell.isKind ItemKind.bessmansHammer) (Grid.fill 30 12 (Cell.Empty false)) :=
  (Res.exists_of_isOk sampleRun_level4).elim fun s hs =>
    ⟨s.1, s.2, hs,
      (placeMapObjects_gated openConsts sampleExt 30 4 _ mixRng s.1 s.2 (by decide) hs).1
        (by decide)⟩

/-- C14: `newLevel(0)` returns the grid of `width` by `height` visible floor
cells, and every completed run of `placeMapObjects(0, m)` on it yields a grid
with no `Wall` cell that holds exactly eight `Entrance` cells, one for each of
the eight portals (dungeon with target level 1, home, college, bank, volcano
with target level 11, DND store, trading post, revenue service), every other
cell being `Empty`: no stairs, items or monsters are placed. -/
theorem home_level (K : Consts) (E : Externals) (fuel : Nat) (g0 g : Rng) (m' : Grid)
    (g' : Rng) (hW : 0 ≤ K.width) (hH : 0 ≤ K.height)
    (h : placeMapObjects K E fuel homeLevel
      (Grid.fill K.width.toNat K.height.toNat (Cell.Empty true)) g = Res.ok (m', g')) :
    newLevel K fuel homeLevel g0 =
        Res.ok (Grid.fill K.width.toNat K.height.toNat (Cell.Empty true), g0) ∧
      Grid.count Cell.isWallCell m' = 0 ∧
      Grid.count Cell.isEntrance m' = 8 ∧
      (Grid.count (Cell.isEntranceTo EntranceKind.dungeon 1) m' = 1 ∧
        Grid.count (Cell.isEntranceTo EntranceKind.home E.HomeLvl) m' = 1 ∧
        Grid.count (Cell.isEntranceTo EntranceKind.college E.CollegeLvl) m' = 1 ∧
        Grid.count (Cell.isEntranceTo EntranceKind.bank E.BankLvl) m' = 1 ∧
        Grid.count (Cell.isEntranceTo EntranceKind.volcano 11) m' = 1 ∧
        Grid.count (Cell.isEntranceTo EntranceKind.dnd E.DndLvl) m' = 1 ∧
        Grid.count (Cell.isEntranceTo EntranceKind.trade E.TradeLvl) m' = 1 ∧
        Grid.count (Cell.isEntranceTo EntranceKind.lrs E.LrsLvl) m' = 1) ∧
      (∀ (x y : Int) (v : Cell), m'.cell? x y = some v →
        v.isEmpty = true ∨ v.isEntrance = true) := by
  have hv : ((maxDungeon : Nat) : Int) + 1 = 11 := by
    unfold maxDungeon
    norm_num
  have cnt : ∀ (p : Cell → Bool), (∀ v, p (Cell.Empty v) = false) →
      Grid.count p m' =
        (if p (Cell.Entrance EntranceKind.dungeon 1) then 1 else 0) +
        ((if p (Cell.Entrance EntranceKind.home E.HomeLvl) then 1 else 0) +
        ((if p (Cell.Entrance EntranceKind.college E.CollegeLvl) then 1 else 0) +
        ((if p (Cell.Entrance EntranceKind.bank E.BankLvl) then 1 else 0) +
        ((if p (Cell.Entrance EntranceKind.volcano 11) then 1 else 0) +
        ((if p (Cell.Entrance EntranceKind.dnd E.DndLvl) then 1 else 0) +
        ((if p (Cell.Entrance EntranceKind.trade E.TradeLvl) then 1 else 0) +
        ((if p (Cell.Entrance EntranceKind.lrs E.LrsLvl) then 1 else 0) + 0))))))) := by
    intro p hE
    have a := homeSteps_adds K E fuel hE
      (Grid.fill K.width.toNat K.height.toNat (Cell.Empty true), g) (m', g') h
    rw [hv] at a
    simp only [Grid.count_fill, hE true, Bool.false_eq_true, if_false, zero_add] at a
    omega
  refine ⟨?_, ?_, ?_, ⟨?_, ?_, ?_, ?_, ?_, ?_, ?_, ?_⟩, ?_⟩
  · unfold newLevel
    rw [if_neg (by omega)]
    simp
  · rw [cnt Cell.isWallCell (fun _ => rfl)]
    simp [Cell.isWallCell]
  · rw [cnt Cell.isEntrance (fun _ => rfl)]
    simp [Cell.isEntrance]
  · rw [cnt _ (fun _ => rfl)]
    simp [Cell.isEntranceTo]
  · rw [cnt _ (fun _ => rfl)]
    simp [Cell.isEntranceTo]
  · rw [cnt _ (fun _ => rfl)]
    simp [Cell.isEntranceTo]
  · rw [cnt _ (fun _ => rfl)]
    simp [Cell.isEntranceTo]
  · rw [cnt _ (fun _ => rfl)]
    simp [Cell.isEntranceTo]
  · rw [cnt _ (fun _ => rfl)]
    simp [Cell.isEntranceTo]
  · rw [cnt _ (fun _ => rfl)]
    simp [Cell.isEntranceTo]
  · rw [cnt _ (fun _ => rfl)]
    simp [Cell.isEntranceTo]
  · intro x y v hc
    have hz : Grid.count Cell.isOther m' = 0 := by
      rw [cnt Cell.isOther (fun _ => rfl)]
      simp [Cell.isOther, Cell.isEmpty, Cell.isEntrance]
    have := Grid.count_eq_zero_cell hz hc
    unfold Cell.isOther at this
    cases hE : v.isEmpty <;> cases hN : v.isEntrance <;> simp_all

/-- Witness of C14: a completed run on the home level of 30 by 12 cells. -/
theorem home_level_witness :
    ∃ m' g', placeMapObjects openConsts sampleExt 30 homeLevel
        (Grid.fill 30 12 (Cell.Empty true)) mixRng = Res.ok (m', g') ∧
      Grid.count Cell.isEntrance m' = 8 :=
  (Res.exists_of_isOk sampleRun_home).elim fun s hs =>
    ⟨s.1, s.2, hs,
      (home_level openConsts sampleExt 30 mixRng mixRng s.1 s.2 (by decide) (by decide)
        hs).2.2.1⟩

/-! ## Relations kept by the level populator, and the extent of the grid -/

theorem Keeps_nil (R : Grid → Grid → Prop) (hR : WriteClosed R) : Step.Keeps R (runAll []) := by
  intro s s' h
  simp only [runAll, Res.ok.injEq] at h
  subst h
  exact hR.1 _

theorem Keeps_cons {R : Grid → Grid → Prop} (hR : WriteClosed R) {st : Step}
    {rest : List Step} (h1 : Step.Keeps R st) (h2 : Step.Keeps R (runAll rest)) :
    Step.Keeps R (runAll (st :: rest)) := by
  intro s s' h
  unfold runAll at h
  cases hst : st s with
  | ok s1 =>
    rw [hst] at h
    exact hR.2.1 _ _ _ (h1 s s1 hst) (h2 s1 s' h)
  | crash => rw [hst] at h; simp at h
  | timeout => rw [hst] at h; simp at h

theorem placeRandom_keeps {R : Grid → Grid → Prop} (hR : WriteClosed R) {K : Consts}
    {fuel : Nat} {o : Cell} {lvl : Grid} {g : Rng} {lvl' : Grid} {g' : Rng}
    (h : placeRandom K fuel o lvl g = Res.ok (lvl', g')) : R lvl lvl' := by
  obtain ⟨x, y, v, hc, hw⟩ := placeRandom_writes h
  exact hR.2.2 _ _ x y v _ hc hw

theorem Keeps_place {R : Grid → Grid → Prop} (hR : WriteClosed R) (K : Consts) (fuel : Nat)
    (o : Cell) : Step.Keeps R (placeStep K fuel o) := by
  intro s s' h
  obtain ⟨l1, g1⟩ := s'
  exact placeRandom_keeps hR h

theorem Keeps_many {R : Grid → Grid → Prop} (hR : WriteClosed R) (K : Consts) (fuel : Nat)
    (count : Rng → Res (Int × Rng)) (f : Rng → Res (Cell × Rng)) :
    Step.Keeps R (manyStep K fuel count f) := by
  intro s s' h
  obtain ⟨l1, g1⟩ := s'
  unfold manyStep at h
  cases hc : count s.2 with
  | ok r =>
    rw [hc] at h
    exact placeMultipleObjects_keeps K fuel R hR.1 hR.2.1 hR.2.2 h
  | crash => rw [hc] at h; simp at h
  | timeout => rw [hc] at h; simp at h

theorem Keeps_rare {R : Grid → Grid → Prop} (hR : WriteClosed R) (K : Consts) (fuel : Nat)
    (prob : Int) (mk : Rng → Res (Cell × Rng)) : Step.Keeps R (rareStep K fuel prob mk) := by
  intro s s' h
  obtain ⟨l1, g2⟩ := s'
  unfold rareStep at h
  cases hm : mk s.2 with
  | ok r =>
    rw [hm] at h
    simp only at h
    unfold placeRareObject at h
    rcases Res.bind_eq_ok.1 h with ⟨⟨d, g1⟩, _, h2⟩
    by_cases hd : d < prob
    · simp only [hd, if_true] at h2
      exact placeRandom_keeps hR h2
    · simp only [hd, if_false, Res.pure_eq, Res.ok.injEq] at h2
      rw [← h2]
      exact hR.1 _
  | crash => rw [hm] at h; simp at h
  | timeout => rw [hm] at h; simp at h

theorem Keeps_when {R : Grid → Grid → Prop} (hR : WriteClosed R) {st : Step} (c : Prop)
    [Decidable c] (h : Step.Keeps R st) : Step.Keeps R (whenStep c st) := by
  intro s s' hs
  unfold whenStep at hs
  by_cases hc : c
  · simp only [hc, if_true] at hs
    exact h s s' hs
  · simp only [hc, if_false, Res.ok.injEq] at hs
    subst hs
    exact hR.1 _

theorem Keeps_ite {R : Grid → Grid → Prop} {a b : Step} (c : Prop) [Decidable c]
    (h1 : Step.Keeps R a) (h2 : Step.Keeps R b) :
    Step.Keeps R (fun s => if c then a s else b s) := by
  intro s s' hs
  by_cases hc : c
  · simp only [hc, if_true] at hs
    exact h1 s s' hs
  · simp only [hc, if_false] at hs
    exact h2 s s' hs

theorem Keeps_secondTier {R : Grid → Grid → Prop} (hR : WriteClosed R) (K : Consts)
    (fuel : Nat) (lvl : Nat) (h : Step.Keeps R (runAll (secondTierSteps K fuel))) :
    Step.Keeps R (secondTier K fuel lvl) := by
  intro s s' hs
  unfold secondTier at hs
  rw [Rng.Intn_of_pos (show (0 : Int) < 4 by norm_num)] at hs
  simp only at hs
  by_cases hc : (s.2.src s.2.pos : Int) % 4 = 3 ∧ lvl > 3
  · rw [if_pos hc] at hs
    exact h (s.1, { src := s.2.src, pos := s.2.pos + 1 }) s' hs
  · rw [if_neg hc] at hs
    simp only [Res.ok.injEq] at hs
    subst hs
    exact hR.1 _

/-- Every relation that is reflexive, transitive and established by a write
onto a floor cell holds between the grid before and after a completed run of
`placeMapObjects`. -/
theorem placeMapObjects_keeps {R : Grid → Grid → Prop} (hR : WriteClosed R) (K : Consts)
    (E : Externals) (fuel : Nat) (lvl : Nat) {m : Grid} {g : Rng} {m' : Grid} {g' : Rng}
    (h : placeMapObjects K E fuel lvl m g = Res.ok (m', g')) : R m m' := by
  unfold placeMapObjects at h
  by_cases hl : lvl = homeLevel
  · rw [if_pos hl] at h
    have key : Step.Keeps R (runAll (homeSteps K E fuel)) := by
      simp only [homeSteps]
      repeat' first
        | exact Keeps_nil R hR
        | exact Keeps_place hR K fuel _
        | apply Keeps_cons hR
    exact key _ _ h
  · rw [if_neg hl] at h
    have key : Step.Keeps R
        (runAll (dungeonStepsA K E fuel lvl ++ secondTier K fuel lvl :: dungeonStepsB K fuel)) := by
      simp only [dungeonStepsA, dungeonStepsB, secondTierSteps, List.cons_append,
        List.nil_append]
      repeat' first
        | exact Keeps_nil R hR
        | exact Keeps_many hR K fuel _ _
        | exact Keeps_rare hR K fuel _ _
        | exact Keeps_place hR K fuel _
        | apply Keeps_cons hR
        | apply Keeps_when hR
        | apply Keeps_ite
        | apply Keeps_secondTier hR
    exact key _ _ h

theorem writeClosed_shape : WriteClosed (fun l l' => l'.shape = l.shape) :=
  ⟨fun _ => rfl, fun _ _ _ h1 h2 => h2.trans h1,
    fun _ _ _ _ _ _ _ hw => Grid.shape_write? hw⟩

theorem eat_shape (K : Consts) {fuel : Nat} {c : Coordinate} {lvl : Grid} {g : Rng}
    {lvl' : Grid} {g' : Rng} (h : eat K fuel c lvl g = Res.ok (lvl', g')) :
    lvl'.shape = lvl.shape := by
  refine eat_rel K (fun _ => True) (fun l l' => l'.shape = l.shape) (fun _ => rfl)
    (fun _ _ _ h1 h2 => h2.trans h1) ?_ trivial h
  intro c dir edge a b lvl lvl1 _ _ _ hC
  obtain ⟨l, h1, h2⟩ := carve2_eq_ok hC
  exact ⟨trivial, (Grid.shape_write? h2).trans (Grid.shape_write? h1)⟩

theorem put_shape {lvl lvl' : Grid} {c : Coordinate} {o : Cell}
    (h : lvl.put c o = Res.ok lvl') : lvl'.shape = lvl.shape :=
  Grid.shape_write? (Grid.put_eq_ok.1 h)

theorem fillRect_shape {x0 x1 y0 y1 : Int} {o : Cell} {m m' : Grid}
    (h : fillRect x0 x1 y0 y1 o m = Res.ok m') : m'.shape = m.shape := by
  unfold fillRect forRange at h
  refine forLoop_keeps (fun (s s' : Grid) => s'.shape = s.shape) (fun _ => rfl)
    (fun _ _ _ h1 h2 => h2.trans h1) _ ?_ _ _ _ _ h
  intro i s s' hb
  refine forLoop_keeps (fun (s s' : Grid) => s'.shape = s.shape) (fun _ => rfl)
    (fun _ _ _ h1 h2 => h2.trans h1) _ ?_ _ _ _ _ hb
  intro j t t' hp
  exact put_shape hp

theorem makeRoom_shape (K : Consts) {w h x y glyph : Int} {m : Grid} {g : Rng} {m' : Grid}
    {g' : Rng} (hr : makeRoom K w h x y glyph m g = Res.ok (m', g')) :
    m'.shape = m.shape := by
  unfold makeRoom at hr
  cases h1 : fillRect x (x + w) y (y + h) (Cell.Wall K.DEBUG) m with
  | ok m1 =>
    rw [h1] at hr
    simp only at hr
    cases h2 : fillRect (x + 1) (x + w - 1) (y + 1) (y + h - 1) (Cell.Empty false) m1 with
    | ok m2 =>
      rw [h2] at hr
      simp only at hr
      cases h3 : g.Intn (w * 2 + (h - 2) * 2) with
      | ok r =>
        obtain ⟨d, g1⟩ := r
        rw [h3] at hr
        simp only at hr
        cases h4 : forRange x (x + w) (fun i s =>
            forRange y (y + h) (fun j s1 => doorBody K w h x y d i j s1) s)
            { m := m2, wallCount := 0, returned := false } with
        | ok s =>
          rw [h4] at hr
          simp only [Res.ok.injEq, Prod.mk.injEq] at hr
          have hd : s.m.shape = m2.shape := by
            unfold forRange at h4
            refine forLoop_keeps (fun (s s' : DoorState) => s'.m.shape = s.m.shape)
              (fun _ => rfl) (fun _ _ _ h1 h2 => h2.trans h1) _ ?_ _ _ _ _ h4
            intro i s s' hb
            refine forLoop_keeps (fun (s s' : DoorState) => s'.m.shape = s.m.shape)
              (fun _ => rfl) (fun _ _ _ h1 h2 => h2.trans h1) _ ?_ _ _ _ _ hb
            intro j t t' hp
            unfold doorBody at hp
            split_ifs at hp with c1 c2 c3
            · simp only [Res.ok.injEq] at hp
              rw [← hp]
            · cases hput : t.m.put ⟨i, j⟩ (Cell.Door false K.DEBUG) with
              | ok m3 =>
                rw [hput] at hp
                simp only [Res.ok.injEq] at hp
                rw [← hp]
                exact put_shape hput
              | crash => rw [hput] at hp; simp at hp
              | timeout => rw [hput] at hp; simp at hp
            · simp only [Res.ok.injEq] at hp
              rw [← hp]
            · simp only [Res.ok.injEq] at hp
              rw [← hp]
          rw [← hr.1, hd, fillRect_shape h2, fillRect_shape h1]
        | crash => rw [h4] at hr; simp at hr
        | timeout => rw [h4] at hr; simp at hr
      | crash => rw [h3] at hr; simp at hr
      | timeout => rw [h3] at hr; simp at hr
    | crash => rw [h2] at hr; simp at hr
    | timeout => rw [h2] at hr; simp at hr
  | crash => rw [h1] at hr; simp at hr
  | timeout => rw [h1] at hr; simp at hr

theorem treasureLoop_shape (K : Consts) :
    ∀ (n : Nat) (x : Int) (m : Grid) (g : Rng) (m' : Grid) (g' : Rng),
      treasureLoop K n x m g = Res.ok (m', g') → m'.shape = m.shape := by
  intro n
  induction n with
  | zero => intro x m g m' g' h; simp [treasureLoop] at h
  | succ n ih =>
    intro x m g m' g' h
    unfold treasureLoop at h
    by_cases hx : x < K.width - 10
    · rw [if_pos hx, Rng.Intn_of_pos (show (0 : Int) < 13 by norm_num)] at h
      simp only at h
      by_cases hr : (g.src g.pos : Int) % 13 = 0
      · rw [if_pos hr, Rng.Intn_of_pos (show (0 : Int) < 6 by norm_num)] at h
        simp only at h
        rw [Rng.Intn_of_pos (show (0 : Int) < 6 by norm_num)] at h
        simp only at h
        cases h3 : Rng.Intn { src := g.src, pos := g.pos + 1 + 1 + 1 } (K.height - 10) with
        | ok r =>
          obtain ⟨yy, g4⟩ := r
          rw [h3] at h
          simp only at h
          rw [Rng.Intn_of_pos (show (0 : Int) < 9 by norm_num)] at h
          simp only at h
          cases h5 : makeRoom K ((g.src (g.pos + 1) : Int) % 6 + 4)
              ((g.src (g.pos + 1 + 1) : Int) % 6 + 4) x (yy + 2)
              ((g4.src g4.pos : Int) % 9 + 1) m { src := g4.src, pos := g4.pos + 1 } with
          | ok r5 =>
            obtain ⟨m1, g6⟩ := r5
            rw [h5] at h
            simp only at h
            rw [ih _ _ _ _ _ h, makeRoom_shape K h5]
          | crash => rw [h5] at h; simp at h
          | timeout => rw [h5] at h; simp at h
        | crash => rw [h3] at h; simp at h
        | timeout => rw [h3] at h; simp at h
      · rw [if_neg hr] at h
        exact ih _ _ _ _ _ h
    · rw [if_neg hx] at h
      simp only [Res.ok.injEq, Prod.mk.injEq] at h
      rw [← h.1]

theorem treasureRoom_shape (K : Consts) {m : Grid} {g : Rng} {m' : Grid} {g' : Rng}
    (h : treasureRoom K m g = Res.ok (m', g')) : m'.shape = m.shape := by
  unfold treasureRoom at h
  rw [Rng.Intn_of_pos (show (0 : Int) < 10 by norm_num)] at h
  exact treasureLoop_shape K _ _ _ _ _ _ h

theorem Grid.hasDims_of_shape {lvl lvl' : Grid} {w h : Nat} (hs : lvl'.shape = lvl.shape)
    (hd : lvl.HasDims w h) : lvl'.HasDims w h := by
  unfold Grid.shape at hs
  obtain ⟨hlen, hrow⟩ := hd
  constructor
  · have := congrArg List.length hs
    simp only [List.length_map] at this
    omega
  · intro row hrow'
    have hm : row.length ∈ lvl'.map List.length := List.mem_map.2 ⟨row, hrow', rfl⟩
    rw [hs] at hm
    obtain ⟨r0, hr0, he⟩ := List.mem_map.1 hm
    rw [← he]
    exact hrow r0 hr0

theorem Grid.hasDims_fill (w h : Nat) (o : Cell) : (Grid.fill w h o).HasDims w h := by
  unfold Grid.HasDims Grid.fill
  constructor
  · simp
  · intro row hrow
    rw [List.eq_of_mem_replicate hrow]
    simp

/-- C19: for every level number, `newLevel` returns a grid of exactly `height`
rows of exactly `width` cells each (and it does return, given fuel
`13 * width * height + 13`), and completed runs of `eat`, `makeRoom`,
`treasureRoom`, `placeObject` and `placeMapObjects` leave the number of rows
and the length of every row unchanged. -/
theorem fixed_extent (K : Consts) (hW : 3 ≤ K.width) (hH : 3 ≤ K.height) :
    (∀ (fuel : Nat) (lvl : Nat) (g : Rng) (m : Grid) (g' : Rng),
      newLevel K fuel lvl g = Res.ok (m, g') → m.HasDims K.width.toNat K.height.toNat) ∧
    (∀ (fuel : Nat) (lvl : Nat) (g : Rng),
      13 * (K.width.toNat * K.height.toNat) + 13 ≤ fuel →
      ∃ m g', newLevel K fuel lvl g = Res.ok (m, g')) ∧
    (∀ (fuel : Nat) (c : Coordinate) (lvl : Grid) (g : Rng) (lvl' : Grid) (g' : Rng),
      eat K fuel c lvl g = Res.ok (lvl', g') → lvl'.shape = lvl.shape) ∧
    (∀ (w h x y glyph : Int) (m : Grid) (g : Rng) (m' : Grid) (g' : Rng),
      makeRoom K w h x y glyph m g = Res.ok (m', g') → m'.shape = m.shape) ∧
    (∀ (m : Grid) (g : Rng) (m' : Grid) (g' : Rng),
      treasureRoom K m g = Res.ok (m', g') → m'.shape = m.shape) ∧
    (∀ (fuel : Nat) (c : Coordinate) (o : Cell) (lvl : Grid) (g : Rng) (c' : Coordinate)
        (d : Cell) (lvl' : Grid) (g' : Rng),
      placeObject K fuel c o lvl g = Res.ok (c', d, lvl', g') → lvl'.shape = lvl.shape) ∧
    (∀ (E : Externals) (fuel : Nat) (lvl : Nat) (m : Grid) (g : Rng) (m' : Grid) (g' : Rng),
      placeMapObjects K E fuel lvl m g = Res.ok (m', g') → m'.shape = m.shape) := by
  refine ⟨?_, ?_, ?_, ?_, ?_, ?_, ?_⟩
  · intro fuel lvl g m g' h
    unfold newLevel at h
    rw [if_neg (by omega)] at h
    by_cases hl : lvl = homeLevel
    · simp only [hl, ne_eq, not_true_eq_false, if_true, if_false, Res.ok.injEq,
        Prod.mk.injEq] at h
      rw [← h.1]
      exact Grid.hasDims_fill _ _ _
    · simp only [hl, ne_eq, not_false_eq_true, if_true, if_false] at h
      exact Grid.hasDims_of_shape (eat_shape K h) (Grid.hasDims_fill _ _ _)
  · intro fuel lvl g hf
    unfold newLevel
    rw [if_neg (by omega)]
    by_cases hl : lvl = homeLevel
    · simp only [hl, ne_eq, not_true_eq_false, if_true, if_false]
      exact ⟨_, _, rfl⟩
    · simp only [hl, ne_eq, not_false_eq_true, if_true, if_false]
      exact eat_returns_on_fill K hW hH g fuel hf
  · intro fuel c lvl g lvl' g' h
    exact eat_shape K h
  · intro w h x y glyph m g m' g' hr
    exact makeRoom_shape K hr
  · intro m g m' g' h
    exact treasureRoom_shape K h
  · intro fuel c o lvl g c' d lvl' g' h
    obtain ⟨_, _, hl⟩ := placeObject_eq_ok h
    exact Grid.shape_write? hl
  · intro E fuel lvl m g m' g' h
    exact placeMapObjects_keeps writeClosed_shape K E fuel lvl h

/-- Witness of C19: the level that `newLevel` builds for level 1 with the small
constants has 7 rows of 7 cells. -/
theorem fixed_extent_witness :
    ∃ m g', newLevel smallConsts 40 1 (Rng.replay [1, 3, 0, 2, 1, 3]) = Res.ok (m, g') ∧
      m.HasDims 7 7 :=
  ⟨_, _, rfl, (fixed_extent smallConsts (by decide) (by decide)).1 40 1
    (Rng.replay [1, 3, 0, 2, 1, 3]) _ _ rfl⟩

/-- C18 fails on the code: `newMap` installs the seed only after `newLevel` and
`treasureRoom` have drawn from the random source. Two runs for level 1 with the
same seed 1 but different states of the random source before the call complete
with different mazes: the cell `(5,2)` is not a wall after the one and is a
wall after the other. -/
theorem newMap_maze_ignores_seed :
    (newMap openConsts sampleExt 3000 sampleStream 1 1 mixRng).map
        (fun r => (r.1.cell? 5 2).map Cell.isWallCell) = Res.ok (some false) ∧
      (newMap openConsts sampleExt 3000 sampleStream 1 1 (Rng.replay [3])).map
        (fun r => (r.1.cell? 5 2).map Cell.isWallCell) = Res.ok (some true) := by
  decide

/-! ## Healing, armor and the trading post -/


theorem wrapInt_of_range {z : Int} (h : -2 ^ 63 ≤ z ∧ z < 2 ^ 63) : wrapInt z = z := by
  unfold wrapInt
  norm_num at h ⊢
  omega

theorem wrapInt_add_wrapInt (a b : Int) : wrapInt (a + wrapInt b) = wrapInt (a + b) := by
  unfold wrapInt
  norm_num
  omega

theorem wrapInt_sub_wrapInt (a b : Int) : wrapInt (a - wrapInt b) = wrapInt (a - b) := by
  unfold wrapInt
  norm_num
  omega

/-- `Heal` never leaves `Hp` above `MaxHP` and never changes `MaxHP`. -/
theorem Heal_capped (c : character.Character) (hp : Int) :
    (c.Heal hp).Stats.Hp ≤ (c.Heal hp).Stats.MaxHP ∧ (c.Heal hp).Stats.MaxHP = c.Stats.MaxHP := by
  unfold character.Character.Heal
  simp only
  split_ifs with h
  · exact ⟨le_refl _, rfl⟩
  · exact ⟨by simpa using h, rfl⟩

/-- For an argument `hp ≥ 0` whose sum with `Hp` stays below `2 ^ 64`, `Heal`
does not lower `Hp`. -/
theorem Heal_of_nonneg (c : character.Character) (hp : Int) (h0 : 0 ≤ hp)
    (hle : c.Stats.Hp ≤ c.Stats.MaxHP) (hsum : (c.Stats.Hp : Int) + hp < 2 ^ 64) :
    c.Stats.Hp ≤ (c.Heal hp).Stats.Hp := by
  have e : uintOfInt hp = hp.toNat := by
    unfold uintOfInt
    rw [Int.emod_eq_of_lt h0 (by omega)]
  have hlt : c.Stats.Hp + hp.toNat < 2 ^ 64 := by
    have : ((c.Stats.Hp + hp.toNat : Nat) : Int) < ((2 ^ 64 : Nat) : Int) := by
      push_cast
      rw [Int.toNat_of_nonneg h0]
      exact hsum
    exact_mod_cast this
  unfold character.Character.Heal
  simp only
  rw [e, Nat.mod_eq_of_lt hlt]
  split_ifs with h
  · exact hle
  · exact Nat.le_add_right _ _

/-- C21 fails on the code: the conversion `uint(hp)` wraps a negative argument.
From `Hp = MaxHP = 5` the call `Heal(-3)` leaves `Hp = 2`, lower than before,
and from `Hp = 2`, `MaxHP = 5` the call `Heal(-3)` fills `Hp` up to `5`. -/
theorem Heal_negative_argument :
    (character.Character.Heal ⟨⟨0, 0⟩, sampleStats⟩ (-3)).Stats.Hp = 2 ∧
      sampleStats.Hp = 5 ∧ sampleStats.MaxHP = 5 ∧
      (character.Character.Heal ⟨⟨0, 0⟩, { sampleStats with Hp := 2 }⟩ (-3)).Stats.Hp = 5 := by
  decide

/-- C22: for every armor (type and attribute) and every statistics value whose
`Ac` is a 64-bit `int`, `Wear` changes `Ac` to `Ac + (armorBase[type] +
attribute)` in 64-bit arithmetic (the exact sum whenever it is representable)
and changes no other field; `TakeOff` after `Wear` gives back the original
statistics, and so does `Wear` after `TakeOff`. -/
theorem armor_round_trip (a : items.ArmorClass) (c : stats.Stats)
    (hAc : -2 ^ 63 ≤ c.Ac ∧ c.Ac < 2 ^ 63) :
    a.Wear c = { c with Ac := wrapInt (c.Ac + (items.armorBase a.Typ + a.Attribute)) } ∧
      ((-2 ^ 63 ≤ c.Ac + (items.armorBase a.Typ + a.Attribute) ∧
          c.Ac + (items.armorBase a.Typ + a.Attribute) < 2 ^ 63) →
        (a.Wear c).Ac = c.Ac + (items.armorBase a.Typ + a.Attribute)) ∧
      a.TakeOff (a.Wear c) = c ∧ a.Wear (a.TakeOff c) = c := by
  have hw : a.Wear c = { c with Ac := wrapInt (c.Ac + (items.armorBase a.Typ + a.Attribute)) } := by
    unfold items.ArmorClass.Wear
    rw [wrapInt_add_wrapInt]
  refine ⟨hw, ?_, ?_, ?_⟩
  · intro hr
    rw [hw]
    exact wrapInt_of_range hr
  · unfold items.ArmorClass.TakeOff items.ArmorClass.Wear
    simp only [wrapInt_add_wrapInt, wrapInt_sub_wrapInt]
    have e : wrapInt (wrapInt (c.Ac + (items.armorBase a.Typ + a.Attribute)) -
        (items.armorBase a.Typ + a.Attribute)) = c.Ac := by
      unfold wrapInt
      norm_num at hAc ⊢
      omega
    rw [e]
  · unfold items.ArmorClass.TakeOff items.ArmorClass.Wear
    simp only [wrapInt_add_wrapInt, wrapInt_sub_wrapInt]
    have e : wrapInt (wrapInt (c.Ac - (items.armorBase a.Typ + a.Attribute)) +
        (items.armorBase a.Typ + a.Attribute)) = c.Ac := by
      unfold wrapInt
      norm_num at hAc ⊢
      omega
    rw [e]

/-- Witness of C22: plate mail `+2` on the sample statistics. -/
theorem armor_round_trip_witness :
    (items.ArmorClass.Wear ⟨items.PlateMail, 2⟩ sampleStats).Ac = 11 ∧
      items.ArmorClass.TakeOff ⟨items.PlateMail, 2⟩
        (items.ArmorClass.Wear ⟨items.PlateMail, 2⟩ sampleStats) = sampleStats :=
  ⟨((armor_round_trip ⟨items.PlateMail, 2⟩ sampleStats (by decide)).2.1 (by decide)).trans
      (by decide),
    (armor_round_trip ⟨items.PlateMail, 2⟩ sampleStats (by decide)).2.2.1⟩

/-- The offer for an item that passes the validation and whose display name is
found in the store at the price `p ≥ 0`: twice the tenth of `p` rounded down
for a potion, a scroll or an armor with attribute `0`; the tenth of `p` rounded
down for an armor with a negative attribute; `20` times its `Value` for a gem
(in 64-bit arithmetic). -/
theorem tradingPost_offer_found (store : List (List game.Sale))
    (KnownPotion KnownScroll : Int → Bool) (t : game.Item) (sale : game.Sale)
    (hs : game.findSale store t.String = some sale) (hp : 0 ≤ sale.price ∧ sale.price < 2 ^ 63)
    (hv : game.validateItemSale KnownPotion KnownScroll (some t) = true) :
    (((∃ n id, t = game.Item.Potion n id) ∨ (∃ n id, t = game.Item.Scroll n id) ∨
        (∃ a, t = game.Item.Armor a ∧ a.Attribute = 0)) →
      game.handleSellingInv store KnownPotion KnownScroll (some t) =
        some (2 * (sale.price / 10))) ∧
    (∀ a, t = game.Item.Armor a → a.Attribute < 0 →
      game.handleSellingInv store KnownPotion KnownScroll (some t) = some (sale.price / 10)) ∧
    (∀ n v, t = game.Item.Gem n v →
      game.handleSellingInv store KnownPotion KnownScroll (some t) = some (wrapInt (20 * v)) ∧
      ((-2 ^ 63 ≤ 20 * v ∧ 20 * v < 2 ^ 63) → wrapInt (20 * v) = 20 * v)) := by
  have hd : game.DNDStoreLookup store t = sale.price / 10 := by
    unfold game.DNDStoreLookup
    rw [hs]
    exact Int.tdiv_eq_ediv hp.1 (by norm_num)
  have h2 : wrapInt (2 * (sale.price / 10)) = 2 * (sale.price / 10) := by
    apply wrapInt_of_range
    norm_num at hp ⊢
    omega
  have h2' : wrapInt (sale.price / 10 * 2) = 2 * (sale.price / 10) := by
    rw [mul_comm]
    exact h2
  refine ⟨?_, ?_, ?_⟩
  · rintro (⟨n, id, rfl⟩ | ⟨n, id, rfl⟩ | ⟨a, rfl, ha⟩)
    · unfold game.handleSellingInv
      rw [if_pos hv]
      simp only [hd, h2]
    · unfold game.handleSellingInv
      rw [if_pos hv]
      simp only [hd, h2]
    · unfold game.handleSellingInv
      rw [if_pos hv]
      simp only [hd, h2', ha, ge_iff_le, le_refl, if_true, Int.toNat_zero, game.attrLoop]
  · rintro a rfl ha
    unfold game.handleSellingInv
    rw [if_pos hv]
    simp only [hd, ge_iff_le, not_le.2 ha, if_false]
  · rintro n v rfl
    refine ⟨?_, wrapInt_of_range⟩
    unfold game.handleSellingInv
    rw [if_pos hv]

/-- An armor with a negative attribute whose display name, the name of its type
followed by the attribute, is not in the store is offered `0`. -/
theorem tradingPost_offer_not_found (store : List (List game.Sale))
    (KnownPotion KnownScroll : Int → Bool) (a : items.ArmorClass) (ha : a.Attribute < 0)
    (hs : game.findSale store a.String = none) :
    game.handleSellingInv store KnownPotion KnownScroll (some (game.Item.Armor a)) = some 0 := by
  have hd : game.DNDStoreLookup store (game.Item.Armor a) = 0 := by
    unfold game.DNDStoreLookup game.Item.String
    rw [hs]
  have hv : game.validateItemSale KnownPotion KnownScroll (some (game.Item.Armor a)) = true :=
    rfl
  unfold game.handleSellingInv
  rw [if_pos hv]
  simp only [hd, ge_iff_le, not_le.2 ha, if_false]

/-- C30 fails on the code: the sample store lists leather armor at the price
`20`. New leather armor, attribute `0`, has the display name `leather` and is
offered `4`, 20% of the price. Damaged leather armor, attribute `-1`, has the
display name `leather -1`, which `DNDStoreLookup` does not find in the store:
the price looked up is `0` and the offer of `handleSellingInv` is `0`, where
10% of the new price, the offer that the welcome text of the trading post
announces for a damaged item, is `2`. -/
theorem tradingPost_damaged_armor :
    items.ArmorClass.String ⟨items.Leather, 0⟩ = "leather" ∧
      items.ArmorClass.String ⟨items.Leather, -1⟩ = "leather -1" ∧
      game.findSale sampleStore "leather" = some ⟨"leather", 20⟩ ∧
      game.findSale sampleStore "leather -1" = none ∧
      game.handleSellingInv sampleStore (fun _ => true) (fun _ => true)
        (some (game.Item.Armor ⟨items.Leather, 0⟩)) = some 4 ∧
      game.DNDStoreLookup sampleStore (game.Item.Armor ⟨items.Leather, -1⟩) = 0 ∧
      game.handleSellingInv sampleStore (fun _ => true) (fun _ => true)
        (some (game.Item.Armor ⟨items.Leather, -1⟩)) = some 0 ∧
      (20 : Int) * 20 / 100 = 4 ∧ (20 : Int) * 10 / 100 = 2 := by
  decide

/-! ## Step size and index safety of the placement walk -/

/-- C23 fails on the code: the adjustments are `rand.Intn(3) - 2`, in `[-2,0]`
and not in `[-1,1]` as the comment on the same line says. With both draws `0`
the adjustments are `-2` and one step of the walk takes `(1,1)` to `(3,3)`, the
first floor cell it meets on the corridor level: both coordinates change by
two. -/
theorem walkToEmpty_steps_by_two :
    ((0 : Int) % 3 - 2 = -2) ∧
      walkStep smallConsts ⟨1, 1⟩ ((0 : Int) % 3 - 2) ((0 : Int) % 3 - 2) = ⟨3, 3⟩ ∧
      ∃ g', walkToEmpty smallConsts 2 ⟨1, 1⟩ corridorGrid (Rng.replay [0, 0]) =
        Res.ok (⟨3, 3⟩, g') :=
  ⟨by decide, by decide, _, rfl⟩

theorem walkToEmpty_ne_crash (K : Consts) (hW : 3 ≤ K.width) (hH : 3 ≤ K.height) (lvl : Grid)
    (hd : lvl.HasDims K.width.toNat K.height.toNat) :
    ∀ (fuel : Nat) (c : Coordinate) (g : Rng),
      (0 ≤ c.X ∧ c.X < K.width) → (0 ≤ c.Y ∧ c.Y < K.height) →
      walkToEmpty K fuel c lvl g ≠ Res.crash ∧
        ∀ c' g', walkToEmpty K fuel c lvl g = Res.ok (c', g') →
          c' = c ∨ ((1 ≤ c'.X ∧ c'.X ≤ K.width - 2) ∧ (1 ≤ c'.Y ∧ c'.Y ≤ K.height - 2)) := by
  intro fuel
  induction fuel with
  | zero => intro c g _ _; simp [walkToEmpty]
  | succ n ih =>
    intro c g hx hy
    obtain ⟨v, hv⟩ := Grid.cell?_of_dims hd (x := c.X) (y := c.Y)
      ⟨hx.1, by omega⟩ ⟨hy.1, by omega⟩
    have hget : lvl.get c = Res.ok v := Grid.get_eq_ok.2 hv
    unfold walkToEmpty
    rw [hget]
    simp only [Rng.Intn_of_pos (show (0 : Int) < 3 by norm_num)]
    by_cases he : v.isEmpty = true
    · rw [if_pos he]
      refine ⟨by simp, ?_⟩
      intro c' g' h
      simp only [Res.ok.injEq, Prod.mk.injEq] at h
      exact Or.inl h.1.symm
    · rw [if_neg he]
      have hin := walkStep_interior K c ((g.src g.pos : Int) % 3 - 2)
        (((g.src (g.pos + 1) : Nat) : Int) % 3 - 2) hW hH
      obtain ⟨h1, h2⟩ := ih (walkStep K c ((g.src g.pos : Int) % 3 - 2)
        (((g.src (g.pos + 1) : Nat) : Int) % 3 - 2)) { src := g.src, pos := g.pos + 1 + 1 }
        ⟨by omega, by omega⟩ ⟨by omega, by omega⟩
      refine ⟨h1, ?_⟩
      intro c' g' h
      rcases h2 c' g' h with rfl | h3
      · exact Or.inr hin
      · exact Or.inr h3

/-- C29: on a grid of `width` by `height` cells (both at least 3), for every
state of the random source, `randMapCoord` returns a coordinate with
`1 ≤ X ≤ width-1` and `1 ≤ Y ≤ height-1`, inside the valid range; from every
seed of the valid range and for every sequence of draws neither `walkToEmpty`
nor `placeObject` fails (an access outside the grid is the only failure they
could meet); every step of the walk leads to a coordinate with
`1 ≤ X ≤ width-2` and `1 ≤ Y ≤ height-2`, so the coordinate returned is the seed
itself or lies in that range. -/
theorem placement_index_safety (K : Consts) (hW : 3 ≤ K.width) (hH : 3 ≤ K.height) (lvl : Grid)
    (hd : lvl.HasDims K.width.toNat K.height.toNat) :
    (∀ g : Rng, ∃ c g1, randMapCoord K g = Res.ok (c, g1) ∧
      (1 ≤ c.X ∧ c.X ≤ K.width - 1) ∧ (1 ≤ c.Y ∧ c.Y ≤ K.height - 1) ∧
      (0 ≤ c.X ∧ c.X < K.width) ∧ (0 ≤ c.Y ∧ c.Y < K.height)) ∧
    (∀ (c : Coordinate) (fuel : Nat) (o : Cell) (g : Rng),
      (0 ≤ c.X ∧ c.X < K.width) → (0 ≤ c.Y ∧ c.Y < K.height) →
      walkToEmpty K fuel c lvl g ≠ Res.crash ∧
      placeObject K fuel c o lvl g ≠ Res.crash ∧
      (∀ c' g', walkToEmpty K fuel c lvl g = Res.ok (c', g') →
        c' = c ∨ ((1 ≤ c'.X ∧ c'.X ≤ K.width - 2) ∧ (1 ≤ c'.Y ∧ c'.Y ≤ K.height - 2))) ∧
      (∀ xadj yadj : Int,
        (1 ≤ (walkStep K c xadj yadj).X ∧ (walkStep K c xadj yadj).X ≤ K.width - 2) ∧
        (1 ≤ (walkStep K c xadj yadj).Y ∧ (walkStep K c xadj yadj).Y ≤ K.height - 2))) := by
  refine ⟨?_, ?_⟩
  · intro g
    have h1 : (0 : Int) < K.width - 1 := by omega
    have h2 : (0 : Int) < K.height - 1 := by omega
    have a1 := Int.emod_nonneg (g.src g.pos : Int) (show K.width - 1 ≠ 0 by omega)
    have a2 := Int.emod_lt_of_pos (g.src g.pos : Int) h1
    have b1 := Int.emod_nonneg ((g.src (g.pos + 1) : Nat) : Int) (show K.height - 1 ≠ 0 by omega)
    have b2 := Int.emod_lt_of_pos ((g.src (g.pos + 1) : Nat) : Int) h2
    refine ⟨⟨(g.src g.pos : Int) % (K.width - 1) + 1,
      ((g.src (g.pos + 1) : Nat) : Int) % (K.height - 1) + 1⟩,
      { src := g.src, pos := g.pos + 1 + 1 }, ?_, ?_, ?_, ?_, ?_⟩
    · unfold randMapCoord
      simp [Rng.Intn_of_pos h1, Rng.Intn_of_pos h2]
    · simp only; omega
    · simp only; omega
    · simp only; omega
    · simp only; omega
  · intro c fuel o g hx hy
    obtain ⟨hnc, hres⟩ := walkToEmpty_ne_crash K hW hH lvl hd fuel c g hx hy
    refine ⟨hnc, ?_, hres, fun xadj yadj => walkStep_interior K c xadj yadj hW hH⟩
    unfold placeObject
    cases hw : walkToEmpty K fuel c lvl g with
    | crash => exact absurd hw hnc
    | timeout => simp
    | ok r =>
      obtain ⟨c', g'⟩ := r
      have hc' : (0 ≤ c'.X ∧ c'.X < K.width) ∧ (0 ≤ c'.Y ∧ c'.Y < K.height) := by
        rcases hres c' g' hw with rfl | h3
        · exact ⟨hx, hy⟩
        · omega
      obtain ⟨v, hv⟩ := Grid.cell?_of_dims hd (x := c'.X) (y := c'.Y)
        ⟨hc'.1.1, by omega⟩ ⟨hc'.2.1, by omega⟩
      obtain ⟨l', hl'⟩ := Grid.write?_isSome (o.setVisible K.DEBUG) hv
      have hget : lvl.get c' = Res.ok v := Grid.get_eq_ok.2 hv
      have hput : lvl.put c' (o.setVisible K.DEBUG) = Res.ok l' := Grid.put_eq_ok.2 hl'
      simp [hget, hput]

/-- Witness of C29 on the corridor level: the coordinate that `randMapCoord`
returns is in range and the placement from it does not fail. -/
theorem placement_index_safety_witness :
    (∃ c g1, randMapCoord smallConsts mixRng = Res.ok (c, g1) ∧
      (1 ≤ c.X ∧ c.X ≤ smallConsts.width - 1) ∧ (1 ≤ c.Y ∧ c.Y ≤ smallConsts.height - 1) ∧
      (0 ≤ c.X ∧ c.X < smallConsts.width) ∧ (0 ≤ c.Y ∧ c.Y < smallConsts.height)) ∧
    placeObject smallConsts 50 ⟨6, 6⟩ (Cell.Wall false) corridorGrid mixRng ≠ Res.crash :=
  ⟨(placement_index_safety smallConsts (by decide) (by decide) corridorGrid
      corridorGrid_dims).1 mixRng,
    ((placement_index_safety smallConsts (by decide) (by decide) corridorGrid
      corridorGrid_dims).2 ⟨6, 6⟩ 50 (Cell.Wall false) mixRng (by decide) (by decide)).2.1⟩

/-! ## Attempts and nesting of the carver -/

/-- Forgetting the record of `eatLoopTrace` gives the run of `eatLoop`. -/
theorem eatLoopTrace_erase (K : Consts) :
    ∀ (fuel d : Nat) (c : Coordinate) (dir tries : Int) (lvl : Grid) (g : Rng),
      (eatLoopTrace K fuel d c dir tries lvl g).map (fun r => (r.1, r.2.1)) =
        eatLoop K fuel c dir tries lvl g := by
  intro fuel
  induction fuel with
  | zero => intro d c dir tries lvl g; rfl
  | succ n ih =>
    intro d c dir tries lvl g
    unfold eatLoopTrace eatLoop
    by_cases ht : tries > 0
    · rw [if_pos ht, if_pos ht]
      cases hT : eatTarget K c dir with
      | none => rfl
      | some t =>
        obtain ⟨edge, a, b⟩ := t
        simp only
        cases hB : eatBlocked edge a b lvl with
        | ok bl =>
          cases bl with
          | true =>
            simp only
            rw [← ih d c (nextDir dir tries).1 (nextDir dir tries).2 lvl g]
            cases eatLoopTrace K n d c (nextDir dir tries).1 (nextDir dir tries).2 lvl g <;> rfl
          | false =>
            simp only
            cases hC : carve2 a b lvl with
            | ok lvl1 =>
              simp only [Rng.Intn_of_pos (show (0 : Int) < 4 by norm_num)]
              rw [← ih (d + 1) b ((g.src g.pos : Int) % 4 + 1) 2 lvl1
                { src := g.src, pos := g.pos + 1 }]
              cases h1 : eatLoopTrace K n (d + 1) b ((g.src g.pos : Int) % 4 + 1) 2 lvl1
                  { src := g.src, pos := g.pos + 1 } with
              | ok r1 =>
                obtain ⟨lvl2, g2, ds1, m1⟩ := r1
                simp only [Res.map]
                rw [← ih d c (nextDir dir tries).1 (nextDir dir tries).2 lvl2 g2]
                cases eatLoopTrace K n d c (nextDir dir tries).1 (nextDir dir tries).2 lvl2 g2 <;>
                  rfl
              | crash => rfl
              | timeout => rfl
            | crash => rfl
            | timeout => rfl
        | crash => rfl
        | timeout => rfl
    · rw [if_neg ht, if_neg ht]
      rfl

theorem eatTrace_erase (K : Consts) (fuel : Nat) (c : Coordinate) (lvl : Grid) (g : Rng) :
    (eatTrace K fuel c lvl g).map (fun r => (r.1, r.2.1)) = eat K fuel c lvl g := by
  unfold eatTrace eat
  simp only [Rng.Intn_of_pos (show (0 : Int) < 4 by norm_num)]
  exact eatLoopTrace_erase K _ _ _ _ _ _ _

theorem eatLoopTrace_ok_inv {K : Consts} {fuel d : Nat} {c : Coordinate} {dir tries : Int}
    {lvl : Grid} {g : Rng} {lvl' : Grid} {g' : Rng} {ds : List Int} {m : Nat}
    (h : eatLoopTrace K (fuel + 1) d c dir tries lvl g = Res.ok (lvl', g', ds, m)) :
    (tries ≤ 0 ∧ lvl' = lvl ∧ g' = g ∧ ds = [] ∧ m = d) ∨
    (0 < tries ∧ ∃ edge a b, eatTarget K c dir = some (edge, a, b) ∧
      ((eatBlocked edge a b lvl = Res.ok true ∧ ∃ ds1,
          eatLoopTrace K fuel d c (nextDir dir tries).1 (nextDir dir tries).2 lvl g =
            Res.ok (lvl', g', ds1, m) ∧ ds = dir :: ds1) ∨
        (eatBlocked edge a b lvl = Res.ok false ∧ ∃ lvl1 lvl2 g2 ds0 m1 ds1 m2,
          carve2 a b lvl = Res.ok lvl1 ∧
          eatLoopTrace K fuel (d + 1) b ((g.src g.pos : Int) % 4 + 1) 2 lvl1
            { src := g.src, pos := g.pos + 1 } = Res.ok (lvl2, g2, ds0, m1) ∧
          eatLoopTrace K fuel d c (nextDir dir tries).1 (nextDir dir tries).2 lvl2 g2 =
            Res.ok (lvl', g', ds1, m2) ∧ ds = dir :: ds1 ∧ m = max m1 m2))) := by
  unfold eatLoopTrace at h
  by_cases ht : tries > 0
  · rw [if_pos ht] at h
    right
    refine ⟨ht, ?_⟩
    cases hT : eatTarget K c dir with
    | none => rw [hT] at h; simp at h
    | some t =>
      obtain ⟨edge, a, b⟩ := t
      rw [hT] at h
      refine ⟨edge, a, b, rfl, ?_⟩
      simp only at h
      cases hB : eatBlocked edge a b lvl with
      | ok bl =>
        rw [hB] at h
        cases bl with
        | true =>
          left
          refine ⟨rfl, ?_⟩
          simp only at h
          cases hN : eatLoopTrace K fuel d c (nextDir dir tries).1 (nextDir dir tries).2 lvl g with
          | ok r =>
            obtain ⟨l1, g1, ds1, m1⟩ := r
            rw [hN] at h
            simp only [Res.ok.injEq, Prod.mk.injEq] at h
            obtain ⟨rfl, rfl, rfl, rfl⟩ := h
            exact ⟨ds1, rfl, rfl⟩
          | crash => rw [hN] at h; simp at h
          | timeout => rw [hN] at h; simp at h
        | false =>
          right
          refine ⟨rfl, ?_⟩
          simp only at h
          cases hC : carve2 a b lvl with
          | ok lvl1 =>
            rw [hC] at h
            simp only [Rng.Intn_of_pos (show (0 : Int) < 4 by norm_num)] at h
            cases hR : eatLoopTrace K fuel (d + 1) b ((g.src g.pos : Int) % 4 + 1) 2 lvl1
                { src := g.src, pos := g.pos + 1 } with
            | ok r =>
              obtain ⟨lvl2, g2, ds0, m1⟩ := r
              rw [hR] at h
              simp only at h
              cases hN : eatLoopTrace K fuel d c (nextDir dir tries).1 (nextDir dir tries).2
                  lvl2 g2 with
              | ok r2 =>
                obtain ⟨l3, g3, ds1, m2⟩ := r2
                rw [hN] at h
                simp only [Res.ok.injEq, Prod.mk.injEq] at h
                obtain ⟨rfl, rfl, rfl, rfl⟩ := h
                exact ⟨lvl1, lvl2, g2, ds0, m1, ds1, m2, rfl, hR, hN, rfl, rfl⟩
              | crash => rw [hN] at h; simp at h
              | timeout => rw [hN] at h; simp at h
            | crash => rw [hR] at h; simp at h
            | timeout => rw [hR] at h; simp at h
          | crash => rw [hC] at h; simp at h
          | timeout => rw [hC] at h; simp at h
      | crash => rw [hB] at h; simp at h
      | timeout => rw [hB] at h; simp at h
  · rw [if_neg ht] at h
    simp only [Res.ok.injEq, Prod.mk.injEq] at h
    left
    exact ⟨by omega, h.1.symm, h.2.1.symm, h.2.2.1.symm, h.2.2.2.symm⟩

/-- Number of attempts of one invocation: from direction `dir` with `tries`
tries left the loop makes `5 - dir` attempts up to direction 4 and four more
for each further try. -/
theorem eatLoopTrace_attempts (K : Consts) :
    ∀ (fuel d : Nat) (c : Coordinate) (dir tries : Int) (lvl : Grid) (g : Rng) (lvl' : Grid)
      (g' : Rng) (ds : List Int) (m : Nat), (1 ≤ dir ∧ dir ≤ 4) →
      eatLoopTrace K fuel d c dir tries lvl g = Res.ok (lvl', g', ds, m) →
      (ds.length : Int) = if tries > 0 then (5 - dir) + 4 * (tries - 1) else 0 := by
  intro fuel
  induction fuel with
  | zero => intro d c dir tries lvl g lvl' g' ds m _ h; simp [eatLoopTrace] at h
  | succ n ih =>
    intro d c dir tries lvl g lvl' g' ds m hd h
    have hnext : ∀ (l1 : Grid) (g1 : Rng) (ds1 : List Int) (m1 : Nat), 0 < tries →
        eatLoopTrace K n d c (nextDir dir tries).1 (nextDir dir tries).2 l1 g1 =
          Res.ok (lvl', g', ds1, m1) →
        ((dir :: ds1).length : Int) = if tries > 0 then (5 - dir) + 4 * (tries - 1) else 0 := by
      intro l1 g1 ds1 m1 ht h1
      rw [if_pos ht]
      unfold nextDir at h1
      by_cases h4 : dir + 1 > 4
      · rw [if_pos h4] at h1
        have := ih d c 1 (tries - 1) l1 g1 lvl' g' ds1 m1 (by omega) h1
        simp only [List.length_cons]
        push_cast
        rw [this]
        split_ifs <;> omega
      · rw [if_neg h4] at h1
        have := ih d c (dir + 1) tries l1 g1 lvl' g' ds1 m1 (by omega) h1
        simp only [List.length_cons]
        push_cast
        rw [this, if_pos ht]
        omega
    rcases eatLoopTrace_ok_inv h with ⟨ht, _, _, rfl, _⟩ | ⟨ht, edge, a, b, _, hcase⟩
    · rw [if_neg (by omega)]
      rfl
    · rcases hcase with ⟨_, ds1, h1, rfl⟩ | ⟨_, lvl1, lvl2, g2, ds0, m1, ds1, m2, _, _, h1, rfl, _⟩
      · exact hnext _ _ _ _ ht h1
      · exact hnext _ _ _ _ ht h1

/-- Every level of nesting costs two walls: the deepest nesting reached by a
run of the loop exceeds the depth of its own invocation by at most half the
number of walls carved. -/
theorem eatLoopTrace_depth (K : Consts) :
    ∀ (fuel d : Nat) (c : Coordinate) (dir tries : Int) (lvl : Grid) (g : Rng) (lvl' : Grid)
      (g' : Rng) (ds : List Int) (m : Nat),
      eatLoopTrace K fuel d c dir tries lvl g = Res.ok (lvl', g', ds, m) →
      d ≤ m ∧ 2 * (m - d) + lvl'.walls ≤ lvl.walls := by
  intro fuel
  induction fuel with
  | zero => intro d c dir tries lvl g lvl' g' ds m h; simp [eatLoopTrace] at h
  | succ n ih =>
    intro d c dir tries lvl g lvl' g' ds m h
    rcases eatLoopTrace_ok_inv h with ⟨_, rfl, _, _, rfl⟩ | ⟨_, edge, a, b, hT, hcase⟩
    · exact ⟨le_refl _, by omega⟩
    · rcases hcase with ⟨_, ds1, h1, _⟩ |
        ⟨hB, lvl1, lvl2, g2, ds0, m1, ds1, m2, hC, h0, h1, _, rfl⟩
      · exact ih _ _ _ _ _ _ _ _ _ _ h1
      · have hw := carve2_walls (eatTarget_ne hT).1 hB hC
        obtain ⟨a1, a2⟩ := ih _ _ _ _ _ _ _ _ _ _ h0
        obtain ⟨b1, b2⟩ := ih _ _ _ _ _ _ _ _ _ _ h1
        refine ⟨le_trans b1 (le_max_right _ _), ?_⟩
        rcases max_cases m1 m2 with ⟨e, _⟩ | ⟨e, _⟩ <;> rw [e] <;> omega

/-- C26 fails on the code: the loop header carries the comment `try all
directions twice`, but the count of tries drops only when the direction wraps
from 4 to 1. With the first draw `3` the invocation `eat((1,1), lvl)` on the
all-wall 7 by 7 level starts at direction 4 and makes the five attempts
`4, 1, 2, 3, 4`: the directions 1, 2 and 3 are tried once only. -/
theorem eat_five_attempts :
    ∃ lvl' g' m, eatTrace smallConsts 650 ⟨1, 1⟩ (Grid.fill 7 7 (Cell.Wall false))
      (Rng.replay [3]) = Res.ok (lvl', g', [4, 1, 2, 3, 4], m) :=
  ⟨_, _, _, rfl⟩

/-- C25 fails as stated: on the all-wall 7 by 7 level, where half the smaller
dimension is 3, a run of `eat` from `(1,1)` reaches nesting depth 9. -/
theorem eat_depth_nine :
    (∃ lvl' g' ds, eatTrace smallConsts 650 ⟨1, 1⟩ (Grid.fill 7 7 (Cell.Wall false))
      (Rng.replay [1, 3, 0, 2, 1, 3]) = Res.ok (lvl', g', ds, 9)) ∧
    min smallConsts.width smallConsts.height / 2 = 3 :=
  ⟨⟨_, _, _, rfl⟩, by decide⟩

/-- C25 as amended: for `eat` started at `(1,1)` on an all-`Wall` grid of
`width` by `height` cells, the run returns (with fuel `13 * width * height +
13`) and the depth of nested `eat` calls, the first call counting as depth 1,
never exceeds one plus half the number of `Wall` cells carved, hence it is at
most `1 + width * height / 2`, for every sequence of random directions. The
record is a faithful one: forgetting it gives the run of `eat`. -/
theorem eat_depth_bound (K : Consts) (hW : 3 ≤ K.width) (hH : 3 ≤ K.height)
    (fuel : Nat) (g : Rng) :
    (eatTrace K fuel ⟨1, 1⟩ (Grid.fill K.width.toNat K.height.toNat (Cell.Wall K.DEBUG)) g).map
        (fun r => (r.1, r.2.1)) =
      eat K fuel ⟨1, 1⟩ (Grid.fill K.width.toNat K.height.toNat (Cell.Wall K.DEBUG)) g ∧
    (13 * (K.width.toNat * K.height.toNat) + 13 ≤ fuel →
      ∃ r, eatTrace K fuel ⟨1, 1⟩
        (Grid.fill K.width.toNat K.height.toNat (Cell.Wall K.DEBUG)) g = Res.ok r) ∧
    (∀ lvl' g' ds m, eatTrace K fuel ⟨1, 1⟩
        (Grid.fill K.width.toNat K.height.toNat (Cell.Wall K.DEBUG)) g = Res.ok (lvl', g', ds, m) →
      1 ≤ m ∧ 2 * (m - 1) + lvl'.walls ≤ K.width.toNat * K.height.toNat ∧
        m ≤ 1 + K.width.toNat * K.height.toNat / 2) := by
  have he := eatTrace_erase K fuel ⟨1, 1⟩
    (Grid.fill K.width.toNat K.height.toNat (Cell.Wall K.DEBUG)) g
  refine ⟨he, ?_, ?_⟩
  · intro hf
    obtain ⟨l1, g1, h1⟩ := eat_returns_on_fill K hW hH g fuel hf
    rw [h1] at he
    obtain ⟨r, hr, _⟩ := Res.map_eq_ok he
    exact ⟨r, hr⟩
  · intro lvl' g' ds m h
    unfold eatTrace at h
    simp only [Rng.Intn_of_pos (show (0 : Int) < 4 by norm_num)] at h
    obtain ⟨h1, h2⟩ := eatLoopTrace_depth K _ _ _ _ _ _ _ _ _ _ _ h
    rw [Grid.walls_fill] at h2
    refine ⟨h1, h2, ?_⟩
    omega

/-- Witness of the amended C25 on the all-wall 7 by 7 level: the run that
reaches depth 9 carves 16 walls. -/
theorem eat_depth_bound_witness :
    ∃ lvl' g' ds m, eatTrace smallConsts 650 ⟨1, 1⟩ (Grid.fill 7 7 (Cell.Wall false))
        (Rng.replay [1, 3, 0, 2, 1, 3]) = Res.ok (lvl', g', ds, m) ∧
      m ≤ 1 + smallConsts.width.toNat * smallConsts.height.toNat / 2 :=
  ⟨_, _, _, _, rfl, ((eat_depth_bound smallConsts (by decide) (by decide) 650
    (Rng.replay [1, 3, 0, 2, 1, 3])).2.2 _ _ _ _ rfl).2.2⟩

/-! ## The order of the door search -/


theorem perimColMajor_mem (w h x y : Int) (p : Coordinate) :
    p ∈ perimColMajor w h x y ↔
      ((x ≤ p.X ∧ p.X < x + w) ∧ (y ≤ p.Y ∧ p.Y < y + h)) ∧ onPerimeter w h x y p.X p.Y = true := by
  unfold perimColMajor
  simp only [List.mem_filter, List.mem_flatMap, List.mem_map, List.mem_range]
  constructor
  · rintro ⟨⟨a, ha, b, hb, rfl⟩, hp⟩
    refine ⟨⟨⟨?_, ?_⟩, ⟨?_, ?_⟩⟩, hp⟩ <;> simp only <;> omega
  · rintro ⟨⟨⟨h1, h2⟩, ⟨h3, h4⟩⟩, hp⟩
    refine ⟨⟨(p.X - x).toNat, by omega, (p.Y - y).toNat, by omega, ?_⟩, hp⟩
    have e1 : x + ((p.X - x).toNat : Int) = p.X := by omega
    have e2 : y + ((p.Y - y).toNat : Int) = p.Y := by omega
    rw [e1, e2]

theorem perimColMajor_sorted (w h x y : Int) :
    (perimColMajor w h x y).Pairwise colMajorLt := by
  unfold perimColMajor
  apply List.Pairwise.filter
  rw [List.pairwise_flatMap]
  constructor
  · intro a _
    rw [List.pairwise_map]
    refine List.Pairwise.imp ?_ (List.pairwise_lt_range _)
    intro b1 b2 hb
    refine Or.inr ⟨rfl, ?_⟩
    simp only
    omega
  · refine List.Pairwise.imp ?_ (List.pairwise_lt_range _)
    intro a1 a2 ha p hp q hq
    simp only [List.mem_map, List.mem_range] at hp hq
    obtain ⟨b1, _, rfl⟩ := hp
    obtain ⟨b2, _, rfl⟩ := hq
    refine Or.inl ?_
    simp only
    omega

theorem perimBefore_range {w h x y : Int} (hw : 2 ≤ w) (hh : 2 ≤ h) {i j : Int}
    (hi : x ≤ i ∧ i < x + w) (hj : y ≤ j ∧ j < y + h) :
    0 ≤ perimBefore w h x y i j ∧ perimBefore w h x y i j < 2 * w + 2 * h - 4 := by
  unfold perimBefore
  split_ifs <;> omega

theorem perimBefore_mono {w h x y : Int} (hw : 2 ≤ w) (hh : 2 ≤ h) {p q : Coordinate}
    (hp1 : (x ≤ p.X ∧ p.X < x + w) ∧ (y ≤ p.Y ∧ p.Y < y + h))
    (hp : onPerimeter w h x y p.X p.Y = true)
    (hq1 : (x ≤ q.X ∧ q.X < x + w) ∧ (y ≤ q.Y ∧ q.Y < y + h))
    (hq : onPerimeter w h x y q.X q.Y = true) (hlt : colMajorLt p q) :
    perimBefore w h x y p.X p.Y < perimBefore w h x y q.X q.Y := by
  rw [onPerimeter_iff] at hp hq
  unfold colMajorLt at hlt
  unfold perimBefore
  split_ifs <;> omega

/-- In a list sorted by a strict order on which `f` is strictly increasing with
values in `[0, N)`, all of them taken, `f` gives every element its index, and
the list has `N` elements. -/
theorem index_of_sorted {α : Type} (lt : α → α → Prop) (L : List α) (f : α → Int) (N : Int)
    (hs : L.Pairwise lt) (hmono : ∀ a ∈ L, ∀ b ∈ L, lt a b → f a < f b)
    (hrange : ∀ a ∈ L, 0 ≤ f a ∧ f a < N)
    (hsurj : ∀ n : Int, 0 ≤ n → n < N → ∃ a ∈ L, f a = n) :
    (∀ (i : Nat) (hi : i < L.length), f L[i] = i) ∧ (0 ≤ N → (L.length : Int) = N) := by
  have hlt : ∀ (i j : Nat) (hi : i < L.length) (hj : j < L.length), i < j → f L[i] < f L[j] := by
    intro i j hi hj hij
    exact hmono _ (List.getElem_mem hi) _ (List.getElem_mem hj)
      (List.pairwise_iff_getElem.1 hs i j hi hj hij)
  have hge : ∀ (i : Nat) (hi : i < L.length), (i : Int) ≤ f L[i] := by
    intro i
    induction i with
    | zero => intro hi; exact (hrange _ (List.getElem_mem hi)).1
    | succ n ih =>
      intro hi
      have h1 := ih (by omega)
      have h2 := hlt n (n + 1) (by omega) hi (by omega)
      push_cast
      omega
  have heq : ∀ (i : Nat) (hi : i < L.length), f L[i] = i := by
    intro i
    induction i using Nat.strong_induction_on with
    | _ i ih =>
      intro hi
      have h1 := hge i hi
      have h2 := (hrange _ (List.getElem_mem hi)).2
      obtain ⟨a, ha, hfa⟩ := hsurj i (by omega) (by omega)
      obtain ⟨j, hj, rfl⟩ := List.getElem_of_mem ha
      rcases Nat.lt_trichotomy j i with hji | hji | hji
      · have := ih j hji hj
        omega
      · subst hji
        exact hfa
      · have := hlt i j hi hj hji
        omega
  refine ⟨heq, ?_⟩
  intro hN
  have hle : (L.length : Int) ≤ N := by
    by_contra hc
    have hpos : 0 < L.length := by omega
    have h1 := heq (L.length - 1) (by omega)
    have h2 := (hrange _ (List.getElem_mem (show L.length - 1 < L.length by omega))).2
    omega
  have hge' : N ≤ (L.length : Int) := by
    by_contra hc
    obtain ⟨a, ha, hfa⟩ := hsurj (L.length : Int) (by omega) (by omega)
    obtain ⟨j, hj, rfl⟩ := List.getElem_of_mem ha
    have := heq j hj
    omega
  omega

/-- The room builder returns with a closed door on the perimeter cell that as
many perimeter cells precede in the search as the door draw says. -/
theorem makeRoom_door_cell (K : Consts) (w h x y glyph : Int) (m : Grid) (g : Rng)
    (hw : 2 ≤ w) (hh : 2 ≤ h)
    (hin : ∀ i j : Int, x ≤ i → i < x + w → y ≤ j → j < y + h → ∃ v, m.cell? i j = some v) :
    ∃ (m' : Grid) (di dj : Int),
      makeRoom K w h x y glyph m g = Res.ok (m', { src := g.src, pos := g.pos + 1 }) ∧
      ((x ≤ di ∧ di < x + w) ∧ (y ≤ dj ∧ dj < y + h)) ∧ onPerimeter w h x y di dj = true ∧
      perimBefore w h x y di dj = (g.src g.pos : Int) % (2 * w + 2 * h - 4) ∧
      m'.cell? di dj = some (Cell.Door false K.DEBUG) ∧
      (∀ a b : Int, ¬ ((x ≤ a ∧ a < x + w) ∧ (y ≤ b ∧ b < y + h)) → m'.cell? a b = m.cell? a b) := by
  obtain ⟨m1, hf1, hc1⟩ := fillRect_spec x (x + w) y (y + h) (Cell.Wall K.DEBUG) m
    (by omega) (by omega) hin
  obtain ⟨m2, hf2, hc2⟩ := fillRect_spec (x + 1) (x + w - 1) (y + 1) (y + h - 1)
    (Cell.Empty false) m1 (by omega) (by omega) (by
      intro i j hi0 hi1 hj0 hj1
      rw [hc1 i j, if_pos (by omega)]
      exact ⟨_, rfl⟩)
  have hn : w * 2 + (h - 2) * 2 = 2 * w + 2 * h - 4 := by ring
  have hpos : (0 : Int) < 2 * w + 2 * h - 4 := by omega
  have hd : 0 ≤ (g.src g.pos : Int) % (2 * w + 2 * h - 4) ∧
      (g.src g.pos : Int) % (2 * w + 2 * h - 4) < 2 * w + 2 * h - 4 :=
    ⟨Int.emod_nonneg _ (by omega), Int.emod_lt_of_pos _ hpos⟩
  have hin2 : ∀ i j : Int, x ≤ i → i < x + w → y ≤ j → j < y + h →
      ∃ v, m2.cell? i j = some v := by
    intro i j hi0 hi1 hj0 hj1
    rw [hc2 i j]
    split_ifs
    · exact ⟨_, rfl⟩
    · rw [hc1 i j, if_pos (by omega)]
      exact ⟨_, rfl⟩
  obtain ⟨s, di, dj, hloop, hdi, hdj, hp, hb, hwr⟩ :=
    doorLoop_spec K w h x y ((g.src g.pos : Int) % (2 * w + 2 * h - 4)) hw hh hd m2 hin2
  refine ⟨s.m, di, dj, ?_, ⟨hdi, hdj⟩, hp, hb, ?_, ?_⟩
  · unfold makeRoom
    rw [hf1]
    simp only
    rw [hf2]
    simp only
    rw [hn, Rng.Intn_of_pos hpos]
    simp only
    rw [hloop]
  · rw [Grid.cell?_write? hwr, if_pos ⟨rfl, rfl⟩]
  · intro a b hab
    have hne : ¬ (a = di ∧ b = dj) := by
      rintro ⟨rfl, rfl⟩
      exact hab ⟨hdi, hdj⟩
    rw [Grid.cell?_write? hwr, if_neg hne, hc2 a b, if_neg (by omega), hc1 a b,
      if_neg (by omega)]

/-- C27 fails as stated: in the 4 by 4 room at `(1,1)` the second perimeter
cell in row-major order is `(2,1)`, but with the door draw `1` the door is put
on `(1,2)`, the second cell of the first column, and `(2,1)` stays a wall. -/
theorem makeRoom_door_not_row_major :
    ∃ m' g', makeRoom smallConsts 4 4 1 1 1 (Grid.fill 7 7 (Cell.Wall false))
        (Rng.replay [1]) = Res.ok (m', g') ∧
      (perimRowMajor 4 4 1 1)[1]? = some ⟨2, 1⟩ ∧
      m'.cell? 2 1 = some (Cell.Wall false) ∧
      m'.cell? 1 2 = some (Cell.Door false false) :=
  ⟨_, _, rfl, by decide, rfl, rfl⟩

/-- C27 as amended: for a room of width `w ≥ 2` and height `h ≥ 2` whose
rectangle lies inside the grid and for the door draw `k` of
`[0, 2w + 2h - 4)`, `makeRoom` returns with the closed `Door` on the `k`-th cell
of the list of perimeter cells enumerated in column-major order (column by
column from the left, top to bottom within a column); that list holds exactly
the cells of the rectangle that pass the perimeter test, each of them once,
corners included, `2w + 2h - 4` cells in all. -/
theorem makeRoom_door_order (K : Consts) (w h x y glyph : Int) (m : Grid) (g : Rng)
    (hw : 2 ≤ w) (hh : 2 ≤ h)
    (hin : ∀ i j : Int, x ≤ i → i < x + w → y ≤ j → j < y + h → ∃ v, m.cell? i j = some v) :
    ∃ (m' : Grid) (p : Coordinate),
      makeRoom K w h x y glyph m g = Res.ok (m', { src := g.src, pos := g.pos + 1 }) ∧
      (perimColMajor w h x y)[((g.src g.pos : Int) % (2 * w + 2 * h - 4)).toNat]? = some p ∧
      m'.cell? p.X p.Y = some (Cell.Door false K.DEBUG) ∧
      (perimColMajor w h x y).Pairwise colMajorLt ∧
      (perimColMajor w h x y).Nodup ∧
      ((perimColMajor w h x y).length : Int) = 2 * w + 2 * h - 4 ∧
      (∀ q : Coordinate, q ∈ perimColMajor w h x y ↔
        ((x ≤ q.X ∧ q.X < x + w) ∧ (y ≤ q.Y ∧ q.Y < y + h)) ∧
          onPerimeter w h x y q.X q.Y = true) := by
  obtain ⟨m', di, dj, hrun, hrect, hper, hidx, hdoor, _⟩ :=
    makeRoom_door_cell K w h x y glyph m g hw hh hin
  have hsorted := perimColMajor_sorted w h x y
  have hfacts := index_of_sorted colMajorLt (perimColMajor w h x y)
    (fun q => perimBefore w h x y q.X q.Y) (2 * w + 2 * h - 4) hsorted
    (by
      intro a ha b hb hab
      rw [perimColMajor_mem] at ha hb
      exact perimBefore_mono hw hh ha.1 ha.2 hb.1 hb.2 hab)
    (by
      intro a ha
      rw [perimColMajor_mem] at ha
      exact perimBefore_range hw hh ha.1.1 ha.1.2)
    (by
      intro n hn0 hn1
      obtain ⟨s, ei, ej, _, hei, hej, hep, heb, _⟩ :=
        doorLoop_spec K w h x y n hw hh ⟨hn0, hn1⟩ m hin
      exact ⟨⟨ei, ej⟩, (perimColMajor_mem w h x y ⟨ei, ej⟩).2 ⟨⟨hei, hej⟩, hep⟩, heb⟩)
  have hmem : (⟨di, dj⟩ : Coordinate) ∈ perimColMajor w h x y :=
    (perimColMajor_mem w h x y ⟨di, dj⟩).2 ⟨hrect, hper⟩
  obtain ⟨j, hj, hjeq⟩ := List.getElem_of_mem hmem
  have hfj := hfacts.1 j hj
  rw [hjeq] at hfj
  simp only at hfj
  refine ⟨m', ⟨di, dj⟩, hrun, ?_, hdoor, hsorted, ?_, hfacts.2 (by omega),
    perimColMajor_mem w h x y⟩
  · rw [← hidx, hfj]
    simp [hj, hjeq]
  · refine List.Pairwise.imp ?_ hsorted
    intro a b hab he
    subst he
    unfold colMajorLt at hab
    omega

/-- Witness of the amended C27: the 4 by 4 room at `(1,1)` of the all-wall
7 by 7 level with the door draw 1. -/
theorem makeRoom_door_order_witness :
    ∃ (m' : Grid) (p : Coordinate),
      makeRoom smallConsts 4 4 1 1 1 (Grid.fill 7 7 (Cell.Wall false)) (Rng.replay [1]) =
        Res.ok (m', { src := (Rng.replay [1]).src, pos := (Rng.replay [1]).pos + 1 }) ∧
      (perimColMajor 4 4 1 1)[(((Rng.replay [1]).src (Rng.replay [1]).pos : Int) %
        (2 * 4 + 2 * 4 - 4)).toNat]? = some p ∧
      m'.cell? p.X p.Y = some (Cell.Door false smallConsts.DEBUG) :=
  (makeRoom_door_order smallConsts 4 4 1 1 1 (Grid.fill 7 7 (Cell.Wall false)) (Rng.replay [1])
    (by decide) (by decide)
    (fun i j hi0 hi1 hj0 hj1 => by
      rw [Grid.cell?_fill, if_pos (by omega)]
      exact ⟨_, rfl⟩)).elim
    fun m' hm => hm.elim fun p hp => ⟨m', p, hp.1, hp.2.1, hp.2.2.1⟩

/-! ## Bounds of the treasure rooms -/

/-- Forgetting the record of `treasureLoopRooms` gives the run of
`treasureLoop`. -/
theorem treasureLoopRooms_erase (K : Consts) :
    ∀ (n : Nat) (x : Int) (m : Grid) (g : Rng),
      (treasureLoopRooms K n x m g).map (fun r => (r.1, r.2.1)) = treasureLoop K n x m g := by
  intro n
  induction n with
  | zero => intro x m g; rfl
  | succ n ih =>
    intro x m g
    unfold treasureLoopRooms treasureLoop
    by_cases hx : x < K.width - 10
    · rw [if_pos hx, if_pos hx]
      cases h13 : g.Intn 13 with
      | ok r13 =>
        obtain ⟨r, g1⟩ := r13
        simp only
        by_cases hr : r = 0
        · rw [if_pos hr, if_pos hr]
          cases g1.Intn 6 with
          | ok r1 =>
            obtain ⟨tw, g2⟩ := r1
            simp only
            cases g2.Intn 6 with
            | ok r2 =>
              obtain ⟨th, g3⟩ := r2
              simp only
              cases g3.Intn (K.height - 10) with
              | ok r3 =>
                obtain ⟨y, g4⟩ := r3
                simp only
                cases g4.Intn 9 with
                | ok r4 =>
                  obtain ⟨gl, g5⟩ := r4
                  simp only
                  cases makeRoom K (tw + 4) (th + 4) x (y + 2) (gl + 1) m g5 with
                  | ok r5 =>
                    obtain ⟨m1, g6⟩ := r5
                    simp only
                    rw [← ih (x + 10) m1 g6]
                    cases treasureLoopRooms K n (x + 10) m1 g6 <;> rfl
                  | crash => rfl
                  | timeout => rfl
                | crash => rfl
                | timeout => rfl
              | crash => rfl
              | timeout => rfl
            | crash => rfl
            | timeout => rfl
          | crash => rfl
          | timeout => rfl
        · rw [if_neg hr, if_neg hr]
          exact ih _ _ _
      | crash => rfl
      | timeout => rfl
    · rw [if_neg hx, if_neg hx]
      rfl

theorem treasureRoomRooms_erase (K : Consts) (m : Grid) (g : Rng) :
    (treasureRoomRooms K m g).map (fun r => (r.1, r.2.1)) = treasureRoom K m g := by
  unfold treasureRoomRooms treasureRoom
  simp only [Rng.Intn_of_pos (show (0 : Int) < 10 by norm_num)]
  exact treasureLoopRooms_erase K _ _ _ _

/-- The loop of `treasureRoom` returns on a grid of `width` by `height` cells;
every room it builds has width and height in `[4,9]`, columns in
`[2, width-3]` and rows in `[2, height-1]`, and no cell outside the rooms
changes. -/
theorem treasureLoopRooms_spec (K : Consts) (hH : 10 < K.height) :
    ∀ (n : Nat) (x : Int) (m : Grid) (g : Rng),
      m.HasDims K.width.toNat K.height.toNat → 2 ≤ x → 1 ≤ n → K.width - x ≤ 10 * n →
      ∃ m' g' rooms, treasureLoopRooms K n x m g = Res.ok (m', g', rooms) ∧
        m'.HasDims K.width.toNat K.height.toNat ∧
        (∀ r ∈ rooms, (4 ≤ r.w ∧ r.w ≤ 9) ∧ (4 ≤ r.h ∧ r.h ≤ 9) ∧
          (2 ≤ r.x ∧ r.x + r.w - 1 ≤ K.width - 3) ∧ (2 ≤ r.y ∧ r.y + r.h - 1 ≤ K.height - 1)) ∧
        (∀ a b : Int, (∀ r ∈ rooms, ¬ r.covers a b) → m'.cell? a b = m.cell? a b) := by
  intro n
  induction n with
  | zero => intro x m g _ _ h1; omega
  | succ n ih =>
    intro x m g hd hx hn hm
    unfold treasureLoopRooms
    by_cases hlt : x < K.width - 10
    · rw [if_pos hlt]
      simp only [Rng.Intn_of_pos (show (0 : Int) < 13 by norm_num)]
      have hn' : 1 ≤ n := by omega
      have hm' : K.width - (x + 10) ≤ 10 * (n : Int) := by push_cast at hm; omega
      by_cases hr : (g.src g.pos : Int) % 13 = 0
      · rw [if_pos hr]
        simp only [Rng.Intn_of_pos (show (0 : Int) < 6 by norm_num),
          Rng.Intn_of_pos (show (0 : Int) < K.height - 10 by omega),
          Rng.Intn_of_pos (show (0 : Int) < 9 by norm_num)]
        generalize htw : ((g.src (g.pos + 1) : Nat) : Int) % 6 = tw
        generalize hth : ((g.src (g.pos + 1 + 1) : Nat) : Int) % 6 = th
        generalize hy : ((g.src (g.pos + 1 + 1 + 1) : Nat) : Int) % (K.height - 10) = y
        generalize hgl : ((g.src (g.pos + 1 + 1 + 1 + 1) : Nat) : Int) % 9 = gl
        have btw : 0 ≤ tw ∧ tw < 6 := by rw [← htw]; omega
        have bth : 0 ≤ th ∧ th < 6 := by rw [← hth]; omega
        have by' : 0 ≤ y ∧ y < K.height - 10 := by
          rw [← hy]
          exact ⟨Int.emod_nonneg _ (by omega), Int.emod_lt_of_pos _ (by omega)⟩
        obtain ⟨m1, di, dj, hrun, _, _, _, _, hframe⟩ :=
          makeRoom_door_cell K (tw + 4) (th + 4) x (y + 2) (gl + 1) m
            { src := g.src, pos := g.pos + 1 + 1 + 1 + 1 + 1 } (by omega) (by omega) (by
              intro i j hi0 hi1 hj0 hj1
              exact Grid.cell?_of_dims hd (x := i) (y := j) ⟨by omega, by omega⟩
                ⟨by omega, by omega⟩)
        rw [hrun]
        simp only
        have hd1 : m1.HasDims K.width.toNat K.height.toNat :=
          Grid.hasDims_of_shape (makeRoom_shape K hrun) hd
        obtain ⟨m', g', rooms, hrec, hd', hb, hf⟩ := ih (x + 10) m1 _ hd1 (by omega) hn' hm'
        rw [hrec]
        refine ⟨m', g', _, rfl, hd', ?_, ?_⟩
        · intro r hmem
          rcases List.mem_cons.1 hmem with rfl | hmem
          · simp only
            omega
          · exact hb r hmem
        · intro a b hab
          rw [hf a b (fun r hr => hab r (List.mem_cons_of_mem _ hr))]
          apply hframe
          have := hab _ (List.mem_cons_self _ _)
          simpa [Room.covers] using this
      · rw [if_neg hr]
        exact ih (x + 10) m _ hd (by omega) hn' hm'
    · rw [if_neg hlt]
      exact ⟨m, g, [], rfl, hd, by simp, fun _ _ _ => rfl⟩

/-- C28 fails as stated: on the all-wall level of 13 by 11 cells a run of
`treasureRoom` builds a room of 4 by 9 cells at `(2,2)`, whose bottom wall lies
on row 10, the outermost row, and puts its door there, on the cell `(2,10)`. -/
theorem treasureRoom_touches_bottom_row :
    (∃ m' g', treasureRoomRooms treasureConsts (Grid.fill 13 11 (Cell.Wall false))
        (Rng.replay [0, 0, 0, 5, 0, 0, 8]) = Res.ok (m', g', [{ w := 4, h := 9, x := 2, y := 2 }]) ∧
      m'.cell? 2 10 = some (Cell.Door false false)) ∧
    (∃ m' g', treasureRoom treasureConsts (Grid.fill 13 11 (Cell.Wall false))
        (Rng.replay [0, 0, 0, 5, 0, 0, 8]) = Res.ok (m', g') ∧
      m'.cell? 2 10 = some (Cell.Door false false)) ∧
    treasureConsts.height - 1 = 10 :=
  ⟨⟨_, _, rfl, rfl⟩, ⟨_, _, rfl, rfl⟩, by decide⟩

/-- C28 as amended: on a grid of `width` by `height` cells with `height > 10`
and `width > 12`, for every sequence of random draws, `treasureRoom` returns;
each room it builds has width and height in `[4,9]`, its columns lie in
`[2, width-3]` and its rows in `[2, height-1]`, so all its cells are inside the
grid and none of them is on row 0, on column 0 or on column `width-1`; no cell
outside the rooms changes. The record of rooms is a faithful one: forgetting it
gives the run of `treasureRoom`. -/
theorem treasureRoom_bounds (K : Consts) (hH : 10 < K.height) (hW : 12 < K.width) (m : Grid)
    (hd : m.HasDims K.width.toNat K.height.toNat) (g : Rng) :
    (treasureRoomRooms K m g).map (fun r => (r.1, r.2.1)) = treasureRoom K m g ∧
    ∃ m' g' rooms, treasureRoomRooms K m g = Res.ok (m', g', rooms) ∧
      (∀ r ∈ rooms, (4 ≤ r.w ∧ r.w ≤ 9) ∧ (4 ≤ r.h ∧ r.h ≤ 9) ∧
        (2 ≤ r.x ∧ r.x + r.w - 1 ≤ K.width - 3) ∧ (2 ≤ r.y ∧ r.y + r.h - 1 ≤ K.height - 1)) ∧
      (∀ a b : Int, (∀ r ∈ rooms, ¬ r.covers a b) → m'.cell? a b = m.cell? a b) ∧
      (∀ a b : Int, a = 0 ∨ a = K.width - 1 ∨ b = 0 →
        (∀ r ∈ rooms, ¬ r.covers a b) ∧ m'.cell? a b = m.cell? a b) := by
  refine ⟨treasureRoomRooms_erase K m g, ?_⟩
  have hr0 := Int.emod_nonneg (g.src g.pos : Int) (show (10 : Int) ≠ 0 by norm_num)
  obtain ⟨m', g', rooms, hrun, _, hb, hf⟩ := treasureLoopRooms_spec K hH (K.width.toNat + 1)
    (2 + (g.src g.pos : Int) % 10) m { src := g.src, pos := g.pos + 1 } hd (by omega)
    (by omega) (by push_cast; omega)
  refine ⟨m', g', rooms, ?_, hb, hf, ?_⟩
  · unfold treasureRoomRooms
    simp only [Rng.Intn_of_pos (show (0 : Int) < 10 by norm_num)]
    exact hrun
  · intro a b hab
    have hno : ∀ r ∈ rooms, ¬ r.covers a b := by
      intro r hr hc
      have := hb r hr
      unfold Room.covers at hc
      omega
    exact ⟨hno, hf a b hno⟩

/-- Witness of the amended C28 on the all-wall level of 13 by 11 cells. -/
theorem treasureRoom_bounds_witness :
    ∃ m' g' rooms, treasureRoomRooms treasureConsts (Grid.fill 13 11 (Cell.Wall false))
        (Rng.replay [0, 0, 0, 5, 0, 0, 8]) = Res.ok (m', g', rooms) ∧
      (∀ r ∈ rooms, (4 ≤ r.w ∧ r.w ≤ 9) ∧ (4 ≤ r.h ∧ r.h ≤ 9) ∧
        (2 ≤ r.x ∧ r.x + r.w - 1 ≤ treasureConsts.width - 3) ∧
        (2 ≤ r.y ∧ r.y + r.h - 1 ≤ treasureConsts.height - 1)) :=
  (treasureRoom_bounds treasureConsts (by decide) (by decide) (Grid.fill 13 11 (Cell.Wall false))
    (Grid.hasDims_fill 13 11 _) (Rng.replay [0, 0, 0, 5, 0, 0, 8])).2.elim
    fun m' h1 => h1.elim fun g' h2 => h2.elim fun rooms h3 => ⟨m', g', rooms, h3.1, h3.2.1⟩

/-! ## Connectivity of the maze -/

theorem Grid.not_wall_of_empty {lvl : Grid} {p : Coordinate} (h : lvl.IsEmptyAt p) :
    ¬ lvl.IsWallAt p := by
  rintro ⟨w, hw⟩
  obtain ⟨v, hv⟩ := h
  rw [hv] at hw
  simp at hw

theorem carve2_isEmptyAt {a b : Coordinate} {lvl lvl1 : Grid} (h : carve2 a b lvl = Res.ok lvl1)
    (p : Coordinate) : lvl1.IsEmptyAt p ↔ (p = a ∨ p = b ∨ lvl.IsEmptyAt p) := by
  unfold Grid.IsEmptyAt
  rw [carve2_cell? h]
  by_cases hp : (p.X = a.X ∧ p.Y = a.Y) ∨ (p.X = b.X ∧ p.Y = b.Y)
  · rw [if_pos hp]
    constructor
    · intro _
      rcases hp with ⟨h1, h2⟩ | ⟨h1, h2⟩
      · left
        cases p; cases a
        simp only at h1 h2
        rw [h1, h2]
      · right; left
        cases p; cases b
        simp only at h1 h2
        rw [h1, h2]
    · intro _; exact ⟨_, rfl⟩
  · rw [if_neg hp]
    constructor
    · intro h1; exact Or.inr (Or.inr h1)
    · rintro (rfl | rfl | h1)
      · exact absurd (Or.inl ⟨rfl, rfl⟩) hp
      · exact absurd (Or.inr ⟨rfl, rfl⟩) hp
      · exact h1

theorem carve2_isWallAt {a b : Coordinate} {lvl lvl1 : Grid} (h : carve2 a b lvl = Res.ok lvl1)
    (p : Coordinate) : lvl1.IsWallAt p ↔ (p ≠ a ∧ p ≠ b ∧ lvl.IsWallAt p) := by
  unfold Grid.IsWallAt
  rw [carve2_cell? h]
  by_cases hp : (p.X = a.X ∧ p.Y = a.Y) ∨ (p.X = b.X ∧ p.Y = b.Y)
  · rw [if_pos hp]
    constructor
    · rintro ⟨v, hv⟩; simp at hv
    · rintro ⟨h1, h2, _⟩
      exfalso
      rcases hp with ⟨e1, e2⟩ | ⟨e1, e2⟩
      · apply h1
        cases p; cases a
        simp only at e1 e2
        rw [e1, e2]
      · apply h2
        cases p; cases b
        simp only at e1 e2
        rw [e1, e2]
  · rw [if_neg hp]
    constructor
    · intro h1
      refine ⟨?_, ?_, h1⟩
      · rintro rfl; exact hp (Or.inl ⟨rfl, rfl⟩)
      · rintro rfl; exact hp (Or.inr ⟨rfl, rfl⟩)
    · rintro ⟨_, _, h1⟩; exact h1

/-- The loop of `eat` never creates a wall. -/
theorem eatLoop_wall_anti (K : Consts) {fuel : Nat} {c : Coordinate} {dir tries : Int}
    {lvl : Grid} {g : Rng} {lvl' : Grid} {g' : Rng}
    (h : eatLoop K fuel c dir tries lvl g = Res.ok (lvl', g')) :
    ∀ p, lvl'.IsWallAt p → lvl.IsWallAt p := by
  refine eatLoop_rel K (fun _ => True) (fun l l' => ∀ p, l'.IsWallAt p → l.IsWallAt p) ?_ ?_ ?_
    fuel c dir tries lvl g lvl' g' trivial h
  · intro l p hp; exact hp
  · intro l1 l2 l3 h12 h23 p hp; exact h12 p (h23 p hp)
  · intro c dir edge a b lvl lvl1 _ _ _ hC
    refine ⟨trivial, ?_⟩
    intro p hp
    exact ((carve2_isWallAt hC p).1 hp).2.2

/-- The loop of `eat` keeps every floor cell. -/
theorem eatLoop_isEmptyAt_mono (K : Consts) {fuel : Nat} {c : Coordinate} {dir tries : Int}
    {lvl : Grid} {g : Rng} {lvl' : Grid} {g' : Rng}
    (h : eatLoop K fuel c dir tries lvl g = Res.ok (lvl', g')) :
    ∀ p, lvl.IsEmptyAt p → lvl'.IsEmptyAt p :=
  fun p hp => eatLoop_empty_mono K h p.X p.Y hp

theorem eatBlockedAt_mono {K : Consts} {lvl lvl' : Grid} {c : Coordinate} {d : Int}
    (h : eatBlockedAt K lvl c d) (hanti : ∀ p, lvl'.IsWallAt p → lvl.IsWallAt p) :
    eatBlockedAt K lvl' c d := by
  intro edge a b hT
  rcases h edge a b hT with h1 | h1 | h1
  · exact Or.inl h1
  · exact Or.inr (Or.inl (fun hw => h1 (hanti a hw)))
  · exact Or.inr (Or.inr (fun hw => h1 (hanti b hw)))

theorem eatBlocked_true {edge : Bool} {a b : Coordinate} {lvl : Grid}
    (h : eatBlocked edge a b lvl = Res.ok true) :
    edge = true ∨ ¬ lvl.IsWallAt a ∨ ¬ lvl.IsWallAt b := by
  by_contra hc
  push_neg at hc
  obtain ⟨he, ha, hb⟩ := hc
  have he' : edge = false := by cases edge <;> simp_all
  subst he'
  rw [eatBlocked_of_walls ha hb] at h
  simp at h

/-- Invariant rule for the loop of `eat`: a property `G` of the grid that every
carving step from a position satisfying `Q` re-establishes, `Q` being kept when
floor is added, holds after the run. -/
theorem eatLoop_inv2 (K : Consts) (Q : Coordinate → Grid → Prop) (G : Grid → Prop)
    (hmono : ∀ c l l', Q c l → (∀ p, l.IsEmptyAt p → l'.IsEmptyAt p) → Q c l')
    (hstep : ∀ c dir edge a b lvl lvl1, Q c lvl → G lvl → eatTarget K c dir = some (edge, a, b) →
      eatBlocked edge a b lvl = Res.ok false → carve2 a b lvl = Res.ok lvl1 →
      Q b lvl1 ∧ G lvl1) :
    ∀ (fuel : Nat) (c : Coordinate) (dir tries : Int) (lvl : Grid) (g : Rng)
      (lvl' : Grid) (g' : Rng), Q c lvl → G lvl →
      eatLoop K fuel c dir tries lvl g = Res.ok (lvl', g') → G lvl' := by
  intro fuel
  induction fuel with
  | zero => intro c dir tries lvl g lvl' g' _ _ h; simp [eatLoop] at h
  | succ n ih =>
    intro c dir tries lvl g lvl' g' hQ hG h
    rcases eatLoop_ok_inv h with ⟨_, rfl, _⟩ | ⟨_, edge, a, b, hT, hcase⟩
    · exact hG
    · rcases hcase with ⟨_, hnext⟩ | ⟨hB, lvl1, lvl2, g2, hC, hrec, hnext⟩
      · exact ih _ _ _ _ _ _ _ hQ hG hnext
      · obtain ⟨hQb, hG1⟩ := hstep c dir edge a b lvl lvl1 hQ hG hT hB hC
        have hG2 := ih _ _ _ _ _ _ _ hQb hG1 hrec
        have hQ1 : Q c lvl1 := hmono c lvl lvl1 hQ
          (fun p hp => (carve2_isEmptyAt hC p).2 (Or.inr (Or.inr hp)))
        have hQ2 : Q c lvl2 := hmono c lvl1 lvl2 hQ1 (eatLoop_isEmptyAt_mono K hrec)
        exact ih _ _ _ _ _ _ _ hQ2 hG2 hnext

theorem Grid.joined_mono {lvl lvl' : Grid} (hm : ∀ p, lvl.IsEmptyAt p → lvl'.IsEmptyAt p)
    {p q : Coordinate} (h : lvl.Joined p q) : lvl'.Joined p q := by
  unfold Grid.Joined at h ⊢
  refine Relation.ReflTransGen.mono ?_ h
  intro a b hab
  exact ⟨hm a hab.1, hm b hab.2.1, hab.2.2⟩

theorem Grid.joined_symm {lvl : Grid} {p q : Coordinate} (h : lvl.Joined p q) :
    lvl.Joined q p := by
  unfold Grid.Joined at h ⊢
  refine Relation.ReflTransGen.symmetric ?_ h
  intro a b hab
  refine ⟨hab.2.1, hab.1, ?_⟩
  have := hab.2.2
  unfold Coordinate.Adjacent at this ⊢
  omega

theorem eatTarget_adjacent {K : Consts} {c : Coordinate} {dir : Int} {edge : Bool}
    {a b : Coordinate} (h : eatTarget K c dir = some (edge, a, b)) :
    c.Adjacent a ∧ a.Adjacent b := by
  unfold Coordinate.Adjacent
  rcases eatTarget_cases h with ⟨_, _, rfl, rfl⟩ | ⟨_, _, rfl, rfl⟩ |
    ⟨_, _, rfl, rfl⟩ | ⟨_, _, rfl, rfl⟩
  · refine ⟨Or.inr ⟨rfl, ?_⟩, Or.inr ⟨rfl, ?_⟩⟩ <;> simp only <;> omega
  · exact ⟨Or.inr ⟨rfl, Or.inr rfl⟩, Or.inr ⟨rfl, Or.inr (by simp only; ring)⟩⟩
  · refine ⟨Or.inl ⟨rfl, ?_⟩, Or.inl ⟨rfl, ?_⟩⟩ <;> simp only <;> omega
  · exact ⟨Or.inl ⟨rfl, Or.inr rfl⟩, Or.inl ⟨rfl, Or.inr (by simp only; ring)⟩⟩

/-- A run of the loop of `eat` from a floor cell keeps all floor joined to the
anchor `a0`. -/
theorem eatLoop_joined (K : Consts) (a0 : Coordinate) {fuel : Nat} {c : Coordinate}
    {dir tries : Int} {lvl : Grid} {g : Rng} {lvl' : Grid} {g' : Rng}
    (hc : lvl.IsEmptyAt c) (hG : ∀ p, lvl.IsEmptyAt p → lvl.Joined a0 p)
    (h : eatLoop K fuel c dir tries lvl g = Res.ok (lvl', g')) :
    ∀ p, lvl'.IsEmptyAt p → lvl'.Joined a0 p := by
  refine eatLoop_inv2 K (fun c l => l.IsEmptyAt c) (fun l => ∀ p, l.IsEmptyAt p → l.Joined a0 p)
    ?_ ?_ fuel c dir tries lvl g lvl' g' hc hG h
  · intro c l l' hq hm; exact hm c hq
  · intro c dir edge a b lvl lvl1 hQ hG hT _ hC
    have hm : ∀ p, lvl.IsEmptyAt p → lvl1.IsEmptyAt p :=
      fun p hp => (carve2_isEmptyAt hC p).2 (Or.inr (Or.inr hp))
    have ha : lvl1.IsEmptyAt a := (carve2_isEmptyAt hC a).2 (Or.inl rfl)
    have hb : lvl1.IsEmptyAt b := (carve2_isEmptyAt hC b).2 (Or.inr (Or.inl rfl))
    obtain ⟨adj1, adj2⟩ := eatTarget_adjacent hT
    have hja : lvl1.Joined a0 a :=
      Relation.ReflTransGen.tail (Grid.joined_mono hm (hG c hQ)) ⟨hm c hQ, ha, adj1⟩
    have hjb : lvl1.Joined a0 b := Relation.ReflTransGen.tail hja ⟨ha, hb, adj2⟩
    refine ⟨hb, ?_⟩
    intro p hp
    rcases (carve2_isEmptyAt hC p).1 hp with rfl | rfl | hp0
    · exact hja
    · exact hjb
    · exact Grid.joined_mono hm (hG p hp0)

/-- After a run of the loop of `eat` every direction it still had to try is
blocked at its position: all four for a run with two tries left, those from
`dir` up to 4 for a run with one try left. -/
theorem eatLoop_blocks (K : Consts) :
    ∀ (fuel : Nat) (c : Coordinate) (dir tries : Int) (lvl : Grid) (g : Rng)
      (lvl' : Grid) (g' : Rng), (1 ≤ dir ∧ dir ≤ 4) →
      eatLoop K fuel c dir tries lvl g = Res.ok (lvl', g') →
      ∀ d : Int, (1 ≤ d ∧ d ≤ 4) → (2 ≤ tries ∨ (tries = 1 ∧ dir ≤ d)) →
        eatBlockedAt K lvl' c d := by
  intro fuel
  induction fuel with
  | zero => intro c dir tries lvl g lvl' g' _ h; simp [eatLoop] at h
  | succ n ih =>
    intro c dir tries lvl g lvl' g' hdir h d hd hcov
    rcases eatLoop_ok_inv h with ⟨ht, _, _⟩ | ⟨ht, edge, a, b, hT, hcase⟩
    · omega
    · have hnd : (1 ≤ (nextDir dir tries).1 ∧ (nextDir dir tries).1 ≤ 4) ∧
          (d ≠ dir → (2 ≤ (nextDir dir tries).2 ∨
            ((nextDir dir tries).2 = 1 ∧ (nextDir dir tries).1 ≤ d))) := by
        unfold nextDir
        split_ifs <;> simp only <;> omega
      rcases hcase with ⟨hB, hnext⟩ | ⟨hB, lvl1, lvl2, g2, hC, hrec, hnext⟩
      · by_cases hdd : d = dir
        · subst hdd
          apply eatBlockedAt_mono _ (eatLoop_wall_anti K hnext)
          intro edge' a' b' hT'
          rw [hT] at hT'
          simp only [Option.some.injEq, Prod.mk.injEq] at hT'
          obtain ⟨rfl, rfl, rfl⟩ := hT'
          exact eatBlocked_true hB
        · exact ih _ _ _ _ _ _ _ hnd.1 hnext d hd (hnd.2 hdd)
      · by_cases hdd : d = dir
        · subst hdd
          apply eatBlockedAt_mono _ (eatLoop_wall_anti K hnext)
          apply eatBlockedAt_mono _ (eatLoop_wall_anti K hrec)
          intro edge' a' b' hT'
          rw [hT] at hT'
          simp only [Option.some.injEq, Prod.mk.injEq] at hT'
          obtain ⟨rfl, rfl, rfl⟩ := hT'
          exact Or.inr (Or.inl (Grid.not_wall_of_empty ((carve2_isEmptyAt hC a).2 (Or.inl rfl))))
        · exact ih _ _ _ _ _ _ _ hnd.1 hnext d hd (hnd.2 hdd)

theorem eatTarget_parity {K : Consts} {c : Coordinate} {dir : Int} {edge : Bool}
    {a b : Coordinate} (hc : c.X % 2 = 1 ∧ c.Y % 2 = 1)
    (h : eatTarget K c dir = some (edge, a, b)) :
    ¬ (a.X % 2 = 1 ∧ a.Y % 2 = 1) ∧ (b.X % 2 = 1 ∧ b.Y % 2 = 1) := by
  rcases eatTarget_cases h with ⟨_, _, rfl, rfl⟩ | ⟨_, _, rfl, rfl⟩ |
    ⟨_, _, rfl, rfl⟩ | ⟨_, _, rfl, rfl⟩ <;>
  · simp only
    omega

/-- After a run of the loop of `eat` from a cell of odd coordinates, every cell
of odd coordinates that the run turned from wall into floor has all four
directions blocked. -/
theorem eatLoop_closes (K : Consts) :
    ∀ (fuel : Nat) (c : Coordinate) (dir tries : Int) (lvl : Grid) (g : Rng)
      (lvl' : Grid) (g' : Rng), (c.X % 2 = 1 ∧ c.Y % 2 = 1) →
      eatLoop K fuel c dir tries lvl g = Res.ok (lvl', g') →
      ∀ p : Coordinate, (p.X % 2 = 1 ∧ p.Y % 2 = 1) → lvl.IsWallAt p → ¬ lvl'.IsWallAt p →
        ∀ d : Int, (1 ≤ d ∧ d ≤ 4) → eatBlockedAt K lvl' p d := by
  intro fuel
  induction fuel with
  | zero => intro c dir tries lvl g lvl' g' _ h; simp [eatLoop] at h
  | succ n ih =>
    intro c dir tries lvl g lvl' g' hc h p hp hw hnw d hd
    rcases eatLoop_ok_inv h with ⟨_, rfl, _⟩ | ⟨_, edge, a, b, hT, hcase⟩
    · exact absurd hw hnw
    · rcases hcase with ⟨_, hnext⟩ | ⟨hB, lvl1, lvl2, g2, hC, hrec, hnext⟩
      · exact ih _ _ _ _ _ _ _ hc hnext p hp hw hnw d hd
      · obtain ⟨hpa, hpb⟩ := eatTarget_parity hc hT
        by_cases h1 : lvl1.IsWallAt p
        · by_cases h2 : lvl2.IsWallAt p
          · exact ih _ _ _ _ _ _ _ hc hnext p hp h2 hnw d hd
          · exact eatBlockedAt_mono (ih _ _ _ _ _ _ _ hpb hrec p hp h1 h2 d hd)
              (eatLoop_wall_anti K hnext)
        · have hpb' : p = b := by
            by_contra hne
            apply h1
            refine (carve2_isWallAt hC p).2 ⟨?_, hne, hw⟩
            rintro rfl
            exact hpa hp
          subst hpb'
          exact eatBlockedAt_mono
            (eatLoop_blocks K _ _ _ _ _ _ _ _ (by omega) hrec d hd (Or.inl (le_refl _)))
            (eatLoop_wall_anti K hnext)

/-- Where every direction is blocked the loop of `eat` changes nothing. -/
theorem eatLoop_all_blocked (K : Consts) :
    ∀ (fuel : Nat) (c : Coordinate) (dir tries : Int) (lvl : Grid) (g : Rng)
      (lvl' : Grid) (g' : Rng), (∀ d : Int, (1 ≤ d ∧ d ≤ 4) → eatBlockedAt K lvl c d) →
      eatLoop K fuel c dir tries lvl g = Res.ok (lvl', g') → lvl' = lvl := by
  intro fuel
  induction fuel with
  | zero => intro c dir tries lvl g lvl' g' _ h; simp [eatLoop] at h
  | succ n ih =>
    intro c dir tries lvl g lvl' g' hall h
    rcases eatLoop_ok_inv h with ⟨_, rfl, _⟩ | ⟨_, edge, a, b, hT, hcase⟩
    · rfl
    · rcases hcase with ⟨_, hnext⟩ | ⟨hB, _⟩
      · exact ih _ _ _ _ _ _ _ hall hnext
      · exfalso
        obtain ⟨he, ha, hb⟩ := eatBlocked_false hB
        have hd := (eatTarget_ne hT).2
        rcases hall dir hd edge a b hT with h1 | h1 | h1
        · rw [he] at h1; simp at h1
        · exact h1 ha
        · exact h1 hb

/-- A carving step from a cell of odd coordinates that is floor or the start
cell keeps the structure of the corridors. -/
theorem carve2_struct {K : Consts} {c : Coordinate} {dir : Int} {edge : Bool}
    {a b : Coordinate} {lvl lvl1 : Grid}
    (hQ : (c.X % 2 = 1 ∧ c.Y % 2 = 1) ∧ (lvl.IsEmptyAt c ∨ c = ⟨1, 1⟩)) (hG : MazeStruct lvl)
    (hT : eatTarget K c dir = some (edge, a, b)) (hC : carve2 a b lvl = Res.ok lvl1) :
    ((b.X % 2 = 1 ∧ b.Y % 2 = 1) ∧ (lvl1.IsEmptyAt b ∨ b = ⟨1, 1⟩)) ∧ MazeStruct lvl1 := by
  have hm : ∀ p, lvl.IsEmptyAt p → lvl1.IsEmptyAt p :=
    fun p hp => (carve2_isEmptyAt hC p).2 (Or.inr (Or.inr hp))
  have ha : lvl1.IsEmptyAt a := (carve2_isEmptyAt hC a).2 (Or.inl rfl)
  have hb : lvl1.IsEmptyAt b := (carve2_isEmptyAt hC b).2 (Or.inr (Or.inl rfl))
  have hc1 : lvl1.IsEmptyAt c ∨ c = ⟨1, 1⟩ := hQ.2.imp (hm c) id
  obtain ⟨hpa, hpb⟩ := eatTarget_parity hQ.1 hT
  refine ⟨⟨hpb, Or.inl hb⟩, ?_⟩
  intro p hp
  rcases (carve2_isEmptyAt hC p).1 hp with rfl | rfl | hp0
  · rcases eatTarget_cases hT with ⟨_, _, rfl, rfl⟩ | ⟨_, _, rfl, rfl⟩ |
      ⟨_, _, rfl, rfl⟩ | ⟨_, _, rfl, rfl⟩
    · refine ⟨fun _ _ => ⟨Or.inl ?_, ?_⟩, fun h1 h2 => ?_⟩
      · have e : (⟨c.X - 1 - 1, c.Y⟩ : Coordinate) = ⟨c.X - 2, c.Y⟩ := by
          congr 1; ring
        simp only
        rw [e]
        exact hb
      · have e : (⟨c.X - 1 + 1, c.Y⟩ : Coordinate) = c := by
          cases c; simp
        simp only
        rw [e]
        exact hc1
      · simp only at h1 h2
        omega
    · refine ⟨fun _ _ => ⟨?_, Or.inl ?_⟩, fun h1 h2 => ?_⟩
      · have e : (⟨c.X + 1 - 1, c.Y⟩ : Coordinate) = c := by
          cases c; simp
        simp only
        rw [e]
        exact hc1
      · have e : (⟨c.X + 1 + 1, c.Y⟩ : Coordinate) = ⟨c.X + 2, c.Y⟩ := by
          congr 1; ring
        simp only
        rw [e]
        exact hb
      · simp only at h1 h2
        omega
    · refine ⟨fun h1 h2 => ?_, fun _ _ => ⟨Or.inl ?_, ?_⟩⟩
      · simp only at h1 h2
        omega
      · have e : (⟨c.X, c.Y - 1 - 1⟩ : Coordinate) = ⟨c.X, c.Y - 2⟩ := by
          congr 1; ring
        simp only
        rw [e]
        exact hb
      · have e : (⟨c.X, c.Y - 1 + 1⟩ : Coordinate) = c := by
          cases c; simp
        simp only
        rw [e]
        exact hc1
    · refine ⟨fun h1 h2 => ?_, fun _ _ => ⟨?_, Or.inl ?_⟩⟩
      · simp only at h1 h2
        omega
      · have e : (⟨c.X, c.Y + 1 - 1⟩ : Coordinate) = c := by
          cases c; simp
        simp only
        rw [e]
        exact hc1
      · have e : (⟨c.X, c.Y + 1 + 1⟩ : Coordinate) = ⟨c.X, c.Y + 2⟩ := by
          congr 1; ring
        simp only
        rw [e]
        exact hb
  · refine ⟨fun h1 h2 => ?_, fun h1 h2 => ?_⟩ <;> omega
  · obtain ⟨g1, g2⟩ := hG p hp0
    exact ⟨fun h1 h2 => ⟨(g1 h1 h2).1.imp (hm _) id, (g1 h1 h2).2.imp (hm _) id⟩,
      fun h1 h2 => ⟨(g2 h1 h2).1.imp (hm _) id, (g2 h1 h2).2.imp (hm _) id⟩⟩

/-- A run of the loop of `eat` from a cell of odd coordinates that is floor or
the start cell keeps the structure of the corridors. -/
theorem eatLoop_struct (K : Consts) {fuel : Nat} {c : Coordinate} {dir tries : Int}
    {lvl : Grid} {g : Rng} {lvl' : Grid} {g' : Rng}
    (hc : (c.X % 2 = 1 ∧ c.Y % 2 = 1) ∧ (lvl.IsEmptyAt c ∨ c = ⟨1, 1⟩)) (hS : MazeStruct lvl)
    (h : eatLoop K fuel c dir tries lvl g = Res.ok (lvl', g')) : MazeStruct lvl' := by
  refine eatLoop_inv2 K
    (fun c l => (c.X % 2 = 1 ∧ c.Y % 2 = 1) ∧ (l.IsEmptyAt c ∨ c = ⟨1, 1⟩)) MazeStruct
    ?_ ?_ fuel c dir tries lvl g lvl' g' hc hS h
  · intro c l l' hq hm
    exact ⟨hq.1, hq.2.imp (hm c) id⟩
  · intro c dir edge a b lvl lvl1 hQ hG hT _ hC
    exact carve2_struct hQ hG hT hC

theorem carve2_wallOrEmpty {K : Consts} {a b : Coordinate} {lvl lvl1 : Grid}
    (hC : carve2 a b lvl = Res.ok lvl1) (hl : WallOrEmpty K lvl) : WallOrEmpty K lvl1 := by
  intro p hx hy
  by_cases hpa : p = a
  · exact Or.inr ((carve2_isEmptyAt hC p).2 (Or.inl hpa))
  · by_cases hpb : p = b
    · exact Or.inr ((carve2_isEmptyAt hC p).2 (Or.inr (Or.inl hpb)))
    · rcases hl p hx hy with h1 | h1
      · exact Or.inl ((carve2_isWallAt hC p).2 ⟨hpa, hpb, h1⟩)
      · exact Or.inr ((carve2_isEmptyAt hC p).2 (Or.inr (Or.inr h1)))

/-- A run of the loop of `eat` leaves a grid of walls and floor a grid of walls
and floor. -/
theorem eatLoop_wallOrEmpty (K : Consts) {fuel : Nat} {c : Coordinate} {dir tries : Int}
    {lvl : Grid} {g : Rng} {lvl' : Grid} {g' : Rng} (hWE : WallOrEmpty K lvl)
    (h : eatLoop K fuel c dir tries lvl g = Res.ok (lvl', g')) : WallOrEmpty K lvl' := by
  refine eatLoop_rel K (fun _ => True) (fun l l' => WallOrEmpty K l → WallOrEmpty K l') ?_ ?_ ?_
    fuel c dir tries lvl g lvl' g' trivial h hWE
  · intro l hl; exact hl
  · intro l1 l2 l3 h12 h23 hl; exact h23 (h12 hl)
  · intro c dir edge a b lvl lvl1 _ _ _ hC
    exact ⟨trivial, carve2_wallOrEmpty hC⟩

theorem WallOrEmpty.empty_of_not_wall {K : Consts} {lvl : Grid} (h : WallOrEmpty K lvl)
    {p : Coordinate} (hx : 0 ≤ p.X ∧ p.X < K.width) (hy : 0 ≤ p.Y ∧ p.Y < K.height)
    (hn : ¬ lvl.IsWallAt p) : lvl.IsEmptyAt p :=
  (h p hx hy).resolve_left hn

/-- After the first corridor carved from the start cell `(1,1)` of an all-wall
grid and the run of the nested call at its far end, all four directions are
blocked at the start cell. -/
theorem eat_root_blocked (K : Consts) {n : Nat} {dir : Int} {edge : Bool} {a b : Coordinate}
    {lvl0 lvl1 lvl2 : Grid} {r : Int} {g1 g2 : Rng}
    (hwall0 : ∀ p : Coordinate, (0 ≤ p.X ∧ p.X < K.width) → (0 ≤ p.Y ∧ p.Y < K.height) →
      lvl0.IsWallAt p)
    (hS0 : MazeStruct lvl0)
    (hT : eatTarget K ⟨1, 1⟩ dir = some (edge, a, b))
    (hB : eatBlocked edge a b lvl0 = Res.ok false) (hC : carve2 a b lvl0 = Res.ok lvl1)
    (hr : 1 ≤ r ∧ r ≤ 4) (hrec : eatLoop K n b r 2 lvl1 g1 = Res.ok (lvl2, g2)) :
    ∀ d : Int, (1 ≤ d ∧ d ≤ 4) → eatBlockedAt K lvl2 ⟨1, 1⟩ d := by
  obtain ⟨he, _, _⟩ := eatBlocked_false hB
  subst he
  have hWE0 : WallOrEmpty K lvl0 := fun p hx hy => Or.inl (hwall0 p hx hy)
  have hWE2 : WallOrEmpty K lvl2 := eatLoop_wallOrEmpty K (carve2_wallOrEmpty hC hWE0) hrec
  obtain ⟨hQb, hS1⟩ := carve2_struct (K := K) (c := ⟨1, 1⟩)
    ⟨by decide, Or.inr rfl⟩ hS0 hT hC
  have hS2 : MazeStruct lvl2 := eatLoop_struct K hQb hS1 hrec
  have ha2 : lvl2.IsEmptyAt a :=
    eatLoop_isEmptyAt_mono K hrec a ((carve2_isEmptyAt hC a).2 (Or.inl rfl))
  have hblkb := eatLoop_blocks K _ _ _ _ _ _ _ _ hr hrec
  have hcl := eatLoop_closes K _ _ _ _ _ _ _ _ hQb.1 hrec
  have hw33 : lvl1.IsWallAt ⟨3, 3⟩ → (0 ≤ (3 : Int) ∧ (3 : Int) < K.width) →
      (0 ≤ (3 : Int) ∧ (3 : Int) < K.height) → ¬ lvl2.IsWallAt ⟨3, 3⟩ →
      ∀ d : Int, (1 ≤ d ∧ d ≤ 4) → eatBlockedAt K lvl2 ⟨3, 3⟩ d :=
    fun h1 _ _ h2 => hcl ⟨3, 3⟩ (by decide) h1 h2
  intro d hd
  have e1 : eatTarget K ⟨1, 1⟩ 1 = some (true, ⟨0, 1⟩, ⟨-1, 1⟩) := rfl
  have e3 : eatTarget K ⟨1, 1⟩ 3 = some (true, ⟨1, 0⟩, ⟨1, -1⟩) := rfl
  have e2 : eatTarget K ⟨1, 1⟩ 2 =
      some (decide ((1 : Int) ≥ K.width - 3), ⟨2, 1⟩, ⟨3, 1⟩) := rfl
  have e4 : eatTarget K ⟨1, 1⟩ 4 =
      some (decide ((1 : Int) ≥ K.height - 3), ⟨1, 2⟩, ⟨1, 3⟩) := rfl
  have d4 : ∀ x y : Int, eatTarget K ⟨x, y⟩ 4 =
      some (decide (y ≥ K.height - 3), ⟨x, y + 1⟩, ⟨x, y + 2⟩) := fun _ _ => rfl
  have d2 : ∀ x y : Int, eatTarget K ⟨x, y⟩ 2 =
      some (decide (x ≥ K.width - 3), ⟨x + 1, y⟩, ⟨x + 2, y⟩) := fun _ _ => rfl
  have d1 : ∀ x y : Int, eatTarget K ⟨x, y⟩ 1 =
      some (decide (x ≤ 2), ⟨x - 1, y⟩, ⟨x - 2, y⟩) := fun _ _ => rfl
  have d3 : ∀ x y : Int, eatTarget K ⟨x, y⟩ 3 =
      some (decide (y ≤ 2), ⟨x, y - 1⟩, ⟨x, y - 2⟩) := fun _ _ => rfl
  have hdir : dir = 1 ∨ dir = 2 ∨ dir = 3 ∨ dir = 4 := by
    have := (eatTarget_ne hT).2
    omega
  have hdd : d = 1 ∨ d = 2 ∨ d = 3 ∨ d = 4 := by omega
  -- the two directions that leave the grid
  rcases hdd with rfl | rfl | rfl | rfl
  · intro edge' a' b' hT'
    rw [e1] at hT'
    simp only [Option.some.injEq, Prod.mk.injEq] at hT'
    exact Or.inl hT'.1.symm
  · rcases hdir with rfl | rfl | rfl | rfl
    · rw [e1] at hT; simp at hT
    · -- the corridor itself was carved to the east
      intro edge' a' b' hT'
      rw [hT] at hT'
      simp only [Option.some.injEq, Prod.mk.injEq] at hT'
      obtain ⟨_, rfl, _⟩ := hT'
      exact Or.inr (Or.inl (Grid.not_wall_of_empty ha2))
    · rw [e3] at hT; simp at hT
    · -- corridor to `(1,3)`, the attempt towards `(3,1)`
      rw [e4] at hT
      simp only [Option.some.injEq, Prod.mk.injEq] at hT
      obtain ⟨hedge, rfl, rfl⟩ := hT
      have hH : ¬ ((1 : Int) ≥ K.height - 3) := of_decide_eq_false hedge
      intro edge' a' b' hT'
      rw [e2] at hT'
      simp only [Option.some.injEq, Prod.mk.injEq] at hT'
      obtain ⟨rfl, rfl, rfl⟩ := hT'
      by_cases hWd : (1 : Int) ≥ K.width - 3
      · exact Or.inl (decide_eq_true hWd)
      · right; right
        have hx3 : 0 ≤ (3 : Int) ∧ (3 : Int) < K.width := by omega
        have hy3 : 0 ≤ (3 : Int) ∧ (3 : Int) < K.height := by omega
        have hx2 : 0 ≤ (2 : Int) ∧ (2 : Int) < K.width := by omega
        have hy2 : 0 ≤ (2 : Int) ∧ (2 : Int) < K.height := by omega
        have hy1 : 0 ≤ (1 : Int) ∧ (1 : Int) < K.height := by omega
        -- east of `(1,3)` is blocked, so `(3,3)` is floor
        have h33 : lvl2.IsEmptyAt ⟨3, 3⟩ := by
          rcases hblkb 2 (by norm_num) (Or.inl (le_refl _)) _ _ _ (d2 1 3) with h | h | h
          · exact absurd (of_decide_eq_true h) hWd
          · have hE : lvl2.IsEmptyAt ⟨2, 3⟩ := hWE2.empty_of_not_wall hx2 hy3 h
            rcases ((hS2 ⟨2, 3⟩ hE).1 (by decide) (by decide)).2 with h' | h'
            · exact h'
            · simp at h'
          · exact hWE2.empty_of_not_wall hx3 hy3 h
        have hw1 : lvl1.IsWallAt ⟨3, 3⟩ :=
          (carve2_isWallAt hC ⟨3, 3⟩).2 ⟨by simp, by simp, hwall0 ⟨3, 3⟩ hx3 hy3⟩
        have hcl33 := hw33 hw1 hx3 hy3 (Grid.not_wall_of_empty h33)
        -- from `(3,3)` the attempt towards `(3,1)` is blocked, so `(3,1)` is floor
        have h31 : lvl2.IsEmptyAt ⟨3, 1⟩ := by
          rcases hcl33 3 (by norm_num) _ _ _ (d3 3 3) with h | h | h
          · simp at h
          · have hE : lvl2.IsEmptyAt ⟨3, 2⟩ := hWE2.empty_of_not_wall hx3 hy2 h
            rcases ((hS2 ⟨3, 2⟩ hE).2 (by decide) (by decide)).1 with h' | h'
            · exact h'
            · simp at h'
          · exact hWE2.empty_of_not_wall hx3 hy1 h
        exact Grid.not_wall_of_empty h31
  · intro edge' a' b' hT'
    rw [e3] at hT'
    simp only [Option.some.injEq, Prod.mk.injEq] at hT'
    exact Or.inl hT'.1.symm
  · rcases hdir with rfl | rfl | rfl | rfl
    · rw [e1] at hT; simp at hT
    · -- corridor to `(3,1)`, the attempt towards `(1,3)`
      rw [e2] at hT
      simp only [Option.some.injEq, Prod.mk.injEq] at hT
      obtain ⟨hedge, rfl, rfl⟩ := hT
      have hWd : ¬ ((1 : Int) ≥ K.width - 3) := of_decide_eq_false hedge
      intro edge' a' b' hT'
      rw [e4] at hT'
      simp only [Option.some.injEq, Prod.mk.injEq] at hT'
      obtain ⟨rfl, rfl, rfl⟩ := hT'
      by_cases hH : (1 : Int) ≥ K.height - 3
      · exact Or.inl (decide_eq_true hH)
      · right; right
        have hx3 : 0 ≤ (3 : Int) ∧ (3 : Int) < K.width := by omega
        have hy3 : 0 ≤ (3 : Int) ∧ (3 : Int) < K.height := by omega
        have hx2 : 0 ≤ (2 : Int) ∧ (2 : Int) < K.width := by omega
        have hy2 : 0 ≤ (2 : Int) ∧ (2 : Int) < K.height := by omega
        have hx1 : 0 ≤ (1 : Int) ∧ (1 : Int) < K.width := by omega
        have h33 : lvl2.IsEmptyAt ⟨3, 3⟩ := by
          rcases hblkb 4 (by norm_num) (Or.inl (le_refl _)) _ _ _ (d4 3 1) with h | h | h
          · exact absurd (of_decide_eq_true h) hH
          · have hE : lvl2.IsEmptyAt ⟨3, 2⟩ := hWE2.empty_of_not_wall hx3 hy2 h
            rcases ((hS2 ⟨3, 2⟩ hE).2 (by decide) (by decide)).2 with h' | h'
            · exact h'
            · simp at h'
          · exact hWE2.empty_of_not_wall hx3 hy3 h
        have hw1 : lvl1.IsWallAt ⟨3, 3⟩ :=
          (carve2_isWallAt hC ⟨3, 3⟩).2 ⟨by simp, by simp, hwall0 ⟨3, 3⟩ hx3 hy3⟩
        have hcl33 := hw33 hw1 hx3 hy3 (Grid.not_wall_of_empty h33)
        have h13 : lvl2.IsEmptyAt ⟨1, 3⟩ := by
          rcases hcl33 1 (by norm_num) _ _ _ (d1 3 3) with h | h | h
          · simp at h
          · have hE : lvl2.IsEmptyAt ⟨2, 3⟩ := hWE2.empty_of_not_wall hx2 hy3 h
            rcases ((hS2 ⟨2, 3⟩ hE).1 (by decide) (by decide)).1 with h' | h'
            · exact h'
            · simp at h'
          · exact hWE2.empty_of_not_wall hx1 hy3 h
        exact Grid.not_wall_of_empty h13
    · rw [e3] at hT; simp at hT
    · intro edge' a' b' hT'
      rw [hT] at hT'
      simp only [Option.some.injEq, Prod.mk.injEq] at hT'
      obtain ⟨_, rfl, _⟩ := hT'
      exact Or.inr (Or.inl (Grid.not_wall_of_empty ha2))

/-- The loop of `eat` at the start cell `(1,1)` of an all-wall grid, from every
direction and number of tries, leaves the floor connected. -/
theorem eatLoop_root_connected (K : Consts) (hW : 3 ≤ K.width) (hH : 3 ≤ K.height) :
    ∀ (fuel : Nat) (dir tries : Int) (g : Rng) (lvl' : Grid) (g' : Rng),
      eatLoop K fuel ⟨1, 1⟩ dir tries
        (Grid.fill K.width.toNat K.height.toNat (Cell.Wall K.DEBUG)) g = Res.ok (lvl', g') →
      lvl'.Connected := by
  have hwall0 : ∀ p : Coordinate, (0 ≤ p.X ∧ p.X < K.width) → (0 ≤ p.Y ∧ p.Y < K.height) →
      (Grid.fill K.width.toNat K.height.toNat (Cell.Wall K.DEBUG)).IsWallAt p := by
    intro p hx hy
    unfold Grid.IsWallAt
    rw [Grid.cell?_fill, if_pos (by omega)]
    exact ⟨_, rfl⟩
  have hnoE : ∀ p : Coordinate,
      ¬ (Grid.fill K.width.toNat K.height.toNat (Cell.Wall K.DEBUG)).IsEmptyAt p := by
    rintro p ⟨v, hv⟩
    rw [Grid.cell?_fill] at hv
    split_ifs at hv
    simp at hv
  have hS0 : MazeStruct (Grid.fill K.width.toNat K.height.toNat (Cell.Wall K.DEBUG)) :=
    fun p hp => absurd hp (hnoE p)
  intro fuel
  induction fuel with
  | zero => intro dir tries g lvl' g' h; simp [eatLoop] at h
  | succ n ih =>
    intro dir tries g lvl' g' h
    rcases eatLoop_ok_inv h with ⟨_, rfl, _⟩ | ⟨_, edge, a, b, hT, hcase⟩
    · intro p q hp _
      exact absurd hp (hnoE p)
    · rcases hcase with ⟨_, hnext⟩ | ⟨hB, lvl1, lvl2, g2, hC, hrec, hnext⟩
      · exact ih _ _ _ _ _ hnext
      · have hblk := eat_root_blocked K hwall0 hS0 hT hB hC (by omega) hrec
        have hsame : lvl' = lvl2 := eatLoop_all_blocked K _ _ _ _ _ _ _ _ hblk hnext
        subst hsame
        have ha1 : lvl1.IsEmptyAt a := (carve2_isEmptyAt hC a).2 (Or.inl rfl)
        have hb1 : lvl1.IsEmptyAt b := (carve2_isEmptyAt hC b).2 (Or.inr (Or.inl rfl))
        have hG1 : ∀ p, lvl1.IsEmptyAt p → lvl1.Joined b p := by
          intro p hp
          rcases (carve2_isEmptyAt hC p).1 hp with rfl | rfl | hp0
          · exact Grid.joined_symm
              (Relation.ReflTransGen.single ⟨ha1, hb1, (eatTarget_adjacent hT).2⟩)
          · exact Relation.ReflTransGen.refl
          · exact absurd hp0 (hnoE p)
        have hG2 := eatLoop_joined K b hb1 hG1 hrec
        intro p q hp hq
        exact Relation.ReflTransGen.trans (Grid.joined_symm (hG2 p hp)) (hG2 q hq)

/-- C24: starting from an all-`Wall` grid of `width` by `height` cells, `eat`
from `(1,1)` returns (with fuel `13 * width * height + 13`), and after it the
set of `Empty` cells is fully connected: any two `Empty` cells are joined by a
path of orthogonally adjacent `Empty` cells, for every sequence of random
directions. -/
theorem eat_connected (K : Consts) (hW : 3 ≤ K.width) (hH : 3 ≤ K.height)
    (fuel : Nat) (g : Rng) :
    (13 * (K.width.toNat * K.height.toNat) + 13 ≤ fuel →
      ∃ lvl' g', eat K fuel ⟨1, 1⟩
        (Grid.fill K.width.toNat K.height.toNat (Cell.Wall K.DEBUG)) g = Res.ok (lvl', g')) ∧
    (∀ lvl' g', eat K fuel ⟨1, 1⟩
        (Grid.fill K.width.toNat K.height.toNat (Cell.Wall K.DEBUG)) g = Res.ok (lvl', g') →
      ∀ p q : Coordinate,
        (∃ v, lvl'.cell? p.X p.Y = some (Cell.Empty v)) →
        (∃ v, lvl'.cell? q.X q.Y = some (Cell.Empty v)) →
        Relation.ReflTransGen lvl'.EmptyStep p q) := by
  refine ⟨eat_returns_on_fill K hW hH g fuel, ?_⟩
  intro lvl' g' h
  unfold eat at h
  simp only [Rng.Intn_of_pos (show (0 : Int) < 4 by norm_num)] at h
  exact eatLoop_root_connected K hW hH _ _ _ _ _ _ h

/-- Witness of C24 on the all-wall 7 by 7 level: the run returns and its floor
is connected. -/
theorem eat_connected_witness :
    ∃ lvl' g', eat smallConsts 650 ⟨1, 1⟩ (Grid.fill 7 7 (Cell.Wall false))
        (Rng.replay [1, 3, 0, 2, 1, 3]) = Res.ok (lvl', g') ∧ lvl'.Connected :=
  ⟨_, _, rfl, (eat_connected smallConsts (by decide) (by decide) 650
    (Rng.replay [1, 3, 0, 2, 1, 3])).2 _ _ rfl⟩

/-! ## Damage -/

/-- What `Damage` computes: nothing for `dmg ≤ 0`; for a positive 64-bit `dmg`
the new `Hp` is `Hp - dmg` cut off at zero, and the flag tells whether `dmg` was
greater than `Hp`. -/
theorem Damage_spec (c : character.Character) (dmg : Int) (hd : dmg < 2 ^ 63)
    (hHp : c.Stats.Hp < 2 ^ 64) :
    (dmg ≤ 0 → c.Damage dmg = (c, false)) ∧
    (0 < dmg → ((c.Damage dmg).1.Stats.Hp : Int) = max ((c.Stats.Hp : Int) - dmg) 0 ∧
      ((c.Damage dmg).2 = true ↔ (c.Stats.Hp : Int) < dmg) ∧
      (c.Damage dmg).1.Stats.MaxHP = c.Stats.MaxHP) := by
  constructor
  · intro h
    unfold character.Character.Damage
    rw [if_pos h]
  · intro h
    have e : uintOfInt dmg = dmg.toNat := by
      unfold uintOfInt
      rw [Int.emod_eq_of_lt (by omega) (by omega)]
    unfold character.Character.Damage
    rw [if_neg (by omega), e]
    by_cases hgt : dmg.toNat > c.Stats.Hp
    · rw [if_pos hgt]
      simp only
      refine ⟨?_, ?_, trivial⟩
      · rw [max_eq_right (by omega)]
        rfl
      · constructor
        · intro _; omega
        · intro _; trivial
    · rw [if_neg hgt]
      simp only
      have hsub : (c.Stats.Hp + 2 ^ 64 - dmg.toNat) % 2 ^ 64 = c.Stats.Hp - dmg.toNat := by
        have h1 : c.Stats.Hp + 2 ^ 64 - dmg.toNat = (c.Stats.Hp - dmg.toNat) + 2 ^ 64 := by omega
        rw [h1, Nat.add_mod_right, Nat.mod_eq_of_lt (by omega)]
      rw [hsub]
      refine ⟨?_, ?_, trivial⟩
      · rw [max_eq_left (by omega)]
        omega
      · constructor
        · intro h'; simp at h'
        · intro h'; omega

/-- C33 fails on the code: the test `uint(dmg) > c.Stats.Hp` misses the case of
equality. From `Hp = 5` the call `Damage(5)` leaves the character with `Hp = 0`
and returns `false`, while one more point of damage, `Damage(6)`, leaves
`Hp = 0` as well and returns `true`. -/
theorem Damage_exact_hit :
    sampleStats.Hp = 5 ∧
      ((character.Character.Damage ⟨⟨0, 0⟩, sampleStats⟩ 5).1.Stats.Hp = 0 ∧
        (character.Character.Damage ⟨⟨0, 0⟩, sampleStats⟩ 5).2 = false) ∧
      ((character.Character.Damage ⟨⟨0, 0⟩, sampleStats⟩ 6).1.Stats.Hp = 0 ∧
        (character.Character.Damage ⟨⟨0, 0⟩, sampleStats⟩ 6).2 = true) := by
  decide

/-! ## Placement never overwrites -/

theorem Cell.isEmpty_setVisible (v : Bool) (o : Cell) : (o.setVisible v).isEmpty = o.isEmpty := by
  cases o <;> rfl

/-- One call of `placeObject` writes one cell, which held floor, and leaves
every other cell as it was. -/
theorem placeObject_frame {K : Consts} {fuel : Nat} {seed : Coordinate} {o : Cell}
    {lvl : Grid} {g : Rng} {c : Coordinate} {d : Cell} {lvl' : Grid} {g' : Rng}
    (h : placeObject K fuel seed o lvl g = Res.ok (c, d, lvl', g')) :
    (∃ v, lvl.cell? c.X c.Y = some (Cell.Empty v) ∧ d = Cell.Empty v) ∧
      lvl'.cell? c.X c.Y = some (o.setVisible K.DEBUG) ∧
      (∀ x y : Int, ¬ (x = c.X ∧ y = c.Y) → lvl'.cell? x y = lvl.cell? x y) ∧
      Grid.count Cell.isOccupied lvl' =
        Grid.count Cell.isOccupied lvl + (if o.isOccupied then 1 else 0) := by
  obtain ⟨hw, hd, hl⟩ := placeObject_eq_ok h
  obtain ⟨v, hv⟩ := walkToEmpty_lands_on_empty K lvl fuel seed g c g' hw
  have hdv : d = Cell.Empty v := by
    rw [hv] at hd
    exact (Option.some.inj hd).symm
  refine ⟨⟨v, hv, hdv⟩, ?_, ?_, ?_⟩
  · rw [Grid.cell?_write? hl, if_pos ⟨rfl, rfl⟩]
  · intro x y hxy
    rw [Grid.cell?_write? hl, if_neg hxy]
  · have hcnt := Grid.count_write? Cell.isOccupied hv hl
    have e1 : Cell.isOccupied (Cell.Empty v) = false := rfl
    have e2 : (o.setVisible K.DEBUG).isOccupied = o.isOccupied := by
      unfold Cell.isOccupied
      rw [Cell.isEmpty_setVisible]
    rw [e1, e2] at hcnt
    simpa using hcnt

/-- A completed sequence of placements of objects that are not floor adds one
occupied cell per placement and leaves every cell that was occupied before as
it was. -/
theorem placeObjects_frame (K : Consts) (fuel : Nat) :
    ∀ (ps : List (Coordinate × Cell)) (lvl : Grid) (g : Rng) (lvl' : Grid) (g' : Rng),
      (∀ p ∈ ps, p.2.isOccupied = true) →
      placeObjects K fuel ps lvl g = Res.ok (lvl', g') →
      Grid.count Cell.isOccupied lvl' = Grid.count Cell.isOccupied lvl + ps.length ∧
        ∀ (x y : Int) (w : Cell), lvl.cell? x y = some w → w.isOccupied = true →
          lvl'.cell? x y = some w := by
  intro ps
  induction ps with
  | nil =>
    intro lvl g lvl' g' _ h
    simp only [placeObjects, Res.ok.injEq, Prod.mk.injEq] at h
    obtain ⟨rfl, _⟩ := h
    exact ⟨rfl, fun _ _ _ hw _ => hw⟩
  | cons p rest ih =>
    intro lvl g lvl' g' hocc h
    obtain ⟨seed, o⟩ := p
    unfold placeObjects at h
    cases hp : placeObject K fuel seed o lvl g with
    | ok r =>
      obtain ⟨c, d, lvl1, g1⟩ := r
      rw [hp] at h
      simp only at h
      obtain ⟨⟨v, hv, _⟩, _, hother, hcnt⟩ := placeObject_frame hp
      obtain ⟨hcnt', hkeep⟩ := ih lvl1 g1 lvl' g'
        (fun q hq => hocc q (List.mem_cons_of_mem _ hq)) h
      have ho : o.isOccupied = true := hocc (seed, o) (List.mem_cons_self _ _)
      rw [ho, if_pos rfl] at hcnt
      refine ⟨?_, ?_⟩
      · rw [hcnt', hcnt, List.length_cons]
        omega
      · intro x y w hw hwo
        apply hkeep x y w _ hwo
        have hne : ¬ (x = c.X ∧ y = c.Y) := by
          rintro ⟨rfl, rfl⟩
          rw [hv] at hw
          obtain rfl := Option.some.inj hw
          simp [Cell.isOccupied, Cell.isEmpty] at hwo
        rw [hother x y hne]
        exact hw
    | crash => rw [hp] at h; simp at h
    | timeout => rw [hp] at h; simp at h

/-- C31: a completed call of `placeObject` writes exactly one cell of the grid,
and that cell was `Empty` before the call (it is the displaced content
returned); every other cell, hence every cell that is not `Empty` (wall, door,
stairs, entrance, item, monster), is left unchanged, and for an object that is
not `Empty` the written cell does change. So after `k` completed placements of
objects that are not `Empty` the grid holds exactly `k` more cells that are not
`Empty`, and every cell that was not `Empty` before still holds what it
held. -/
theorem placeObject_never_overwrites (K : Consts) (fuel : Nat) :
    (∀ (seed : Coordinate) (o : Cell) (lvl : Grid) (g : Rng) (c : Coordinate) (d : Cell)
        (lvl' : Grid) (g' : Rng),
      placeObject K fuel seed o lvl g = Res.ok (c, d, lvl', g') →
      (∃ v, lvl.cell? c.X c.Y = some (Cell.Empty v) ∧ d = Cell.Empty v) ∧
      lvl'.cell? c.X c.Y = some (o.setVisible K.DEBUG) ∧
      (∀ x y : Int, ¬ (x = c.X ∧ y = c.Y) → lvl'.cell? x y = lvl.cell? x y) ∧
      (∀ (x y : Int) (w : Cell), lvl.cell? x y = some w → w.isEmpty = false →
        lvl'.cell? x y = some w) ∧
      (o.isEmpty = false → lvl'.cell? c.X c.Y ≠ lvl.cell? c.X c.Y ∧
        Grid.count Cell.isOccupied lvl' = Grid.count Cell.isOccupied lvl + 1)) ∧
    (∀ (ps : List (Coordinate × Cell)) (lvl : Grid) (g : Rng) (lvl' : Grid) (g' : Rng),
      (∀ p ∈ ps, p.2.isEmpty = false) →
      placeObjects K fuel ps lvl g = Res.ok (lvl', g') →
      Grid.count Cell.isOccupied lvl' = Grid.count Cell.isOccupied lvl + ps.length ∧
        ∀ (x y : Int) (w : Cell), lvl.cell? x y = some w → w.isEmpty = false →
          lvl'.cell? x y = some w) := by
  have hocc : ∀ w : Cell, w.isEmpty = false → w.isOccupied = true := by
    intro w hw
    unfold Cell.isOccupied
    rw [hw]
    rfl
  constructor
  · intro seed o lvl g c d lvl' g' h
    obtain ⟨⟨v, hv, hd⟩, hnew, hother, hcnt⟩ := placeObject_frame h
    refine ⟨⟨v, hv, hd⟩, hnew, hother, ?_, ?_⟩
    · intro x y w hw hwe
      have hne : ¬ (x = c.X ∧ y = c.Y) := by
        rintro ⟨rfl, rfl⟩
        rw [hv] at hw
        obtain rfl := Option.some.inj hw
        simp [Cell.isEmpty] at hwe
      rw [hother x y hne]
      exact hw
    · intro ho
      refine ⟨?_, ?_⟩
      · rw [hnew, hv]
        intro he
        have he' := Option.some.inj he
        have h1 : (o.setVisible K.DEBUG).isEmpty = true := by rw [he']; rfl
        rw [Cell.isEmpty_setVisible, ho] at h1
        simp at h1
      · rw [hcnt, hocc o ho, if_pos rfl]
  · intro ps lvl g lvl' g' hps h
    obtain ⟨h1, h2⟩ := placeObjects_frame K fuel ps lvl g lvl' g'
      (fun p hp => hocc _ (hps p hp)) h
    exact ⟨h1, fun x y w hw hwe => h2 x y w hw (hocc w hwe)⟩

/-- Witness of C31: two placements on the corridor level, a wall from the seed
`(1,1)` and a closed door from the seed `(3,3)`. -/
theorem placeObject_never_overwrites_witness :
    ∃ lvl' g', placeObjects smallConsts 20
        [(⟨1, 1⟩, Cell.Wall false), (⟨3, 3⟩, Cell.Door false false)] corridorGrid mixRng =
        Res.ok (lvl', g') ∧
      Grid.count Cell.isOccupied lvl' = Grid.count Cell.isOccupied corridorGrid + 2 :=
  ⟨_, _, rfl, ((placeObject_never_overwrites smallConsts 20).2
    [(⟨1, 1⟩, Cell.Wall false), (⟨3, 3⟩, Cell.Door false false)] corridorGrid mixRng _ _
    (by decide) rfl).1⟩

/-! ## The maze spans the odd lattice -/

/-- A carving step from a floor cell of odd coordinates keeps the corridors
closed at both ends. -/
theorem carve2_corridor {K : Consts} {a0 c : Coordinate} {dir : Int} {edge : Bool}
    {a b : Coordinate} {lvl lvl1 : Grid}
    (hQ : (c.X % 2 = 1 ∧ c.Y % 2 = 1) ∧ lvl.IsEmptyAt c) (hG : CorridorStruct a0 lvl)
    (hT : eatTarget K c dir = some (edge, a, b)) (hC : carve2 a b lvl = Res.ok lvl1) :
    ((b.X % 2 = 1 ∧ b.Y % 2 = 1) ∧ lvl1.IsEmptyAt b) ∧ CorridorStruct a0 lvl1 := by
  have hm : ∀ p, lvl.IsEmptyAt p → lvl1.IsEmptyAt p :=
    fun p hp => (carve2_isEmptyAt hC p).2 (Or.inr (Or.inr hp))
  have hb : lvl1.IsEmptyAt b := (carve2_isEmptyAt hC b).2 (Or.inr (Or.inl rfl))
  have hc1 : lvl1.IsEmptyAt c := hm c hQ.2
  obtain ⟨hpa, hpb⟩ := eatTarget_parity hQ.1 hT
  refine ⟨⟨hpb, hb⟩, ?_⟩
  intro p hp hne
  rcases (carve2_isEmptyAt hC p).1 hp with rfl | rfl | hp0
  · rcases eatTarget_cases hT with ⟨_, _, rfl, rfl⟩ | ⟨_, _, rfl, rfl⟩ |
      ⟨_, _, rfl, rfl⟩ | ⟨_, _, rfl, rfl⟩
    · refine ⟨fun _ _ => ⟨?_, ?_⟩, fun h1 h2 => ?_⟩
      · have e : (⟨c.X - 1 - 1, c.Y⟩ : Coordinate) = ⟨c.X - 2, c.Y⟩ := by
          congr 1; ring
        simp only
        rw [e]
        exact hb
      · have e : (⟨c.X - 1 + 1, c.Y⟩ : Coordinate) = c := by
          cases c; simp
        simp only
        rw [e]
        exact hc1
      · simp only at h1 h2
        omega
    · refine ⟨fun _ _ => ⟨?_, ?_⟩, fun h1 h2 => ?_⟩
      · have e : (⟨c.X + 1 - 1, c.Y⟩ : Coordinate) = c := by
          cases c; simp
        simp only
        rw [e]
        exact hc1
      · have e : (⟨c.X + 1 + 1, c.Y⟩ : Coordinate) = ⟨c.X + 2, c.Y⟩ := by
          congr 1; ring
        simp only
        rw [e]
        exact hb
      · simp only at h1 h2
        omega
    · refine ⟨fun h1 h2 => ?_, fun _ _ => ⟨?_, ?_⟩⟩
      · simp only at h1 h2
        omega
      · have e : (⟨c.X, c.Y - 1 - 1⟩ : Coordinate) = ⟨c.X, c.Y - 2⟩ := by
          congr 1; ring
        simp only
        rw [e]
        exact hb
      · have e : (⟨c.X, c.Y - 1 + 1⟩ : Coordinate) = c := by
          cases c; simp
        simp only
        rw [e]
        exact hc1
    · refine ⟨fun h1 h2 => ?_, fun _ _ => ⟨?_, ?_⟩⟩
      · simp only at h1 h2
        omega
      · have e : (⟨c.X, c.Y + 1 - 1⟩ : Coordinate) = c := by
          cases c; simp
        simp only
        rw [e]
        exact hc1
      · have e : (⟨c.X, c.Y + 1 + 1⟩ : Coordinate) = ⟨c.X, c.Y + 2⟩ := by
          congr 1; ring
        simp only
        rw [e]
        exact hb
  · refine ⟨fun h1 h2 => ?_, fun h1 h2 => ?_⟩ <;> omega
  · obtain ⟨g1, g2⟩ := hG p hp0 hne
    exact ⟨fun h1 h2 => ⟨hm _ (g1 h1 h2).1, hm _ (g1 h1 h2).2⟩,
      fun h1 h2 => ⟨hm _ (g2 h1 h2).1, hm _ (g2 h1 h2).2⟩⟩

/-- A run of the loop of `eat` from a floor cell of odd coordinates keeps the
corridors closed at both ends. -/
theorem eatLoop_corridor (K : Consts) (a0 : Coordinate) {fuel : Nat} {c : Coordinate}
    {dir tries : Int} {lvl : Grid} {g : Rng} {lvl' : Grid} {g' : Rng}
    (hc : (c.X % 2 = 1 ∧ c.Y % 2 = 1) ∧ lvl.IsEmptyAt c) (hS : CorridorStruct a0 lvl)
    (h : eatLoop K fuel c dir tries lvl g = Res.ok (lvl', g')) : CorridorStruct a0 lvl' := by
  refine eatLoop_inv2 K (fun c l => (c.X % 2 = 1 ∧ c.Y % 2 = 1) ∧ l.IsEmptyAt c)
    (CorridorStruct a0) ?_ ?_ fuel c dir tries lvl g lvl' g' hc hS h
  · intro c l l' hq hm
    exact ⟨hq.1, hm c hq.2⟩
  · intro c dir edge a b lvl lvl1 hQ hG hT _ hC
    exact carve2_corridor hQ hG hT hC

/-- Where the attempt to the east is blocked at a floor cell of odd coordinates
that is not at the edge, the cell two steps east is floor. -/
theorem lattice_step_east {K : Consts} {lvl : Grid} (hWE : WallOrEmpty K lvl)
    (hS : MazeStruct lvl) {x y : Int} (hx : 1 ≤ x ∧ x + 2 ≤ K.width - 2)
    (hy : 0 ≤ y ∧ y < K.height) (hpx : x % 2 = 1) (hpy : y % 2 = 1)
    (hb : eatBlockedAt K lvl ⟨x, y⟩ 2) : lvl.IsEmptyAt ⟨x + 2, y⟩ := by
  have d2 : eatTarget K ⟨x, y⟩ 2 =
      some (decide (x ≥ K.width - 3), ⟨x + 1, y⟩, ⟨x + 2, y⟩) := rfl
  rcases hb _ _ _ d2 with h | h | h
  · have := of_decide_eq_true h
    omega
  · have hE : lvl.IsEmptyAt ⟨x + 1, y⟩ :=
      hWE.empty_of_not_wall (p := ⟨x + 1, y⟩) ⟨by simp only; omega, by simp only; omega⟩ hy h
    rcases ((hS ⟨x + 1, y⟩ hE).1 (by simp only; omega) hpy).2 with h' | h'
    · have e : (⟨x + 1 + 1, y⟩ : Coordinate) = ⟨x + 2, y⟩ := by
        congr 1; ring
      simp only at h'
      rw [e] at h'
      exact h'
    · simp only [Coordinate.mk.injEq] at h'
      omega
  · exact hWE.empty_of_not_wall (p := ⟨x + 2, y⟩) ⟨by simp only; omega, by simp only; omega⟩ hy h

/-- Where the attempt of direction 4 is blocked at a floor cell of odd
coordinates that is not at the edge, the cell two rows further is floor. -/
theorem lattice_step_north {K : Consts} {lvl : Grid} (hWE : WallOrEmpty K lvl)
    (hS : MazeStruct lvl) {x y : Int} (hx : 0 ≤ x ∧ x < K.width)
    (hy : 1 ≤ y ∧ y + 2 ≤ K.height - 2) (hpx : x % 2 = 1) (hpy : y % 2 = 1)
    (hb : eatBlockedAt K lvl ⟨x, y⟩ 4) : lvl.IsEmptyAt ⟨x, y + 2⟩ := by
  have d4 : eatTarget K ⟨x, y⟩ 4 =
      some (decide (y ≥ K.height - 3), ⟨x, y + 1⟩, ⟨x, y + 2⟩) := rfl
  rcases hb _ _ _ d4 with h | h | h
  · have := of_decide_eq_true h
    omega
  · have hE : lvl.IsEmptyAt ⟨x, y + 1⟩ :=
      hWE.empty_of_not_wall (p := ⟨x, y + 1⟩) hx ⟨by simp only; omega, by simp only; omega⟩ h
    rcases ((hS ⟨x, y + 1⟩ hE).2 hpx (by simp only; omega)).2 with h' | h'
    · have e : (⟨x, y + 1 + 1⟩ : Coordinate) = ⟨x, y + 2⟩ := by
        congr 1; ring
      simp only at h'
      rw [e] at h'
      exact h'
    · simp only [Coordinate.mk.injEq] at h'
      omega
  · exact hWE.empty_of_not_wall (p := ⟨x, y + 2⟩) hx ⟨by simp only; omega, by simp only; omega⟩ h

/-- After the first corridor carved from the start cell `(1,1)` of an all-wall
grid of at least 5 by 5 cells and the run of the nested call at its far end,
every cell of odd coordinates inside the margin is floor, the start cell
included. -/
theorem eat_root_lattice (K : Consts) (hW : 5 ≤ K.width) (hH : 5 ≤ K.height) {n : Nat}
    {dir : Int} {edge : Bool} {a b : Coordinate} {lvl0 lvl1 lvl2 : Grid} {r : Int} {g1 g2 : Rng}
    (hwall0 : ∀ p : Coordinate, (0 ≤ p.X ∧ p.X < K.width) → (0 ≤ p.Y ∧ p.Y < K.height) →
      lvl0.IsWallAt p)
    (hnoE0 : ∀ p : Coordinate, ¬ lvl0.IsEmptyAt p)
    (hT : eatTarget K ⟨1, 1⟩ dir = some (edge, a, b))
    (hB : eatBlocked edge a b lvl0 = Res.ok false) (hC : carve2 a b lvl0 = Res.ok lvl1)
    (hr : 1 ≤ r ∧ r ≤ 4) (hrec : eatLoop K n b r 2 lvl1 g1 = Res.ok (lvl2, g2)) :
    ∀ x y : Int, x % 2 = 1 → y % 2 = 1 → (1 ≤ x ∧ x ≤ K.width - 2) →
      (1 ≤ y ∧ y ≤ K.height - 2) → lvl2.IsEmptyAt ⟨x, y⟩ := by
  obtain ⟨he, _, _⟩ := eatBlocked_false hB
  subst he
  have hS0 : MazeStruct lvl0 := fun p hp => absurd hp (hnoE0 p)
  have hWE0 : WallOrEmpty K lvl0 := fun p hx hy => Or.inl (hwall0 p hx hy)
  have hWE2 : WallOrEmpty K lvl2 := eatLoop_wallOrEmpty K (carve2_wallOrEmpty hC hWE0) hrec
  obtain ⟨hQb, hS1⟩ := carve2_struct (K := K) (c := ⟨1, 1⟩)
    ⟨by decide, Or.inr rfl⟩ hS0 hT hC
  have hS2 : MazeStruct lvl2 := eatLoop_struct K hQb hS1 hrec
  obtain ⟨hpa, hpb⟩ := eatTarget_parity (K := K) (c := ⟨1, 1⟩) (by decide) hT
  have hb1 : lvl1.IsEmptyAt b := (carve2_isEmptyAt hC b).2 (Or.inr (Or.inl rfl))
  have hb2 : lvl2.IsEmptyAt b := eatLoop_isEmptyAt_mono K hrec b hb1
  have hCS1 : CorridorStruct a lvl1 := by
    intro p hp hne
    rcases (carve2_isEmptyAt hC p).1 hp with rfl | rfl | hp0
    · exact absurd rfl hne
    · refine ⟨fun h1 h2 => ?_, fun h1 h2 => ?_⟩ <;> omega
    · exact absurd hp0 (hnoE0 p)
  have hCS2 : CorridorStruct a lvl2 := eatLoop_corridor K a ⟨hpb, hb1⟩ hCS1 hrec
  have hclosed : ∀ p : Coordinate, (p.X % 2 = 1 ∧ p.Y % 2 = 1) →
      (0 ≤ p.X ∧ p.X < K.width) → (0 ≤ p.Y ∧ p.Y < K.height) → lvl2.IsEmptyAt p →
      ∀ d : Int, (1 ≤ d ∧ d ≤ 4) → eatBlockedAt K lvl2 p d := by
    intro p hp hx hy hE d hd
    by_cases hpb' : p = b
    · subst hpb'
      exact eatLoop_blocks K _ _ _ _ _ _ _ _ hr hrec d hd (Or.inl (le_refl _))
    · have hw1 : lvl1.IsWallAt p := by
        refine (carve2_isWallAt hC p).2 ⟨?_, hpb', hwall0 p hx hy⟩
        rintro rfl
        exact hpa hp
      exact eatLoop_closes K _ _ _ _ _ _ _ _ hpb hrec p hp hw1 (Grid.not_wall_of_empty hE) d hd
  have e1 : eatTarget K ⟨1, 1⟩ 1 = some (true, ⟨0, 1⟩, ⟨-1, 1⟩) := rfl
  have e3 : eatTarget K ⟨1, 1⟩ 3 = some (true, ⟨1, 0⟩, ⟨1, -1⟩) := rfl
  have e2 : eatTarget K ⟨1, 1⟩ 2 =
      some (decide ((1 : Int) ≥ K.width - 3), ⟨2, 1⟩, ⟨3, 1⟩) := rfl
  have e4 : eatTarget K ⟨1, 1⟩ 4 =
      some (decide ((1 : Int) ≥ K.height - 3), ⟨1, 2⟩, ⟨1, 3⟩) := rfl
  have d1 : ∀ x y : Int, eatTarget K ⟨x, y⟩ 1 =
      some (decide (x ≤ 2), ⟨x - 1, y⟩, ⟨x - 2, y⟩) := fun _ _ => rfl
  have d3 : ∀ x y : Int, eatTarget K ⟨x, y⟩ 3 =
      some (decide (y ≤ 2), ⟨x, y - 1⟩, ⟨x, y - 2⟩) := fun _ _ => rfl
  have hx1 : 0 ≤ (1 : Int) ∧ (1 : Int) < K.width := by omega
  have hy1 : 0 ≤ (1 : Int) ∧ (1 : Int) < K.height := by omega
  have hx2 : 0 ≤ (2 : Int) ∧ (2 : Int) < K.width := by omega
  have hy2 : 0 ≤ (2 : Int) ∧ (2 : Int) < K.height := by omega
  have hx3 : 0 ≤ (3 : Int) ∧ (3 : Int) < K.width := by omega
  have hy3 : 0 ≤ (3 : Int) ∧ (3 : Int) < K.height := by omega
  have hdir : dir = 1 ∨ dir = 2 ∨ dir = 3 ∨ dir = 4 := by
    have := (eatTarget_ne hT).2
    omega
  -- the start cell is floor
  have h11 : lvl2.IsEmptyAt ⟨1, 1⟩ := by
    rcases hdir with rfl | rfl | rfl | rfl
    · rw [e1] at hT; simp at hT
    · -- first corridor to `(3,1)`: on to `(3,3)`, `(1,3)` and back to `(1,1)`
      rw [e2] at hT
      simp only [Option.some.injEq, Prod.mk.injEq] at hT
      obtain ⟨_, rfl, rfl⟩ := hT
      have h33 : lvl2.IsEmptyAt ⟨3, 3⟩ :=
        lattice_step_north hWE2 hS2 (x := 3) (y := 1) hx3 ⟨by norm_num, by omega⟩ (by decide)
          (by decide) (hclosed ⟨3, 1⟩ (by decide) hx3 hy1 hb2 4 (by norm_num))
      have h13 : lvl2.IsEmptyAt ⟨1, 3⟩ := by
        rcases hclosed ⟨3, 3⟩ (by decide) hx3 hy3 h33 1 (by norm_num) _ _ _ (d1 3 3)
          with h | h | h
        · simp at h
        · have hE : lvl2.IsEmptyAt ⟨2, 3⟩ := hWE2.empty_of_not_wall hx2 hy3 h
          rcases ((hS2 ⟨2, 3⟩ hE).1 (by decide) (by decide)).1 with h' | h'
          · exact h'
          · simp at h'
        · exact hWE2.empty_of_not_wall hx1 hy3 h
      rcases hclosed ⟨1, 3⟩ (by decide) hx1 hy3 h13 3 (by norm_num) _ _ _ (d3 1 3)
        with h | h | h
      · simp at h
      · have hE : lvl2.IsEmptyAt ⟨1, 2⟩ := hWE2.empty_of_not_wall hx1 hy2 h
        exact ((hCS2 ⟨1, 2⟩ hE (by decide)).2 (by decide) (by decide)).1
      · exact hWE2.empty_of_not_wall hx1 hy1 h
    · rw [e3] at hT; simp at hT
    · -- first corridor to `(1,3)`: on to `(3,3)`, `(3,1)` and back to `(1,1)`
      rw [e4] at hT
      simp only [Option.some.injEq, Prod.mk.injEq] at hT
      obtain ⟨_, rfl, rfl⟩ := hT
      have h33 : lvl2.IsEmptyAt ⟨3, 3⟩ :=
        lattice_step_east hWE2 hS2 (x := 1) (y := 3) ⟨by norm_num, by omega⟩ hy3 (by decide)
          (by decide) (hclosed ⟨1, 3⟩ (by decide) hx1 hy3 hb2 2 (by norm_num))
      have h31 : lvl2.IsEmptyAt ⟨3, 1⟩ := by
        rcases hclosed ⟨3, 3⟩ (by decide) hx3 hy3 h33 3 (by norm_num) _ _ _ (d3 3 3)
          with h | h | h
        · simp at h
        · have hE : lvl2.IsEmptyAt ⟨3, 2⟩ := hWE2.empty_of_not_wall hx3 hy2 h
          rcases ((hS2 ⟨3, 2⟩ hE).2 (by decide) (by decide)).1 with h' | h'
          · exact h'
          · simp at h'
        · exact hWE2.empty_of_not_wall hx3 hy1 h
      rcases hclosed ⟨3, 1⟩ (by decide) hx3 hy1 h31 1 (by norm_num) _ _ _ (d1 3 1)
        with h | h | h
      · simp at h
      · have hE : lvl2.IsEmptyAt ⟨2, 1⟩ := hWE2.empty_of_not_wall hx2 hy1 h
        exact ((hCS2 ⟨2, 1⟩ hE (by decide)).1 (by decide) (by decide)).1
      · exact hWE2.empty_of_not_wall hx1 hy1 h
  -- along row 1
  have hrow : ∀ (k : Nat) (x : Int), x = 1 + 2 * (k : Int) → x ≤ K.width - 2 →
      lvl2.IsEmptyAt ⟨x, 1⟩ := by
    intro k
    induction k with
    | zero =>
      intro x hx _
      have : x = 1 := by simpa using hx
      subst this
      exact h11
    | succ k ih =>
      intro x hx hle
      have hprev := ih (x - 2) (by push_cast at hx; omega) (by omega)
      have hstep := lattice_step_east hWE2 hS2 (x := x - 2) (y := 1)
        ⟨by push_cast at hx; omega, by omega⟩ hy1 (by push_cast at hx; omega) (by decide)
        (hclosed ⟨x - 2, 1⟩
          ⟨by simp only; push_cast at hx; omega, by show (1 : Int) % 2 = 1; decide⟩
          ⟨by simp only; push_cast at hx; omega, by simp only; omega⟩ hy1 hprev 2 (by norm_num))
      have e : x - 2 + 2 = x := by omega
      rw [e] at hstep
      exact hstep
  -- along every column
  have hcol : ∀ (x : Int), x % 2 = 1 → (1 ≤ x ∧ x ≤ K.width - 2) →
      ∀ (k : Nat) (y : Int), y = 1 + 2 * (k : Int) → y ≤ K.height - 2 →
        lvl2.IsEmptyAt ⟨x, y⟩ := by
    intro x hpx hx k
    induction k with
    | zero =>
      intro y hy _
      have : y = 1 := by simpa using hy
      subst this
      exact hrow ((x - 1) / 2).toNat x (by omega) hx.2
    | succ k ih =>
      intro y hy hle
      have hprev := ih (y - 2) (by push_cast at hy; omega) (by omega)
      have hstep := lattice_step_north hWE2 hS2 (x := x) (y := y - 2)
        ⟨by omega, by omega⟩ ⟨by push_cast at hy; omega, by omega⟩ hpx
        (by push_cast at hy; omega)
        (hclosed ⟨x, y - 2⟩ ⟨hpx, by simp only; push_cast at hy; omega⟩
          ⟨by simp only; omega, by simp only; omega⟩
          ⟨by simp only; push_cast at hy; omega, by simp only; omega⟩ hprev 4 (by norm_num))
      have e : y - 2 + 2 = y := by omega
      rw [e] at hstep
      exact hstep
  intro x y hpx hpy hx hy
  exact hcol x hpx hx ((y - 1) / 2).toNat y (by omega) hy.2

/-- The loop of `eat` at the start cell `(1,1)` of an all-wall grid of at least
5 by 5 cells either carves nothing or leaves every cell of odd coordinates
inside the margin floor. -/
theorem eatLoop_root_lattice (K : Consts) (hW : 5 ≤ K.width) (hH : 5 ≤ K.height) :
    ∀ (fuel : Nat) (dir tries : Int) (g : Rng) (lvl' : Grid) (g' : Rng),
      eatLoop K fuel ⟨1, 1⟩ dir tries
        (Grid.fill K.width.toNat K.height.toNat (Cell.Wall K.DEBUG)) g = Res.ok (lvl', g') →
      lvl' = Grid.fill K.width.toNat K.height.toNat (Cell.Wall K.DEBUG) ∨
        ∀ x y : Int, x % 2 = 1 → y % 2 = 1 → (1 ≤ x ∧ x ≤ K.width - 2) →
          (1 ≤ y ∧ y ≤ K.height - 2) → lvl'.IsEmptyAt ⟨x, y⟩ := by
  have hwall0 : ∀ p : Coordinate, (0 ≤ p.X ∧ p.X < K.width) → (0 ≤ p.Y ∧ p.Y < K.height) →
      (Grid.fill K.width.toNat K.height.toNat (Cell.Wall K.DEBUG)).IsWallAt p := by
    intro p hx hy
    unfold Grid.IsWallAt
    rw [Grid.cell?_fill, if_pos (by omega)]
    exact ⟨_, rfl⟩
  have hnoE : ∀ p : Coordinate,
      ¬ (Grid.fill K.width.toNat K.height.toNat (Cell.Wall K.DEBUG)).IsEmptyAt p := by
    rintro p ⟨v, hv⟩
    rw [Grid.cell?_fill] at hv
    split_ifs at hv
    simp at hv
  have hS0 : MazeStruct (Grid.fill K.width.toNat K.height.toNat (Cell.Wall K.DEBUG)) :=
    fun p hp => absurd hp (hnoE p)
  intro fuel
  induction fuel with
  | zero => intro dir tries g lvl' g' h; simp [eatLoop] at h
  | succ n ih =>
    intro dir tries g lvl' g' h
    rcases eatLoop_ok_inv h with ⟨_, rfl, _⟩ | ⟨_, edge, a, b, hT, hcase⟩
    · exact Or.inl rfl
    · rcases hcase with ⟨_, hnext⟩ | ⟨hB, lvl1, lvl2, g2, hC, hrec, hnext⟩
      · exact ih _ _ _ _ _ hnext
      · have hblk := eat_root_blocked K hwall0 hS0 hT hB hC (by omega) hrec
        have hsame : lvl' = lvl2 := eatLoop_all_blocked K _ _ _ _ _ _ _ _ hblk hnext
        subst hsame
        exact Or.inr (eat_root_lattice K hW hH hwall0 hnoE hT hB hC (by omega) hrec)

/-- C32: for `width ≥ 5` and `height ≥ 5`, on the all-`Wall` grid of `width`
by `height` cells, `eat` from `(1,1)` returns (with fuel `13 * width * height +
13`), and after it every cell `(x, y)` with `x` and `y` both odd,
`1 ≤ x ≤ width-2` and `1 ≤ y ≤ height-2`, the start cell `(1,1)` included, is
`Empty`, for every sequence of random directions; this is the grid that
`newLevel` returns for every level other than the home level. -/
theorem eat_spans_odd_lattice (K : Consts) (hW : 5 ≤ K.width) (hH : 5 ≤ K.height)
    (fuel : Nat) (g : Rng) :
    (13 * (K.width.toNat * K.height.toNat) + 13 ≤ fuel →
      ∃ lvl' g', eat K fuel ⟨1, 1⟩
        (Grid.fill K.width.toNat K.height.toNat (Cell.Wall K.DEBUG)) g = Res.ok (lvl', g')) ∧
    (∀ lvl' g', eat K fuel ⟨1, 1⟩
        (Grid.fill K.width.toNat K.height.toNat (Cell.Wall K.DEBUG)) g = Res.ok (lvl', g') →
      ∀ x y : Int, x % 2 = 1 → y % 2 = 1 → (1 ≤ x ∧ x ≤ K.width - 2) →
        (1 ≤ y ∧ y ≤ K.height - 2) → ∃ v, lvl'.cell? x y = some (Cell.Empty v)) ∧
    (∀ lvl : Nat, lvl ≠ homeLevel →
      newLevel K fuel lvl g =
        eat K fuel ⟨1, 1⟩ (Grid.fill K.width.toNat K.height.toNat (Cell.Wall K.DEBUG)) g) := by
  refine ⟨eat_returns_on_fill K (by omega) (by omega) g fuel, ?_, ?_⟩
  · intro lvl' g' h
    have hfirst := eat_first_corridor K hW hH fuel g lvl' g' h
    unfold eat at h
    simp only [Rng.Intn_of_pos (show (0 : Int) < 4 by norm_num)] at h
    rcases eatLoop_root_lattice K hW hH _ _ _ _ _ _ h with hsame | hall
    · exfalso
      subst hsame
      have hno : ∀ x y : Int, ¬ ∃ v,
          (Grid.fill K.width.toNat K.height.toNat (Cell.Wall K.DEBUG)).cell? x y =
            some (Cell.Empty v) := by
        rintro x y ⟨v, hv⟩
        rw [Grid.cell?_fill] at hv
        split_ifs at hv
        simp at hv
      rcases hfirst with ⟨h1, _⟩ | ⟨h1, _⟩
      · exact hno _ _ h1
      · exact hno _ _ h1
    · intro x y hpx hpy hx hy
      exact hall x y hpx hpy hx hy
  · intro lvl hl
    unfold newLevel
    rw [if_neg (by omega)]
    simp only [hl, if_false, ne_eq, not_false_eq_true, if_true]

/-- Witness of C32 on the all-wall 7 by 7 level: after the run the start cell
`(1,1)` and the far corner `(5,5)` of the lattice are floor. -/
theorem eat_spans_odd_lattice_witness :
    ∃ lvl' g', eat smallConsts 650 ⟨1, 1⟩ (Grid.fill 7 7 (Cell.Wall false))
        (Rng.replay [1, 3, 0, 2, 1, 3]) = Res.ok (lvl', g') ∧
      (∃ v, lvl'.cell? 1 1 = some (Cell.Empty v)) ∧ (∃ v, lvl'.cell? 5 5 = some (Cell.Empty v)) :=
  ⟨_, _, rfl,
    (eat_spans_odd_lattice smallConsts (by decide) (by decide) 650
      (Rng.replay [1, 3, 0, 2, 1, 3])).2.1 _ _ rfl 1 1 (by decide) (by decide) (by decide)
      (by decide),
    (eat_spans_odd_lattice smallConsts (by decide) (by decide) 650
      (Rng.replay [1, 3, 0, 2, 1, 3])).2.1 _ _ rfl 5 5 (by decide) (by decide) (by decide)
      (by decide)⟩

/-! ## The cells around the start cell -/

/-- After the first corridor carved from the start cell `(1,1)` of an all-wall
grid and the run of the nested call at its far end, the two cells next to the
start cell, `(2,1)` and `(1,2)`, are floor: one is the first step of the first
corridor, the other the last step of the corridor that reaches the start
cell. -/
theorem eat_root_entries (K : Consts) (hW : 5 ≤ K.width) (hH : 5 ≤ K.height) {n : Nat}
    {dir : Int} {edge : Bool} {a b : Coordinate} {lvl0 lvl1 lvl2 : Grid} {r : Int} {g1 g2 : Rng}
    (hwall0 : ∀ p : Coordinate, (0 ≤ p.X ∧ p.X < K.width) → (0 ≤ p.Y ∧ p.Y < K.height) →
      lvl0.IsWallAt p)
    (hnoE0 : ∀ p : Coordinate, ¬ lvl0.IsEmptyAt p)
    (hT : eatTarget K ⟨1, 1⟩ dir = some (edge, a, b))
    (hB : eatBlocked edge a b lvl0 = Res.ok false) (hC : carve2 a b lvl0 = Res.ok lvl1)
    (hr : 1 ≤ r ∧ r ≤ 4) (hrec : eatLoop K n b r 2 lvl1 g1 = Res.ok (lvl2, g2)) :
    lvl2.IsEmptyAt ⟨2, 1⟩ ∧ lvl2.IsEmptyAt ⟨1, 2⟩ := by
  have h11 : lvl2.IsEmptyAt ⟨1, 1⟩ :=
    eat_root_lattice K hW hH hwall0 hnoE0 hT hB hC hr hrec 1 1 (by decide) (by decide)
      ⟨le_refl _, by omega⟩ ⟨le_refl _, by omega⟩
  obtain ⟨he, _, _⟩ := eatBlocked_false hB
  subst he
  obtain ⟨hpa, hpb⟩ := eatTarget_parity (K := K) (c := ⟨1, 1⟩) (by decide) hT
  obtain ⟨_, hib⟩ := eatTarget_interior (K := K) (c := ⟨1, 1⟩)
    ⟨⟨le_refl _, by show (1 : Int) ≤ K.width - 2; omega⟩,
      ⟨le_refl _, by show (1 : Int) ≤ K.height - 2; omega⟩⟩ hT
  have ha0 : a = ⟨2, 1⟩ ∨ a = ⟨1, 2⟩ := by
    rcases eatTarget_cases hT with ⟨_, hedge, rfl, rfl⟩ | ⟨_, _, rfl, rfl⟩ |
      ⟨_, hedge, rfl, rfl⟩ | ⟨_, _, rfl, rfl⟩
    · simp at hedge
    · exact Or.inl rfl
    · simp at hedge
    · exact Or.inr rfl
  have ha1 : lvl1.IsEmptyAt a := (carve2_isEmptyAt hC a).2 (Or.inl rfl)
  have hn11 : ¬ lvl1.IsEmptyAt ⟨1, 1⟩ := by
    intro h
    rcases (carve2_isEmptyAt hC ⟨1, 1⟩).1 h with h' | h' | h'
    · rw [← h'] at hpa
      exact hpa (by decide)
    · rcases eatTarget_cases hT with ⟨_, _, _, rfl⟩ | ⟨_, _, _, rfl⟩ |
        ⟨_, _, _, rfl⟩ | ⟨_, _, _, rfl⟩ <;> simp at h'
    · exact hnoE0 _ h'
  have hG := eatLoop_inv2 K
    (fun c _ => (c.X % 2 = 1 ∧ c.Y % 2 = 1) ∧
      ((1 ≤ c.X ∧ c.X ≤ K.width - 2) ∧ (1 ≤ c.Y ∧ c.Y ≤ K.height - 2)))
    (fun l => l.IsEmptyAt a ∧
      (l.IsEmptyAt ⟨1, 1⟩ → l.IsEmptyAt ⟨2, 1⟩ ∧ l.IsEmptyAt ⟨1, 2⟩))
    (fun _ _ _ hq _ => hq)
    (by
      intro c d e a' b' l l1 hQ hG hT' hB' hC'
      obtain ⟨he', hwa, _⟩ := eatBlocked_false hB'
      subst he'
      obtain ⟨hpa', hpb'⟩ := eatTarget_parity hQ.1 hT'
      obtain ⟨_, hib'⟩ := eatTarget_interior hQ.2 hT'
      have hm : ∀ p, l.IsEmptyAt p → l1.IsEmptyAt p :=
        fun p hp => (carve2_isEmptyAt hC' p).2 (Or.inr (Or.inr hp))
      have ha' : l1.IsEmptyAt a' := (carve2_isEmptyAt hC' a').2 (Or.inl rfl)
      refine ⟨⟨hpb', hib'⟩, hm a hG.1, ?_⟩
      intro h
      rcases (carve2_isEmptyAt hC' ⟨1, 1⟩).1 h with h' | h' | h'
      · rw [← h'] at hpa'
        exact absurd (by decide) hpa'
      · -- the corridor ends at the start cell: it comes from `(3,1)` or `(1,3)`
        have hne : a' ≠ a := by
          rintro rfl
          exact Grid.not_wall_of_empty hG.1 hwa
        have hcase : a' = ⟨2, 1⟩ ∨ a' = ⟨1, 2⟩ := by
          have hc1 := hQ.2.1.1
          have hc2 := hQ.2.2.1
          rcases eatTarget_cases hT' with ⟨_, _, rfl, rfl⟩ | ⟨_, _, rfl, rfl⟩ |
            ⟨_, _, rfl, rfl⟩ | ⟨_, _, rfl, rfl⟩
          · simp only [Coordinate.mk.injEq] at h'
            left
            rw [Coordinate.mk.injEq]
            omega
          · simp only [Coordinate.mk.injEq] at h'
            omega
          · simp only [Coordinate.mk.injEq] at h'
            right
            rw [Coordinate.mk.injEq]
            omega
          · simp only [Coordinate.mk.injEq] at h'
            omega
        have haE := hm a hG.1
        rcases hcase with e1 | e1 <;> rcases ha0 with e2 | e2
        · exact absurd (e1.trans e2.symm) hne
        · rw [e1] at ha'; rw [e2] at haE; exact ⟨ha', haE⟩
        · rw [e1] at ha'; rw [e2] at haE; exact ⟨haE, ha'⟩
        · exact absurd (e1.trans e2.symm) hne
      · exact ⟨hm _ (hG.2 h').1, hm _ (hG.2 h').2⟩)
    _ _ _ _ _ _ _ _ ⟨hpb, hib⟩ ⟨ha1, fun h => absurd h hn11⟩ hrec
  exact hG.2 h11

/-- The loop of `eat` at the start cell `(1,1)` of an all-wall grid of at least
5 by 5 cells either carves nothing or leaves the two cells next to the start
cell, `(2,1)` and `(1,2)`, floor. -/
theorem eatLoop_root_entries (K : Consts) (hW : 5 ≤ K.width) (hH : 5 ≤ K.height) :
    ∀ (fuel : Nat) (dir tries : Int) (g : Rng) (lvl' : Grid) (g' : Rng),
      eatLoop K fuel ⟨1, 1⟩ dir tries
        (Grid.fill K.width.toNat K.height.toNat (Cell.Wall K.DEBUG)) g = Res.ok (lvl', g') →
      lvl' = Grid.fill K.width.toNat K.height.toNat (Cell.Wall K.DEBUG) ∨
        (lvl'.IsEmptyAt ⟨2, 1⟩ ∧ lvl'.IsEmptyAt ⟨1, 2⟩) := by
  have hwall0 : ∀ p : Coordinate, (0 ≤ p.X ∧ p.X < K.width) → (0 ≤ p.Y ∧ p.Y < K.height) →
      (Grid.fill K.width.toNat K.height.toNat (Cell.Wall K.DEBUG)).IsWallAt p := by
    intro p hx hy
    unfold Grid.IsWallAt
    rw [Grid.cell?_fill, if_pos (by omega)]
    exact ⟨_, rfl⟩
  have hnoE : ∀ p : Coordinate,
      ¬ (Grid.fill K.width.toNat K.height.toNat (Cell.Wall K.DEBUG)).IsEmptyAt p := by
    rintro p ⟨v, hv⟩
    rw [Grid.cell?_fill] at hv
    split_ifs at hv
    simp at hv
  have hS0 : MazeStruct (Grid.fill K.width.toNat K.height.toNat (Cell.Wall K.DEBUG)) :=
    fun p hp => absurd hp (hnoE p)
  intro fuel
  induction fuel with
  | zero => intro dir tries g lvl' g' h; simp [eatLoop] at h
  | succ n ih =>
    intro dir tries g lvl' g' h
    rcases eatLoop_ok_inv h with ⟨_, rfl, _⟩ | ⟨_, edge, a, b, hT, hcase⟩
    · exact Or.inl rfl
    · rcases hcase with ⟨_, hnext⟩ | ⟨hB, lvl1, lvl2, g2, hC, hrec, hnext⟩
      · exact ih _ _ _ _ _ hnext
      · have hblk := eat_root_blocked K hwall0 hS0 hT hB hC (by omega) hrec
        have hsame : lvl' = lvl2 := eatLoop_all_blocked K _ _ _ _ _ _ _ _ hblk hnext
        subst hsame
        exact Or.inr (eat_root_entries K hW hH hwall0 hnoE hT hB hC (by omega) hrec)

/-- C8 fails as stated: on the all-wall 7 by 7 level a completed run of `eat`
from `(1,1)` leaves three cells of the 3 by 3 neighbourhood a `Wall`: the cell
`(2,2)` and, for this sequence of directions, the cells `(3,2)` and `(2,3)`. -/
theorem eat_leaves_wall_in_neighbourhood :
    ∃ lvl' g', eat smallConsts 650 ⟨1, 1⟩ (Grid.fill 7 7 (Cell.Wall false))
        (Rng.replay [0, 0, 0, 0, 1, 0, 0, 0, 0, 0]) = Res.ok (lvl', g') ∧
      lvl'.cell? 2 2 = some (Cell.Wall false) ∧ lvl'.cell? 3 2 = some (Cell.Wall false) ∧
      lvl'.cell? 2 3 = some (Cell.Wall false) :=
  ⟨_, _, rfl, rfl, rfl, rfl⟩

/-- C8 as amended: starting from an all-`Wall` grid of `width` by `height` cells
with `width, height ≥ 5`, `eat` from `(1,1)` returns (with fuel
`13 * width * height + 13`), and after it, for every sequence of random
directions, six cells of the 3 by 3 neighbourhood of the start cell are
`Empty`: the start cell `(1,1)`, the cells `(2,1)` and `(1,2)` next to it, and
the cells `(3,1)`, `(1,3)` and `(3,3)`; the centre `(2,2)` is still a `Wall`.
Nothing is said of the remaining two cells, `(3,2)` and `(2,3)`. -/
theorem eat_start_carved (K : Consts) (hW : 5 ≤ K.width) (hH : 5 ≤ K.height)
    (fuel : Nat) (g : Rng) :
    (13 * (K.width.toNat * K.height.toNat) + 13 ≤ fuel →
      ∃ lvl' g', eat K fuel ⟨1, 1⟩
        (Grid.fill K.width.toNat K.height.toNat (Cell.Wall K.DEBUG)) g = Res.ok (lvl', g')) ∧
    (∀ lvl' g', eat K fuel ⟨1, 1⟩
        (Grid.fill K.width.toNat K.height.toNat (Cell.Wall K.DEBUG)) g = Res.ok (lvl', g') →
      (∃ v, lvl'.cell? 1 1 = some (Cell.Empty v)) ∧
      (∃ v, lvl'.cell? 2 1 = some (Cell.Empty v)) ∧
      (∃ v, lvl'.cell? 3 1 = some (Cell.Empty v)) ∧
      (∃ v, lvl'.cell? 1 2 = some (Cell.Empty v)) ∧
      (∃ v, lvl'.cell? 1 3 = some (Cell.Empty v)) ∧
      (∃ v, lvl'.cell? 3 3 = some (Cell.Empty v)) ∧
      lvl'.cell? 2 2 = some (Cell.Wall K.DEBUG)) := by
  refine ⟨eat_returns_on_fill K (by omega) (by omega) g fuel, ?_⟩
  intro lvl' g' h
  have hfirst := eat_first_corridor K hW hH fuel g lvl' g' h
  have h22 : lvl'.cell? 2 2 = some (Cell.Wall K.DEBUG) := by
    rw [eat_frame_even K (c := ⟨1, 1⟩) (by decide) h 2 2 (by decide) (by decide),
      Grid.cell?_fill, if_pos (by omega)]
  have hno : ∀ x y : Int, ¬ ∃ v,
      (Grid.fill K.width.toNat K.height.toNat (Cell.Wall K.DEBUG)).cell? x y =
        some (Cell.Empty v) := by
    rintro x y ⟨v, hv⟩
    rw [Grid.cell?_fill] at hv
    split_ifs at hv
    simp at hv
  have hne : lvl' ≠ Grid.fill K.width.toNat K.height.toNat (Cell.Wall K.DEBUG) := by
    intro hsame
    subst hsame
    rcases hfirst with ⟨h1, _⟩ | ⟨h1, _⟩
    · exact hno _ _ h1
    · exact hno _ _ h1
  unfold eat at h
  simp only [Rng.Intn_of_pos (show (0 : Int) < 4 by norm_num)] at h
  have hodd := (eatLoop_root_lattice K hW hH _ _ _ _ _ _ h).resolve_left hne
  have hent := (eatLoop_root_entries K hW hH _ _ _ _ _ _ h).resolve_left hne
  exact ⟨hodd 1 1 (by decide) (by decide) ⟨le_refl _, by omega⟩ ⟨le_refl _, by omega⟩,
    hent.1,
    hodd 3 1 (by decide) (by decide) ⟨by norm_num, by omega⟩ ⟨le_refl _, by omega⟩,
    hent.2,
    hodd 1 3 (by decide) (by decide) ⟨le_refl _, by omega⟩ ⟨by norm_num, by omega⟩,
    hodd 3 3 (by decide) (by decide) ⟨by norm_num, by omega⟩ ⟨by norm_num, by omega⟩,
    h22⟩

/-- Witness of the amended C8 on the all-wall 7 by 7 level: a run after which
the six cells are floor and the centre a wall; in this run the cells `(3,2)`
and `(2,3)` are floor as well. -/
theorem eat_start_carved_witness :
    ∃ lvl' g', eat smallConsts 650 ⟨1, 1⟩ (Grid.fill 7 7 (Cell.Wall false))
        (Rng.replay [1, 3, 0, 2, 1, 3]) = Res.ok (lvl', g') ∧
      ((∃ v, lvl'.cell? 1 1 = some (Cell.Empty v)) ∧
        (∃ v, lvl'.cell? 2 1 = some (Cell.Empty v)) ∧
        (∃ v, lvl'.cell? 3 1 = some (Cell.Empty v)) ∧
        (∃ v, lvl'.cell? 1 2 = some (Cell.Empty v)) ∧
        (∃ v, lvl'.cell? 1 3 = some (Cell.Empty v)) ∧
        (∃ v, lvl'.cell? 3 3 = some (Cell.Empty v)) ∧
        lvl'.cell? 2 2 = some (Cell.Wall false)) ∧
      lvl'.cell? 3 2 = some (Cell.Empty false) ∧ lvl'.cell? 2 3 = some (Cell.Empty false) :=
  ⟨_, _, rfl, (eat_start_carved smallConsts (by decide) (by decide) 650
    (Rng.replay [1, 3, 0, 2, 1, 3])).2 _ _ rfl, rfl, rfl⟩

end Larn
